import Mathlib

/-!
# Window operator of DuckDB (`physical_window.cpp`): embedding and properties

The definitions follow `src/execution/operator/aggregate/physical_window.cpp`
function by function.  Machine integers are mathematical integers with the
wrap-around written out: `idx_t` is a `Nat` below `2^64`, `int64_t` an `Int`
in `[-2^63, 2^63)`.  A function that can throw returns `Except Error _`.
-/

namespace DuckDB

/-! ## Machine integers -/

/-- Conversion of an integer to `idx_t` (`uint64_t`): reduction modulo `2^64`. -/
def toIdx (x : Int) : Nat := (x % 18446744073709551616).toNat

/-- Conversion of an integer to `int64_t`: the representative of `x` modulo
`2^64` in `[-2^63, 2^63)`. -/
def toInt64 (x : Int) : Int :=
  (x + 9223372036854775808) % 18446744073709551616 - 9223372036854775808

/-! ## Values, rows and stores -/

/-- Modelled from the spec: the `Value` box of the engine, whose declaration is
not part of the sources.  A value is SQL NULL, a 64-bit integer or a double;
doubles are kept as exact rationals (rounding is not modelled). -/
inductive Value where
  | NULL
  | BIGINT (v : Int)
  | DOUBLE (q : Rat)
  deriving DecidableEq

namespace Value

/-- Numeric content of a value, `none` for NULL. -/
def toRat? : Value → Option Rat
  | NULL => none
  | BIGINT v => some (v : Rat)
  | DOUBLE q => some q

/-- Modelled from the spec: `Value::operator>`.  Numbers compare numerically,
NULL is greater than nothing and every number is greater than NULL. -/
def gt (a b : Value) : Bool :=
  match a.toRat?, b.toRat? with
  | none, _ => false
  | some _, none => true
  | some x, some y => decide (y < x)

/-- Modelled from the spec: `Value::operator!=`.  Two NULLs are equal, a NULL
differs from every number, numbers compare numerically. -/
def ne (a b : Value) : Bool :=
  match a.toRat?, b.toRat? with
  | none, none => false
  | some x, some y => decide (x ≠ y)
  | _, _ => true

/-- Modelled from the spec: `Value::GetValue<int64_t>()`, the cast to a 64-bit
signed integer.  A NULL yields the NULL sentinel `-2^63`, a double is
truncated towards minus infinity. -/
def GetValueInt64 : Value → Int
  | NULL => -9223372036854775808
  | BIGINT v => toInt64 v
  | DOUBLE q => toInt64 (Rat.floor q)

/-- The call `Value::Numeric(type, n)` on an `int64_t`: an integer value. -/
def Numeric (n : Int) : Value := BIGINT n

end Value

/-- Errors the operator can end with. -/
inductive Error where
  /-- a `D_ASSERT` failed (builds with assertions) -/
  | AssertionFailed
  /-- `NotImplementedException("Unsupported boundary")` -/
  | UnsupportedBoundary
  /-- `Exception("Failed to compute window boundaries")` -/
  | FailedToComputeWindowBoundaries
  /-- `Exception("NTILE needs a parameter")` -/
  | NtileNeedsParameter
  /-- `NotImplementedException("Window aggregate type %s")` -/
  | WindowAggregateType
  /-- integer division by zero, undefined in the source -/
  | DivisionByZero
  /-- call through the null `segment_tree` pointer, undefined in the source -/
  | NullSegmentTree
  deriving DecidableEq

deriving instance DecidableEq for Except

/-- The macro `D_ASSERT(cond)`.  Its definition is not part of the sources, so
whether assertions are compiled in is the parameter `assertions`: with
assertions it aborts on a false condition, without them it does nothing. -/
def D_ASSERT (assertions : Bool) (cond : Bool) : Except Error Unit :=
  if assertions && !cond then .error Error.AssertionFailed else .ok ()

/-- Modelled from the spec: the vector size, the row capacity of one chunk. -/
def STANDARD_VECTOR_SIZE : Nat := 1024

/-- Modelled from the spec: `ChunkCollection`, the chunked columnar store.
Every chunk but the last is full, so the chunk layout follows from the row
count; the store is kept as its column count and its rows in order. -/
structure ChunkCollection where
  /-- number of columns, the length of `types` -/
  types : Nat
  /-- the rows in row-index order -/
  rows : List (List Value)
  deriving DecidableEq

namespace ChunkCollection

/-- A default-constructed, empty store. -/
def empty : ChunkCollection := ⟨0, []⟩

def Count (c : ChunkCollection) : Nat := c.rows.length

def ColumnCount (c : ChunkCollection) : Nat := c.types

/-- `GetRow(i)`.  A row index outside the store is undefined in the source;
the model reads an empty row. -/
def GetRow (c : ChunkCollection) (i : Nat) : List Value := c.rows.getD i []

end ChunkCollection

/-- `row[i]` on a `vector<Value>`.  An index outside the vector is undefined
in the source; the model reads NULL. -/
def at_ (row : List Value) (i : Nat) : Value := row.getD i Value.NULL

namespace ChunkCollection

def GetValue (c : ChunkCollection) (column index : Nat) : Value :=
  at_ (c.GetRow index) column

def SetValue (c : ChunkCollection) (column index : Nat) (v : Value) : ChunkCollection :=
  { c with rows := c.rows.set index ((c.GetRow index).set column v) }

/-- Modelled from the spec: `Reorder(perm)`, after which row `i` holds the old
row `perm[i]`. -/
def Reorder (c : ChunkCollection) (perm : List Nat) : ChunkCollection :=
  { c with rows := perm.map c.GetRow }

end ChunkCollection

/-! ## Bound window expressions -/

inductive ExpressionType where
  | INVALID
  | WINDOW_AGGREGATE
  | WINDOW_RANK
  | WINDOW_RANK_DENSE
  | WINDOW_NTILE
  | WINDOW_PERCENT_RANK
  | WINDOW_CUME_DIST
  | WINDOW_ROW_NUMBER
  | WINDOW_FIRST_VALUE
  | WINDOW_LAST_VALUE
  | WINDOW_LEAD
  | WINDOW_LAG
  deriving DecidableEq

/-- The frame bound kinds.  `INVALID` stands for every kind the switch
statements of `UpdateWindowBoundaries` do not list. -/
inductive WindowBoundary where
  | INVALID
  | UNBOUNDED_PRECEDING
  | UNBOUNDED_FOLLOWING
  | CURRENT_ROW_RANGE
  | CURRENT_ROW_ROWS
  | EXPR_PRECEDING
  | EXPR_FOLLOWING
  deriving DecidableEq

inductive OrderType where
  | ASCENDING
  | DESCENDING
  deriving DecidableEq

inductive OrderByNullType where
  | NULLS_FIRST
  | NULLS_LAST
  deriving DecidableEq

/-- A bound scalar expression as the expression executor sees it: its value on
a row of the input, and the flag `IsScalar()`. -/
structure Expression where
  eval : List Value → Value
  IsScalar : Bool

structure BoundOrderByNode where
  type : OrderType
  null_order : OrderByNullType
  expression : Expression

/-- Modelled from the spec: an aggregate function together with the segment
tree built over it; `fold` is the aggregate folded over a run of payload rows,
which is what `Compute(lo, hi)` returns. -/
structure AggregateFunction where
  fold : List (List Value) → Value

structure BoundWindowExpression where
  type : ExpressionType
  partitions : List Expression
  orders : List BoundOrderByNode
  children : List Expression
  offset_expr : Option Expression
  default_expr : Option Expression
  start : WindowBoundary
  end_ : WindowBoundary
  start_expr : Option Expression
  end_expr : Option Expression
  aggregate : Option AggregateFunction

/-! ## `EqualsSubset` and `BinarySearchRightmost` -/

/-- The loop of `EqualsSubset`: do `a` and `b` agree on the columns
`start, ..., start + n - 1`. -/
def EqualsSubsetLoop (a b : List Value) : Nat → Nat → Bool
  | _, 0 => true
  | i, n + 1 => if Value.ne (at_ a i) (at_ b i) then false else EqualsSubsetLoop a b (i + 1) n

def EqualsSubset (assertions : Bool) (a b : List Value) (start end_ : Nat) : Except Error Bool := do
  D_ASSERT assertions (decide (start ≤ end_))
  pure (EqualsSubsetLoop a b start (end_ - start))

/-- The inner loop of `BinarySearchRightmost`: is no one of the columns
`i, ..., i + n - 1` of the probed row greater than that column of `row`. -/
def LessThanEquals (probe row : List Value) : Nat → Nat → Bool
  | _, 0 => true
  | i, n + 1 => if Value.gt (at_ probe i) (at_ row i) then false else LessThanEquals probe row (i + 1) n

/-- The `while (l < r)` loop of `BinarySearchRightmost`, returning the final
`l`.  Each round shrinks `r - l`, so started with `fuel = r - l` the loop ends
by its own condition before the fuel does.  The midpoint is the integer
quotient; the detour of the source through `double` is exact below `2^53`. -/
def BinarySearchRightmostLoop (input : ChunkCollection) (row : List Value) (comp_cols : Nat) :
    Nat → Nat → Nat → Nat
  | 0, l, _ => l
  | fuel + 1, l, r =>
    if l < r then
      let m := ((l + r) % 18446744073709551616) / 2
      if LessThanEquals (input.GetRow m) row 0 comp_cols then
        BinarySearchRightmostLoop input row comp_cols fuel (m + 1) r
      else
        BinarySearchRightmostLoop input row comp_cols fuel l m
    else l

def BinarySearchRightmost (input : ChunkCollection) (row : List Value) (l r comp_cols : Nat) : Nat :=
  if comp_cols = 0 then toIdx ((r : Int) - 1)
  else toIdx ((BinarySearchRightmostLoop input row comp_cols (r - l) l r : Int) - 1)

/-! ## `WindowBoundariesState` and `UpdateWindowBoundaries` -/

structure WindowBoundariesState where
  partition_start : Nat := 0
  partition_end : Nat := 0
  peer_start : Nat := 0
  peer_end : Nat := 0
  window_start : Int := -1
  window_end : Int := -1
  is_same_partition : Bool := false
  is_peer : Bool := false
  row_prev : List Value := []
  deriving DecidableEq

def WindowNeedsRank (wexpr : BoundWindowExpression) : Bool :=
  wexpr.type == ExpressionType.WINDOW_PERCENT_RANK || wexpr.type == ExpressionType.WINDOW_RANK ||
    wexpr.type == ExpressionType.WINDOW_RANK_DENSE || wexpr.type == ExpressionType.WINDOW_CUME_DIST

/-- Lines 194-205 of `UpdateWindowBoundaries`: at the first row of a partition
the partition is searched anew, at the first row of a peer group the peer start
moves. -/
def UpdatePartition (wexpr : BoundWindowExpression) (input : ChunkCollection) (row_idx : Nat)
    (row_cur : List Value) (bounds : WindowBoundariesState) : WindowBoundariesState :=
  if !bounds.is_same_partition || row_idx == 0 then
    { bounds with
      partition_start := row_idx
      peer_start := row_idx
      partition_end :=
        (BinarySearchRightmost input row_cur row_idx input.Count wexpr.partitions.length + 1)
          % 18446744073709551616 }
  else if !bounds.is_peer then { bounds with peer_start := row_idx }
  else bounds

/-- Lines 207-209 of `UpdateWindowBoundaries`: the end of the peer group, searched
only for an end bound `CURRENT_ROW_RANGE` and for `CUME_DIST`. -/
def UpdatePeerEnd (wexpr : BoundWindowExpression) (input : ChunkCollection) (row_idx : Nat)
    (row_cur : List Value) (bounds : WindowBoundariesState) : WindowBoundariesState :=
  if wexpr.end_ = WindowBoundary.CURRENT_ROW_RANGE ∨
      wexpr.type = ExpressionType.WINDOW_CUME_DIST then
    { bounds with
      peer_end :=
        (BinarySearchRightmost input row_cur row_idx bounds.partition_end
          (wexpr.partitions.length + wexpr.orders.length) + 1) % 18446744073709551616 }
  else bounds

/-- Lines 183-215 of `UpdateWindowBoundaries`: partition and peer group
boundaries. -/
def UpdatePartitionAndPeer (assertions : Bool) (wexpr : BoundWindowExpression)
    (input : ChunkCollection) (input_size row_idx : Nat) (bounds : WindowBoundariesState) :
    Except Error WindowBoundariesState :=
  if input.ColumnCount > 0 then do
    let row_cur := input.GetRow row_idx
    let sort_col_count := wexpr.partitions.length + wexpr.orders.length
    let is_same_partition ← EqualsSubset assertions bounds.row_prev row_cur 0 wexpr.partitions.length
    let is_peer ←
      if is_same_partition then
        EqualsSubset assertions bounds.row_prev row_cur wexpr.partitions.length sort_col_count
      else pure false
    let bounds := { bounds with
      is_same_partition := is_same_partition, is_peer := is_peer, row_prev := row_cur }
    pure (UpdatePeerEnd wexpr input row_idx row_cur (UpdatePartition wexpr input row_idx row_cur bounds))
  else
    pure { bounds with
      is_same_partition := false, is_peer := true
      partition_end := input_size, peer_end := input_size }

/-- The offset read by a frame bound: `collection.GetValue(0, expr->IsScalar() ? 0 : row_idx)`
converted to `int64_t`.  The expression pointer is null when the bound has no
expression; the model then reads at `row_idx`. -/
def BoundaryOffset (collection : ChunkCollection) (expr : Option Expression) (row_idx : Nat) : Int :=
  (collection.GetValue 0
    (match expr with
     | some e => if e.IsScalar then 0 else row_idx
     | none => row_idx)).GetValueInt64

/-- The `switch (wexpr->start)` of `UpdateWindowBoundaries` (lines 221-251),
started with `window_start = -1`. -/
def ComputeWindowStart (assertions : Bool) (wexpr : BoundWindowExpression) (row_idx : Nat)
    (boundary_start_collection : ChunkCollection) (bounds : WindowBoundariesState) :
    Except Error Int :=
  match wexpr.start with
  | WindowBoundary.UNBOUNDED_PRECEDING => pure (toInt64 bounds.partition_start)
  | WindowBoundary.CURRENT_ROW_ROWS => pure (toInt64 row_idx)
  | WindowBoundary.CURRENT_ROW_RANGE => pure (toInt64 bounds.peer_start)
  | WindowBoundary.UNBOUNDED_FOLLOWING => do
    D_ASSERT assertions false
    pure (-1)
  | WindowBoundary.EXPR_PRECEDING => do
    D_ASSERT assertions (decide (boundary_start_collection.ColumnCount > 0))
    pure (toInt64 (toInt64 row_idx -
      BoundaryOffset boundary_start_collection wexpr.start_expr row_idx))
  | WindowBoundary.EXPR_FOLLOWING => do
    D_ASSERT assertions (decide (boundary_start_collection.ColumnCount > 0))
    pure (toInt64 (toIdx ((row_idx : Int) +
      toIdx (BoundaryOffset boundary_start_collection wexpr.start_expr row_idx))))
  | WindowBoundary.INVALID => throw Error.UnsupportedBoundary

/-- The `switch (wexpr->end)` of `UpdateWindowBoundaries` (lines 253-281),
started with `window_end = -1`. -/
def ComputeWindowEnd (assertions : Bool) (wexpr : BoundWindowExpression) (row_idx : Nat)
    (boundary_end_collection : ChunkCollection) (bounds : WindowBoundariesState) :
    Except Error Int :=
  match wexpr.end_ with
  | WindowBoundary.UNBOUNDED_PRECEDING => do
    D_ASSERT assertions false
    pure (-1)
  | WindowBoundary.CURRENT_ROW_ROWS => pure (toInt64 (toIdx ((row_idx : Int) + 1)))
  | WindowBoundary.CURRENT_ROW_RANGE => pure (toInt64 bounds.peer_end)
  | WindowBoundary.UNBOUNDED_FOLLOWING => pure (toInt64 bounds.partition_end)
  | WindowBoundary.EXPR_PRECEDING => do
    D_ASSERT assertions (decide (boundary_end_collection.ColumnCount > 0))
    pure (toInt64 (toInt64 (toInt64 row_idx -
      BoundaryOffset boundary_end_collection wexpr.end_expr row_idx) + 1))
  | WindowBoundary.EXPR_FOLLOWING => do
    D_ASSERT assertions (decide (boundary_end_collection.ColumnCount > 0))
    pure (toInt64 (toIdx ((toIdx ((row_idx : Int) +
      toIdx (BoundaryOffset boundary_end_collection wexpr.end_expr row_idx)) : Int) + 1)))
  | WindowBoundary.INVALID => throw Error.UnsupportedBoundary

/-- Lines 283-293 of `UpdateWindowBoundaries`: the frame is clamped to the
partition, then a negative bound is an error. -/
def ClampWindow (bounds : WindowBoundariesState) : Except Error WindowBoundariesState :=
  let bounds :=
    if bounds.window_start < toInt64 bounds.partition_start then
      { bounds with window_start := toInt64 bounds.partition_start }
    else bounds
  let bounds :=
    if toIdx bounds.window_end > bounds.partition_end then
      { bounds with window_end := toInt64 bounds.partition_end }
    else bounds
  if bounds.window_start < 0 || bounds.window_end < 0 then
    throw Error.FailedToComputeWindowBoundaries
  else pure bounds

def UpdateWindowBoundaries (assertions : Bool) (wexpr : BoundWindowExpression)
    (input : ChunkCollection) (input_size row_idx : Nat)
    (boundary_start_collection boundary_end_collection : ChunkCollection)
    (bounds : WindowBoundariesState) : Except Error WindowBoundariesState := do
  let bounds ← UpdatePartitionAndPeer assertions wexpr input input_size row_idx bounds
  let window_start ← ComputeWindowStart assertions wexpr row_idx boundary_start_collection bounds
  let window_end ← ComputeWindowEnd assertions wexpr row_idx boundary_end_collection bounds
  ClampWindow { bounds with window_start := window_start, window_end := window_end }

/-! ## Materialisation and sorting -/

namespace ChunkCollection

/-- Modelled from the spec: `Append(chunk)`.  An empty chunk is ignored; the
first chunk appended fixes the column types. -/
def Append (c : ChunkCollection) (chunk : ChunkCollection) : ChunkCollection :=
  if chunk.rows.isEmpty then c
  else { types := if c.rows.isEmpty then chunk.types else c.types, rows := c.rows ++ chunk.rows }

end ChunkCollection

/-- `MaterializeExpressions`: the expressions evaluated on every chunk of the
input, or on the first chunk only when `scalar` is set.  Appending the result
chunks one after the other appends their rows in order. -/
def MaterializeExpressions (exprs : List Expression) (input output : ChunkCollection)
    (scalar : Bool) : ChunkCollection :=
  if exprs.length = 0 then output
  else
    let source := if scalar then input.rows.take STANDARD_VECTOR_SIZE else input.rows
    output.Append
      { types := exprs.length, rows := source.map (fun row => exprs.map (fun e => e.eval row)) }

def MaterializeExpression (expr : Expression) (input output : ChunkCollection) (scalar : Bool) :
    ChunkCollection :=
  MaterializeExpressions [expr] input output scalar

/-- Modelled from the spec: does `a` sort strictly before `b` under a key's
direction and null placement. -/
def ValueBefore (key : OrderType × OrderByNullType) (a b : Value) : Bool :=
  match a.toRat?, b.toRat? with
  | none, none => false
  | none, some _ => key.2 == OrderByNullType.NULLS_FIRST
  | some _, none => key.2 == OrderByNullType.NULLS_LAST
  | some x, some y =>
    match key.1 with
    | OrderType.ASCENDING => decide (x < y)
    | OrderType.DESCENDING => decide (y < x)

/-- Modelled from the spec: the declared per-key ordering of two sort-key
rows, compared key by key from column `i` on. -/
def RowLessEq : List (OrderType × OrderByNullType) → Nat → List Value → List Value → Bool
  | [], _, _, _ => true
  | key :: keys, i, a, b =>
    if ValueBefore key (at_ a i) (at_ b i) then true
    else if ValueBefore key (at_ b i) (at_ a i) then false
    else RowLessEq keys (i + 1) a b

/-- Modelled from the spec: the sort facility `ChunkCollection::Sort` (`Sort` is
reserved in Lean).  It returns the permutation of the row indices that sorts the store stably under
the declared per-key ordering. -/
def SortIndices (c : ChunkCollection) (orders : List OrderType) (null_order_types : List OrderByNullType) :
    List Nat :=
  List.insertionSort
    (fun i j => RowLessEq (orders.zip null_order_types) 0 (c.GetRow i) (c.GetRow j) = true)
    (List.range c.Count)

/-- The three stores `SortCollectionForWindow` works on. -/
structure SortedCollections where
  input : ChunkCollection
  output : ChunkCollection
  sort_collection : ChunkCollection

/-- The sort directions `SortCollectionForWindow` asks for. -/
def SortOrders (wexpr : BoundWindowExpression) : List OrderType :=
  wexpr.partitions.map (fun _ => OrderType.ASCENDING) ++ wexpr.orders.map (fun o => o.type)

/-- The null placements `SortCollectionForWindow` asks for. -/
def SortNullOrders (wexpr : BoundWindowExpression) : List OrderByNullType :=
  wexpr.partitions.map (fun _ => OrderByNullType.NULLS_FIRST) ++
    wexpr.orders.map (fun o => o.null_order)

def SortCollectionForWindow (assertions : Bool) (wexpr : BoundWindowExpression)
    (input output sort_collection : ChunkCollection) : Except Error SortedCollections := do
  let orders := SortOrders wexpr
  let null_order_types := SortNullOrders wexpr
  let executor := wexpr.partitions ++ wexpr.orders.map (fun o => o.expression)
  D_ASSERT assertions (decide (executor.length > 0))
  let sort_collection := sort_collection.Append
    { types := executor.length, rows := input.rows.map (fun row => executor.map (fun e => e.eval row)) }
  D_ASSERT assertions (decide (input.Count = sort_collection.Count))
  let sorted_vector := SortIndices sort_collection orders null_order_types
  pure { input := input.Reorder sorted_vector
         output := output.Reorder sorted_vector
         sort_collection := sort_collection.Reorder sorted_vector }

/-! ## `ComputeWindowExpression` -/

/-- Modelled from the spec: `WindowSegmentTree::Compute(begin, end)`, the
aggregate folded over the payload rows `[begin, end)`. -/
def SegmentTreeCompute (aggregate : AggregateFunction) (payload : ChunkCollection)
    (begin_ end_ : Nat) : Value :=
  aggregate.fold ((payload.rows.drop begin_).take (end_ - begin_))

/-- The `WINDOW_NTILE` case of `ComputeWindowExpression` (lines 412-444). -/
def ComputeNtile (assertions : Bool) (payload_collection : ChunkCollection) (row_idx : Nat)
    (bounds : WindowBoundariesState) : Except Error Value := do
  if payload_collection.ColumnCount ≠ 1 then throw Error.NtileNeedsParameter
  let n_param := (payload_collection.GetValue 0 row_idx).GetValueInt64
  let n_total := toInt64 (toIdx ((bounds.partition_end : Int) - bounds.partition_start))
  let n_param := if n_param > n_total then n_total else n_param
  if n_param = 0 then throw Error.DivisionByZero
  let n_size := toInt64 (Int.tdiv n_total n_param)
  D_ASSERT assertions (decide (row_idx ≥ bounds.partition_start))
  let adjusted_row_idx := toInt64 (toIdx ((row_idx : Int) - bounds.partition_start))
  let n_large := toInt64 (n_total - toInt64 (n_param * n_size))
  let i_small := toInt64 (n_large * toInt64 (n_size + 1))
  D_ASSERT assertions
    (decide (toInt64 (toInt64 (n_large * toInt64 (n_size + 1)) +
      toInt64 (toInt64 (n_param - n_large) * n_size)) = n_total))
  let result_ntile ←
    (if adjusted_row_idx < i_small then
      (if toInt64 (n_size + 1) = 0 then throw Error.DivisionByZero
      else pure (toInt64 (1 + toInt64 (Int.tdiv adjusted_row_idx (toInt64 (n_size + 1))))))
    else
      (if n_size = 0 then throw Error.DivisionByZero
      else pure (toInt64 (toInt64 (1 + n_large) +
        toInt64 (Int.tdiv (toInt64 (adjusted_row_idx - i_small)) n_size))))
      : Except Error Int)
  D_ASSERT assertions (decide (result_ntile ≥ 1 ∧ result_ntile ≤ n_param))
  pure (Value.Numeric result_ntile)

/-- The row a LEAD/LAG offset or default is read at:
`expr->IsScalar() ? 0 : row_idx`. -/
def ScalarIndex (expr : Expression) (row_idx : Nat) : Nat :=
  if expr.IsScalar then 0 else row_idx

/-- The `WINDOW_LEAD` / `WINDOW_LAG` case of `ComputeWindowExpression`
(lines 445-473). -/
def ComputeLeadLag (wexpr : BoundWindowExpression)
    (payload_collection leadlag_offset_collection leadlag_default_collection : ChunkCollection)
    (row_idx : Nat) (bounds : WindowBoundariesState) : Value :=
  let offset : Nat :=
    match wexpr.offset_expr with
    | some e => toIdx (leadlag_offset_collection.GetValue 0 (ScalarIndex e row_idx)).GetValueInt64
    | none => 1
  let def_val :=
    match wexpr.default_expr with
    | some e => leadlag_default_collection.GetValue 0 (ScalarIndex e row_idx)
    | none => Value.NULL
  if wexpr.type = ExpressionType.WINDOW_LEAD then
    let lead_idx := toIdx ((row_idx : Int) + offset)
    if lead_idx < bounds.partition_end then payload_collection.GetValue 0 lead_idx else def_val
  else
    let lag_idx := toInt64 (toIdx ((toIdx (toInt64 row_idx) : Int) - offset))
    if lag_idx ≥ 0 ∧ toIdx lag_idx ≥ bounds.partition_start then
      payload_collection.GetValue 0 (toIdx lag_idx)
    else def_val

/-- The rank counters of the main loop. -/
structure RankCounters where
  dense_rank : Nat := 1
  rank_equal : Nat := 0
  rank : Nat := 1
  deriving DecidableEq

/-- Lines 362-373 of `ComputeWindowExpression`: the rank counters after
`UpdateWindowBoundaries` (they are 64-bit unsigned). -/
def UpdateRank (wexpr : BoundWindowExpression) (row_idx : Nat) (bounds : WindowBoundariesState)
    (ranks : RankCounters) : RankCounters :=
  if WindowNeedsRank wexpr then
    let ranks : RankCounters :=
      if !bounds.is_same_partition || row_idx == 0 then
        { dense_rank := 1, rank := 1, rank_equal := 0 }
      else if !bounds.is_peer then
        { dense_rank := (ranks.dense_rank + 1) % 18446744073709551616
          rank := (ranks.rank + ranks.rank_equal) % 18446744073709551616
          rank_equal := 0 }
      else ranks
    { ranks with rank_equal := (ranks.rank_equal + 1) % 18446744073709551616 }
  else ranks

/-- The `switch (wexpr->type)` of `ComputeWindowExpression` (lines 383-484):
the value of the window function at a row with a non-empty frame. -/
def ComputeWindowValue (assertions : Bool) (wexpr : BoundWindowExpression)
    (payload_collection leadlag_offset_collection leadlag_default_collection : ChunkCollection)
    (row_idx : Nat) (bounds : WindowBoundariesState) (ranks : RankCounters) : Except Error Value :=
  match wexpr.type with
  | ExpressionType.WINDOW_AGGREGATE =>
    match wexpr.aggregate with
    | some aggregate =>
      pure (SegmentTreeCompute aggregate payload_collection
        (toIdx bounds.window_start) (toIdx bounds.window_end))
    | none => throw Error.NullSegmentTree
  | ExpressionType.WINDOW_ROW_NUMBER =>
    pure (Value.Numeric
      (toInt64 (toIdx ((toIdx ((row_idx : Int) - bounds.partition_start) : Int) + 1))))
  | ExpressionType.WINDOW_RANK_DENSE => pure (Value.Numeric (toInt64 ranks.dense_rank))
  | ExpressionType.WINDOW_RANK => pure (Value.Numeric (toInt64 ranks.rank))
  | ExpressionType.WINDOW_PERCENT_RANK =>
    let denom := toInt64 (toIdx ((toIdx ((toIdx (toInt64 bounds.partition_end) : Int) -
      bounds.partition_start) : Int) - 1))
    pure (Value.DOUBLE (if denom > 0 then ((ranks.rank : Rat) - 1) / (denom : Rat) else 0))
  | ExpressionType.WINDOW_CUME_DIST =>
    let denom := toInt64 (toIdx ((toIdx (toInt64 bounds.partition_end) : Int) -
      bounds.partition_start))
    pure (Value.DOUBLE
      (if denom > 0 then
        ((toIdx ((bounds.peer_end : Int) - bounds.partition_start) : Nat) : Rat) / (denom : Rat)
       else 0))
  | ExpressionType.WINDOW_NTILE => ComputeNtile assertions payload_collection row_idx bounds
  | ExpressionType.WINDOW_LEAD =>
    pure (ComputeLeadLag wexpr payload_collection leadlag_offset_collection
      leadlag_default_collection row_idx bounds)
  | ExpressionType.WINDOW_LAG =>
    pure (ComputeLeadLag wexpr payload_collection leadlag_offset_collection
      leadlag_default_collection row_idx bounds)
  | ExpressionType.WINDOW_FIRST_VALUE =>
    pure (payload_collection.GetValue 0 (toIdx bounds.window_start))
  | ExpressionType.WINDOW_LAST_VALUE =>
    pure (payload_collection.GetValue 0 (toIdx (toInt64 (bounds.window_end - 1))))
  | ExpressionType.INVALID => throw Error.WindowAggregateType

/-- The stores `ComputeWindowExpression` materialises before its main loop. -/
structure WindowCollections where
  sort_collection : ChunkCollection
  payload_collection : ChunkCollection
  leadlag_offset_collection : ChunkCollection
  leadlag_default_collection : ChunkCollection
  boundary_start_collection : ChunkCollection
  boundary_end_collection : ChunkCollection

/-- What the main loop of `ComputeWindowExpression` carries from row to row. -/
structure WindowLoopState where
  bounds : WindowBoundariesState
  ranks : RankCounters
  output : ChunkCollection

/-- The body of the main loop of `ComputeWindowExpression` (lines 358-487) for
the row `row_idx`. -/
def ComputeWindowRow (assertions : Bool) (wexpr : BoundWindowExpression) (input_size : Nat)
    (cols : WindowCollections) (output_idx row_idx : Nat) (st : WindowLoopState) :
    Except Error WindowLoopState := do
  let bounds ← UpdateWindowBoundaries assertions wexpr cols.sort_collection input_size row_idx
    cols.boundary_start_collection cols.boundary_end_collection st.bounds
  let ranks := UpdateRank wexpr row_idx bounds st.ranks
  if bounds.window_start ≥ bounds.window_end then
    pure { bounds := bounds, ranks := ranks
           output := st.output.SetValue output_idx row_idx Value.NULL }
  else do
    let res ← ComputeWindowValue assertions wexpr cols.payload_collection
      cols.leadlag_offset_collection cols.leadlag_default_collection row_idx bounds ranks
    pure { bounds := bounds, ranks := ranks
           output := st.output.SetValue output_idx row_idx res }

/-- The main loop of `ComputeWindowExpression` run over the rows
`0, ..., n - 1`. -/
def ComputeWindowLoop (assertions : Bool) (wexpr : BoundWindowExpression) (input_size : Nat)
    (cols : WindowCollections) (output_idx : Nat) (init : WindowLoopState) :
    Nat → Except Error WindowLoopState
  | 0 => pure init
  | n + 1 => do
    let st ← ComputeWindowLoop assertions wexpr input_size cols output_idx init n
    ComputeWindowRow assertions wexpr input_size cols output_idx n st

/-- The stores materialised by `ComputeWindowExpression` (lines 308-339) from
the sorted input. -/
def MaterializeWindowCollections (wexpr : BoundWindowExpression)
    (input sort_collection : ChunkCollection) : WindowCollections :=
  let isLeadLag := wexpr.type = ExpressionType.WINDOW_LEAD ∨ wexpr.type = ExpressionType.WINDOW_LAG
  { sort_collection := sort_collection
    payload_collection := MaterializeExpressions wexpr.children input ChunkCollection.empty false
    leadlag_offset_collection :=
      match wexpr.offset_expr with
      | some e =>
        if isLeadLag then MaterializeExpression e input ChunkCollection.empty e.IsScalar
        else ChunkCollection.empty
      | none => ChunkCollection.empty
    leadlag_default_collection :=
      match wexpr.default_expr with
      | some e =>
        if isLeadLag then MaterializeExpression e input ChunkCollection.empty e.IsScalar
        else ChunkCollection.empty
      | none => ChunkCollection.empty
    boundary_start_collection :=
      match wexpr.start_expr with
      | some e =>
        if wexpr.start = WindowBoundary.EXPR_PRECEDING ∨ wexpr.start = WindowBoundary.EXPR_FOLLOWING
        then MaterializeExpression e input ChunkCollection.empty e.IsScalar
        else ChunkCollection.empty
      | none => ChunkCollection.empty
    boundary_end_collection :=
      match wexpr.end_expr with
      | some e =>
        if wexpr.end_ = WindowBoundary.EXPR_PRECEDING ∨ wexpr.end_ = WindowBoundary.EXPR_FOLLOWING
        then MaterializeExpression e input ChunkCollection.empty e.IsScalar
        else ChunkCollection.empty
      | none => ChunkCollection.empty }

/-- The input and result store, which `ComputeWindowExpression` changes in
place. -/
structure WindowStores where
  input : ChunkCollection
  output : ChunkCollection

def ComputeWindowExpression (assertions : Bool) (wexpr : BoundWindowExpression)
    (input output : ChunkCollection) (output_idx : Nat) : Except Error WindowStores := do
  let needs_sorting := decide (wexpr.partitions.length + wexpr.orders.length > 0)
  let sorted ←
    (if needs_sorting then
      SortCollectionForWindow assertions wexpr input output ChunkCollection.empty
    else pure { input := input, output := output, sort_collection := ChunkCollection.empty })
  let cols := MaterializeWindowCollections wexpr sorted.input sorted.sort_collection
  let bounds : WindowBoundariesState :=
    if needs_sorting then { row_prev := sorted.sort_collection.GetRow 0 } else {}
  let st ← ComputeWindowLoop assertions wexpr sorted.input.Count cols output_idx
    { bounds := bounds, ranks := {}, output := sorted.output } sorted.input.Count
  pure { input := sorted.input, output := st.output }

/-! ## `PhysicalWindow::Finalize` -/

structure WindowGlobalState where
  chunks : ChunkCollection
  window_results : ChunkCollection

/-- The loop of `Finalize` over the select list (lines 571-576), the window
expressions taken in order with `window_output_idx` counting up. -/
def FinalizeLoop (assertions : Bool) :
    List BoundWindowExpression → Nat → WindowStores → Except Error WindowStores
  | [], _, stores => pure stores
  | wexpr :: rest, window_output_idx, stores => do
    let stores ← ComputeWindowExpression assertions wexpr stores.input stores.output
      window_output_idx
    FinalizeLoop assertions rest (window_output_idx + 1) stores

/-- `PhysicalWindow::Finalize`.  The select list holds bound window
expressions only, which the source asserts by `GetExpressionClass()`. -/
def Finalize (assertions : Bool) (select_list : List BoundWindowExpression)
    (gstate : WindowGlobalState) : Except Error WindowGlobalState := do
  let big_data := gstate.chunks
  if big_data.Count = 0 then pure gstate
  else do
    let window_results := gstate.window_results.Append
      { types := select_list.length
        rows := big_data.rows.map (fun _ => List.replicate select_list.length Value.NULL) }
    D_ASSERT assertions (decide (window_results.ColumnCount = select_list.length))
    let stores ← FinalizeLoop assertions select_list 0
      { input := big_data, output := window_results }
    pure { chunks := stores.input, window_results := stores.output }

/-! ## `GetChunkInternal`, `Sink` and `Combine` -/

namespace ChunkCollection

/-- Modelled from the spec: `GetChunkForRow(row_index)`, the chunk that holds
the row: chunk `row_index / STANDARD_VECTOR_SIZE` of the layout in which every
chunk but the last is full. -/
def GetChunkForRow (c : ChunkCollection) (row_index : Nat) : ChunkCollection :=
  { types := c.types
    rows := (c.rows.drop (row_index / STANDARD_VECTOR_SIZE * STANDARD_VECTOR_SIZE)).take
      STANDARD_VECTOR_SIZE }

/-- Modelled from the spec: `Merge(other)`, which appends all batches of
`other`, so that the rows of `other` follow the rows of the store in order.
The store `other` is consumed and not read again. -/
def Merge (c other : ChunkCollection) : ChunkCollection := c.Append other

end ChunkCollection

/-- `WindowLocalState` (lines 28-32): the input store of one worker. -/
structure WindowLocalState where
  chunks : ChunkCollection
  deriving DecidableEq

/-- `PhysicalWindowOperatorState` (lines 34-41): the row position of the
consumer, an `idx_t`. -/
structure PhysicalWindowOperatorState where
  position : Nat
  deriving DecidableEq

/-- `PhysicalWindow::GetChunkInternal` (lines 490-520).  The chunk handed in
by the caller is returned as it is on the two early returns; otherwise it
gets the cardinality of the input chunk and references the columns of the
input chunk followed by the columns of the window-result chunk, a row of a
chunk holding one value per column. -/
def GetChunkInternal (assertions : Bool) (gstate : WindowGlobalState) (chunk : ChunkCollection)
    (state : PhysicalWindowOperatorState) :
    Except Error (ChunkCollection × PhysicalWindowOperatorState) :=
  let big_data := gstate.chunks
  let window_results := gstate.window_results
  if big_data.Count = 0 then pure (chunk, state)
  else if state.position ≥ big_data.Count then pure (chunk, state)
  else do
    let proj_ch := big_data.GetChunkForRow state.position
    let wind_ch := window_results.GetChunkForRow state.position
    D_ASSERT assertions (decide (proj_ch.Count = wind_ch.Count))
    pure ({ types := proj_ch.ColumnCount + wind_ch.ColumnCount
            rows := (List.range proj_ch.Count).map
              (fun i => proj_ch.GetRow i ++ wind_ch.GetRow i) },
          { position := (state.position + STANDARD_VECTOR_SIZE) % 18446744073709551616 })

/-- `PhysicalWindow::Sink` (lines 526-530), on the global state, the local
state of the calling worker and the input chunk. -/
def Sink (state : WindowGlobalState) (lstate : WindowLocalState) (input : ChunkCollection) :
    WindowGlobalState × WindowLocalState :=
  (state, { chunks := lstate.chunks.Append input })

/-- `PhysicalWindow::Combine` (lines 532-537), run under the lock of the
global state. -/
def Combine (gstate : WindowGlobalState) (lstate : WindowLocalState) : WindowGlobalState :=
  { gstate with chunks := gstate.chunks.Merge lstate.chunks }

/-! ## `replace` (function/scalar/string/replace.cpp) -/

/-- The test `memcmp(input_haystack + string_position, input_needle, size_needle) == 0`,
where `input_haystack` holds the bytes from the haystack pointer to the end of
the string: `none` when the comparison would read past that end. -/
def memcmp_eq (input_haystack : List Char) (string_position : Nat) (input_needle : List Char)
    (size_needle : Nat) : Option Bool :=
  if string_position + size_needle ≤ input_haystack.length then
    some (decide ((input_haystack.drop string_position).take size_needle
      = input_needle.take size_needle))
  else none

/-- The `for` loop of `next_needle` (lines 21-26) from `string_position` on.
The sizes and the position are `idx_t`.  Each round moves the position by one,
so the loop started at `0` with `fuel = size_haystack + 1` ends by its own
condition; `none` stands for a read outside the haystack or for the end of the
fuel. -/
def next_needle_loop (input_haystack : List Char) (size_haystack : Nat)
    (input_needle : List Char) (size_needle : Nat) : Nat → Nat → Option Nat
  | 0, _ => none
  | fuel + 1, string_position =>
    if toIdx ((size_haystack : Int) - string_position) ≥ size_needle then
      match memcmp_eq input_haystack string_position input_needle size_needle with
      | none => none
      | some true => some string_position
      | some false =>
        next_needle_loop input_haystack size_haystack input_needle size_needle fuel
          ((string_position + 1) % 18446744073709551616)
    else some size_haystack

/-- `next_needle` (lines 16-32). -/
def next_needle (input_haystack : List Char) (size_haystack : Nat) (input_needle : List Char)
    (size_needle : Nat) : Option Nat :=
  if size_needle > 0 then
    next_needle_loop input_haystack size_haystack input_needle size_needle (size_haystack + 1) 0
  else some size_haystack

/-- The `for (;;)` loop of `replace_scalar_function` (lines 49-64).  The
haystack pointer is the list of the bytes that remain, its size is kept next
to it as in the source.  Every round but the last consumes at least one byte,
so `fuel = size_haystack + 1` rounds suffice; `none` stands for a read outside
the haystack or for the end of the fuel. -/
def replace_loop (input_needle : List Char) (size_needle : Nat) (input_thread : List Char)
    (size_thread : Nat) : Nat → List Char → Nat → List Char → Option (List Char)
  | 0, _, _, _ => none
  | fuel + 1, input_haystack, size_haystack, result =>
    match next_needle input_haystack size_haystack input_needle size_needle with
    | none => none
    | some string_position =>
      if string_position > input_haystack.length then none
      else
        let result := result ++ input_haystack.take string_position
        let input_haystack := input_haystack.drop string_position
        let size_haystack := toIdx ((size_haystack : Int) - string_position)
        if size_haystack = 0 then some result
        else
          let result := result ++ input_thread.take size_thread
          replace_loop input_needle size_needle input_thread size_thread fuel
            (input_haystack.drop size_needle) (toIdx ((size_haystack : Int) - size_needle))
            result

/-- `replace_scalar_function` (lines 34-67) on the bytes of the three strings;
the result buffer is cleared first. -/
def replace_scalar_function (haystack needle thread : List Char) : Option (List Char) :=
  replace_loop needle needle.length thread thread.length (haystack.length + 1)
    haystack haystack.length []

/-! ## `bytes_to_human_readable_string` (function/table/sqlite/pragma_database_size.cpp) -/

/-- The C++ library's `std::to_string` on an `idx_t`: the decimal digits of the
number. -/
def to_string (n : Nat) : String := n.repr

/-- `bytes_to_human_readable_string` (lines 53-73); every variable is an
`idx_t`. -/
def bytes_to_human_readable_string (bytes : Nat) : String :=
  let kilobytes := bytes / 1000
  let megabytes := kilobytes / 1000
  let kilobytes := toIdx ((kilobytes : Int) - (megabytes * 1000 % 18446744073709551616 : Nat))
  let gigabytes := megabytes / 1000
  let megabytes := toIdx ((megabytes : Int) - (gigabytes * 1000 % 18446744073709551616 : Nat))
  let terabytes := gigabytes / 1000
  let gigabytes := toIdx ((gigabytes : Int) - (terabytes * 1000 % 18446744073709551616 : Nat))
  if terabytes > 0 then
    to_string terabytes ++ "." ++ to_string (gigabytes / 100) ++ "TB"
  else if gigabytes > 0 then
    to_string gigabytes ++ "." ++ to_string (megabytes / 100) ++ "GB"
  else if megabytes > 0 then
    to_string megabytes ++ "." ++ to_string (kilobytes / 100) ++ "MB"
  else if kilobytes > 0 then
    to_string kilobytes ++ "KB"
  else
    to_string bytes ++ " bytes"

/-! ## `TransformSelectNode` (parser/transform/statement/transform_select_node.cpp) -/

/-- The values of `stmt->op`; `INVALID` stands for every value that is none of
the four the switch lists. -/
inductive SetOperation where
  | SETOP_NONE
  | SETOP_UNION
  | SETOP_INTERSECT
  | SETOP_EXCEPT
  | INVALID
  deriving DecidableEq

/-- The part of `postgres::SelectStmt` that `TransformSelectNode` reads itself:
`distinctClause` and the limit clauses say whether the pointer is set (and the
constant it holds), `targetList` says whether `TransformExpressionList`
succeeds on the target list, and `larg`, `rarg` may be null.  The clauses that
are only handed on (from, where, group by, having, sort) are left out. -/
inductive SelectStmt where
  | mk (op : SetOperation) (all : Bool) (distinctClause : Bool) (targetList : Bool)
      (limitCount limitOffset : Option Int) (larg rarg : Option SelectStmt)

inductive SetOperationType where
  | UNION
  | EXCEPT
  | INTERSECT
  deriving DecidableEq

/-- The limit of a query node; `none` is the value its constructor, which is
not part of the file, gives the field. -/
structure LimitDescription where
  limit : Option Int := none
  offset : Option Int := none
  deriving DecidableEq

/-- `SelectNode` and `SetOperationNode` with the fields of `QueryNode` that
`TransformSelectNode` sets. -/
inductive QueryNode where
  | SelectNode (select_distinct : Bool) (limit : LimitDescription)
  | SetOperationNode (select_distinct : Bool) (setop_type : SetOperationType)
      (left right : QueryNode) (limit : LimitDescription)
  deriving DecidableEq

namespace QueryNode

def select_distinct : QueryNode → Bool
  | SelectNode select_distinct _ => select_distinct
  | SetOperationNode select_distinct _ _ _ _ => select_distinct

def left : QueryNode → Option QueryNode
  | SelectNode _ _ => none
  | SetOperationNode _ _ left _ _ => some left

def right : QueryNode → Option QueryNode
  | SelectNode _ _ => none
  | SetOperationNode _ _ _ right _ => some right

def limit : QueryNode → LimitDescription
  | SelectNode _ limit => limit
  | SetOperationNode _ _ _ _ limit => limit

/-- The assignment `node->select_distinct = v`. -/
def set_select_distinct (v : Bool) : QueryNode → QueryNode
  | SelectNode _ limit => SelectNode v limit
  | SetOperationNode _ setop_type left right limit => SetOperationNode v setop_type left right limit

/-- The assignment of `node->limit`. -/
def set_limit (v : LimitDescription) : QueryNode → QueryNode
  | SelectNode select_distinct _ => SelectNode select_distinct v
  | SetOperationNode select_distinct setop_type left right _ =>
    SetOperationNode select_distinct setop_type left right v

end QueryNode

inductive TransformError where
  | FailedToTransformExpressionList
  | FailedToTransformSetopChildren
  | UnexpectedSetopType
  | NotImplemented
  | NullStatement
  deriving DecidableEq

/-- `Transformer::TransformSelectNode`.  A null statement, which the source
dereferences, is the error `NullStatement`.  Every path that returns makes a
node, so the null test on the transformed children (lines 37-39) never
fires. -/
def TransformSelectNode : SelectStmt → Except TransformError QueryNode
  | .mk op all distinctClause targetList limitCount limitOffset larg rarg => do
    let node ←
      (match op with
      | SetOperation.SETOP_NONE =>
        if !targetList then throw TransformError.FailedToTransformExpressionList
        else pure (QueryNode.SelectNode distinctClause {})
      | SetOperation.INVALID => throw TransformError.NotImplemented
      | _ => do
        let left ←
          (match larg with
          | some stmt => TransformSelectNode stmt
          | none => throw TransformError.NullStatement)
        let right ←
          (match rarg with
          | some stmt => TransformSelectNode stmt
          | none => throw TransformError.NullStatement)
        let select_distinct := true
        let result ←
          (match op with
          | SetOperation.SETOP_UNION => pure (!all, SetOperationType.UNION)
          | SetOperation.SETOP_EXCEPT => pure (select_distinct, SetOperationType.EXCEPT)
          | SetOperation.SETOP_INTERSECT => pure (select_distinct, SetOperationType.INTERSECT)
          | _ => throw TransformError.UnexpectedSetopType
            : Except TransformError (Bool × SetOperationType))
        let left := if result.1 then left.set_select_distinct false else left
        let right := if result.1 then right.set_select_distinct false else right
        pure (QueryNode.SetOperationNode result.1 result.2 left right {})
        : Except TransformError QueryNode)
    let limit := node.limit
    let limit :=
      match limitCount with
      | some c => { limit with limit := some c, offset := some 0 }
      | none => limit
    let limit :=
      match limitOffset with
      | some o =>
        { limit := if limitCount.isNone then some 9223372036854775807 else limit.limit
          offset := some o }
      | none => limit
    pure (node.set_limit limit)

/-! ## `tokenizeLine` (test/sqlite/test_sqllogictest.cpp) -/

/-- The terminator of a C string. -/
def NUL : Char := Char.ofNat 0

/-- The C library's `isspace` in the "C" locale: space, tab, newline, vertical
tab, form feed and carriage return. -/
def isspace (c : Char) : Bool :=
  c.toNat = 32 || (9 ≤ c.toNat && c.toNat ≤ 13)

/-- `findToken` (lines 217-227) on the zero-terminated string `z`, kept as its
bytes up to the terminator which the end of the list stands for: the two
loops run over the leading white space and over the bytes of the token, and
the result is `(*piStart, *pLen)`. -/
def findToken (z : List Char) : Nat × Nat :=
  let i := (z.takeWhile isspace).length
  let iStart := i
  let i := i + ((z.drop i).takeWhile (fun c => c != NUL && !isspace c)).length
  (iStart, i - iStart)

/-- The part of `Script` that `tokenizeLine` uses: the current line as the
`len` bytes before its terminator, and the four token buffers of 200 bytes,
each kept as the string it holds. -/
structure Script where
  zLine : List Char
  len : Nat
  nLine : Nat
  startLine : Nat
  azToken : List (List Char)
  deriving DecidableEq

/-- The second `for` loop of `tokenizeLine` (lines 242-252) from `i`, `j` on;
`count(p->azToken)` is 4 and `sizeof(p->azToken[0])` is 200 (line 104).  The
loop makes at most four rounds, which is what `fuel = 4` allows. -/
def tokenizeLoop (zLine : List Char) (len : Nat) :
    Nat → Nat → Nat → List (List Char) → List (List Char)
  | 0, _, _, azToken => azToken
  | fuel + 1, i, j, azToken =>
    if j < len ∧ i < 4 then
      let found := findToken (zLine.drop j)
      let k := found.1
      let len_ := found.2
      let j := j + k
      let n := len_
      let n := if n ≥ 200 then 200 - 1 else n
      let azToken := azToken.set i ((zLine.drop j).take n)
      tokenizeLoop zLine len fuel (i + 1) (j + (n + 1)) azToken
    else azToken

/-- `tokenizeLine` (lines 236-253). -/
def tokenizeLine (p : Script) : Script :=
  let azToken := List.replicate 4 []
  { p with
    startLine := p.nLine
    azToken := tokenizeLoop p.zLine p.len 4 0 0 azToken }

/-! ## Notions the properties are stated with -/

/-- The per-key ordering `SortCollectionForWindow` declares to the sort
facility: direction and null placement of every sort-key column. -/
def SortKeys (wexpr : BoundWindowExpression) : List (OrderType × OrderByNullType) :=
  (SortOrders wexpr).zip (SortNullOrders wexpr)

/-- The sort-key row of an input row: the partition keys followed by the order
keys, as `SortCollectionForWindow` evaluates them. -/
def KeyRow (wexpr : BoundWindowExpression) (row : List Value) : List Value :=
  (wexpr.partitions ++ wexpr.orders.map (fun o => o.expression)).map (fun e => e.eval row)

/-- A sort-key store is sorted under the ordering declared for `wexpr`: every
row sorts before or with every later row. -/
def StoreSorted (wexpr : BoundWindowExpression) (c : ChunkCollection) : Prop :=
  List.Pairwise (fun a b => RowLessEq (SortKeys wexpr) 0 a b = true) c.rows

instance (wexpr : BoundWindowExpression) (c : ChunkCollection) : Decidable (StoreSorted wexpr c) := by
  unfold StoreSorted
  infer_instance

/-- The input store is in the sort order of the keys of `wexpr`: its rows'
sort-key rows are sorted under the declared ordering. -/
def InputSortedFor (wexpr : BoundWindowExpression) (input : ChunkCollection) : Prop :=
  List.Pairwise
    (fun a b => RowLessEq (SortKeys wexpr) 0 (KeyRow wexpr a) (KeyRow wexpr b) = true) input.rows

instance (wexpr : BoundWindowExpression) (c : ChunkCollection) :
    Decidable (InputSortedFor wexpr c) := by
  unfold InputSortedFor
  infer_instance

/-- Does the window expression have a partition or order key
(`needs_sorting` in `ComputeWindowExpression`). -/
def HasKeys (wexpr : BoundWindowExpression) : Bool :=
  decide (wexpr.partitions.length + wexpr.orders.length > 0)

/-- The boundary state the main loop of `ComputeWindowExpression` has after
`UpdateWindowBoundaries` has processed the rows `0, ..., n - 1` in order,
started from `init`. -/
def BoundariesAfter (assertions : Bool) (wexpr : BoundWindowExpression)
    (input : ChunkCollection) (input_size : Nat)
    (boundary_start_collection boundary_end_collection : ChunkCollection)
    (init : WindowBoundariesState) : Nat → Except Error WindowBoundariesState
  | 0 => pure init
  | n + 1 => do
    let bounds ← BoundariesAfter assertions wexpr input input_size boundary_start_collection
      boundary_end_collection init n
    UpdateWindowBoundaries assertions wexpr input input_size n boundary_start_collection
      boundary_end_collection bounds

/-- The boundary state before the first row: the default state with
`row_prev` set. -/
def InitialBounds (row_prev : List Value) : WindowBoundariesState := { row_prev := row_prev }

/-- What the partition bookkeeping of `UpdateWindowBoundaries` has established
after row `r` of a sort-key store with columns. -/
structure PartitionInv (wexpr : BoundWindowExpression) (input : ChunkCollection) (r : Nat)
    (b : WindowBoundariesState) : Prop where
  start_le_peer : b.partition_start ≤ b.peer_start
  peer_le_row : b.peer_start ≤ r
  row_prev_eq : b.row_prev = input.GetRow r
  same_partition :
    LessThanEquals (input.GetRow r) (input.GetRow b.partition_start) 0 wexpr.partitions.length = true
  partition_end_eq :
    b.partition_end =
      (BinarySearchRightmost input (input.GetRow b.partition_start) b.partition_start input.Count
        wexpr.partitions.length + 1) % 18446744073709551616


/-- Is the start bound one of the five kinds the start switch of
`UpdateWindowBoundaries` computes a bound for, its offset, if it has one,
being materialised. -/
def ValidStart (wexpr : BoundWindowExpression) (boundary_start_collection : ChunkCollection) :
    Bool :=
  match wexpr.start with
  | WindowBoundary.UNBOUNDED_PRECEDING => true
  | WindowBoundary.CURRENT_ROW_ROWS => true
  | WindowBoundary.CURRENT_ROW_RANGE => true
  | WindowBoundary.EXPR_PRECEDING => decide (boundary_start_collection.ColumnCount > 0)
  | WindowBoundary.EXPR_FOLLOWING => decide (boundary_start_collection.ColumnCount > 0)
  | _ => false

/-- Is the end bound one of the five kinds the end switch of
`UpdateWindowBoundaries` computes a bound for, its offset, if it has one,
being materialised. -/
def ValidEnd (wexpr : BoundWindowExpression) (boundary_end_collection : ChunkCollection) :
    Bool :=
  match wexpr.end_ with
  | WindowBoundary.CURRENT_ROW_ROWS => true
  | WindowBoundary.CURRENT_ROW_RANGE => true
  | WindowBoundary.UNBOUNDED_FOLLOWING => true
  | WindowBoundary.EXPR_PRECEDING => decide (boundary_end_collection.ColumnCount > 0)
  | WindowBoundary.EXPR_FOLLOWING => decide (boundary_end_collection.ColumnCount > 0)
  | _ => false

/-- The frame start before clamping as the specification gives it, an integer
without wrap-around: `partition_start`, `r`, `peer_start`, `r - offset_start`
or `r + offset_start`. -/
def SpecWindowStart (wexpr : BoundWindowExpression) (boundary_start_collection : ChunkCollection)
    (r : Nat) (b : WindowBoundariesState) : Int :=
  match wexpr.start with
  | WindowBoundary.UNBOUNDED_PRECEDING => b.partition_start
  | WindowBoundary.CURRENT_ROW_ROWS => r
  | WindowBoundary.CURRENT_ROW_RANGE => b.peer_start
  | WindowBoundary.EXPR_PRECEDING =>
    r - BoundaryOffset boundary_start_collection wexpr.start_expr r
  | WindowBoundary.EXPR_FOLLOWING =>
    r + BoundaryOffset boundary_start_collection wexpr.start_expr r
  | _ => -1

/-- The frame end before clamping as the specification gives it, an integer
without wrap-around: `r + 1`, `peer_end`, `partition_end`,
`r - offset_end + 1` or `r + offset_end + 1`. -/
def SpecWindowEnd (wexpr : BoundWindowExpression) (boundary_end_collection : ChunkCollection)
    (r : Nat) (b : WindowBoundariesState) : Int :=
  match wexpr.end_ with
  | WindowBoundary.CURRENT_ROW_ROWS => r + 1
  | WindowBoundary.CURRENT_ROW_RANGE => b.peer_end
  | WindowBoundary.UNBOUNDED_FOLLOWING => b.partition_end
  | WindowBoundary.EXPR_PRECEDING =>
    r - BoundaryOffset boundary_end_collection wexpr.end_expr r + 1
  | WindowBoundary.EXPR_FOLLOWING =>
    r + BoundaryOffset boundary_end_collection wexpr.end_expr r + 1
  | _ => -1

/-- The number of peer-group transitions in `(s, r]`: the rows `j` with
`s < j <= r` whose order-key columns differ from those of row `j - 1`. -/
def PeerTransitions (wexpr : BoundWindowExpression) (input : ChunkCollection) (s r : Nat) : Nat :=
  (List.range (r + 1)).countP (fun j =>
    decide (s < j) &&
      !EqualsSubsetLoop (input.GetRow (j - 1)) (input.GetRow j) wexpr.partitions.length
        wexpr.orders.length)

/-- The signed offset of a LEAD/LAG expression at row `row_idx` (lines 447-451):
`1` without offset expression, else the `int64_t` read from the offset store. -/
def LeadLagOffset (wexpr : BoundWindowExpression) (leadlag_offset_collection : ChunkCollection)
    (row_idx : Nat) : Int :=
  match wexpr.offset_expr with
  | some e => (leadlag_offset_collection.GetValue 0 (ScalarIndex e row_idx)).GetValueInt64
  | none => 1

/-- The default of a LEAD/LAG expression at row `row_idx` (lines 446, 452-454):
SQL NULL without default expression, else the value read from the default
store. -/
def LeadLagDefault (wexpr : BoundWindowExpression) (leadlag_default_collection : ChunkCollection)
    (row_idx : Nat) : Value :=
  match wexpr.default_expr with
  | some e => leadlag_default_collection.GetValue 0 (ScalarIndex e row_idx)
  | none => Value.NULL

/-- The NTILE bucket as the specification gives it, in natural numbers without
wrap-around: with `p = min(ntile_param, N_tot)`, `sz = N_tot / p`,
`large = N_tot - p * sz`, `i_small = large * (sz + 1)` and
`a = r - partition_start`, the bucket is `1 + a / (sz + 1)` for `a < i_small`
and `1 + large + (a - i_small) / sz` otherwise. -/
def SpecNtile (n_total ntile_param a : Nat) : Nat :=
  let p := min ntile_param n_total
  let sz := n_total / p
  let large := n_total - p * sz
  let i_small := large * (sz + 1)
  if a < i_small then 1 + a / (sz + 1) else 1 + large + (a - i_small) / sz

/-- The rows of the partition `[partition_start, partition_end)` for which
`ComputeNtile` returns the bucket `j`. -/
def NtileBucketRows (assertions : Bool) (payload_collection : ChunkCollection)
    (bounds : WindowBoundariesState) (j : Int) : List Nat :=
  (List.range' bounds.partition_start (bounds.partition_end - bounds.partition_start)).filter
    (fun r =>
      decide (ComputeNtile assertions payload_collection r bounds = Except.ok (Value.BIGINT j)))

/-- A sort-key store is sorted ascending, nulls first, on its first `P`
columns, the partition-key columns of a window with `P` partition keys. -/
def PartitionSorted (P : Nat) (c : ChunkCollection) : Prop :=
  List.Pairwise
    (fun a b =>
      RowLessEq (List.replicate P (OrderType.ASCENDING, OrderByNullType.NULLS_FIRST)) 0 a b
        = true) c.rows

instance (P : Nat) (c : ChunkCollection) : Decidable (PartitionSorted P c) := by
  unfold PartitionSorted
  infer_instance

/-- The sort-key store `SortCollectionForWindow` fills before sorting: the
partition-key and order-key values of every input row, appended to the empty
store. -/
def KeyStore (wexpr : BoundWindowExpression) (input : ChunkCollection) : ChunkCollection :=
  ChunkCollection.empty.Append
    { types := (wexpr.partitions ++ wexpr.orders.map (fun o => o.expression)).length
      rows := input.rows.map
        (fun row => (wexpr.partitions ++ wexpr.orders.map (fun o => o.expression)).map
          (fun e => e.eval row)) }

/-- The permutation `sorted_vector` that `SortCollectionForWindow` asks the sort
facility for and applies to the three stores. -/
def WindowSortIndices (wexpr : BoundWindowExpression) (input : ChunkCollection) : List Nat :=
  SortIndices (KeyStore wexpr input) (SortOrders wexpr) (SortNullOrders wexpr)

/-- The stores the main loop of `ComputeWindowExpression` works on: the input,
result and sort-key store after `SortCollectionForWindow` when the window has
a key, the stores as they are and an empty sort-key store otherwise. -/
def SortedStores (wexpr : BoundWindowExpression) (input output : ChunkCollection) :
    SortedCollections :=
  if HasKeys wexpr then
    { input := input.Reorder (WindowSortIndices wexpr input)
      output := output.Reorder (WindowSortIndices wexpr input)
      sort_collection := (KeyStore wexpr input).Reorder (WindowSortIndices wexpr input) }
  else { input := input, output := output, sort_collection := ChunkCollection.empty }

/-- The first `n` rounds of the main loop of `ComputeWindowExpression`
(lines 358-487) on the stores it has sorted and materialised. -/
def WindowLoopRun (assertions : Bool) (wexpr : BoundWindowExpression)
    (input output : ChunkCollection) (output_idx n : Nat) : Except Error WindowLoopState :=
  ComputeWindowLoop assertions wexpr (SortedStores wexpr input output).input.Count
    (MaterializeWindowCollections wexpr (SortedStores wexpr input output).input
      (SortedStores wexpr input output).sort_collection)
    output_idx
    { bounds :=
        if HasKeys wexpr then
          { row_prev := (SortedStores wexpr input output).sort_collection.GetRow 0 }
        else {}
      ranks := {}
      output := (SortedStores wexpr input output).output }
    n

/-- The result store `Finalize` fills an empty `window_results` with (lines
555-566): one row of `n` NULL cells for every row of the input store. -/
def InitialResults (n : Nat) (big_data : ChunkCollection) : ChunkCollection :=
  ChunkCollection.empty.Append
    { types := n, rows := big_data.rows.map (fun _ => List.replicate n Value.NULL) }

/-- The rows of the chunks returned by `n` successive calls of
`GetChunkInternal`, each call on an empty chunk, in call order, and the
consumer state after the last call. -/
def GetChunks (assertions : Bool) (gstate : WindowGlobalState) :
    Nat → PhysicalWindowOperatorState →
      Except Error (List (List (List Value)) × PhysicalWindowOperatorState)
  | 0, state => pure ([], state)
  | n + 1, state => do
    let r ← GetChunkInternal assertions gstate ChunkCollection.empty state
    let rest ← GetChunks assertions gstate n r.2
    pure (r.1.rows :: rest.1, rest.2)

/-- The sink phase of the operator: the global state and the local state of
every worker. -/
structure SinkPhase where
  gstate : WindowGlobalState
  lstates : List WindowLocalState

namespace SinkPhase

/-- The start of the sink phase: every worker has an empty local store. -/
def init (gstate : WindowGlobalState) (workers : Nat) : SinkPhase :=
  { gstate := gstate, lstates := List.replicate workers { chunks := ChunkCollection.empty } }

/-- Worker `worker` calls `Sink` on the batch `input`. -/
def SinkAt (s : SinkPhase) (worker : Nat) (input : ChunkCollection) : SinkPhase :=
  match s.lstates[worker]? with
  | none => s
  | some lstate =>
    { gstate := (Sink s.gstate lstate input).1
      lstates := s.lstates.set worker (Sink s.gstate lstate input).2 }

/-- A sequence of `Sink` calls, each given by its worker and its batch. -/
def SinkAll (s : SinkPhase) (events : List (Nat × ChunkCollection)) : SinkPhase :=
  events.foldl (fun s e => s.SinkAt e.1 e.2) s

/-- Worker `worker` calls `Combine`. -/
def CombineAt (s : SinkPhase) (worker : Nat) : SinkPhase :=
  match s.lstates[worker]? with
  | none => s
  | some lstate => { s with gstate := Combine s.gstate lstate }

/-- The workers of `order` call `Combine` one after the other. -/
def CombineAll (s : SinkPhase) (order : List Nat) : SinkPhase :=
  order.foldl CombineAt s

end SinkPhase

/-- The rows of the batches that worker `worker` sinks in a sequence of `Sink`
calls, in call order. -/
def SunkRows (events : List (Nat × ChunkCollection)) (worker : Nat) : List (List Value) :=
  ((events.filter (fun e => e.1 = worker)).map (fun e => e.2.rows)).flatten

/-- The `while (l < r)` loop of `BinarySearchRightmost` together with the row
indices it probes, the `m` of every round in order, next to the final `l`. -/
def BinarySearchRightmostTrace (input : ChunkCollection) (row : List Value) (comp_cols : Nat) :
    Nat → Nat → Nat → Nat × List Nat
  | 0, l, _ => (l, [])
  | fuel + 1, l, r =>
    if l < r then
      let m := ((l + r) % 18446744073709551616) / 2
      if LessThanEquals (input.GetRow m) row 0 comp_cols then
        (m :: ·) <$> BinarySearchRightmostTrace input row comp_cols fuel (m + 1) r
      else
        (m :: ·) <$> BinarySearchRightmostTrace input row comp_cols fuel l m
    else (l, [])

/-- The pieces of a haystack split at its leftmost-first non-overlapping
occurrences of the needle `n`, as the property words it: scanning from the
left, an occurrence that starts at the current byte ends the current piece and
its `skip` remaining bytes are passed over; any other byte joins the current
piece. -/
def SplitPieces (n : List Char) : List Char → Nat → List Char → List (List Char)
  | [], _, piece => [piece]
  | _ :: cs, skip + 1, piece => SplitPieces n cs skip piece
  | c :: cs, 0, piece =>
    if (c :: cs).take n.length = n then piece :: SplitPieces n cs (n.length - 1) []
    else SplitPieces n cs 0 (piece ++ [c])

/-- The pieces joined with `t` between every two neighbours. -/
def JoinWith (t : List Char) : List (List Char) → List Char
  | [] => []
  | [p] => p
  | p :: q :: rest => p ++ t ++ JoinWith t (q :: rest)

/-- The white-space separated tokens of a line, scanned from the left with
the token in progress in `cur`. -/
def LineTokensFrom : List Char → List Char → List (List Char)
  | [], cur => if cur = [] then [] else [cur]
  | c :: cs, cur =>
    if isspace c then (if cur = [] then LineTokensFrom cs [] else cur :: LineTokensFrom cs [])
    else LineTokensFrom cs (cur ++ [c])

/-- The white-space separated tokens of a line, in order. -/
def LineTokens (z : List Char) : List (List Char) := LineTokensFrom z []

/-! ## Concrete expressions and stores -/

/-- The expression that reads column `i` of the input row. -/
def ColumnRef (i : Nat) : Expression := { eval := fun row => at_ row i, IsScalar := false }

/-- A constant integer expression. -/
def Constant (v : Int) : Expression := { eval := fun _ => Value.BIGINT v, IsScalar := true }

/-- The sum of two values, where NULL is ignored. -/
def AddValues : Value → Value → Value
  | Value.NULL, v => v
  | v, Value.NULL => v
  | Value.BIGINT a, Value.BIGINT b => Value.BIGINT (a + b)
  | Value.BIGINT a, Value.DOUBLE b => Value.DOUBLE (a + b)
  | Value.DOUBLE a, Value.BIGINT b => Value.DOUBLE (a + b)
  | Value.DOUBLE a, Value.DOUBLE b => Value.DOUBLE (a + b)

/-- The aggregate `sum` over the first payload column, NULL over no rows. -/
def SumAggregate : AggregateFunction :=
  { fold := fun rows => rows.foldl (fun acc row => AddValues acc (at_ row 0)) Value.NULL }

/-- The order key `ORDER BY` column `i` in the direction `t`, nulls first. -/
def OrderKey (i : Nat) (t : OrderType) : BoundOrderByNode :=
  { type := t, null_order := OrderByNullType.NULLS_FIRST, expression := ColumnRef i }

/-- A window expression of kind `type` over `ORDER BY` column `i` with the frame
`start` to `end_`, the bounds' offsets being the constants `s` and `e`. -/
def WindowOrderBy (type : ExpressionType) (i : Nat) (t : OrderType)
    (start end_ : WindowBoundary) (s e : Int) (children : List Expression) :
    BoundWindowExpression :=
  { type := type, partitions := [], orders := [OrderKey i t], children := children
    offset_expr := none, default_expr := none
    start := start, end_ := end_
    start_expr := some (Constant s), end_expr := some (Constant e)
    aggregate := some SumAggregate }

/-- A store of one integer column. -/
def IntStore (l : List Int) : ChunkCollection :=
  { types := 1, rows := l.map (fun v => [Value.BIGINT v]) }

/-- A store of one column holding the same integer in `n` rows, as the
materialised offset of a frame bound. -/
def ConstantStore (v : Int) (n : Nat) : ChunkCollection :=
  { types := 1, rows := List.replicate n [Value.BIGINT v] }

/-- The expression `lead(c_i, offset, dflt) OVER (ORDER BY c_i)` or its `lag`
counterpart, with constant offset and default. -/
def WindowLeadLag (type : ExpressionType) (i : Nat) (offset dflt : Int) : BoundWindowExpression :=
  { type := type, partitions := [], orders := [OrderKey i OrderType.ASCENDING]
    children := [ColumnRef i]
    offset_expr := some (Constant offset), default_expr := some (Constant dflt)
    start := WindowBoundary.UNBOUNDED_PRECEDING, end_ := WindowBoundary.CURRENT_ROW_RANGE
    start_expr := none, end_expr := none
    aggregate := none }

/-- A window expression of kind `type` over `PARTITION BY` column `i` with the
default frame. -/
def WindowPartitionBy (type : ExpressionType) (i : Nat) : BoundWindowExpression :=
  { type := type, partitions := [ColumnRef i], orders := [], children := []
    offset_expr := none, default_expr := none
    start := WindowBoundary.UNBOUNDED_PRECEDING, end_ := WindowBoundary.CURRENT_ROW_RANGE
    start_expr := none, end_expr := none
    aggregate := none }

/-- A window expression of kind `type` with `PARTITION BY` column `i` and
`ORDER BY` column `j` in the direction `t`, with the default frame. -/
def WindowPartitionOrderBy (type : ExpressionType) (i j : Nat) (t : OrderType) :
    BoundWindowExpression :=
  { type := type, partitions := [ColumnRef i], orders := [OrderKey j t], children := []
    offset_expr := none, default_expr := none
    start := WindowBoundary.UNBOUNDED_PRECEDING, end_ := WindowBoundary.CURRENT_ROW_RANGE
    start_expr := none, end_expr := none
    aggregate := none }

/-- A window expression of kind `type` with the empty window `OVER ()` and the
default frame. -/
def WindowOver (type : ExpressionType) (children : List Expression) : BoundWindowExpression :=
  { type := type, partitions := [], orders := [], children := children
    offset_expr := none, default_expr := none
    start := WindowBoundary.UNBOUNDED_PRECEDING, end_ := WindowBoundary.CURRENT_ROW_RANGE
    start_expr := none, end_expr := none
    aggregate := some SumAggregate }

/-! ## Lemmas: the exception monad -/

theorem bind_eq_ok {α β : Type} (x : Except Error α) (f : α → Except Error β) (b : β) :
    (x >>= f) = Except.ok b ↔ ∃ a, x = Except.ok a ∧ f a = Except.ok b := by
  cases x with
  | error e => simp [bind, Except.bind]
  | ok a => simp [bind, Except.bind]

theorem D_ASSERT_eq_ok (assertions cond : Bool) :
    D_ASSERT assertions cond = Except.ok () ↔ (assertions = true → cond = true) := by
  cases assertions <;> cases cond <;> simp [D_ASSERT]

/-! ## Lemmas: the order of values -/

theorem Value.gt_irrefl (a : Value) : Value.gt a a = false := by
  unfold Value.gt
  cases h : a.toRat? <;> simp

theorem Value.gt_of_gt_of_not_gt (a b c : Value) (h1 : Value.gt a b = true)
    (h2 : Value.gt a c = false) : Value.gt c b = true := by
  unfold Value.gt at *
  cases ha : a.toRat? <;> cases hb : b.toRat? <;> cases hc : c.toRat? <;>
    simp_all
  exact lt_of_lt_of_le h1 h2

theorem Value.gt_asymm (a b : Value) (h : Value.gt a b = true) : Value.gt b a = false := by
  unfold Value.gt at *
  cases ha : a.toRat? <;> cases hb : b.toRat? <;> simp_all
  exact le_of_lt h

theorem Value.gt_congr_left (a b c : Value) (h : Value.ne a b = false) :
    Value.gt a c = Value.gt b c := by
  unfold Value.gt Value.ne at *
  cases ha : a.toRat? <;> cases hb : b.toRat? <;> cases hc : c.toRat? <;> simp_all

theorem ValueBefore_ascending_nulls_first (a b : Value) :
    ValueBefore (OrderType.ASCENDING, OrderByNullType.NULLS_FIRST) a b = Value.gt b a := by
  unfold ValueBefore Value.gt
  cases ha : a.toRat? <;> cases hb : b.toRat? <;> simp

/-! ## Lemmas: `BinarySearchRightmost` -/

theorem LessThanEquals_refl (row : List Value) (i n : Nat) : LessThanEquals row row i n = true := by
  induction n generalizing i with
  | zero => rfl
  | succ n ih => simp [LessThanEquals, Value.gt_irrefl, ih]

/-- The loop stays between its bounds. -/
theorem BinarySearchRightmostLoop_bounds (input : ChunkCollection) (row : List Value)
    (comp_cols : Nat) (fuel l r : Nat) (hlr : l ≤ r) (hr : r < 9223372036854775808) :
    l ≤ BinarySearchRightmostLoop input row comp_cols fuel l r ∧
      BinarySearchRightmostLoop input row comp_cols fuel l r ≤ r := by
  induction fuel generalizing l r with
  | zero => simp [BinarySearchRightmostLoop, hlr]
  | succ fuel ih =>
    unfold BinarySearchRightmostLoop
    by_cases h : l < r
    · simp only [h, if_true]
      split
      · have := ih ((l + r) % 18446744073709551616 / 2 + 1) r (by omega) hr
        omega
      · have := ih l ((l + r) % 18446744073709551616 / 2) (by omega) (by omega)
        omega
    · simp [h, hlr]

/-- When the row probed at `l` is accepted, the loop ends beyond `l`. -/
theorem BinarySearchRightmostLoop_gt (input : ChunkCollection) (row : List Value)
    (comp_cols : Nat) (fuel l r : Nat) (hfuel : r - l ≤ fuel) (hlr : l < r)
    (hr : r < 9223372036854775808)
    (hl : LessThanEquals (input.GetRow l) row 0 comp_cols = true) :
    l < BinarySearchRightmostLoop input row comp_cols fuel l r := by
  induction fuel generalizing l r with
  | zero => omega
  | succ fuel ih =>
    unfold BinarySearchRightmostLoop
    simp only [hlr, if_true]
    split
    · have := (BinarySearchRightmostLoop_bounds input row comp_cols fuel
        ((l + r) % 18446744073709551616 / 2 + 1) r (by omega) hr).1
      omega
    · rename_i hm
      have hne : (l + r) % 18446744073709551616 / 2 ≠ l := by
        intro heq
        rw [heq] at hm
        exact hm hl
      exact ih l ((l + r) % 18446744073709551616 / 2) (by omega) (by omega) (by omega) hl

/-- When the accepted rows of `[l, R)` are closed downwards, no row from the
result of the loop up to `R` is accepted. -/
theorem BinarySearchRightmostLoop_upper (input : ChunkCollection) (row : List Value)
    (comp_cols R : Nat) (fuel l r : Nat) (hfuel : r - l ≤ fuel) (hlr : l ≤ r) (hrR : r ≤ R)
    (hR : R < 9223372036854775808)
    (hdown : ∀ i j, l ≤ i → i ≤ j → j < R →
      LessThanEquals (input.GetRow j) row 0 comp_cols = true →
      LessThanEquals (input.GetRow i) row 0 comp_cols = true)
    (hup : ∀ j, r ≤ j → j < R → LessThanEquals (input.GetRow j) row 0 comp_cols = false) :
    ∀ j, BinarySearchRightmostLoop input row comp_cols fuel l r ≤ j → j < R →
      LessThanEquals (input.GetRow j) row 0 comp_cols = false := by
  induction fuel generalizing l r with
  | zero =>
    intro j hj hjR
    simp only [BinarySearchRightmostLoop] at hj
    exact hup j (by omega) hjR
  | succ fuel ih =>
    unfold BinarySearchRightmostLoop
    by_cases h : l < r
    · simp only [h, if_true]
      split
      · exact ih ((l + r) % 18446744073709551616 / 2 + 1) r (by omega) (by omega) hrR
          (fun i j hi hij hj => hdown i j (by omega) hij hj) hup
      · rename_i hm
        refine ih l ((l + r) % 18446744073709551616 / 2) (by omega) (by omega) (by omega)
          hdown ?_
        intro j hj hjR
        cases hacc : LessThanEquals (input.GetRow j) row 0 comp_cols with
        | false => rfl
        | true =>
          exact absurd (hdown _ j (by omega) hj hjR hacc) hm
    · simp only [h, if_false]
      intro j hj hjR
      exact hup j (by omega) hjR

/-! ## Lemmas: sorted stores -/

theorem SortKeys_eq (wexpr : BoundWindowExpression) :
    SortKeys wexpr =
      List.replicate wexpr.partitions.length (OrderType.ASCENDING, OrderByNullType.NULLS_FIRST) ++
        wexpr.orders.map (fun o => (o.type, o.null_order)) := by
  unfold SortKeys SortOrders SortNullOrders
  rw [List.zip_append (by simp)]
  congr 1
  · induction wexpr.partitions with
    | nil => rfl
    | cons e es ih => simp [List.replicate_succ, ih]
  · induction wexpr.orders with
    | nil => rfl
    | cons e es ih => simp [ih]

/-- On the partition columns, a row lying between two rows in sort order is
accepted by the binary search whenever the later one is. -/
theorem LessThanEquals_squeeze (keys : List (OrderType × OrderByNullType)) (a b c : List Value)
    (P i : Nat)
    (hab : RowLessEq
      (List.replicate P (OrderType.ASCENDING, OrderByNullType.NULLS_FIRST) ++ keys) i a b = true)
    (hbc : RowLessEq
      (List.replicate P (OrderType.ASCENDING, OrderByNullType.NULLS_FIRST) ++ keys) i b c = true)
    (hca : LessThanEquals c a i P = true) : LessThanEquals b a i P = true := by
  induction P generalizing i with
  | zero => rfl
  | succ P ih =>
    simp only [List.replicate_succ, List.cons_append, RowLessEq,
      ValueBefore_ascending_nulls_first] at hab hbc
    simp only [LessThanEquals] at hca ⊢
    cases hca1 : Value.gt (at_ c i) (at_ a i) with
    | true => simp [hca1] at hca
    | false =>
      simp only [hca1] at hca
      have hbc1 : Value.gt (at_ b i) (at_ c i) = false := by
        cases h : Value.gt (at_ c i) (at_ b i) with
        | true => exact Value.gt_asymm _ _ h
        | false =>
          cases h2 : Value.gt (at_ b i) (at_ c i) with
          | false => rfl
          | true => simp [h, h2] at hbc
      have hba : Value.gt (at_ b i) (at_ a i) = false := by
        cases h : Value.gt (at_ b i) (at_ a i) with
        | false => rfl
        | true =>
          have := Value.gt_of_gt_of_not_gt _ _ _ h hbc1
          simp [this] at hca1
      have hab1 : Value.gt (at_ a i) (at_ b i) = false := by
        cases h : Value.gt (at_ a i) (at_ b i) with
        | false => rfl
        | true => simp [hba, h] at hab
      have hcb : Value.gt (at_ c i) (at_ b i) = false := by
        cases h : Value.gt (at_ c i) (at_ b i) with
        | false => rfl
        | true =>
          have := Value.gt_of_gt_of_not_gt _ _ _ h hca1
          simp [this] at hab1
      simp only [hba, hab1, hcb, hbc1] at hab hbc ⊢
      simpa using ih (i + 1) (by simpa using hab) (by simpa using hbc) (by simpa using hca)

theorem LessThanEquals_of_EqualsSubsetLoop (a b c : List Value) (i n : Nat)
    (heq : EqualsSubsetLoop a b i n = true) (h : LessThanEquals a c i n = true) :
    LessThanEquals b c i n = true := by
  induction n generalizing i with
  | zero => rfl
  | succ n ih =>
    simp only [EqualsSubsetLoop, LessThanEquals] at heq h ⊢
    cases hne : Value.ne (at_ a i) (at_ b i) with
    | true => simp [hne] at heq
    | false =>
      rw [← Value.gt_congr_left _ _ _ hne]
      cases hgt : Value.gt (at_ a i) (at_ c i) with
      | true => simp [hgt] at h
      | false =>
        simp only [hne, hgt] at heq h ⊢
        simpa using ih (i + 1) (by simpa using heq) (by simpa using h)

theorem StoreSorted_getRow (wexpr : BoundWindowExpression) (c : ChunkCollection)
    (h : StoreSorted wexpr c) (i j : Nat) (hij : i < j) (hj : j < c.Count) :
    RowLessEq (SortKeys wexpr) 0 (c.GetRow i) (c.GetRow j) = true := by
  unfold StoreSorted at h
  rw [List.pairwise_iff_getElem] at h
  have hj' : j < c.rows.length := hj
  have := h i j (by omega) hj' hij
  simpa [ChunkCollection.GetRow, List.getD_eq_getElem, hj', (by omega : i < c.rows.length)] using this

/-- In a sorted store the rows the partition search accepts are closed
downwards from the start of the partition on. -/
theorem partition_accept_downward (wexpr : BoundWindowExpression) (c : ChunkCollection)
    (h : StoreSorted wexpr c) (s i j : Nat) (hsi : s ≤ i) (hij : i ≤ j) (hj : j < c.Count)
    (hacc : LessThanEquals (c.GetRow j) (c.GetRow s) 0 wexpr.partitions.length = true) :
    LessThanEquals (c.GetRow i) (c.GetRow s) 0 wexpr.partitions.length = true := by
  rcases Nat.eq_or_lt_of_le hsi with rfl | hsi'
  · exact LessThanEquals_refl _ _ _
  rcases Nat.eq_or_lt_of_le hij with rfl | hij'
  · exact hacc
  have h1 := StoreSorted_getRow wexpr c h s i hsi' (by omega)
  have h2 := StoreSorted_getRow wexpr c h i j hij' hj
  rw [SortKeys_eq] at h1 h2
  exact LessThanEquals_squeeze _ _ _ _ _ 0 h1 h2 hacc

/-- One past the result of `BinarySearchRightmost` lies in `(l, r]` when the
row at `l` is accepted. -/
theorem BinarySearchRightmost_succ_bounds (input : ChunkCollection) (row : List Value)
    (l r n : Nat) (hlr : l < r) (hr : r < 9223372036854775808)
    (hl : LessThanEquals (input.GetRow l) row 0 n = true) :
    l < (BinarySearchRightmost input row l r n + 1) % 18446744073709551616 ∧
      (BinarySearchRightmost input row l r n + 1) % 18446744073709551616 ≤ r := by
  unfold BinarySearchRightmost
  by_cases hn : n = 0
  · simp only [hn, if_true, toIdx]
    omega
  · simp only [hn, if_false, toIdx]
    have h1 := BinarySearchRightmostLoop_gt input row n (r - l) l r (le_refl _) hlr hr hl
    have h2 := (BinarySearchRightmostLoop_bounds input row n (r - l) l r (by omega) hr).2
    omega

/-- In a sorted store every row the partition search accepts lies before the
partition end it computes. -/
theorem partition_end_gt (wexpr : BoundWindowExpression) (c : ChunkCollection)
    (h : StoreSorted wexpr c) (hcount : c.Count < 9223372036854775808) (s r : Nat)
    (hsr : s ≤ r) (hr : r < c.Count)
    (hacc : LessThanEquals (c.GetRow r) (c.GetRow s) 0 wexpr.partitions.length = true) :
    r < (BinarySearchRightmost c (c.GetRow s) s c.Count wexpr.partitions.length + 1)
      % 18446744073709551616 := by
  unfold BinarySearchRightmost
  by_cases hn : wexpr.partitions.length = 0
  · simp only [hn, if_true, toIdx]
    omega
  · simp only [hn, if_false, toIdx]
    have h1 := BinarySearchRightmostLoop_gt c (c.GetRow s) wexpr.partitions.length
      (c.Count - s) s c.Count (le_refl _) (by omega) hcount (LessThanEquals_refl _ _ _)
    have h2 := (BinarySearchRightmostLoop_bounds c (c.GetRow s) wexpr.partitions.length
      (c.Count - s) s c.Count (by omega) hcount).2
    have h3 := BinarySearchRightmostLoop_upper c (c.GetRow s) wexpr.partitions.length c.Count
      (c.Count - s) s c.Count (le_refl _) (by omega) (le_refl _) hcount
      (fun i j hi hij hj hacc => partition_accept_downward wexpr c h s i j hi hij hj hacc)
      (fun j hj hj' => by omega)
    have h4 : r < BinarySearchRightmostLoop c (c.GetRow s) wexpr.partitions.length
        (c.Count - s) s c.Count := by
      by_contra hcon
      have := h3 r (by omega) hr
      rw [hacc] at this
      exact Bool.noConfusion this
    omega

theorem EqualsSubset_eq_ok (assertions : Bool) (a b : List Value) (s e : Nat) (h : s ≤ e) :
    EqualsSubset assertions a b s e = Except.ok (EqualsSubsetLoop a b s (e - s)) := by
  unfold EqualsSubset D_ASSERT
  cases assertions <;> simp [h, bind, Except.bind, pure, Except.pure]

/-- `UpdatePartitionAndPeer` never fails. -/
theorem UpdatePartitionAndPeer_ok (assertions : Bool) (wexpr : BoundWindowExpression)
    (input : ChunkCollection) (input_size row_idx : Nat) (bounds : WindowBoundariesState) :
    ∃ b, UpdatePartitionAndPeer assertions wexpr input input_size row_idx bounds = Except.ok b := by
  unfold UpdatePartitionAndPeer
  split
  · simp only [EqualsSubset_eq_ok _ _ _ 0 _ (Nat.zero_le _), bind, Except.bind]
    split
    · simp only [EqualsSubset_eq_ok _ _ _ _ _ (Nat.le_add_right _ _)]
      exact ⟨_, rfl⟩
    · exact ⟨_, rfl⟩
  · exact ⟨_, rfl⟩


theorem UpdatePeerEnd_fields (wexpr : BoundWindowExpression) (input : ChunkCollection) (r : Nat)
    (row : List Value) (b : WindowBoundariesState) :
    (UpdatePeerEnd wexpr input r row b).partition_start = b.partition_start ∧
      (UpdatePeerEnd wexpr input r row b).partition_end = b.partition_end ∧
      (UpdatePeerEnd wexpr input r row b).peer_start = b.peer_start ∧
      (UpdatePeerEnd wexpr input r row b).row_prev = b.row_prev ∧
      (UpdatePeerEnd wexpr input r row b).is_same_partition = b.is_same_partition ∧
      (UpdatePeerEnd wexpr input r row b).is_peer = b.is_peer ∧
      (UpdatePeerEnd wexpr input r row b).peer_end =
        (if wexpr.end_ = WindowBoundary.CURRENT_ROW_RANGE ∨
            wexpr.type = ExpressionType.WINDOW_CUME_DIST then
          (BinarySearchRightmost input row r b.partition_end
            (wexpr.partitions.length + wexpr.orders.length) + 1) % 18446744073709551616
        else b.peer_end) := by
  unfold UpdatePeerEnd
  split <;> simp

theorem UpdatePartition_fields (wexpr : BoundWindowExpression) (input : ChunkCollection) (r : Nat)
    (row : List Value) (b : WindowBoundariesState) :
    (UpdatePartition wexpr input r row b).row_prev = b.row_prev ∧
      (UpdatePartition wexpr input r row b).peer_end = b.peer_end ∧
      (UpdatePartition wexpr input r row b).is_same_partition = b.is_same_partition ∧
      (UpdatePartition wexpr input r row b).is_peer = b.is_peer := by
  unfold UpdatePartition
  split
  · simp
  · split <;> simp

theorem UpdatePartition_new (wexpr : BoundWindowExpression) (input : ChunkCollection) (r : Nat)
    (row : List Value) (b : WindowBoundariesState) (h : b.is_same_partition = false ∨ r = 0) :
    (UpdatePartition wexpr input r row b).partition_start = r ∧
      (UpdatePartition wexpr input r row b).peer_start = r ∧
      (UpdatePartition wexpr input r row b).partition_end =
        (BinarySearchRightmost input row r input.Count wexpr.partitions.length + 1)
          % 18446744073709551616 := by
  unfold UpdatePartition
  have : (!b.is_same_partition || r == 0) = true := by
    rcases h with h | h <;> simp [h]
  simp [this]

theorem UpdatePartition_same (wexpr : BoundWindowExpression) (input : ChunkCollection) (r : Nat)
    (row : List Value) (b : WindowBoundariesState) (h1 : b.is_same_partition = true) (h2 : r ≠ 0) :
    (UpdatePartition wexpr input r row b).partition_start = b.partition_start ∧
      (UpdatePartition wexpr input r row b).partition_end = b.partition_end ∧
      (UpdatePartition wexpr input r row b).peer_start =
        (if b.is_peer then b.peer_start else r) := by
  unfold UpdatePartition
  have : (!b.is_same_partition || r == 0) = false := by simp [h1, h2]
  simp only [this]
  cases hp : b.is_peer <;> simp

/-- The result of `UpdatePartitionAndPeer` on a sort-key store with columns. -/
theorem UpdatePartitionAndPeer_of_columns (assertions : Bool) (wexpr : BoundWindowExpression)
    (input : ChunkCollection) (input_size r : Nat) (b : WindowBoundariesState)
    (hcol : input.ColumnCount > 0) :
    UpdatePartitionAndPeer assertions wexpr input input_size r b =
      Except.ok (UpdatePeerEnd wexpr input r (input.GetRow r)
        (UpdatePartition wexpr input r (input.GetRow r)
          { b with
            is_same_partition :=
              EqualsSubsetLoop b.row_prev (input.GetRow r) 0 wexpr.partitions.length
            is_peer :=
              EqualsSubsetLoop b.row_prev (input.GetRow r) 0 wexpr.partitions.length &&
                EqualsSubsetLoop b.row_prev (input.GetRow r) wexpr.partitions.length
                  wexpr.orders.length
            row_prev := input.GetRow r })) := by
  unfold UpdatePartitionAndPeer
  simp only [hcol, if_true, EqualsSubset_eq_ok _ _ _ 0 _ (Nat.zero_le _),
    EqualsSubset_eq_ok _ _ _ _ _ (Nat.le_add_right _ _), bind, Except.bind, pure, Except.pure,
    Nat.sub_zero, Nat.add_sub_cancel_left]
  cases EqualsSubsetLoop b.row_prev (input.GetRow r) 0 wexpr.partitions.length <;> simp

/-- `UpdatePartition` followed by `UpdatePeerEnd` establishes the partition
bookkeeping for row `r`. -/
theorem UpdatePartition_inv (wexpr : BoundWindowExpression) (input : ChunkCollection) (r : Nat)
    (b b0 : WindowBoundariesState)
    (hpre : r = 0 ∨ PartitionInv wexpr input (r - 1) b)
    (h1 : b0.partition_start = b.partition_start) (h2 : b0.partition_end = b.partition_end)
    (h3 : b0.peer_start = b.peer_start) (h4 : b0.peer_end = b.peer_end)
    (h5 : b0.row_prev = input.GetRow r)
    (h6 : b0.is_same_partition =
      EqualsSubsetLoop b.row_prev (input.GetRow r) 0 wexpr.partitions.length) :
    PartitionInv wexpr input r
        (UpdatePeerEnd wexpr input r (input.GetRow r)
          (UpdatePartition wexpr input r (input.GetRow r) b0)) ∧
      (UpdatePeerEnd wexpr input r (input.GetRow r)
          (UpdatePartition wexpr input r (input.GetRow r) b0)).peer_end =
        (if wexpr.end_ = WindowBoundary.CURRENT_ROW_RANGE ∨
            wexpr.type = ExpressionType.WINDOW_CUME_DIST then
          (BinarySearchRightmost input (input.GetRow r) r
            (UpdatePeerEnd wexpr input r (input.GetRow r)
              (UpdatePartition wexpr input r (input.GetRow r) b0)).partition_end
            (wexpr.partitions.length + wexpr.orders.length) + 1) % 18446744073709551616
        else b.peer_end) := by
  obtain ⟨e1, e2, e3, e4, -, -, e7⟩ := UpdatePeerEnd_fields wexpr input r (input.GetRow r)
    (UpdatePartition wexpr input r (input.GetRow r) b0)
  obtain ⟨f1, f2, -, -⟩ := UpdatePartition_fields wexpr input r (input.GetRow r) b0
  refine ⟨?_, ?_⟩
  · by_cases hnew : b0.is_same_partition = false ∨ r = 0
    · obtain ⟨g1, g2, g3⟩ := UpdatePartition_new wexpr input r (input.GetRow r) b0 hnew
      refine ⟨?_, ?_, ?_, ?_, ?_⟩
      · rw [e1, e3, g1, g2]
      · rw [e3, g2]
      · rw [e4, f1, h5]
      · rw [e1, g1]; exact LessThanEquals_refl _ _ _
      · rw [e2, e1, g1, g3]
    · have hs : b0.is_same_partition = true := by
        cases h : b0.is_same_partition with
        | true => rfl
        | false => exact absurd (Or.inl h) hnew
      have hr0 : r ≠ 0 := fun h => hnew (Or.inr h)
      obtain ⟨g1, g2, g3⟩ := UpdatePartition_same wexpr input r (input.GetRow r) b0 hs hr0
      rcases hpre with h0 | hinv
      · exact absurd h0 hr0
      refine ⟨?_, ?_, ?_, ?_, ?_⟩
      · rw [e1, e3, g1, g3, h1, h3]
        have := hinv.start_le_peer
        have := hinv.peer_le_row
        split <;> omega
      · rw [e3, g3, h3]
        have := hinv.peer_le_row
        split <;> omega
      · rw [e4, f1, h5]
      · rw [e1, g1, h1]
        have := hinv.same_partition
        rw [← hinv.row_prev_eq] at this
        rw [h6] at hs
        exact LessThanEquals_of_EqualsSubsetLoop _ _ _ _ _ hs this
      · rw [e2, e1, g1, g2, h1, h2]
        exact hinv.partition_end_eq
  · rw [e7, e2, f2, h4]

theorem UpdatePartitionAndPeer_columns (assertions : Bool) (wexpr : BoundWindowExpression)
    (input : ChunkCollection) (input_size r : Nat) (b b1 : WindowBoundariesState)
    (hcol : input.ColumnCount > 0)
    (hpre : r = 0 ∨ PartitionInv wexpr input (r - 1) b)
    (hstep : UpdatePartitionAndPeer assertions wexpr input input_size r b = Except.ok b1) :
    PartitionInv wexpr input r b1 ∧
      b1.peer_end =
        (if wexpr.end_ = WindowBoundary.CURRENT_ROW_RANGE ∨
            wexpr.type = ExpressionType.WINDOW_CUME_DIST then
          (BinarySearchRightmost input (input.GetRow r) r b1.partition_end
            (wexpr.partitions.length + wexpr.orders.length) + 1) % 18446744073709551616
        else b.peer_end) := by
  rw [UpdatePartitionAndPeer_of_columns _ _ _ _ _ _ hcol] at hstep
  injection hstep with hstep
  subst hstep
  exact UpdatePartition_inv wexpr input r b _ hpre rfl rfl rfl rfl rfl rfl


/-! ## Lemmas: one call of `UpdateWindowBoundaries` -/

theorem UpdatePartitionAndPeer_no_columns (assertions : Bool) (wexpr : BoundWindowExpression)
    (input : ChunkCollection) (input_size r : Nat) (b : WindowBoundariesState)
    (hcol : input.ColumnCount = 0) :
    UpdatePartitionAndPeer assertions wexpr input input_size r b =
      Except.ok { b with
        is_same_partition := false, is_peer := true
        partition_end := input_size, peer_end := input_size } := by
  unfold UpdatePartitionAndPeer
  simp [hcol, pure, Except.pure]

/-- The frame after clamping, and what `ClampWindow` leaves alone. -/
theorem ClampWindow_eq_ok (b b1 : WindowBoundariesState) (h : ClampWindow b = Except.ok b1) :
    b1.partition_start = b.partition_start ∧ b1.partition_end = b.partition_end ∧
      b1.peer_start = b.peer_start ∧ b1.peer_end = b.peer_end ∧ b1.row_prev = b.row_prev ∧
      b1.is_same_partition = b.is_same_partition ∧ b1.is_peer = b.is_peer ∧
      b1.window_start =
        (if b.window_start < toInt64 b.partition_start then toInt64 b.partition_start
         else b.window_start) ∧
      b1.window_end =
        (if toIdx b.window_end > b.partition_end then toInt64 b.partition_end
         else b.window_end) ∧
      0 ≤ b1.window_start ∧ 0 ≤ b1.window_end := by
  unfold ClampWindow at h
  by_cases h1 : b.window_start < toInt64 b.partition_start <;>
    by_cases h2 : toIdx b.window_end > b.partition_end <;>
    simp only [h1, h2, if_true, if_false] at h ⊢ <;>
    split at h <;>
    first
      | exact Except.noConfusion h
      | (rename_i hneg
         injection h with h
         subst h
         simp only [Bool.or_eq_true, decide_eq_true_eq, not_or, not_lt] at hneg
         simp only [and_self, true_and]
         exact ⟨hneg.1, hneg.2⟩)

/-- A successful call of `UpdateWindowBoundaries` is made of its four stages. -/
theorem UpdateWindowBoundaries_eq_ok (assertions : Bool) (wexpr : BoundWindowExpression)
    (input : ChunkCollection) (input_size r : Nat) (bsc bec : ChunkCollection)
    (b b2 : WindowBoundariesState)
    (h : UpdateWindowBoundaries assertions wexpr input input_size r bsc bec b = Except.ok b2) :
    ∃ b1 ws we,
      UpdatePartitionAndPeer assertions wexpr input input_size r b = Except.ok b1 ∧
      ComputeWindowStart assertions wexpr r bsc b1 = Except.ok ws ∧
      ComputeWindowEnd assertions wexpr r bec b1 = Except.ok we ∧
      ClampWindow { b1 with window_start := ws, window_end := we } = Except.ok b2 := by
  unfold UpdateWindowBoundaries at h
  rw [bind_eq_ok] at h
  obtain ⟨b1, hb1, h⟩ := h
  rw [bind_eq_ok] at h
  obtain ⟨ws, hws, h⟩ := h
  rw [bind_eq_ok] at h
  obtain ⟨we, hwe, h⟩ := h
  exact ⟨b1, ws, we, hb1, hws, hwe, h⟩

/-- What a successful call of `UpdateWindowBoundaries` leaves of the partition
bookkeeping of `UpdatePartitionAndPeer`. -/
theorem UpdateWindowBoundaries_partition (assertions : Bool) (wexpr : BoundWindowExpression)
    (input : ChunkCollection) (input_size r : Nat) (bsc bec : ChunkCollection)
    (b b2 : WindowBoundariesState)
    (h : UpdateWindowBoundaries assertions wexpr input input_size r bsc bec b = Except.ok b2) :
    ∃ b1, UpdatePartitionAndPeer assertions wexpr input input_size r b = Except.ok b1 ∧
      b2.partition_start = b1.partition_start ∧ b2.partition_end = b1.partition_end ∧
      b2.peer_start = b1.peer_start ∧ b2.peer_end = b1.peer_end ∧ b2.row_prev = b1.row_prev ∧
      b2.is_same_partition = b1.is_same_partition ∧ b2.is_peer = b1.is_peer := by
  obtain ⟨b1, ws, we, hb1, -, -, hclamp⟩ := UpdateWindowBoundaries_eq_ok _ _ _ _ _ _ _ _ _ h
  obtain ⟨c1, c2, c3, c4, c5, c6, c7, -⟩ := ClampWindow_eq_ok _ _ hclamp
  exact ⟨b1, hb1, c1, c2, c3, c4, c5, c6, c7⟩

theorem PartitionInv_congr (wexpr : BoundWindowExpression) (input : ChunkCollection) (r : Nat)
    (b1 b2 : WindowBoundariesState) (h : PartitionInv wexpr input r b1)
    (e1 : b2.partition_start = b1.partition_start) (e2 : b2.partition_end = b1.partition_end)
    (e3 : b2.peer_start = b1.peer_start) (e4 : b2.row_prev = b1.row_prev) :
    PartitionInv wexpr input r b2 := by
  refine ⟨?_, ?_, ?_, ?_, ?_⟩
  · rw [e1, e3]; exact h.start_le_peer
  · rw [e3]; exact h.peer_le_row
  · rw [e4]; exact h.row_prev_eq
  · rw [e1]; exact h.same_partition
  · rw [e1, e2]; exact h.partition_end_eq


/-! ## Lemmas: the boundary state along the rows -/

theorem BoundariesAfter_succ_eq_ok (assertions : Bool) (wexpr : BoundWindowExpression)
    (input : ChunkCollection) (input_size : Nat) (bsc bec : ChunkCollection)
    (init : WindowBoundariesState) (n : Nat) (b2 : WindowBoundariesState)
    (h : BoundariesAfter assertions wexpr input input_size bsc bec init (n + 1) = Except.ok b2) :
    ∃ b, BoundariesAfter assertions wexpr input input_size bsc bec init n = Except.ok b ∧
      UpdateWindowBoundaries assertions wexpr input input_size n bsc bec b = Except.ok b2 := by
  simp only [BoundariesAfter] at h
  rw [bind_eq_ok] at h
  exact h

/-- Along the rows of a sort-key store with columns the partition bookkeeping
holds after every row, and the peer end is the searched one or untouched. -/
theorem BoundariesAfter_columns (assertions : Bool) (wexpr : BoundWindowExpression)
    (input : ChunkCollection) (input_size : Nat) (bsc bec : ChunkCollection)
    (init : WindowBoundariesState) (hcol : input.ColumnCount > 0) (n : Nat)
    (b : WindowBoundariesState)
    (h : BoundariesAfter assertions wexpr input input_size bsc bec init n = Except.ok b) :
    (n = 0 ∨ PartitionInv wexpr input (n - 1) b) ∧
      (¬ (wexpr.end_ = WindowBoundary.CURRENT_ROW_RANGE ∨
          wexpr.type = ExpressionType.WINDOW_CUME_DIST) → b.peer_end = init.peer_end) ∧
      (wexpr.end_ = WindowBoundary.CURRENT_ROW_RANGE ∨
          wexpr.type = ExpressionType.WINDOW_CUME_DIST → 0 < n →
        b.peer_end = (BinarySearchRightmost input (input.GetRow (n - 1)) (n - 1) b.partition_end
          (wexpr.partitions.length + wexpr.orders.length) + 1) % 18446744073709551616) := by
  induction n generalizing b with
  | zero =>
    simp only [BoundariesAfter, pure, Except.pure] at h
    injection h with h
    subst h
    exact ⟨Or.inl rfl, fun _ => rfl, fun _ h0 => absurd h0 (lt_irrefl 0)⟩
  | succ n ih =>
    obtain ⟨b0, hb0, hstep⟩ := BoundariesAfter_succ_eq_ok _ _ _ _ _ _ _ _ _ h
    obtain ⟨ih1, ih2, -⟩ := ih b0 hb0
    obtain ⟨b1, hb1, e1, e2, e3, e4, e5, -, -⟩ :=
      UpdateWindowBoundaries_partition _ _ _ _ _ _ _ _ _ hstep
    obtain ⟨hinv, hpeer⟩ := UpdatePartitionAndPeer_columns _ _ _ _ _ _ _ hcol ih1 hb1
    refine ⟨Or.inr ?_, ?_, ?_⟩
    · exact PartitionInv_congr _ _ _ _ _ hinv e1 e2 e3 e5
    · intro hc
      rw [e4, hpeer, if_neg hc]
      exact ih2 hc
    · intro hc _
      rw [e4, hpeer, if_pos hc, e2]
      rfl

/-- Without sort-key columns the whole input is one partition and one peer
group. -/
theorem BoundariesAfter_no_columns (assertions : Bool) (wexpr : BoundWindowExpression)
    (input : ChunkCollection) (input_size : Nat) (bsc bec : ChunkCollection)
    (init : WindowBoundariesState) (hcol : input.ColumnCount = 0) (n : Nat)
    (b : WindowBoundariesState)
    (h : BoundariesAfter assertions wexpr input input_size bsc bec init n = Except.ok b) :
    b.partition_start = init.partition_start ∧ b.peer_start = init.peer_start ∧
      (0 < n → b.partition_end = input_size ∧ b.peer_end = input_size) := by
  induction n generalizing b with
  | zero =>
    simp only [BoundariesAfter, pure, Except.pure] at h
    injection h with h
    subst h
    exact ⟨rfl, rfl, fun h0 => absurd h0 (lt_irrefl 0)⟩
  | succ n ih =>
    obtain ⟨b0, hb0, hstep⟩ := BoundariesAfter_succ_eq_ok _ _ _ _ _ _ _ _ _ h
    obtain ⟨ih1, ih2, -⟩ := ih b0 hb0
    obtain ⟨b1, hb1, e1, e2, e3, e4, -⟩ :=
      UpdateWindowBoundaries_partition _ _ _ _ _ _ _ _ _ hstep
    rw [UpdatePartitionAndPeer_no_columns _ _ _ _ _ _ hcol] at hb1
    injection hb1 with hb1
    subst hb1
    exact ⟨e1.trans ih1, e3.trans ih2, fun _ => ⟨e2, e4⟩⟩

/-- The partition facts after row `r`, which hold for every store. -/
theorem BoundariesAfter_partition_bounds (assertions : Bool) (wexpr : BoundWindowExpression)
    (input : ChunkCollection) (input_size : Nat) (bsc bec : ChunkCollection)
    (row_prev : List Value) (r : Nat) (b : WindowBoundariesState)
    (hsize : input.ColumnCount > 0 → input.Count = input_size)
    (hN : input_size < 9223372036854775808) (hr : r < input_size)
    (h : BoundariesAfter assertions wexpr input input_size bsc bec (InitialBounds row_prev)
      (r + 1) = Except.ok b) :
    b.partition_start ≤ b.peer_start ∧ b.peer_start ≤ r ∧ b.partition_start < b.partition_end ∧
      b.partition_end ≤ input_size := by
  by_cases hcol : input.ColumnCount > 0
  · obtain ⟨hinv, -, -⟩ := BoundariesAfter_columns _ _ _ _ _ _ _ hcol _ _ h
    rcases hinv with h0 | hinv
    · omega
    simp only [Nat.add_sub_cancel] at hinv
    have hcount := hsize hcol
    have := BinarySearchRightmost_succ_bounds input (input.GetRow b.partition_start)
      b.partition_start input.Count wexpr.partitions.length
      (by have := hinv.start_le_peer; have := hinv.peer_le_row; omega) (by omega)
      (LessThanEquals_refl _ _ _)
    rw [← hinv.partition_end_eq] at this
    exact ⟨hinv.start_le_peer, hinv.peer_le_row, this.1, by omega⟩
  · have hcol0 : input.ColumnCount = 0 := by omega
    obtain ⟨h1, h2, h3⟩ := BoundariesAfter_no_columns _ _ _ _ _ _ _ hcol0 _ _ h
    obtain ⟨h4, -⟩ := h3 (Nat.succ_pos r)
    simp only [InitialBounds] at h1 h2
    omega


/-! ## Partition and peer boundaries (C2, C3) -/

/-- C2, as stated, fails: with an end bound `CURRENT_ROW_ROWS` and a function
other than `CUME_DIST` the peer end is never searched and stays `0`, so after
row `0` of the sorted one-row store `[1]` the chain
`partition_start <= peer_start <= r < peer_end <= partition_end <= N` is broken
at `r < peer_end`. -/
theorem boundaries_chain_counterexample :
    StoreSorted
        (WindowOrderBy ExpressionType.WINDOW_ROW_NUMBER 0 OrderType.ASCENDING
          WindowBoundary.UNBOUNDED_PRECEDING WindowBoundary.CURRENT_ROW_ROWS 0 0 [])
        (IntStore [1]) ∧
      (BoundariesAfter false
          (WindowOrderBy ExpressionType.WINDOW_ROW_NUMBER 0 OrderType.ASCENDING
            WindowBoundary.UNBOUNDED_PRECEDING WindowBoundary.CURRENT_ROW_ROWS 0 0 [])
          (IntStore [1]) 1 ChunkCollection.empty ChunkCollection.empty
          (InitialBounds [Value.BIGINT 1]) 1).map
        (fun b => decide (b.partition_start ≤ b.peer_start ∧ b.peer_start ≤ 0 ∧ 0 < b.peer_end ∧
          b.peer_end ≤ b.partition_end ∧ b.partition_end ≤ 1)) = Except.ok false := by
  decide

/-- C2 (amended): for every sort-key store sorted under the declared ordering
and holding as many rows as the input (`N < 2^63`), every window expression and
every row `r < N`, the boundary state after `UpdateWindowBoundaries` has
processed the rows `0..r` satisfies
`partition_start <= peer_start <= r < partition_end <= N`; and
`r < peer_end <= partition_end` holds when the store has no columns, the end
bound is `CURRENT_ROW_RANGE` or the function is `CUME_DIST`, while otherwise
`peer_end` is still its initial `0`. -/
theorem boundaries_chain (assertions : Bool) (wexpr : BoundWindowExpression)
    (input : ChunkCollection) (input_size : Nat) (bsc bec : ChunkCollection)
    (row_prev : List Value) (r : Nat) (b : WindowBoundariesState)
    (hsorted : StoreSorted wexpr input)
    (hsize : input.ColumnCount > 0 → input.Count = input_size)
    (hN : input_size < 9223372036854775808) (hr : r < input_size)
    (h : BoundariesAfter assertions wexpr input input_size bsc bec (InitialBounds row_prev)
      (r + 1) = Except.ok b) :
    b.partition_start ≤ b.peer_start ∧ b.peer_start ≤ r ∧ r < b.partition_end ∧
      b.partition_end ≤ input_size ∧
      (if input.ColumnCount = 0 ∨ wexpr.end_ = WindowBoundary.CURRENT_ROW_RANGE ∨
          wexpr.type = ExpressionType.WINDOW_CUME_DIST then
        r < b.peer_end ∧ b.peer_end ≤ b.partition_end
      else b.peer_end = 0) := by
  obtain ⟨h1, h2, -, h4⟩ := BoundariesAfter_partition_bounds _ _ _ _ _ _ _ _ _ hsize hN hr h
  by_cases hcol : input.ColumnCount > 0
  · obtain ⟨hinv, hp1, hp2⟩ := BoundariesAfter_columns _ _ _ _ _ _ _ hcol _ _ h
    rcases hinv with h0 | hinv
    · omega
    simp only [Nat.add_sub_cancel] at hinv hp2
    have hcount := hsize hcol
    have hgt := partition_end_gt wexpr input hsorted (by omega) b.partition_start r
      (by omega) (by omega) hinv.same_partition
    rw [← hinv.partition_end_eq] at hgt
    refine ⟨h1, h2, hgt, h4, ?_⟩
    by_cases hc : wexpr.end_ = WindowBoundary.CURRENT_ROW_RANGE ∨
        wexpr.type = ExpressionType.WINDOW_CUME_DIST
    · rw [if_pos (Or.inr hc), hp2 hc (Nat.succ_pos r)]
      exact BinarySearchRightmost_succ_bounds input (input.GetRow r) r b.partition_end _ hgt
        (by omega) (LessThanEquals_refl _ _ _)
    · have hne : ¬ (input.ColumnCount = 0 ∨ wexpr.end_ = WindowBoundary.CURRENT_ROW_RANGE ∨
          wexpr.type = ExpressionType.WINDOW_CUME_DIST) := by
        rintro (h0 | h0)
        · omega
        · exact hc h0
      rw [if_neg hne, hp1 hc]
      rfl
  · have hcol0 : input.ColumnCount = 0 := by omega
    obtain ⟨-, -, h3⟩ := BoundariesAfter_no_columns _ _ _ _ _ _ _ hcol0 _ _ h
    obtain ⟨e1, e2⟩ := h3 (Nat.succ_pos r)
    rw [if_pos (Or.inl hcol0)]
    omega

/-- An instance of `boundaries_chain`: `cume_dist() OVER (ORDER BY x)` on the
sorted rows `1, 2, 2, 3`, after row `1`. -/
theorem boundaries_chain_witness :
    (0 : Nat) ≤ 1 ∧ 1 ≤ 1 ∧ 1 < 4 ∧ 4 ≤ 4 ∧ (1 < 3 ∧ 3 ≤ 4) :=
  boundaries_chain false
    (WindowOrderBy ExpressionType.WINDOW_CUME_DIST 0 OrderType.ASCENDING
      WindowBoundary.UNBOUNDED_PRECEDING WindowBoundary.CURRENT_ROW_RANGE 0 0 [])
    (IntStore [1, 2, 2, 3]) 4 ChunkCollection.empty ChunkCollection.empty [Value.BIGINT 1] 1
    { partition_start := 0, partition_end := 4, peer_start := 1, peer_end := 3
      window_start := 0, window_end := 3, is_same_partition := true, is_peer := false
      row_prev := [Value.BIGINT 2] }
    (by decide) (by decide) (by decide) (by decide) (by decide)

/-- C3, evaluated at a failing input: for `cume_dist() OVER (ORDER BY x DESC)`
on the rows `3, 2, 2, 1`, sorted descending as declared, the peer end after
row `0` is `4`, the end of the partition, although the peer group of row `0`
ends at `1`. -/
theorem peer_end_descending :
    StoreSorted
        (WindowOrderBy ExpressionType.WINDOW_CUME_DIST 0 OrderType.DESCENDING
          WindowBoundary.UNBOUNDED_PRECEDING WindowBoundary.CURRENT_ROW_RANGE 0 0 [])
        (IntStore [3, 2, 2, 1]) ∧
      (BoundariesAfter false
          (WindowOrderBy ExpressionType.WINDOW_CUME_DIST 0 OrderType.DESCENDING
            WindowBoundary.UNBOUNDED_PRECEDING WindowBoundary.CURRENT_ROW_RANGE 0 0 [])
          (IntStore [3, 2, 2, 1]) 4 ChunkCollection.empty ChunkCollection.empty
          (InitialBounds [Value.BIGINT 3]) 1).map (fun b => b.peer_end) = Except.ok 4 ∧
      EqualsSubsetLoop ((IntStore [3, 2, 2, 1]).GetRow 1) ((IntStore [3, 2, 2, 1]).GetRow 0) 0 1
        = false := by
  decide

/-! ## Lemmas: the frame bounds -/

theorem toInt64_range (x : Int) :
    -9223372036854775808 ≤ toInt64 x ∧ toInt64 x < 9223372036854775808 := by
  unfold toInt64
  omega

theorem toInt64_of_range (x : Int) (h1 : -9223372036854775808 ≤ x)
    (h2 : x < 9223372036854775808) : toInt64 x = x := by
  unfold toInt64
  omega

theorem GetValueInt64_range (v : Value) :
    -9223372036854775808 ≤ v.GetValueInt64 ∧ v.GetValueInt64 < 9223372036854775808 := by
  cases v with
  | NULL => simp [Value.GetValueInt64]
  | BIGINT v => exact toInt64_range v
  | DOUBLE q => exact toInt64_range _

theorem BoundaryOffset_range (c : ChunkCollection) (e : Option Expression) (r : Nat) :
    -9223372036854775808 ≤ BoundaryOffset c e r ∧ BoundaryOffset c e r < 9223372036854775808 :=
  GetValueInt64_range _

theorem ComputeWindowStart_range (assertions : Bool) (wexpr : BoundWindowExpression) (r : Nat)
    (bsc : ChunkCollection) (b : WindowBoundariesState) (ws : Int)
    (h : ComputeWindowStart assertions wexpr r bsc b = Except.ok ws) :
    -9223372036854775808 ≤ ws ∧ ws < 9223372036854775808 := by
  unfold ComputeWindowStart at h
  split at h
  all_goals first
    | (simp only [pure, Except.pure] at h
       injection h with h
       subst h
       exact toInt64_range _)
    | (rw [bind_eq_ok] at h
       obtain ⟨-, -, h⟩ := h
       simp only [pure, Except.pure] at h
       injection h with h
       subst h
       first
         | exact toInt64_range _
         | exact ⟨by decide, by decide⟩)
    | exact Except.noConfusion h

theorem ComputeWindowEnd_range (assertions : Bool) (wexpr : BoundWindowExpression) (r : Nat)
    (bec : ChunkCollection) (b : WindowBoundariesState) (we : Int)
    (h : ComputeWindowEnd assertions wexpr r bec b = Except.ok we) :
    -9223372036854775808 ≤ we ∧ we < 9223372036854775808 := by
  unfold ComputeWindowEnd at h
  split at h
  all_goals first
    | (simp only [pure, Except.pure] at h
       injection h with h
       subst h
       exact toInt64_range _)
    | (rw [bind_eq_ok] at h
       obtain ⟨-, -, h⟩ := h
       simp only [pure, Except.pure] at h
       injection h with h
       subst h
       first
         | exact toInt64_range _
         | exact ⟨by decide, by decide⟩)
    | exact Except.noConfusion h

theorem ComputeWindowStart_ok (assertions : Bool) (wexpr : BoundWindowExpression) (r : Nat)
    (bsc : ChunkCollection) (b : WindowBoundariesState) (h : ValidStart wexpr bsc = true) :
    ∃ ws, ComputeWindowStart assertions wexpr r bsc b = Except.ok ws := by
  unfold ValidStart at h
  unfold ComputeWindowStart
  split at h
  all_goals first
    | exact Bool.noConfusion h
    | (rename_i hk
       simp only [hk]
       first
         | exact ⟨_, rfl⟩
         | (simp only [decide_eq_true_eq] at h
            cases assertions <;> simp [D_ASSERT, h, bind, Except.bind, pure, Except.pure]))

theorem ComputeWindowEnd_ok (assertions : Bool) (wexpr : BoundWindowExpression) (r : Nat)
    (bec : ChunkCollection) (b : WindowBoundariesState) (h : ValidEnd wexpr bec = true) :
    ∃ we, ComputeWindowEnd assertions wexpr r bec b = Except.ok we := by
  unfold ValidEnd at h
  unfold ComputeWindowEnd
  split at h
  all_goals first
    | exact Bool.noConfusion h
    | (rename_i hk
       simp only [hk]
       first
         | exact ⟨_, rfl⟩
         | (simp only [decide_eq_true_eq] at h
            cases assertions <;> simp [D_ASSERT, h, bind, Except.bind, pure, Except.pure]))

/-- With partition bounds below `2^63` and a frame end in the `int64_t` range,
`ClampWindow` does not fail. -/
theorem ClampWindow_ok (b : WindowBoundariesState)
    (hps : b.partition_start < 9223372036854775808)
    (hpe : b.partition_end < 9223372036854775808)
    (hwe : -9223372036854775808 ≤ b.window_end ∧ b.window_end < 9223372036854775808) :
    ∃ b1, ClampWindow b = Except.ok b1 := by
  unfold ClampWindow
  have e1 : toInt64 b.partition_start = b.partition_start := toInt64_of_range _ (by omega) (by omega)
  have e2 : toInt64 b.partition_end = b.partition_end := toInt64_of_range _ (by omega) (by omega)
  have hidx : ¬ toIdx b.window_end > b.partition_end → 0 ≤ b.window_end := by
    unfold toIdx
    omega
  by_cases h1 : b.window_start < toInt64 b.partition_start <;>
    by_cases h2 : toIdx b.window_end > b.partition_end <;>
    simp only [h1, h2, if_true, if_false] <;>
    split <;>
    first
      | exact ⟨_, rfl⟩
      | (rename_i hneg
         simp only [Bool.or_eq_true, decide_eq_true_eq] at hneg
         have := hidx
         omega)

/-- The frame `ClampWindow` returns: the start is not below the partition
start, the end not above the partition end, and neither is negative. -/
theorem ClampWindow_frame (b b2 : WindowBoundariesState) (h : ClampWindow b = Except.ok b2)
    (hps : b.partition_start < 9223372036854775808)
    (hpe : b.partition_end < 9223372036854775808)
    (hwe : -9223372036854775808 ≤ b.window_end ∧ b.window_end < 9223372036854775808) :
    (b.partition_start : Int) ≤ b2.window_start ∧ 0 ≤ b2.window_end ∧
      b2.window_end ≤ b.partition_end := by
  obtain ⟨-, -, -, -, -, -, -, c8, c9, -, c11⟩ := ClampWindow_eq_ok _ _ h
  have e1 : toInt64 b.partition_start = b.partition_start :=
    toInt64_of_range _ (by omega) (by omega)
  have e2 : toInt64 b.partition_end = b.partition_end :=
    toInt64_of_range _ (by omega) (by omega)
  rw [e1] at c8
  rw [e2] at c9
  refine ⟨?_, c11, ?_⟩
  · by_cases h1 : b.window_start < (b.partition_start : Int)
    · rw [if_pos h1] at c8
      omega
    · rw [if_neg h1] at c8
      omega
  · by_cases h2 : toIdx b.window_end > b.partition_end
    · rw [if_pos h2] at c9
      omega
    · rw [if_neg h2] at c9
      rw [c9] at c11 ⊢
      have h3 : toIdx b.window_end = b.window_end.toNat := by
        unfold toIdx
        rw [Int.emod_eq_of_lt c11 (by omega)]
      rw [h3] at h2
      omega

/-- The clamped frame of a successful call of `UpdateWindowBoundaries`: the
start is not below the partition start, the end not above the partition end,
and neither is negative. -/
theorem UpdateWindowBoundaries_frame (assertions : Bool) (wexpr : BoundWindowExpression)
    (input : ChunkCollection) (input_size r : Nat) (bsc bec : ChunkCollection)
    (b b2 : WindowBoundariesState)
    (h : UpdateWindowBoundaries assertions wexpr input input_size r bsc bec b = Except.ok b2)
    (hps : b2.partition_start < 9223372036854775808)
    (hpe : b2.partition_end < 9223372036854775808) :
    (b2.partition_start : Int) ≤ b2.window_start ∧ 0 ≤ b2.window_end ∧
      b2.window_end ≤ b2.partition_end := by
  obtain ⟨b1, ws, we, -, -, hwe, hclamp⟩ := UpdateWindowBoundaries_eq_ok _ _ _ _ _ _ _ _ _ h
  obtain ⟨c1, c2, -⟩ := ClampWindow_eq_ok _ _ hclamp
  have hrange := ComputeWindowEnd_range _ _ _ _ _ _ hwe
  have := ClampWindow_frame _ _ hclamp (by rw [← c1]; exact hps) (by rw [← c2]; exact hpe) hrange
  rw [← c1, ← c2] at this
  exact this


theorem PartitionInv_bounds (wexpr : BoundWindowExpression) (input : ChunkCollection) (r : Nat)
    (b : WindowBoundariesState) (hinv : PartitionInv wexpr input r b) (hr : r < input.Count)
    (hcount : input.Count < 9223372036854775808) :
    b.partition_start ≤ b.peer_start ∧ b.peer_start ≤ r ∧ b.partition_start < b.partition_end ∧
      b.partition_end ≤ input.Count := by
  have := BinarySearchRightmost_succ_bounds input (input.GetRow b.partition_start)
    b.partition_start input.Count wexpr.partitions.length
    (by have := hinv.start_le_peer; have := hinv.peer_le_row; omega) hcount
    (LessThanEquals_refl _ _ _)
  rw [← hinv.partition_end_eq] at this
  exact ⟨hinv.start_le_peer, hinv.peer_le_row, this.1, this.2⟩

/-- With valid frame bounds and fewer than `2^63` rows `UpdateWindowBoundaries`
succeeds on every row in turn. -/
theorem BoundariesAfter_ok (assertions : Bool) (wexpr : BoundWindowExpression)
    (input : ChunkCollection) (input_size : Nat) (bsc bec : ChunkCollection)
    (row_prev : List Value)
    (hstart : ValidStart wexpr bsc = true) (hend : ValidEnd wexpr bec = true)
    (hsize : input.ColumnCount > 0 → input.Count = input_size)
    (hN : input_size < 9223372036854775808) (n : Nat) (hn : n ≤ input_size) :
    ∃ b, BoundariesAfter assertions wexpr input input_size bsc bec (InitialBounds row_prev) n
      = Except.ok b := by
  induction n with
  | zero => exact ⟨_, rfl⟩
  | succ n ih =>
    obtain ⟨b0, hb0⟩ := ih (by omega)
    obtain ⟨b1, hb1⟩ := UpdatePartitionAndPeer_ok assertions wexpr input input_size n b0
    obtain ⟨ws, hws⟩ := ComputeWindowStart_ok assertions wexpr n bsc b1 hstart
    obtain ⟨we, hwe⟩ := ComputeWindowEnd_ok assertions wexpr n bec b1 hend
    have hbounds : b1.partition_start < 9223372036854775808 ∧
        b1.partition_end < 9223372036854775808 := by
      by_cases hcol : input.ColumnCount > 0
      · obtain ⟨hpre, -, -⟩ := BoundariesAfter_columns _ _ _ _ _ _ _ hcol _ _ hb0
        obtain ⟨hinv, -⟩ := UpdatePartitionAndPeer_columns _ _ _ _ _ _ _ hcol hpre hb1
        have hcount := hsize hcol
        have := PartitionInv_bounds _ _ _ _ hinv (by omega) (by omega)
        omega
      · have hcol0 : input.ColumnCount = 0 := by omega
        obtain ⟨h1, -, -⟩ := BoundariesAfter_no_columns _ _ _ _ _ _ _ hcol0 _ _ hb0
        rw [UpdatePartitionAndPeer_no_columns _ _ _ _ _ _ hcol0] at hb1
        injection hb1 with hb1
        subst hb1
        simp only [InitialBounds] at h1
        simp only [h1]
        omega
    obtain ⟨b2, hb2⟩ := ClampWindow_ok { b1 with window_start := ws, window_end := we }
      hbounds.1 hbounds.2 (ComputeWindowEnd_range _ _ _ _ _ _ hwe)
    refine ⟨b2, ?_⟩
    simp only [BoundariesAfter, hb0, UpdateWindowBoundaries, hb1, hws, hwe, bind, Except.bind]
    exact hb2

/-- The main loop of `ComputeWindowExpression` carries the boundary state of
`BoundariesAfter`. -/
theorem ComputeWindowLoop_bounds (assertions : Bool) (wexpr : BoundWindowExpression)
    (input_size : Nat) (cols : WindowCollections) (output_idx : Nat) (init : WindowLoopState)
    (n : Nat) (st : WindowLoopState)
    (h : ComputeWindowLoop assertions wexpr input_size cols output_idx init n = Except.ok st) :
    BoundariesAfter assertions wexpr cols.sort_collection input_size
      cols.boundary_start_collection cols.boundary_end_collection init.bounds n
        = Except.ok st.bounds := by
  induction n generalizing st with
  | zero =>
    simp only [ComputeWindowLoop, pure, Except.pure] at h
    injection h with h
    subst h
    rfl
  | succ n ih =>
    simp only [ComputeWindowLoop] at h
    rw [bind_eq_ok] at h
    obtain ⟨st0, hst0, hrow⟩ := h
    have ih0 := ih st0 hst0
    unfold ComputeWindowRow at hrow
    rw [bind_eq_ok] at hrow
    obtain ⟨b, hb, hrest⟩ := hrow
    simp only [BoundariesAfter, ih0, bind, Except.bind, hb]
    split at hrest
    · simp only [pure, Except.pure] at hrest
      injection hrest with hrest
      subst hrest
      rfl
    · rw [bind_eq_ok] at hrest
      obtain ⟨res, -, hrest⟩ := hrest
      simp only [pure, Except.pure] at hrest
      injection hrest with hrest
      subst hrest
      rfl


/-! ## The frame after clamping (C9, C10) -/

/-- C9, as stated, fails: for the frame `ROWS BETWEEN 5 FOLLOWING AND CURRENT
ROW`, whose bound kinds are valid, on the one-row store `[1]` the state after
row `0` has `window_start = 5` and `window_end = 1`, so
`0 <= window_start <= window_end <= count` is broken. -/
theorem frame_ordered_counterexample :
    ValidStart
        (WindowOrderBy ExpressionType.WINDOW_AGGREGATE 0 OrderType.ASCENDING
          WindowBoundary.EXPR_FOLLOWING WindowBoundary.CURRENT_ROW_ROWS 5 0 [ColumnRef 0])
        (ConstantStore 5 1) = true ∧
      ValidEnd
        (WindowOrderBy ExpressionType.WINDOW_AGGREGATE 0 OrderType.ASCENDING
          WindowBoundary.EXPR_FOLLOWING WindowBoundary.CURRENT_ROW_ROWS 5 0 [ColumnRef 0])
        ChunkCollection.empty = true ∧
      (BoundariesAfter true
          (WindowOrderBy ExpressionType.WINDOW_AGGREGATE 0 OrderType.ASCENDING
            WindowBoundary.EXPR_FOLLOWING WindowBoundary.CURRENT_ROW_ROWS 5 0 [ColumnRef 0])
          (IntStore [1]) 1 (ConstantStore 5 1) ChunkCollection.empty
          (InitialBounds [Value.BIGINT 1]) 1).map
        (fun b => (b.window_start, b.window_end,
          decide (0 ≤ b.window_start ∧ b.window_start ≤ b.window_end ∧ b.window_end ≤ 1)))
        = Except.ok (5, 1, false) := by
  decide

/-- C9 (amended): for every input of fewer than `2^63` rows, every frame
specification with valid bound kinds and every row `r`, `UpdateWindowBoundaries`
succeeds on the rows `0..r` and afterwards
`0 <= partition_start <= window_start` and
`0 <= window_end <= partition_end <= count`.  (`window_start <= window_end` is
not part of it: a start beyond the end is the empty frame.) -/
theorem frame_clamped (assertions : Bool) (wexpr : BoundWindowExpression)
    (input : ChunkCollection) (input_size : Nat) (bsc bec : ChunkCollection)
    (row_prev : List Value) (r : Nat)
    (hstart : ValidStart wexpr bsc = true) (hend : ValidEnd wexpr bec = true)
    (hsize : input.ColumnCount > 0 → input.Count = input_size)
    (hN : input_size < 9223372036854775808) (hr : r < input_size) :
    ∃ b, BoundariesAfter assertions wexpr input input_size bsc bec (InitialBounds row_prev)
        (r + 1) = Except.ok b ∧
      0 ≤ b.window_start ∧ (b.partition_start : Int) ≤ b.window_start ∧
      0 ≤ b.window_end ∧ b.window_end ≤ b.partition_end ∧ b.partition_end ≤ input_size := by
  obtain ⟨b, hb⟩ := BoundariesAfter_ok assertions wexpr input input_size bsc bec row_prev
    hstart hend hsize hN (r + 1) (by omega)
  obtain ⟨h1, h2, h3, h4⟩ := BoundariesAfter_partition_bounds _ _ _ _ _ _ _ _ _ hsize hN hr hb
  obtain ⟨b0, -, hstep⟩ := BoundariesAfter_succ_eq_ok _ _ _ _ _ _ _ _ _ hb
  obtain ⟨f1, f2, f3⟩ := UpdateWindowBoundaries_frame _ _ _ _ _ _ _ _ _ hstep
    (by omega) (by omega)
  exact ⟨b, hb, by omega, f1, f2, f3, h4⟩

/-- An instance of `frame_clamped`: the frame `ROWS BETWEEN 5 FOLLOWING AND
CURRENT ROW` on the one-row store `[1]`, row `0`. -/
theorem frame_clamped_witness :
    ∃ b, BoundariesAfter true
        (WindowOrderBy ExpressionType.WINDOW_AGGREGATE 0 OrderType.ASCENDING
          WindowBoundary.EXPR_FOLLOWING WindowBoundary.CURRENT_ROW_ROWS 5 0 [ColumnRef 0])
        (IntStore [1]) 1 (ConstantStore 5 1) ChunkCollection.empty
        (InitialBounds [Value.BIGINT 1]) (0 + 1) = Except.ok b ∧
      0 ≤ b.window_start ∧ (b.partition_start : Int) ≤ b.window_start ∧
      0 ≤ b.window_end ∧ b.window_end ≤ b.partition_end ∧ b.partition_end ≤ 1 :=
  frame_clamped true
    (WindowOrderBy ExpressionType.WINDOW_AGGREGATE 0 OrderType.ASCENDING
      WindowBoundary.EXPR_FOLLOWING WindowBoundary.CURRENT_ROW_ROWS 5 0 [ColumnRef 0])
    (IntStore [1]) 1 (ConstantStore 5 1) ChunkCollection.empty [Value.BIGINT 1] 0
    (by decide) (by decide) (by decide) (by decide) (by decide)

/-- C10: for every input of fewer than `2^63` rows (sorted or not) and every row
`r` whose frame is not empty after clamping,
`partition_start <= window_start < window_end <= partition_end <= count`; hence
the arguments `lo`, `hi` of `segment_tree.Compute` satisfy `lo < hi <= N`, and
the payload rows `window_start` and `window_end - 1` read by FIRST_VALUE and
LAST_VALUE lie in `[partition_start, partition_end)`. -/
theorem nonempty_frame_in_partition (assertions : Bool) (wexpr : BoundWindowExpression)
    (input : ChunkCollection) (input_size : Nat) (bsc bec : ChunkCollection)
    (row_prev : List Value) (r : Nat) (b : WindowBoundariesState)
    (hsize : input.ColumnCount > 0 → input.Count = input_size)
    (hN : input_size < 9223372036854775808) (hr : r < input_size)
    (h : BoundariesAfter assertions wexpr input input_size bsc bec (InitialBounds row_prev)
      (r + 1) = Except.ok b)
    (hne : b.window_start < b.window_end) :
    ((b.partition_start : Int) ≤ b.window_start ∧ b.window_start < b.window_end ∧
        b.window_end ≤ b.partition_end ∧ b.partition_end ≤ input_size) ∧
      (toIdx b.window_start < toIdx b.window_end ∧ toIdx b.window_end ≤ input_size) ∧
      (b.partition_start ≤ toIdx b.window_start ∧ toIdx b.window_start < b.partition_end) ∧
      (b.partition_start ≤ toIdx (toInt64 (b.window_end - 1)) ∧
        toIdx (toInt64 (b.window_end - 1)) < b.partition_end) := by
  obtain ⟨h1, h2, h3, h4⟩ := BoundariesAfter_partition_bounds _ _ _ _ _ _ _ _ _ hsize hN hr h
  obtain ⟨b0, -, hstep⟩ := BoundariesAfter_succ_eq_ok _ _ _ _ _ _ _ _ _ h
  obtain ⟨f1, f2, f3⟩ := UpdateWindowBoundaries_frame _ _ _ _ _ _ _ _ _ hstep
    (by omega) (by omega)
  have hws0 : 0 ≤ b.window_start := by omega
  have e1 : toIdx b.window_start = b.window_start.toNat := by
    unfold toIdx
    rw [Int.emod_eq_of_lt hws0 (by omega)]
  have e2 : toIdx b.window_end = b.window_end.toNat := by
    unfold toIdx
    rw [Int.emod_eq_of_lt f2 (by omega)]
  have e3 : toInt64 (b.window_end - 1) = b.window_end - 1 :=
    toInt64_of_range _ (by omega) (by omega)
  have e4 : toIdx (b.window_end - 1) = (b.window_end - 1).toNat := by
    unfold toIdx
    rw [Int.emod_eq_of_lt (by omega) (by omega)]
  rw [e3, e4, e1, e2]
  omega

/-- An instance of `nonempty_frame_in_partition`: `sum(x)` with the frame `ROWS
BETWEEN 1 PRECEDING AND 1 FOLLOWING` on the rows `1, 2, 3`, row `1`, whose frame
is `[0, 3)`. -/
theorem nonempty_frame_in_partition_witness :
    (((0 : Nat) : Int) ≤ 0 ∧ (0 : Int) < 3 ∧ (3 : Int) ≤ (3 : Nat) ∧ 3 ≤ 3) ∧
      (toIdx 0 < toIdx 3 ∧ toIdx 3 ≤ 3) ∧ (0 ≤ toIdx 0 ∧ toIdx 0 < 3) ∧
      (0 ≤ toIdx (toInt64 (3 - 1)) ∧ toIdx (toInt64 (3 - 1)) < 3) :=
  nonempty_frame_in_partition true
    (WindowOrderBy ExpressionType.WINDOW_AGGREGATE 0 OrderType.ASCENDING
      WindowBoundary.EXPR_PRECEDING WindowBoundary.EXPR_FOLLOWING 1 1 [ColumnRef 0])
    (IntStore [1, 2, 3]) 3 (ConstantStore 1 3) (ConstantStore 1 3) [Value.BIGINT 1] 1
    { partition_start := 0, partition_end := 3, peer_start := 1, peer_end := 0
      window_start := 0, window_end := 3, is_same_partition := true, is_peer := false
      row_prev := [Value.BIGINT 2] }
    (by decide) (by decide) (by decide) (by decide) (by decide)


/-! ## The frame bounds by kind (C1, C4, C5) -/

theorem toInt64_toIdx_add (r : Nat) (off : Int) (hr : r < 9223372036854775808)
    (hoff : -9223372036854775808 ≤ off ∧ off < 9223372036854775808)
    (hS : -9223372036854775808 ≤ (r : Int) + off ∧ (r : Int) + off < 9223372036854775808) :
    toInt64 (toIdx ((r : Int) + toIdx off)) = (r : Int) + off := by
  unfold toIdx toInt64
  omega

/-- The start switch computes the bound of the specification whenever that
bound fits `int64_t`. -/
theorem ComputeWindowStart_eq (assertions : Bool) (wexpr : BoundWindowExpression) (r : Nat)
    (bsc : ChunkCollection) (b : WindowBoundariesState) (ws : Int)
    (h : ComputeWindowStart assertions wexpr r bsc b = Except.ok ws)
    (hkind : wexpr.start ≠ WindowBoundary.UNBOUNDED_FOLLOWING)
    (hr : r < 9223372036854775808) (hps : b.partition_start < 9223372036854775808)
    (hpeer : b.peer_start < 9223372036854775808)
    (hS : -9223372036854775808 ≤ SpecWindowStart wexpr bsc r b ∧
      SpecWindowStart wexpr bsc r b < 9223372036854775808) :
    ws = SpecWindowStart wexpr bsc r b := by
  have hoff := BoundaryOffset_range bsc wexpr.start_expr r
  unfold SpecWindowStart at hS ⊢
  unfold ComputeWindowStart at h
  cases hk : wexpr.start
  all_goals simp only [hk] at h hS ⊢
  · exact Except.noConfusion h
  · simp only [pure, Except.pure] at h
    have h := Except.ok.inj h
    rw [← h]
    exact toInt64_of_range _ (by omega) (by omega)
  · exact absurd hk hkind
  · simp only [pure, Except.pure] at h
    have h := Except.ok.inj h
    rw [← h]
    exact toInt64_of_range _ (by omega) (by omega)
  · simp only [pure, Except.pure] at h
    have h := Except.ok.inj h
    rw [← h]
    exact toInt64_of_range _ (by omega) (by omega)
  · rw [bind_eq_ok] at h
    obtain ⟨-, -, h⟩ := h
    simp only [pure, Except.pure] at h
    have h := Except.ok.inj h
    rw [← h, toInt64_of_range (r : Int) (by omega) (by omega)]
    exact toInt64_of_range _ hS.1 hS.2
  · rw [bind_eq_ok] at h
    obtain ⟨-, -, h⟩ := h
    simp only [pure, Except.pure] at h
    have h := Except.ok.inj h
    rw [← h]
    exact toInt64_toIdx_add r _ hr hoff hS

/-- C5, as stated, fails: for the frame start `9223372036854775807 FOLLOWING`
on the rows `1, 2`, at row `1` the start `S = 1 + (2^63 - 1) = 2^63` does not
fit `int64_t`; the stored value wraps to `-2^63` and is clamped to
`partition_start = 0`, which is not `max(partition_start, S)`. -/
theorem window_start_counterexample :
    (BoundariesAfter true
        (WindowOrderBy ExpressionType.WINDOW_AGGREGATE 0 OrderType.ASCENDING
          WindowBoundary.EXPR_FOLLOWING WindowBoundary.CURRENT_ROW_ROWS 9223372036854775807 0
          [ColumnRef 0])
        (IntStore [1, 2]) 2 (ConstantStore 9223372036854775807 2) ChunkCollection.empty
        (InitialBounds [Value.BIGINT 1]) 2).map
      (fun b => (b.window_start,
        max (b.partition_start : Int)
          (SpecWindowStart
            (WindowOrderBy ExpressionType.WINDOW_AGGREGATE 0 OrderType.ASCENDING
              WindowBoundary.EXPR_FOLLOWING WindowBoundary.CURRENT_ROW_ROWS 9223372036854775807 0
              [ColumnRef 0])
            (ConstantStore 9223372036854775807 2) 1 b)))
      = Except.ok (0, 9223372036854775808) := by
  decide

/-- C5 (amended): for every input of fewer than `2^63` rows, every row `r` and
every 64-bit offset for which the unclamped start `S` fits `int64_t`,
`window_start` after `UpdateWindowBoundaries` equals `max(partition_start, S)`,
where `S` is `partition_start`, `r`, `peer_start`, `r - offset_start` or
`r + offset_start` for the start kinds UNBOUNDED_PRECEDING, CURRENT_ROW_ROWS,
CURRENT_ROW_RANGE, EXPR_PRECEDING, EXPR_FOLLOWING; the offset is read at index
`0` when the start expression is scalar and at index `r` otherwise. -/
theorem window_start_eq_max (assertions : Bool) (wexpr : BoundWindowExpression)
    (input : ChunkCollection) (input_size : Nat) (bsc bec : ChunkCollection)
    (row_prev : List Value) (r : Nat) (b : WindowBoundariesState)
    (hsize : input.ColumnCount > 0 → input.Count = input_size)
    (hN : input_size < 9223372036854775808) (hr : r < input_size)
    (h : BoundariesAfter assertions wexpr input input_size bsc bec (InitialBounds row_prev)
      (r + 1) = Except.ok b)
    (hkind : wexpr.start ≠ WindowBoundary.UNBOUNDED_FOLLOWING)
    (hS : -9223372036854775808 ≤ SpecWindowStart wexpr bsc r b ∧
      SpecWindowStart wexpr bsc r b < 9223372036854775808) :
    b.window_start = max (b.partition_start : Int) (SpecWindowStart wexpr bsc r b) ∧
      ∀ e, wexpr.start_expr = some e →
        BoundaryOffset bsc wexpr.start_expr r =
          (bsc.GetValue 0 (if e.IsScalar then 0 else r)).GetValueInt64 := by
  refine ⟨?_, fun e he => by rw [he]; rfl⟩
  obtain ⟨h1, h2, h3, h4⟩ := BoundariesAfter_partition_bounds _ _ _ _ _ _ _ _ _ hsize hN hr h
  obtain ⟨b0, -, hstep⟩ := BoundariesAfter_succ_eq_ok _ _ _ _ _ _ _ _ _ h
  obtain ⟨b1, ws, we, -, hws, -, hclamp⟩ := UpdateWindowBoundaries_eq_ok _ _ _ _ _ _ _ _ _ hstep
  obtain ⟨c1, -, c3, -, -, -, -, c8, -⟩ := ClampWindow_eq_ok _ _ hclamp
  simp only at c1 c3 c8
  have hspec : SpecWindowStart wexpr bsc r b = SpecWindowStart wexpr bsc r b1 := by
    unfold SpecWindowStart
    rw [c1, c3]
  rw [hspec] at hS ⊢
  have hws' := ComputeWindowStart_eq assertions wexpr r bsc b1 ws hws hkind (by omega)
    (by omega) (by omega) hS
  rw [← hws', c8, ← c1, toInt64_of_range (b.partition_start : Int) (by omega) (by omega)]
  by_cases hlt : ws < (b.partition_start : Int)
  · rw [if_pos hlt, max_eq_left (le_of_lt hlt)]
  · rw [if_neg hlt, max_eq_right (not_lt.mp hlt)]

/-- An instance of `window_start_eq_max`: the frame `ROWS BETWEEN 1 PRECEDING
AND 1 FOLLOWING` on the rows `1, 2, 3`, row `1`, where
`window_start = max(0, 1 - 1) = 0`. -/
theorem window_start_eq_max_witness :
    (0 : Int) = max ((0 : Nat) : Int)
        (SpecWindowStart
          (WindowOrderBy ExpressionType.WINDOW_AGGREGATE 0 OrderType.ASCENDING
            WindowBoundary.EXPR_PRECEDING WindowBoundary.EXPR_FOLLOWING 1 1 [ColumnRef 0])
          (ConstantStore 1 3) 1
          { partition_start := 0, partition_end := 3, peer_start := 1, peer_end := 0
            window_start := 0, window_end := 3, is_same_partition := true, is_peer := false
            row_prev := [Value.BIGINT 2] }) ∧
      ∀ e, (WindowOrderBy ExpressionType.WINDOW_AGGREGATE 0 OrderType.ASCENDING
            WindowBoundary.EXPR_PRECEDING WindowBoundary.EXPR_FOLLOWING 1 1
            [ColumnRef 0]).start_expr = some e →
        BoundaryOffset (ConstantStore 1 3)
            (WindowOrderBy ExpressionType.WINDOW_AGGREGATE 0 OrderType.ASCENDING
              WindowBoundary.EXPR_PRECEDING WindowBoundary.EXPR_FOLLOWING 1 1
              [ColumnRef 0]).start_expr 1 =
          ((ConstantStore 1 3).GetValue 0 (if e.IsScalar then 0 else 1)).GetValueInt64 :=
  window_start_eq_max true
    (WindowOrderBy ExpressionType.WINDOW_AGGREGATE 0 OrderType.ASCENDING
      WindowBoundary.EXPR_PRECEDING WindowBoundary.EXPR_FOLLOWING 1 1 [ColumnRef 0])
    (IntStore [1, 2, 3]) 3 (ConstantStore 1 3) (ConstantStore 1 3) [Value.BIGINT 1] 1
    { partition_start := 0, partition_end := 3, peer_start := 1, peer_end := 0
      window_start := 0, window_end := 3, is_same_partition := true, is_peer := false
      row_prev := [Value.BIGINT 2] }
    (by decide) (by decide) (by decide) (by decide) (by decide) (by decide)

/-- C4, evaluated at a failing input: for the frame `ROWS BETWEEN 3 PRECEDING
AND 2 PRECEDING` on the rows `1, 2`, at row `0` the unclamped end is
`E = 0 - 2 + 1 = -1`, so `min(partition_end, E) = -1`, but the code leaves
`window_end = 2 = partition_end`: the clamp compares `(idx_t)window_end`, which
for `-1` is `2^64 - 1`. -/
theorem window_end_negative :
    (BoundariesAfter true
        (WindowOrderBy ExpressionType.WINDOW_AGGREGATE 0 OrderType.ASCENDING
          WindowBoundary.EXPR_PRECEDING WindowBoundary.EXPR_PRECEDING 3 2 [ColumnRef 0])
        (IntStore [1, 2]) 2 (ConstantStore 3 2) (ConstantStore 2 2)
        (InitialBounds [Value.BIGINT 1]) 1).map
      (fun b => (b.window_end,
        min (b.partition_end : Int)
          (SpecWindowEnd
            (WindowOrderBy ExpressionType.WINDOW_AGGREGATE 0 OrderType.ASCENDING
              WindowBoundary.EXPR_PRECEDING WindowBoundary.EXPR_PRECEDING 3 2 [ColumnRef 0])
            (ConstantStore 2 2) 0 b)))
      = Except.ok (2, -1) := by
  decide

/-- C1, evaluated at a failing input: `sum(x) OVER (ORDER BY x ROWS BETWEEN 3
PRECEDING AND 2 PRECEDING)` over the rows `1, 2` yields `[3, NULL]`, with or
without assertions: at row `0` the frame lies wholly before the partition, yet
the negative end `-1` is replaced by `partition_end` and the sum is taken over
`[0, 2)`. -/
theorem empty_frame_sum :
    (Finalize false
        [WindowOrderBy ExpressionType.WINDOW_AGGREGATE 0 OrderType.ASCENDING
          WindowBoundary.EXPR_PRECEDING WindowBoundary.EXPR_PRECEDING 3 2 [ColumnRef 0]]
        { chunks := IntStore [1, 2], window_results := ChunkCollection.empty }).map
      (fun g => (g.chunks.rows, g.window_results.rows))
      = Except.ok ([[Value.BIGINT 1], [Value.BIGINT 2]], [[Value.BIGINT 3], [Value.NULL]]) ∧
    (Finalize true
        [WindowOrderBy ExpressionType.WINDOW_AGGREGATE 0 OrderType.ASCENDING
          WindowBoundary.EXPR_PRECEDING WindowBoundary.EXPR_PRECEDING 3 2 [ColumnRef 0]]
        { chunks := IntStore [1, 2], window_results := ChunkCollection.empty }).map
      (fun g => (g.chunks.rows, g.window_results.rows))
      = Except.ok ([[Value.BIGINT 1], [Value.BIGINT 2]], [[Value.BIGINT 3], [Value.NULL]]) := by
  decide


/-! ## Errors of `UpdateWindowBoundaries` and of NTILE (C6, C7) -/

theorem D_ASSERT_cases (assertions cond : Bool) :
    D_ASSERT assertions cond = Except.ok () ∨
      D_ASSERT assertions cond = Except.error Error.AssertionFailed := by
  cases assertions <;> cases cond <;> simp [D_ASSERT]

theorem D_ASSERT_false (cond : Bool) : D_ASSERT false cond = Except.ok () := rfl

theorem D_ASSERT_true_false : D_ASSERT true false = Except.error Error.AssertionFailed := rfl

/-- A bind whose first part is an assertion does not end with the
unsupported-boundary error unless its second part does. -/
theorem D_ASSERT_bind_unsupported {α : Type} (assertions cond : Bool) (f : Except Error α) :
    (D_ASSERT assertions cond >>= fun _ => f) = Except.error Error.UnsupportedBoundary →
      f = Except.error Error.UnsupportedBoundary := by
  rcases D_ASSERT_cases assertions cond with h | h <;> rw [h]
  · exact id
  · intro h'
    simp only [bind, Except.bind] at h'
    injection h' with h'
    exact Error.noConfusion h'

theorem ComputeWindowStart_unsupported_iff (assertions : Bool) (wexpr : BoundWindowExpression)
    (r : Nat) (bsc : ChunkCollection) (b : WindowBoundariesState) :
    ComputeWindowStart assertions wexpr r bsc b = Except.error Error.UnsupportedBoundary ↔
      wexpr.start = WindowBoundary.INVALID := by
  unfold ComputeWindowStart
  constructor
  · intro h
    split at h
    all_goals first
      | assumption
      | exact Except.noConfusion h
      | exact Except.noConfusion (D_ASSERT_bind_unsupported _ _ _ h)
  · intro h
    rw [h]
    rfl

theorem ComputeWindowEnd_unsupported_iff (assertions : Bool) (wexpr : BoundWindowExpression)
    (r : Nat) (bec : ChunkCollection) (b : WindowBoundariesState) :
    ComputeWindowEnd assertions wexpr r bec b = Except.error Error.UnsupportedBoundary ↔
      wexpr.end_ = WindowBoundary.INVALID := by
  unfold ComputeWindowEnd
  constructor
  · intro h
    split at h
    all_goals first
      | assumption
      | exact Except.noConfusion h
      | exact Except.noConfusion (D_ASSERT_bind_unsupported _ _ _ h)
  · intro h
    rw [h]
    rfl

theorem ClampWindow_ne_unsupported (b : WindowBoundariesState) :
    ClampWindow b ≠ Except.error Error.UnsupportedBoundary := by
  intro h
  unfold ClampWindow at h
  by_cases h1 : b.window_start < toInt64 b.partition_start <;>
    by_cases h2 : toIdx b.window_end > b.partition_end <;>
    simp only [h1, h2, if_true, if_false] at h <;>
    split at h <;>
    first
      | exact Except.noConfusion h
      | (injection h with h
         exact Error.noConfusion h)

theorem bind_eq_error {α β : Type} (x : Except Error α) (f : α → Except Error β) (e : Error) :
    (x >>= f) = Except.error e ↔
      x = Except.error e ∨ ∃ a, x = Except.ok a ∧ f a = Except.error e := by
  cases x with
  | error e' => simp [bind, Except.bind]
  | ok a => simp [bind, Except.bind]

/-- The start switch passes exactly when the kind is listed and, under
assertions, is valid with its offset materialised. -/
theorem ComputeWindowStart_ok_iff (assertions : Bool) (wexpr : BoundWindowExpression)
    (r : Nat) (bsc : ChunkCollection) (b : WindowBoundariesState) :
    (∃ ws, ComputeWindowStart assertions wexpr r bsc b = Except.ok ws) ↔
      wexpr.start ≠ WindowBoundary.INVALID ∧ (assertions = true → ValidStart wexpr bsc = true) := by
  unfold ComputeWindowStart ValidStart
  cases hk : wexpr.start <;> cases assertions <;>
    simp [D_ASSERT, bind, Except.bind, pure, Except.pure, throw, throwThe, MonadExceptOf.throw]
  all_goals
    by_cases hc : bsc.ColumnCount = 0
    · simp [hc]
    · simp [hc]
      omega

/-- C6, as stated, fails: for the frame start `UNBOUNDED_FOLLOWING` and end
`UNBOUNDED_PRECEDING` on the one-row store `[1]`, a build without assertions
raises no error and writes the result `sum = 1`, and a build with assertions
fails with an assertion failure, not with the unsupported-boundary error. -/
theorem unsupported_boundary_counterexample :
    (Finalize false
        [WindowOrderBy ExpressionType.WINDOW_AGGREGATE 0 OrderType.ASCENDING
          WindowBoundary.UNBOUNDED_FOLLOWING WindowBoundary.UNBOUNDED_PRECEDING 0 0 [ColumnRef 0]]
        { chunks := IntStore [1], window_results := ChunkCollection.empty }).map
      (fun g => g.window_results.rows) = Except.ok [[Value.BIGINT 1]] ∧
    (Finalize true
        [WindowOrderBy ExpressionType.WINDOW_AGGREGATE 0 OrderType.ASCENDING
          WindowBoundary.UNBOUNDED_FOLLOWING WindowBoundary.UNBOUNDED_PRECEDING 0 0 [ColumnRef 0]]
        { chunks := IntStore [1], window_results := ChunkCollection.empty }).map
      (fun g => g.window_results.rows) = Except.error Error.AssertionFailed := by
  decide

/-- C6 (amended): `UpdateWindowBoundaries` fails with the unsupported-boundary
error exactly when the start bound is a kind its switch does not list, or the
end bound is such a kind and the start switch has passed; so for the six listed
kinds it never raises that error.  For a start `UNBOUNDED_FOLLOWING` or an end
`UNBOUNDED_PRECEDING` the code only asserts: with assertions the call fails
with an assertion failure, without them it goes on with the bound `-1`. -/
theorem unsupported_boundary_iff (assertions : Bool) (wexpr : BoundWindowExpression)
    (input : ChunkCollection) (input_size r : Nat) (bsc bec : ChunkCollection)
    (b : WindowBoundariesState) :
    (UpdateWindowBoundaries assertions wexpr input input_size r bsc bec b
        = Except.error Error.UnsupportedBoundary ↔
      wexpr.start = WindowBoundary.INVALID ∨
        (wexpr.end_ = WindowBoundary.INVALID ∧
          (assertions = true → ValidStart wexpr bsc = true))) ∧
    (assertions = true →
      (wexpr.start = WindowBoundary.UNBOUNDED_FOLLOWING ∨
        (ValidStart wexpr bsc = true ∧ wexpr.end_ = WindowBoundary.UNBOUNDED_PRECEDING)) →
      UpdateWindowBoundaries assertions wexpr input input_size r bsc bec b
        = Except.error Error.AssertionFailed) := by
  obtain ⟨b1, hb1⟩ := UpdatePartitionAndPeer_ok assertions wexpr input input_size r b
  have hbind : ∀ (x : Except Error WindowBoundariesState), x = Except.ok b1 →
      ∀ f : WindowBoundariesState → Except Error WindowBoundariesState, (x >>= f) = f b1 := by
    intro x hx f
    rw [hx]
    rfl
  have hunfold : UpdateWindowBoundaries assertions wexpr input input_size r bsc bec b =
      (ComputeWindowStart assertions wexpr r bsc b1 >>= fun ws =>
        ComputeWindowEnd assertions wexpr r bec b1 >>= fun we =>
          ClampWindow { b1 with window_start := ws, window_end := we }) := by
    unfold UpdateWindowBoundaries
    rw [hbind _ hb1]
  rw [hunfold]
  constructor
  · constructor
    · intro h
      rw [bind_eq_error] at h
      rcases h with h | ⟨ws, hws, h⟩
      · exact Or.inl ((ComputeWindowStart_unsupported_iff _ _ _ _ _).mp h)
      · right
        rw [bind_eq_error] at h
        rcases h with h | ⟨we, -, h⟩
        · exact ⟨(ComputeWindowEnd_unsupported_iff _ _ _ _ _).mp h,
            ((ComputeWindowStart_ok_iff _ _ _ _ _).mp ⟨ws, hws⟩).2⟩
        · exact absurd h (ClampWindow_ne_unsupported _)
    · intro h
      rw [bind_eq_error]
      by_cases hs : wexpr.start = WindowBoundary.INVALID
      · exact Or.inl ((ComputeWindowStart_unsupported_iff _ _ _ _ _).mpr hs)
      · rcases h with h | ⟨he, hv⟩
        · exact absurd h hs
        · obtain ⟨ws, hws⟩ := (ComputeWindowStart_ok_iff assertions wexpr r bsc b1).mpr ⟨hs, hv⟩
          refine Or.inr ⟨ws, hws, ?_⟩
          rw [bind_eq_error]
          exact Or.inl ((ComputeWindowEnd_unsupported_iff _ _ _ _ _).mpr he)
  · intro ha h
    subst ha
    rw [bind_eq_error]
    rcases h with h | ⟨hv, he⟩
    · left
      unfold ComputeWindowStart
      rw [h]
      rfl
    · obtain ⟨ws, hws⟩ := ComputeWindowStart_ok true wexpr r bsc b1 hv
      refine Or.inr ⟨ws, hws, ?_⟩
      rw [bind_eq_error]
      left
      unfold ComputeWindowEnd
      rw [he]
      rfl

/-- C7, evaluated at failing inputs: `ntile(-1) OVER (ORDER BY x)` on the rows
`1, 2, 3` raises no error in a build without assertions and writes `1` for
every row, breaking the assertion `result_ntile <= n_param` of the code itself
(a build with assertions stops there); `ntile(0)` divides by zero.  The missing
parameter is reported as the claim says. -/
theorem ntile_nonpositive :
    (Finalize false
        [WindowOrderBy ExpressionType.WINDOW_NTILE 0 OrderType.ASCENDING
          WindowBoundary.UNBOUNDED_PRECEDING WindowBoundary.CURRENT_ROW_RANGE 0 0 [Constant (-1)]]
        { chunks := IntStore [1, 2, 3], window_results := ChunkCollection.empty }).map
      (fun g => g.window_results.rows)
      = Except.ok [[Value.BIGINT 1], [Value.BIGINT 1], [Value.BIGINT 1]] ∧
    (Finalize true
        [WindowOrderBy ExpressionType.WINDOW_NTILE 0 OrderType.ASCENDING
          WindowBoundary.UNBOUNDED_PRECEDING WindowBoundary.CURRENT_ROW_RANGE 0 0 [Constant (-1)]]
        { chunks := IntStore [1, 2, 3], window_results := ChunkCollection.empty }).map
      (fun g => g.window_results.rows) = Except.error Error.AssertionFailed ∧
    (Finalize false
        [WindowOrderBy ExpressionType.WINDOW_NTILE 0 OrderType.ASCENDING
          WindowBoundary.UNBOUNDED_PRECEDING WindowBoundary.CURRENT_ROW_RANGE 0 0 [Constant 0]]
        { chunks := IntStore [1, 2, 3], window_results := ChunkCollection.empty }).map
      (fun g => g.window_results.rows) = Except.error Error.DivisionByZero ∧
    (Finalize false
        [WindowOrderBy ExpressionType.WINDOW_NTILE 0 OrderType.ASCENDING
          WindowBoundary.UNBOUNDED_PRECEDING WindowBoundary.CURRENT_ROW_RANGE 0 0 []]
        { chunks := IntStore [1, 2, 3], window_results := ChunkCollection.empty }).map
      (fun g => g.window_results.rows) = Except.error Error.NtileNeedsParameter := by
  decide


/-! ## Lemmas: the sort facility -/

theorem ValueBefore_asymm (key : OrderType × OrderByNullType) (a b : Value)
    (h : ValueBefore key a b = true) : ValueBefore key b a = false := by
  obtain ⟨t, n⟩ := key
  unfold ValueBefore at *
  cases ha : a.toRat? <;> cases hb : b.toRat? <;> cases t <;> cases n <;> simp_all <;>
    exact le_of_lt h

theorem ValueBefore_cotrans (key : OrderType × OrderByNullType) (a b c : Value)
    (h : ValueBefore key a b = true) :
    ValueBefore key a c = true ∨ ValueBefore key c b = true := by
  obtain ⟨t, n⟩ := key
  unfold ValueBefore at *
  cases ha : a.toRat? <;> cases hb : b.toRat? <;> cases hc : c.toRat? <;> cases t <;> cases n <;>
    simp_all <;>
    (by_contra hcon
     simp only [not_or, not_lt] at hcon
     obtain ⟨h1, h2⟩ := hcon
     linarith)

theorem RowLessEq_total (keys : List (OrderType × OrderByNullType)) (i : Nat) (a b : List Value) :
    RowLessEq keys i a b = true ∨ RowLessEq keys i b a = true := by
  induction keys generalizing i with
  | nil => exact Or.inl rfl
  | cons key keys ih =>
    simp only [RowLessEq]
    cases h1 : ValueBefore key (at_ a i) (at_ b i) <;>
      cases h2 : ValueBefore key (at_ b i) (at_ a i) <;> simp
    exact ih (i + 1)

theorem RowLessEq_trans (keys : List (OrderType × OrderByNullType)) (i : Nat) (a b c : List Value)
    (hab : RowLessEq keys i a b = true) (hbc : RowLessEq keys i b c = true) :
    RowLessEq keys i a c = true := by
  induction keys generalizing i with
  | nil => rfl
  | cons key keys ih =>
    simp only [RowLessEq] at hab hbc ⊢
    cases hab1 : ValueBefore key (at_ a i) (at_ b i) with
    | true =>
      rcases ValueBefore_cotrans key _ _ (at_ c i) hab1 with h | h
      · simp [h]
      · have := ValueBefore_asymm key _ _ h
        simp [h, this] at hbc
    | false =>
      cases hba : ValueBefore key (at_ b i) (at_ a i) with
      | true => simp [hab1, hba] at hab
      | false =>
        simp only [hab1, hba] at hab
        cases hbc1 : ValueBefore key (at_ b i) (at_ c i) with
        | true =>
          rcases ValueBefore_cotrans key _ _ (at_ a i) hbc1 with h | h
          · simp [h] at hba
          · simp [h]
        | false =>
          cases hcb : ValueBefore key (at_ c i) (at_ b i) with
          | true => simp [hbc1, hcb] at hbc
          | false =>
            simp only [hbc1, hcb] at hbc
            have hac : ValueBefore key (at_ a i) (at_ c i) = false := by
              cases h : ValueBefore key (at_ a i) (at_ c i) with
              | false => rfl
              | true =>
                rcases ValueBefore_cotrans key _ _ (at_ b i) h with h' | h'
                · simp [h'] at hab1
                · simp [h'] at hbc1
            have hca : ValueBefore key (at_ c i) (at_ a i) = false := by
              cases h : ValueBefore key (at_ c i) (at_ a i) with
              | false => rfl
              | true =>
                rcases ValueBefore_cotrans key _ _ (at_ b i) h with h' | h'
                · simp [h'] at hcb
                · simp [h'] at hba
            simp only [hac, hca]
            exact ih (i + 1) (by simpa using hab) (by simpa using hbc)

/-- The permutation of the sort facility lists the rows in the declared
order. -/
theorem SortIndices_sorted (c : ChunkCollection) (orders : List OrderType)
    (null_order_types : List OrderByNullType) :
    List.Pairwise
      (fun i j => RowLessEq (orders.zip null_order_types) 0 (c.GetRow i) (c.GetRow j) = true)
      (SortIndices c orders null_order_types) := by
  unfold SortIndices
  haveI : IsTotal Nat
      (fun i j => RowLessEq (orders.zip null_order_types) 0 (c.GetRow i) (c.GetRow j) = true) :=
    ⟨fun i j => RowLessEq_total _ _ _ _⟩
  haveI : IsTrans Nat
      (fun i j => RowLessEq (orders.zip null_order_types) 0 (c.GetRow i) (c.GetRow j) = true) :=
    ⟨fun i j k => RowLessEq_trans _ _ _ _ _⟩
  exact List.sorted_insertionSort _ _

theorem SortIndices_mem (c : ChunkCollection) (orders : List OrderType)
    (null_order_types : List OrderByNullType) (i : Nat)
    (h : i ∈ SortIndices c orders null_order_types) : i < c.Count := by
  unfold SortIndices at h
  have := (List.perm_insertionSort _ _).mem_iff.mp h
  simpa using this


/-! ## The row order after `Finalize` (C8) -/

/-- The sort-key store `SortCollectionForWindow` builds and sorts by. -/
theorem SortCollectionForWindow_input (assertions : Bool) (wexpr : BoundWindowExpression)
    (input output : ChunkCollection) (s : SortedCollections)
    (h : SortCollectionForWindow assertions wexpr input output ChunkCollection.empty
      = Except.ok s) :
    s.input = input.Reorder
      (SortIndices
        (ChunkCollection.empty.Append
          { types := (wexpr.partitions ++ wexpr.orders.map (fun o => o.expression)).length
            rows := input.rows.map (KeyRow wexpr) })
        (SortOrders wexpr) (SortNullOrders wexpr)) := by
  unfold SortCollectionForWindow at h
  rw [bind_eq_ok] at h
  obtain ⟨-, -, h⟩ := h
  rw [bind_eq_ok] at h
  obtain ⟨-, -, h⟩ := h
  simp only [pure, Except.pure] at h
  have h := Except.ok.inj h
  rw [← h]
  rfl

/-- After `Reorder` by the permutation of the sort facility the input is in the
sort order of the keys. -/
theorem Reorder_sorted (wexpr : BoundWindowExpression) (input : ChunkCollection) (types : Nat) :
    InputSortedFor wexpr
      (input.Reorder
        (SortIndices
          (ChunkCollection.empty.Append { types := types, rows := input.rows.map (KeyRow wexpr) })
          (SortOrders wexpr) (SortNullOrders wexpr))) := by
  unfold InputSortedFor ChunkCollection.Reorder
  simp only
  rw [List.pairwise_map]
  refine List.Pairwise.imp_of_mem ?_ (SortIndices_sorted _ _ _)
  intro i j hi hj hij
  have hi' := SortIndices_mem _ _ _ _ hi
  have hj' := SortIndices_mem _ _ _ _ hj
  have hrow : ∀ k, k < (ChunkCollection.empty.Append
        { types := types, rows := input.rows.map (KeyRow wexpr) }).Count →
      (ChunkCollection.empty.Append
        { types := types, rows := input.rows.map (KeyRow wexpr) }).GetRow k
        = KeyRow wexpr (input.GetRow k) := by
    intro k hk
    unfold ChunkCollection.Append ChunkCollection.Count at hk
    unfold ChunkCollection.Append ChunkCollection.GetRow
    by_cases he : (input.rows.map (KeyRow wexpr)).isEmpty = true
    · simp only [he, if_true] at hk
      exact absurd hk (Nat.not_lt_zero _)
    · simp only [he] at hk ⊢
      simp only [ChunkCollection.empty, List.nil_append, List.length_map] at hk ⊢
      have hk' : k < input.rows.length := by simpa using hk
      simp [List.getD_eq_getElem, hk']
  rw [hrow i hi', hrow j hj'] at hij
  exact hij

/-- The input store `ComputeWindowExpression` leaves: sorted by the keys of the
window expression when it has any, untouched otherwise. -/
theorem ComputeWindowExpression_input (assertions : Bool) (wexpr : BoundWindowExpression)
    (input output : ChunkCollection) (output_idx : Nat) (s : WindowStores)
    (h : ComputeWindowExpression assertions wexpr input output output_idx = Except.ok s) :
    (HasKeys wexpr = true → InputSortedFor wexpr s.input) ∧
      (HasKeys wexpr = false → s.input = input) := by
  unfold ComputeWindowExpression at h
  simp only [] at h
  rw [bind_eq_ok] at h
  obtain ⟨sorted, hsorted, h⟩ := h
  rw [bind_eq_ok] at h
  obtain ⟨st, -, h⟩ := h
  simp only [pure, Except.pure] at h
  have h := Except.ok.inj h
  rw [← h]
  simp only
  constructor
  · intro hk
    unfold HasKeys at hk
    rw [hk, if_pos rfl] at hsorted
    rw [SortCollectionForWindow_input _ _ _ _ _ hsorted]
    exact Reorder_sorted _ _ _
  · intro hk
    unfold HasKeys at hk
    rw [hk] at hsorted
    simp only [pure, Except.pure] at hsorted
    have hsorted := Except.ok.inj hsorted
    rw [← hsorted]

theorem FinalizeLoop_no_keys (assertions : Bool) (post : List BoundWindowExpression) (idx : Nat)
    (stores stores1 : WindowStores)
    (h : FinalizeLoop assertions post idx stores = Except.ok stores1)
    (hpost : ∀ w ∈ post, HasKeys w = false) : stores1.input = stores.input := by
  induction post generalizing idx stores with
  | nil =>
    simp only [FinalizeLoop, pure, Except.pure] at h
    have h := Except.ok.inj h
    rw [h]
  | cons w post ih =>
    simp only [FinalizeLoop] at h
    rw [bind_eq_ok] at h
    obtain ⟨s, hs, h⟩ := h
    rw [ih _ _ h (fun w' hw' => hpost w' (List.mem_cons_of_mem _ hw'))]
    exact (ComputeWindowExpression_input _ _ _ _ _ _ hs).2 (hpost w (List.mem_cons_self _ _))

theorem FinalizeLoop_sorted (assertions : Bool) (pre : List BoundWindowExpression)
    (w : BoundWindowExpression) (post : List BoundWindowExpression) (idx : Nat)
    (stores stores1 : WindowStores)
    (h : FinalizeLoop assertions (pre ++ w :: post) idx stores = Except.ok stores1)
    (hw : HasKeys w = true) (hpost : ∀ w' ∈ post, HasKeys w' = false) :
    InputSortedFor w stores1.input := by
  induction pre generalizing idx stores with
  | nil =>
    simp only [List.nil_append, FinalizeLoop] at h
    rw [bind_eq_ok] at h
    obtain ⟨s, hs, h⟩ := h
    rw [FinalizeLoop_no_keys _ _ _ _ _ h hpost]
    exact (ComputeWindowExpression_input _ _ _ _ _ _ hs).1 hw
  | cons v pre ih =>
    simp only [List.cons_append, FinalizeLoop] at h
    rw [bind_eq_ok] at h
    obtain ⟨s, -, h⟩ := h
    exact ih _ _ h

/-- C8, as stated, fails: for the select list `row_number() OVER (ORDER BY a)`,
`row_number() OVER (ORDER BY b)` on the rows `(1, 2), (2, 1)` the input store
after `Finalize` is `(2, 1), (1, 2)`, the sort order of the second, last
expression; it is not sorted by the keys of the first one. -/
theorem finalize_order_counterexample :
    (Finalize false
        [WindowOrderBy ExpressionType.WINDOW_ROW_NUMBER 0 OrderType.ASCENDING
           WindowBoundary.UNBOUNDED_PRECEDING WindowBoundary.CURRENT_ROW_ROWS 0 0 [],
         WindowOrderBy ExpressionType.WINDOW_ROW_NUMBER 1 OrderType.ASCENDING
           WindowBoundary.UNBOUNDED_PRECEDING WindowBoundary.CURRENT_ROW_ROWS 0 0 []]
        { chunks := { types := 2, rows := [[Value.BIGINT 1, Value.BIGINT 2],
                                           [Value.BIGINT 2, Value.BIGINT 1]] }
          window_results := ChunkCollection.empty }).map
      (fun g => (g.chunks.rows,
        decide (InputSortedFor
          (WindowOrderBy ExpressionType.WINDOW_ROW_NUMBER 0 OrderType.ASCENDING
            WindowBoundary.UNBOUNDED_PRECEDING WindowBoundary.CURRENT_ROW_ROWS 0 0 [])
          g.chunks)))
      = Except.ok ([[Value.BIGINT 2, Value.BIGINT 1], [Value.BIGINT 1, Value.BIGINT 2]], false) := by
  decide

/-! ## Lemmas: one round of the main loop -/

/-- A successful round of the main loop: the boundaries are updated, then the
rank counters, and the row gets NULL for an empty frame and the value of the
switch otherwise. -/
theorem ComputeWindowRow_eq_ok (assertions : Bool) (wexpr : BoundWindowExpression)
    (input_size : Nat) (cols : WindowCollections) (output_idx r : Nat)
    (st st1 : WindowLoopState)
    (h : ComputeWindowRow assertions wexpr input_size cols output_idx r st = Except.ok st1) :
    UpdateWindowBoundaries assertions wexpr cols.sort_collection input_size r
        cols.boundary_start_collection cols.boundary_end_collection st.bounds
        = Except.ok st1.bounds ∧
      st1.ranks = UpdateRank wexpr r st1.bounds st.ranks ∧
      ((st1.bounds.window_start ≥ st1.bounds.window_end ∧
          st1.output = st.output.SetValue output_idx r Value.NULL) ∨
        (st1.bounds.window_start < st1.bounds.window_end ∧
          ∃ res, ComputeWindowValue assertions wexpr cols.payload_collection
              cols.leadlag_offset_collection cols.leadlag_default_collection r st1.bounds
              st1.ranks = Except.ok res ∧
            st1.output = st.output.SetValue output_idx r res)) := by
  unfold ComputeWindowRow at h
  rw [bind_eq_ok] at h
  obtain ⟨b, hb, h⟩ := h
  simp only [] at h
  split at h
  · rename_i hempty
    simp only [pure, Except.pure] at h
    have h := Except.ok.inj h
    subst h
    exact ⟨hb, rfl, Or.inl ⟨hempty, rfl⟩⟩
  · rename_i hne
    rw [bind_eq_ok] at h
    obtain ⟨res, hres, h⟩ := h
    simp only [pure, Except.pure] at h
    have h := Except.ok.inj h
    subst h
    exact ⟨hb, rfl, Or.inr ⟨lt_of_not_ge hne, res, hres, rfl⟩⟩

theorem ComputeWindowLoop_succ_eq_ok (assertions : Bool) (wexpr : BoundWindowExpression)
    (input_size : Nat) (cols : WindowCollections) (output_idx : Nat) (init : WindowLoopState)
    (n : Nat) (st1 : WindowLoopState)
    (h : ComputeWindowLoop assertions wexpr input_size cols output_idx init (n + 1)
      = Except.ok st1) :
    ∃ st, ComputeWindowLoop assertions wexpr input_size cols output_idx init n = Except.ok st ∧
      ComputeWindowRow assertions wexpr input_size cols output_idx n st = Except.ok st1 := by
  simp only [ComputeWindowLoop] at h
  rw [bind_eq_ok] at h
  exact h

/-! ## The empty frame (C11) -/

/-- C11: for every window function kind and every row `r` on which
`UpdateWindowBoundaries` has succeeded, if `window_start >= window_end` after
clamping then the round of `ComputeWindowExpression` for `r` raises no error
and writes SQL NULL at row `r` of the result column, whatever the kind; and
every successful round either has `window_start < window_end` and writes the
value of the switch on the kind, or has an empty frame and writes NULL. -/
theorem empty_frame_null (assertions : Bool) (wexpr : BoundWindowExpression)
    (input_size : Nat) (cols : WindowCollections) (output_idx r : Nat)
    (st : WindowLoopState) (b : WindowBoundariesState)
    (hb : UpdateWindowBoundaries assertions wexpr cols.sort_collection input_size r
      cols.boundary_start_collection cols.boundary_end_collection st.bounds = Except.ok b) :
    (b.window_start ≥ b.window_end →
      ComputeWindowRow assertions wexpr input_size cols output_idx r st =
        Except.ok { bounds := b, ranks := UpdateRank wexpr r b st.ranks
                    output := st.output.SetValue output_idx r Value.NULL }) ∧
    (∀ st1, ComputeWindowRow assertions wexpr input_size cols output_idx r st = Except.ok st1 →
      (b.window_start ≥ b.window_end ∧
          st1.output = st.output.SetValue output_idx r Value.NULL) ∨
        (b.window_start < b.window_end ∧
          ∃ res, ComputeWindowValue assertions wexpr cols.payload_collection
              cols.leadlag_offset_collection cols.leadlag_default_collection r b
              (UpdateRank wexpr r b st.ranks) = Except.ok res ∧
            st1.output = st.output.SetValue output_idx r res)) := by
  constructor
  · intro hempty
    unfold ComputeWindowRow
    simp only [hb, bind, Except.bind]
    rw [if_pos hempty]
    rfl
  · intro st1 h
    obtain ⟨h1, h2, h3⟩ := ComputeWindowRow_eq_ok _ _ _ _ _ _ _ _ h
    rw [hb] at h1
    have h1 := Except.ok.inj h1
    rw [h2, ← h1] at h3
    exact h3

/-- An instance of `empty_frame_null`: `ntile()` without a parameter and the
frame `ROWS BETWEEN 1 FOLLOWING AND CURRENT ROW` on the one-row store `[1]`;
the frame of row `0` is empty, the round writes NULL and the missing parameter
is not reported, also in the whole of `Finalize`. -/
theorem empty_frame_null_witness :
    ComputeWindowRow true
        (WindowOrderBy ExpressionType.WINDOW_NTILE 0 OrderType.ASCENDING
          WindowBoundary.EXPR_FOLLOWING WindowBoundary.CURRENT_ROW_ROWS 1 0 [])
        1
        (MaterializeWindowCollections
          (WindowOrderBy ExpressionType.WINDOW_NTILE 0 OrderType.ASCENDING
            WindowBoundary.EXPR_FOLLOWING WindowBoundary.CURRENT_ROW_ROWS 1 0 [])
          (IntStore [1]) (IntStore [1]))
        0 0
        { bounds := InitialBounds [Value.BIGINT 1], ranks := {}, output := IntStore [7] }
      = Except.ok
        { bounds :=
            { partition_start := 0, partition_end := 1, peer_start := 0, peer_end := 0
              window_start := 1, window_end := 1, is_same_partition := true, is_peer := true
              row_prev := [Value.BIGINT 1] }
          ranks :=
            UpdateRank
              (WindowOrderBy ExpressionType.WINDOW_NTILE 0 OrderType.ASCENDING
                WindowBoundary.EXPR_FOLLOWING WindowBoundary.CURRENT_ROW_ROWS 1 0 [])
              0
              { partition_start := 0, partition_end := 1, peer_start := 0, peer_end := 0
                window_start := 1, window_end := 1, is_same_partition := true, is_peer := true
                row_prev := [Value.BIGINT 1] }
              {}
          output := (IntStore [7]).SetValue 0 0 Value.NULL } ∧
      (Finalize true
          [WindowOrderBy ExpressionType.WINDOW_NTILE 0 OrderType.ASCENDING
            WindowBoundary.EXPR_FOLLOWING WindowBoundary.CURRENT_ROW_ROWS 1 0 []]
          { chunks := IntStore [1], window_results := ChunkCollection.empty }).map
        (fun g => g.window_results.rows) = Except.ok [[Value.NULL]] :=
  ⟨(empty_frame_null true
      (WindowOrderBy ExpressionType.WINDOW_NTILE 0 OrderType.ASCENDING
        WindowBoundary.EXPR_FOLLOWING WindowBoundary.CURRENT_ROW_ROWS 1 0 [])
      1
      (MaterializeWindowCollections
        (WindowOrderBy ExpressionType.WINDOW_NTILE 0 OrderType.ASCENDING
          WindowBoundary.EXPR_FOLLOWING WindowBoundary.CURRENT_ROW_ROWS 1 0 [])
        (IntStore [1]) (IntStore [1]))
      0 0
      { bounds := InitialBounds [Value.BIGINT 1], ranks := {}, output := IntStore [7] }
      { partition_start := 0, partition_end := 1, peer_start := 0, peer_end := 0
        window_start := 1, window_end := 1, is_same_partition := true, is_peer := true
        row_prev := [Value.BIGINT 1] }
      (by decide)).1 (by decide), by decide⟩


/-! ## Lemmas: the rank counters -/

/-- What a successful call of `UpdateWindowBoundaries` on a sort-key store with
columns does to the partition start and the peer start. -/
theorem UpdateWindowBoundaries_columns (assertions : Bool) (wexpr : BoundWindowExpression)
    (input : ChunkCollection) (input_size r : Nat) (bsc bec : ChunkCollection)
    (b b2 : WindowBoundariesState) (hcol : input.ColumnCount > 0)
    (h : UpdateWindowBoundaries assertions wexpr input input_size r bsc bec b = Except.ok b2) :
    b2.is_same_partition =
        EqualsSubsetLoop b.row_prev (input.GetRow r) 0 wexpr.partitions.length ∧
      b2.is_peer = (b2.is_same_partition &&
        EqualsSubsetLoop b.row_prev (input.GetRow r) wexpr.partitions.length
          wexpr.orders.length) ∧
      ((b2.is_same_partition = false ∨ r = 0) → b2.partition_start = r ∧ b2.peer_start = r) ∧
      (b2.is_same_partition = true → r ≠ 0 →
        b2.partition_start = b.partition_start ∧
          b2.peer_start = if b2.is_peer = true then b.peer_start else r) := by
  obtain ⟨b1, hb1, e1, -, e3, -, -, e6, e7⟩ :=
    UpdateWindowBoundaries_partition _ _ _ _ _ _ _ _ _ h
  rw [UpdatePartitionAndPeer_of_columns _ _ _ _ _ _ hcol] at hb1
  have hb1 := Except.ok.inj hb1
  generalize hb0 : ({ b with
      is_same_partition :=
        EqualsSubsetLoop b.row_prev (input.GetRow r) 0 wexpr.partitions.length
      is_peer :=
        EqualsSubsetLoop b.row_prev (input.GetRow r) 0 wexpr.partitions.length &&
          EqualsSubsetLoop b.row_prev (input.GetRow r) wexpr.partitions.length
            wexpr.orders.length
      row_prev := input.GetRow r } : WindowBoundariesState) = b0 at hb1
  have g1 : b0.partition_start = b.partition_start := by rw [← hb0]
  have g3 : b0.peer_start = b.peer_start := by rw [← hb0]
  have g6 : b0.is_same_partition =
      EqualsSubsetLoop b.row_prev (input.GetRow r) 0 wexpr.partitions.length := by rw [← hb0]
  have g7 : b0.is_peer =
      (EqualsSubsetLoop b.row_prev (input.GetRow r) 0 wexpr.partitions.length &&
        EqualsSubsetLoop b.row_prev (input.GetRow r) wexpr.partitions.length
          wexpr.orders.length) := by rw [← hb0]
  obtain ⟨p1, -, p3, -, p5, p6, -⟩ := UpdatePeerEnd_fields wexpr input r (input.GetRow r)
    (UpdatePartition wexpr input r (input.GetRow r) b0)
  obtain ⟨-, -, q3, q4⟩ := UpdatePartition_fields wexpr input r (input.GetRow r) b0
  rw [hb1] at p1 p3 p5 p6
  have hsame : b2.is_same_partition = b0.is_same_partition := by rw [e6, p5, q3]
  have hpeer : b2.is_peer = b0.is_peer := by rw [e7, p6, q4]
  refine ⟨by rw [hsame, g6], by rw [hpeer, g7, hsame, g6], ?_, ?_⟩
  · intro hnew
    rw [hsame] at hnew
    obtain ⟨n1, n2, -⟩ := UpdatePartition_new wexpr input r (input.GetRow r) b0 hnew
    exact ⟨by rw [e1, p1, n1], by rw [e3, p3, n2]⟩
  · intro hs hr0
    rw [hsame] at hs
    obtain ⟨n1, -, n3⟩ := UpdatePartition_same wexpr input r (input.GetRow r) b0 hs hr0
    refine ⟨by rw [e1, p1, n1, g1], ?_⟩
    rw [e3, p3, n3, hpeer, g3]

/-- What a successful call of `UpdateWindowBoundaries` on a sort-key store
without columns does to the flags and to the partition and peer start. -/
theorem UpdateWindowBoundaries_no_columns (assertions : Bool) (wexpr : BoundWindowExpression)
    (input : ChunkCollection) (input_size r : Nat) (bsc bec : ChunkCollection)
    (b b2 : WindowBoundariesState) (hcol : input.ColumnCount = 0)
    (h : UpdateWindowBoundaries assertions wexpr input input_size r bsc bec b = Except.ok b2) :
    b2.is_same_partition = false ∧ b2.is_peer = true ∧
      b2.partition_start = b.partition_start ∧ b2.peer_start = b.peer_start := by
  obtain ⟨b1, hb1, e1, -, e3, -, -, e6, e7⟩ :=
    UpdateWindowBoundaries_partition _ _ _ _ _ _ _ _ _ h
  rw [UpdatePartitionAndPeer_no_columns _ _ _ _ _ _ hcol] at hb1
  have hb1 := Except.ok.inj hb1
  subst hb1
  exact ⟨e6, e7, e1, e3⟩

theorem UpdateRank_not_needed (wexpr : BoundWindowExpression) (r : Nat)
    (b : WindowBoundariesState) (ranks : RankCounters) (h : WindowNeedsRank wexpr = false) :
    UpdateRank wexpr r b ranks = ranks := by
  unfold UpdateRank
  simp [h]

theorem UpdateRank_new (wexpr : BoundWindowExpression) (r : Nat)
    (b : WindowBoundariesState) (ranks : RankCounters) (h : WindowNeedsRank wexpr = true)
    (hnew : b.is_same_partition = false ∨ r = 0) :
    UpdateRank wexpr r b ranks = { dense_rank := 1, rank := 1, rank_equal := 1 } := by
  unfold UpdateRank
  have : (!b.is_same_partition || r == 0) = true := by
    rcases hnew with h' | h' <;> simp [h']
  simp [h, this]

theorem UpdateRank_group (wexpr : BoundWindowExpression) (r : Nat)
    (b : WindowBoundariesState) (ranks : RankCounters) (h : WindowNeedsRank wexpr = true)
    (hs : b.is_same_partition = true) (hr : r ≠ 0) (hp : b.is_peer = false) :
    UpdateRank wexpr r b ranks =
      { dense_rank := (ranks.dense_rank + 1) % 18446744073709551616
        rank := (ranks.rank + ranks.rank_equal) % 18446744073709551616
        rank_equal := 1 } := by
  unfold UpdateRank
  simp [h, hs, hr, hp]

theorem UpdateRank_peer (wexpr : BoundWindowExpression) (r : Nat)
    (b : WindowBoundariesState) (ranks : RankCounters) (h : WindowNeedsRank wexpr = true)
    (hs : b.is_same_partition = true) (hr : r ≠ 0) (hp : b.is_peer = true) :
    UpdateRank wexpr r b ranks =
      { ranks with rank_equal := (ranks.rank_equal + 1) % 18446744073709551616 } := by
  unfold UpdateRank
  simp [h, hs, hr, hp]

theorem PeerTransitions_succ (wexpr : BoundWindowExpression) (input : ChunkCollection)
    (s r : Nat) :
    PeerTransitions wexpr input s (r + 1) =
      PeerTransitions wexpr input s r +
        (if s < r + 1 ∧
            EqualsSubsetLoop (input.GetRow r) (input.GetRow (r + 1)) wexpr.partitions.length
              wexpr.orders.length = false then 1 else 0) := by
  unfold PeerTransitions
  rw [List.range_succ, List.countP_append, List.countP_singleton]
  simp only [Nat.add_sub_cancel]
  by_cases h1 : s < r + 1 <;>
    cases h2 : EqualsSubsetLoop (input.GetRow r) (input.GetRow (r + 1)) wexpr.partitions.length
      wexpr.orders.length <;> simp [h1, h2]

theorem PeerTransitions_of_le (wexpr : BoundWindowExpression) (input : ChunkCollection)
    (s r : Nat) (h : r ≤ s) : PeerTransitions wexpr input s r = 0 := by
  unfold PeerTransitions
  rw [List.countP_eq_zero]
  intro j hj
  have : j < r + 1 := List.mem_range.mp hj
  have hlt : ¬ s < j := by omega
  simp [hlt]


/-- The rank counters along the rows of a sort-key store with columns, for a
function that needs them: `rank` is one more than the rows of the partition
before the peer group, `rank_equal` the rows of the peer group so far, and
`dense_rank` one more than the peer-group transitions of the partition. -/
theorem ComputeWindowLoop_ranks_columns (assertions : Bool) (wexpr : BoundWindowExpression)
    (input_size : Nat) (cols : WindowCollections) (output_idx : Nat) (row_prev : List Value)
    (output : ChunkCollection) (n : Nat) (st : WindowLoopState)
    (hcol : cols.sort_collection.ColumnCount > 0) (hneeds : WindowNeedsRank wexpr = true)
    (hn : n < 18446744073709551616) (hpos : 0 < n)
    (h : ComputeWindowLoop assertions wexpr input_size cols output_idx
      { bounds := InitialBounds row_prev, ranks := {}, output := output } n = Except.ok st) :
    st.ranks.rank + st.bounds.partition_start = st.bounds.peer_start + 1 ∧
      st.ranks.rank_equal + st.bounds.peer_start = n ∧
      st.ranks.dense_rank =
        1 + PeerTransitions wexpr cols.sort_collection st.bounds.partition_start (n - 1) ∧
      st.ranks.dense_rank ≤ st.ranks.rank := by
  induction n generalizing st with
  | zero => exact absurd hpos (lt_irrefl 0)
  | succ n ih =>
    obtain ⟨st0, hst0, hrow⟩ := ComputeWindowLoop_succ_eq_ok _ _ _ _ _ _ _ _ h
    obtain ⟨hb, hranks, -⟩ := ComputeWindowRow_eq_ok _ _ _ _ _ _ _ _ hrow
    obtain ⟨t1, t2, t3, t4⟩ := UpdateWindowBoundaries_columns _ _ _ _ _ _ _ _ _ hcol hb
    simp only [Nat.add_sub_cancel]
    by_cases hnew : st.bounds.is_same_partition = false ∨ n = 0
    · obtain ⟨e1, e2⟩ := t3 hnew
      rw [hranks, UpdateRank_new _ _ _ _ hneeds hnew, e1, e2]
      simp only
      rw [PeerTransitions_of_le _ _ _ _ (le_refl n)]
      omega
    · have hs : st.bounds.is_same_partition = true := by
        cases hc : st.bounds.is_same_partition with
        | true => rfl
        | false => exact absurd (Or.inl hc) hnew
      have hn0 : n ≠ 0 := fun hc => hnew (Or.inr hc)
      obtain ⟨e1, e2⟩ := t4 hs hn0
      obtain ⟨i1, i2, i3, i4⟩ := ih st0 (by omega) (by omega) hst0
      have hbounds := ComputeWindowLoop_bounds _ _ _ _ _ _ _ _ hst0
      obtain ⟨hinv, -, -⟩ := BoundariesAfter_columns _ _ _ _ _ _ _ hcol _ _ hbounds
      rcases hinv with h0 | hinv
      · exact absurd h0 hn0
      have hple := hinv.peer_le_row
      have hsle := hinv.start_le_peer
      have hprev := hinv.row_prev_eq
      have hsucc : n - 1 + 1 = n := by omega
      have hpt := PeerTransitions_succ wexpr cols.sort_collection st0.bounds.partition_start (n - 1)
      rw [hsucc] at hpt
      rw [hs, Bool.true_and, hprev] at t2
      cases hp : st.bounds.is_peer with
      | false =>
        rw [hp] at e2 t2
        simp only [Bool.false_eq_true, if_false] at e2
        rw [hranks, UpdateRank_group _ _ _ _ hneeds hs hn0 hp, e1, e2]
        simp only
        rw [hpt, ← t2]
        have hlt : st0.bounds.partition_start < n := by omega
        simp only [hlt, true_and, if_true]
        have m1 : (st0.ranks.rank + st0.ranks.rank_equal) % 18446744073709551616 =
            st0.ranks.rank + st0.ranks.rank_equal := Nat.mod_eq_of_lt (by omega)
        have m2 : (st0.ranks.dense_rank + 1) % 18446744073709551616 =
            st0.ranks.dense_rank + 1 := Nat.mod_eq_of_lt (by omega)
        rw [m1, m2]
        omega
      | true =>
        rw [hp] at e2 t2
        simp only [if_true] at e2
        rw [hranks, UpdateRank_peer _ _ _ _ hneeds hs hn0 hp, e1, e2]
        simp only
        rw [hpt, ← t2]
        simp only [Bool.true_eq_false, and_false, if_false, Nat.add_zero]
        have m1 : (st0.ranks.rank_equal + 1) % 18446744073709551616 =
            st0.ranks.rank_equal + 1 := Nat.mod_eq_of_lt (by omega)
        rw [m1]
        omega

/-- The rank counters along the rows when the sort-key store has no columns,
for a function that needs them: every row starts anew. -/
theorem ComputeWindowLoop_ranks_no_columns (assertions : Bool) (wexpr : BoundWindowExpression)
    (input_size : Nat) (cols : WindowCollections) (output_idx : Nat) (row_prev : List Value)
    (output : ChunkCollection) (n : Nat) (st : WindowLoopState)
    (hcol : cols.sort_collection.ColumnCount = 0) (hneeds : WindowNeedsRank wexpr = true)
    (hpos : 0 < n)
    (h : ComputeWindowLoop assertions wexpr input_size cols output_idx
      { bounds := InitialBounds row_prev, ranks := {}, output := output } n = Except.ok st) :
    st.ranks = { dense_rank := 1, rank := 1, rank_equal := 1 } ∧
      st.bounds.partition_start = 0 ∧ st.bounds.peer_start = 0 := by
  cases n with
  | zero => exact absurd hpos (lt_irrefl 0)
  | succ n =>
    obtain ⟨st0, hst0, hrow⟩ := ComputeWindowLoop_succ_eq_ok _ _ _ _ _ _ _ _ h
    obtain ⟨hb, hranks, -⟩ := ComputeWindowRow_eq_ok _ _ _ _ _ _ _ _ hrow
    obtain ⟨t1, -, -, -⟩ := UpdateWindowBoundaries_no_columns _ _ _ _ _ _ _ _ _ hcol hb
    have hbounds := ComputeWindowLoop_bounds _ _ _ _ _ _ _ _ h
    obtain ⟨b1, b2, -⟩ := BoundariesAfter_no_columns _ _ _ _ _ _ _ hcol _ _ hbounds
    refine ⟨?_, b1, b2⟩
    rw [hranks, UpdateRank_new _ _ _ _ hneeds (Or.inl t1)]

/-- The rank counters of a function that does not need them stay as they
start. -/
theorem ComputeWindowLoop_ranks_not_needed (assertions : Bool) (wexpr : BoundWindowExpression)
    (input_size : Nat) (cols : WindowCollections) (output_idx : Nat) (init : WindowLoopState)
    (n : Nat) (st : WindowLoopState) (hneeds : WindowNeedsRank wexpr = false)
    (h : ComputeWindowLoop assertions wexpr input_size cols output_idx init n = Except.ok st) :
    st.ranks = init.ranks := by
  induction n generalizing st with
  | zero =>
    simp only [ComputeWindowLoop, pure, Except.pure] at h
    have h := Except.ok.inj h
    rw [h]
  | succ n ih =>
    obtain ⟨st0, hst0, hrow⟩ := ComputeWindowLoop_succ_eq_ok _ _ _ _ _ _ _ _ h
    obtain ⟨-, hranks, -⟩ := ComputeWindowRow_eq_ok _ _ _ _ _ _ _ _ hrow
    rw [hranks, UpdateRank_not_needed _ _ _ _ hneeds]
    exact ih st0 hst0


/-- In a sorted sort-key store the current row lies before the end of its
partition, and before a searched peer end, which is within the partition. -/
theorem BoundariesAfter_sorted (assertions : Bool) (wexpr : BoundWindowExpression)
    (input : ChunkCollection) (input_size : Nat) (bsc bec : ChunkCollection)
    (row_prev : List Value) (r : Nat) (b : WindowBoundariesState)
    (hsorted : StoreSorted wexpr input)
    (hsize : input.ColumnCount > 0 → input.Count = input_size)
    (hN : input_size < 9223372036854775808) (hr : r < input_size)
    (h : BoundariesAfter assertions wexpr input input_size bsc bec (InitialBounds row_prev)
      (r + 1) = Except.ok b) :
    b.partition_start ≤ b.peer_start ∧ b.peer_start ≤ r ∧ r < b.partition_end ∧
      b.partition_end ≤ input_size ∧
      (input.ColumnCount = 0 ∨ wexpr.end_ = WindowBoundary.CURRENT_ROW_RANGE ∨
          wexpr.type = ExpressionType.WINDOW_CUME_DIST →
        r < b.peer_end ∧ b.peer_end ≤ b.partition_end) := by
  obtain ⟨h1, h2, -, h4⟩ := BoundariesAfter_partition_bounds _ _ _ _ _ _ _ _ _ hsize hN hr h
  by_cases hcol : input.ColumnCount > 0
  · obtain ⟨hinv, -, hp2⟩ := BoundariesAfter_columns _ _ _ _ _ _ _ hcol _ _ h
    rcases hinv with h0 | hinv
    · omega
    simp only [Nat.add_sub_cancel] at hinv hp2
    have hcount := hsize hcol
    have hgt := partition_end_gt wexpr input hsorted (by omega) b.partition_start r
      (by omega) (by omega) hinv.same_partition
    rw [← hinv.partition_end_eq] at hgt
    refine ⟨h1, h2, hgt, h4, ?_⟩
    intro hc
    rcases hc with hc | hc
    · omega
    · rw [hp2 hc (Nat.succ_pos r)]
      exact BinarySearchRightmost_succ_bounds input (input.GetRow r) r b.partition_end _ hgt
        (by omega) (LessThanEquals_refl _ _ _)
  · have hcol0 : input.ColumnCount = 0 := by omega
    obtain ⟨-, -, h3⟩ := BoundariesAfter_no_columns _ _ _ _ _ _ _ hcol0 _ _ h
    obtain ⟨e1, e2⟩ := h3 (Nat.succ_pos r)
    refine ⟨h1, h2, by omega, h4, fun _ => by omega⟩

/-- A function that needs the rank counters has one of the four rank kinds. -/
theorem WindowNeedsRank_of_type (wexpr : BoundWindowExpression)
    (h : wexpr.type = ExpressionType.WINDOW_PERCENT_RANK ∨
      wexpr.type = ExpressionType.WINDOW_RANK ∨
      wexpr.type = ExpressionType.WINDOW_RANK_DENSE ∨
      wexpr.type = ExpressionType.WINDOW_CUME_DIST) : WindowNeedsRank wexpr = true := by
  unfold WindowNeedsRank
  rcases h with h | h | h | h <;> simp [h]

/-- The rank counters after row `r`, whatever the store: `rank` counts the
rows of the partition before the peer group and one, and `dense_rank` is at
most `rank`. -/
theorem ComputeWindowLoop_rank_eq (assertions : Bool) (wexpr : BoundWindowExpression)
    (input_size : Nat) (cols : WindowCollections) (output_idx : Nat) (row_prev : List Value)
    (output : ChunkCollection) (r : Nat) (st : WindowLoopState)
    (hneeds : WindowNeedsRank wexpr = true) (hr : r + 1 < 18446744073709551616)
    (h : ComputeWindowLoop assertions wexpr input_size cols output_idx
      { bounds := InitialBounds row_prev, ranks := {}, output := output } (r + 1)
        = Except.ok st) :
    st.ranks.rank + st.bounds.partition_start = st.bounds.peer_start + 1 ∧
      st.bounds.partition_start ≤ st.bounds.peer_start ∧ st.bounds.peer_start ≤ r ∧
      st.ranks.dense_rank ≤ st.ranks.rank := by
  by_cases hcol : cols.sort_collection.ColumnCount > 0
  · obtain ⟨i1, -, -, i4⟩ := ComputeWindowLoop_ranks_columns _ _ _ _ _ _ _ _ _ hcol hneeds hr
      (Nat.succ_pos r) h
    have hbounds := ComputeWindowLoop_bounds _ _ _ _ _ _ _ _ h
    obtain ⟨hinv, -, -⟩ := BoundariesAfter_columns _ _ _ _ _ _ _ hcol _ _ hbounds
    rcases hinv with h0 | hinv
    · omega
    simp only [Nat.add_sub_cancel] at hinv
    exact ⟨i1, hinv.start_le_peer, hinv.peer_le_row, i4⟩
  · have hcol0 : cols.sort_collection.ColumnCount = 0 := by omega
    obtain ⟨i1, i2, i3⟩ := ComputeWindowLoop_ranks_no_columns _ _ _ _ _ _ _ _ _ hcol0 hneeds
      (Nat.succ_pos r) h
    rw [i1, i2, i3]
    exact ⟨rfl, le_refl _, Nat.zero_le _, le_refl _⟩

/-- Without order keys no row starts a peer group. -/
theorem PeerTransitions_no_orders (wexpr : BoundWindowExpression) (input : ChunkCollection)
    (s r : Nat) (h : wexpr.orders.length = 0) : PeerTransitions wexpr input s r = 0 := by
  unfold PeerTransitions
  rw [List.countP_eq_zero]
  intro j _
  rw [h]
  simp [EqualsSubsetLoop]

/-- The dense rank after row `r`: one more than the peer-group transitions of
the partition up to `r`. -/
theorem ComputeWindowLoop_dense_rank_eq (assertions : Bool) (wexpr : BoundWindowExpression)
    (input_size : Nat) (cols : WindowCollections) (output_idx : Nat) (row_prev : List Value)
    (output : ChunkCollection) (r : Nat) (st : WindowLoopState)
    (hneeds : WindowNeedsRank wexpr = true) (hr : r + 1 < 18446744073709551616)
    (hkeys : cols.sort_collection.ColumnCount = 0 → wexpr.orders.length = 0)
    (h : ComputeWindowLoop assertions wexpr input_size cols output_idx
      { bounds := InitialBounds row_prev, ranks := {}, output := output } (r + 1)
        = Except.ok st) :
    st.ranks.dense_rank =
      1 + PeerTransitions wexpr cols.sort_collection st.bounds.partition_start r := by
  by_cases hcol : cols.sort_collection.ColumnCount > 0
  · obtain ⟨-, -, i3, -⟩ := ComputeWindowLoop_ranks_columns _ _ _ _ _ _ _ _ _ hcol hneeds hr
      (Nat.succ_pos r) h
    simpa only [Nat.add_sub_cancel] using i3
  · have hcol0 : cols.sort_collection.ColumnCount = 0 := by omega
    obtain ⟨i1, -, -⟩ := ComputeWindowLoop_ranks_no_columns _ _ _ _ _ _ _ _ _ hcol0 hneeds
      (Nat.succ_pos r) h
    rw [i1, PeerTransitions_no_orders _ _ _ _ (hkeys hcol0)]

/-- The rows after `r1` that do not start a peer group leave partition start,
peer start, `rank` and `dense_rank` as they are after `r1`. -/
theorem ComputeWindowLoop_same_group (assertions : Bool) (wexpr : BoundWindowExpression)
    (input_size : Nat) (cols : WindowCollections) (output_idx : Nat) (init : WindowLoopState)
    (r1 d : Nat) (st1 st2 : WindowLoopState)
    (hcol : cols.sort_collection.ColumnCount > 0) (hneeds : WindowNeedsRank wexpr = true)
    (h1 : ComputeWindowLoop assertions wexpr input_size cols output_idx init (r1 + 1)
      = Except.ok st1)
    (h2 : ComputeWindowLoop assertions wexpr input_size cols output_idx init (r1 + 1 + d)
      = Except.ok st2)
    (hpeer : st2.bounds.peer_start ≤ r1) :
    st2.bounds.partition_start = st1.bounds.partition_start ∧
      st2.bounds.peer_start = st1.bounds.peer_start ∧
      st2.ranks.rank = st1.ranks.rank ∧ st2.ranks.dense_rank = st1.ranks.dense_rank := by
  induction d generalizing st2 with
  | zero =>
    rw [Nat.add_zero, h1] at h2
    have h2 := Except.ok.inj h2
    rw [h2]
    exact ⟨rfl, rfl, rfl, rfl⟩
  | succ d ih =>
    rw [← Nat.add_assoc] at h2
    obtain ⟨st0, hst0, hrow⟩ := ComputeWindowLoop_succ_eq_ok _ _ _ _ _ _ _ _ h2
    obtain ⟨hb, hranks, -⟩ := ComputeWindowRow_eq_ok _ _ _ _ _ _ _ _ hrow
    obtain ⟨-, -, t3, t4⟩ := UpdateWindowBoundaries_columns _ _ _ _ _ _ _ _ _ hcol hb
    have hn0 : r1 + 1 + d ≠ 0 := by omega
    have hs : st2.bounds.is_same_partition = true := by
      cases hc : st2.bounds.is_same_partition with
      | true => rfl
      | false =>
        have := (t3 (Or.inl hc)).2
        omega
    obtain ⟨e1, e2⟩ := t4 hs hn0
    have hp : st2.bounds.is_peer = true := by
      cases hc : st2.bounds.is_peer with
      | true => rfl
      | false =>
        rw [hc] at e2
        simp only [Bool.false_eq_true, if_false] at e2
        omega
    rw [hp] at e2
    simp only [if_true] at e2
    obtain ⟨j1, j2, j3, j4⟩ := ih st0 hst0 (by omega)
    rw [hranks, UpdateRank_peer _ _ _ _ hneeds hs hn0 hp]
    exact ⟨e1.trans j1, e2.trans j2, j3, j4⟩


/-! ## RANK and DENSE_RANK (C12, C13, C14, C15) -/

/-- C12: for every input of fewer than `2^63` rows and every row `r` with a
non-empty frame, RANK writes `peer_start - partition_start + 1` at row `r`, one
plus the number of rows of the partition of `r` that precede the peer group of
`r` (`partition_start <= peer_start <= r`). -/
theorem rank_written (assertions : Bool) (wexpr : BoundWindowExpression)
    (input_size : Nat) (cols : WindowCollections) (output_idx : Nat) (row_prev : List Value)
    (output : ChunkCollection) (r : Nat) (st1 : WindowLoopState)
    (htype : wexpr.type = ExpressionType.WINDOW_RANK)
    (hN : input_size < 9223372036854775808) (hr : r < input_size)
    (h : ComputeWindowLoop assertions wexpr input_size cols output_idx
      { bounds := InitialBounds row_prev, ranks := {}, output := output } (r + 1)
        = Except.ok st1)
    (hne : st1.bounds.window_start < st1.bounds.window_end) :
    ∃ st, ComputeWindowLoop assertions wexpr input_size cols output_idx
        { bounds := InitialBounds row_prev, ranks := {}, output := output } r = Except.ok st ∧
      st1.output = st.output.SetValue output_idx r
        (Value.BIGINT ((st1.bounds.peer_start : Int) - st1.bounds.partition_start + 1)) ∧
      st1.bounds.partition_start ≤ st1.bounds.peer_start ∧ st1.bounds.peer_start ≤ r := by
  have hneeds := WindowNeedsRank_of_type wexpr (Or.inr (Or.inl htype))
  obtain ⟨i1, i2, i3, -⟩ := ComputeWindowLoop_rank_eq _ _ _ _ _ _ _ _ _ hneeds (by omega) h
  obtain ⟨st, hst, hrow⟩ := ComputeWindowLoop_succ_eq_ok _ _ _ _ _ _ _ _ h
  obtain ⟨-, -, hout⟩ := ComputeWindowRow_eq_ok _ _ _ _ _ _ _ _ hrow
  rcases hout with ⟨hempty, -⟩ | ⟨-, res, hres, hout⟩
  · omega
  refine ⟨st, hst, ?_, i2, i3⟩
  unfold ComputeWindowValue at hres
  simp only [htype, pure, Except.pure] at hres
  have hres := Except.ok.inj hres
  rw [hout, ← hres, toInt64_of_range _ (by omega) (by omega)]
  unfold Value.Numeric
  congr 2
  omega

/-- An instance of `rank_written`: `rank() OVER (ORDER BY x)` on the sorted
values `5, 5, 7, 9`, row `2`, which gets `2 - 0 + 1 = 3`; the whole column is
`[1, 1, 3, 4]`. -/
theorem rank_written_witness :
    (∃ st, ComputeWindowLoop true
          (WindowOrderBy ExpressionType.WINDOW_RANK 0 OrderType.ASCENDING
            WindowBoundary.UNBOUNDED_PRECEDING WindowBoundary.CURRENT_ROW_RANGE 0 0 [])
          4
          (MaterializeWindowCollections
            (WindowOrderBy ExpressionType.WINDOW_RANK 0 OrderType.ASCENDING
              WindowBoundary.UNBOUNDED_PRECEDING WindowBoundary.CURRENT_ROW_RANGE 0 0 [])
            (IntStore [5, 5, 7, 9]) (IntStore [5, 5, 7, 9]))
          0 { bounds := InitialBounds [Value.BIGINT 5], ranks := {}
              output := IntStore [0, 0, 0, 0] } 2 = Except.ok st ∧
        IntStore [1, 1, 3, 0] = st.output.SetValue 0 2 (Value.BIGINT (((2 : Nat) : Int) - (0 : Nat) + 1)) ∧
        0 ≤ 2 ∧ 2 ≤ 2) ∧
      (Finalize true
          [WindowOrderBy ExpressionType.WINDOW_RANK 0 OrderType.ASCENDING
            WindowBoundary.UNBOUNDED_PRECEDING WindowBoundary.CURRENT_ROW_RANGE 0 0 []]
          { chunks := IntStore [5, 5, 7, 9], window_results := ChunkCollection.empty }).map
        (fun g => g.window_results.rows)
        = Except.ok [[Value.BIGINT 1], [Value.BIGINT 1], [Value.BIGINT 3], [Value.BIGINT 4]] :=
  ⟨rank_written true
      (WindowOrderBy ExpressionType.WINDOW_RANK 0 OrderType.ASCENDING
        WindowBoundary.UNBOUNDED_PRECEDING WindowBoundary.CURRENT_ROW_RANGE 0 0 [])
      4
      (MaterializeWindowCollections
        (WindowOrderBy ExpressionType.WINDOW_RANK 0 OrderType.ASCENDING
          WindowBoundary.UNBOUNDED_PRECEDING WindowBoundary.CURRENT_ROW_RANGE 0 0 [])
        (IntStore [5, 5, 7, 9]) (IntStore [5, 5, 7, 9]))
      0 [Value.BIGINT 5] (IntStore [0, 0, 0, 0]) 2
      { bounds :=
          { partition_start := 0, partition_end := 4, peer_start := 2, peer_end := 3
            window_start := 0, window_end := 3, is_same_partition := true, is_peer := false
            row_prev := [Value.BIGINT 7] },
        ranks := { dense_rank := 2, rank_equal := 1, rank := 3 },
        output := IntStore [1, 1, 3, 0] }
      rfl (by decide) (by decide) rfl (by decide), by decide⟩

/-- C13: for every input of fewer than `2^63` rows, whose sort-key store has a
column per key, and every row `r` with a non-empty frame, DENSE_RANK writes one
plus the number of peer-group transitions in `(partition_start, r]`, the
number of peer groups of the partition of `r` that start at or before `r`. -/
theorem dense_rank_written (assertions : Bool) (wexpr : BoundWindowExpression)
    (input_size : Nat) (cols : WindowCollections) (output_idx : Nat) (row_prev : List Value)
    (output : ChunkCollection) (r : Nat) (st1 : WindowLoopState)
    (htype : wexpr.type = ExpressionType.WINDOW_RANK_DENSE)
    (hN : input_size < 9223372036854775808) (hr : r < input_size)
    (hkeys : cols.sort_collection.ColumnCount = 0 → wexpr.orders.length = 0)
    (h : ComputeWindowLoop assertions wexpr input_size cols output_idx
      { bounds := InitialBounds row_prev, ranks := {}, output := output } (r + 1)
        = Except.ok st1)
    (hne : st1.bounds.window_start < st1.bounds.window_end) :
    ∃ st, ComputeWindowLoop assertions wexpr input_size cols output_idx
        { bounds := InitialBounds row_prev, ranks := {}, output := output } r = Except.ok st ∧
      st1.output = st.output.SetValue output_idx r
        (Value.BIGINT
          (1 + PeerTransitions wexpr cols.sort_collection st1.bounds.partition_start r : Nat)) := by
  have hneeds := WindowNeedsRank_of_type wexpr (Or.inr (Or.inr (Or.inl htype)))
  obtain ⟨i1, i2, i3, i4⟩ := ComputeWindowLoop_rank_eq _ _ _ _ _ _ _ _ _ hneeds (by omega) h
  have hdense := ComputeWindowLoop_dense_rank_eq _ _ _ _ _ _ _ _ _ hneeds (by omega) hkeys h
  obtain ⟨st, hst, hrow⟩ := ComputeWindowLoop_succ_eq_ok _ _ _ _ _ _ _ _ h
  obtain ⟨-, -, hout⟩ := ComputeWindowRow_eq_ok _ _ _ _ _ _ _ _ hrow
  rcases hout with ⟨hempty, -⟩ | ⟨-, res, hres, hout⟩
  · omega
  refine ⟨st, hst, ?_⟩
  unfold ComputeWindowValue at hres
  simp only [htype, pure, Except.pure] at hres
  have hres := Except.ok.inj hres
  rw [hout, ← hres, toInt64_of_range _ (by omega) (by omega), hdense]
  rfl

/-- An instance of `dense_rank_written`: `dense_rank() OVER (ORDER BY x)` on the
sorted values `5, 5, 7, 9`, row `2`, which gets `1 + 1 = 2`; the whole column
is `[1, 1, 2, 3]`. -/
theorem dense_rank_written_witness :
    (∃ st, ComputeWindowLoop true
          (WindowOrderBy ExpressionType.WINDOW_RANK_DENSE 0 OrderType.ASCENDING
        WindowBoundary.UNBOUNDED_PRECEDING WindowBoundary.CURRENT_ROW_RANGE 0 0 [])
          4
          (MaterializeWindowCollections
        (WindowOrderBy ExpressionType.WINDOW_RANK_DENSE 0 OrderType.ASCENDING
        WindowBoundary.UNBOUNDED_PRECEDING WindowBoundary.CURRENT_ROW_RANGE 0 0 [])
        (IntStore [5, 5, 7, 9]) (IntStore [5, 5, 7, 9]))
          0 { bounds := InitialBounds [Value.BIGINT 5], ranks := {}
              output := IntStore [0, 0, 0, 0] } 2 = Except.ok st ∧
        IntStore [1, 1, 2, 0] = st.output.SetValue 0 2
          (Value.BIGINT
            (1 + PeerTransitions
              (WindowOrderBy ExpressionType.WINDOW_RANK_DENSE 0 OrderType.ASCENDING
        WindowBoundary.UNBOUNDED_PRECEDING WindowBoundary.CURRENT_ROW_RANGE 0 0 [])
              (MaterializeWindowCollections
        (WindowOrderBy ExpressionType.WINDOW_RANK_DENSE 0 OrderType.ASCENDING
        WindowBoundary.UNBOUNDED_PRECEDING WindowBoundary.CURRENT_ROW_RANGE 0 0 [])
        (IntStore [5, 5, 7, 9]) (IntStore [5, 5, 7, 9])).sort_collection
              0 2 : Nat))) ∧
      (Finalize true
          [WindowOrderBy ExpressionType.WINDOW_RANK_DENSE 0 OrderType.ASCENDING
            WindowBoundary.UNBOUNDED_PRECEDING WindowBoundary.CURRENT_ROW_RANGE 0 0 []]
          { chunks := IntStore [5, 5, 7, 9], window_results := ChunkCollection.empty }).map
        (fun g => g.window_results.rows)
        = Except.ok [[Value.BIGINT 1], [Value.BIGINT 1], [Value.BIGINT 2], [Value.BIGINT 3]] :=
  ⟨dense_rank_written true
      (WindowOrderBy ExpressionType.WINDOW_RANK_DENSE 0 OrderType.ASCENDING
        WindowBoundary.UNBOUNDED_PRECEDING WindowBoundary.CURRENT_ROW_RANGE 0 0 [])
      4
      (MaterializeWindowCollections
        (WindowOrderBy ExpressionType.WINDOW_RANK_DENSE 0 OrderType.ASCENDING
        WindowBoundary.UNBOUNDED_PRECEDING WindowBoundary.CURRENT_ROW_RANGE 0 0 [])
        (IntStore [5, 5, 7, 9]) (IntStore [5, 5, 7, 9]))
      0 [Value.BIGINT 5] (IntStore [0, 0, 0, 0]) 2
      { bounds :=
          { partition_start := 0, partition_end := 4, peer_start := 2, peer_end := 3
            window_start := 0, window_end := 3, is_same_partition := true, is_peer := false
            row_prev := [Value.BIGINT 7] },
        ranks := { dense_rank := 2, rank_equal := 1, rank := 3 },
        output := IntStore [1, 1, 2, 0] }
      rfl (by decide) (by decide) (by decide) rfl (by decide), by decide⟩

/-- C14: for every sorted input of fewer than `2^63` rows and every row `r2`,
the rank counter satisfies
`1 <= rank(r2) <= partition_end(r2) - partition_start(r2)`, and a row `r1 <= r2`
of the same peer group (`peer_start(r2) <= r1`) has the same `rank` and the
same `dense_rank`. -/
theorem rank_bounds_and_peers (assertions : Bool) (wexpr : BoundWindowExpression)
    (input_size : Nat) (cols : WindowCollections) (output_idx : Nat) (row_prev : List Value)
    (output : ChunkCollection) (r1 r2 : Nat) (st1 st2 : WindowLoopState)
    (hsorted : StoreSorted wexpr cols.sort_collection)
    (hsize : cols.sort_collection.ColumnCount > 0 → cols.sort_collection.Count = input_size)
    (hN : input_size < 9223372036854775808) (h12 : r1 ≤ r2) (hr2 : r2 < input_size)
    (h1 : ComputeWindowLoop assertions wexpr input_size cols output_idx
      { bounds := InitialBounds row_prev, ranks := {}, output := output } (r1 + 1)
        = Except.ok st1)
    (h2 : ComputeWindowLoop assertions wexpr input_size cols output_idx
      { bounds := InitialBounds row_prev, ranks := {}, output := output } (r2 + 1)
        = Except.ok st2) :
    (1 ≤ st2.ranks.rank ∧
        st2.ranks.rank ≤ st2.bounds.partition_end - st2.bounds.partition_start) ∧
      (st2.bounds.peer_start ≤ r1 →
        st1.ranks.rank = st2.ranks.rank ∧ st1.ranks.dense_rank = st2.ranks.dense_rank) := by
  have hb2 := ComputeWindowLoop_bounds _ _ _ _ _ _ _ _ h2
  obtain ⟨c1, c2, c3, c4, -⟩ := BoundariesAfter_sorted _ _ _ _ _ _ _ _ _ hsorted hsize hN hr2 hb2
  cases hneeds : WindowNeedsRank wexpr with
  | false =>
    have e1 := ComputeWindowLoop_ranks_not_needed _ _ _ _ _ _ _ _ hneeds h1
    have e2 := ComputeWindowLoop_ranks_not_needed _ _ _ _ _ _ _ _ hneeds h2
    rw [e1, e2]
    refine ⟨⟨le_refl _, ?_⟩, fun _ => ⟨rfl, rfl⟩⟩
    show 1 ≤ _
    omega
  | true =>
    obtain ⟨i1, i2, i3, -⟩ := ComputeWindowLoop_rank_eq _ _ _ _ _ _ _ _ _ hneeds (by omega) h2
    refine ⟨⟨by omega, by omega⟩, ?_⟩
    intro hpeer
    by_cases hcol : cols.sort_collection.ColumnCount > 0
    · have hd : r1 + 1 + (r2 - r1) = r2 + 1 := by omega
      rw [← hd] at h2
      obtain ⟨-, -, j3, j4⟩ := ComputeWindowLoop_same_group _ _ _ _ _ _ _ _ _ _ hcol hneeds h1 h2
        hpeer
      exact ⟨j3.symm, j4.symm⟩
    · have hcol0 : cols.sort_collection.ColumnCount = 0 := by omega
      obtain ⟨e1, -, -⟩ := ComputeWindowLoop_ranks_no_columns _ _ _ _ _ _ _ _ _ hcol0 hneeds
        (Nat.succ_pos r1) h1
      obtain ⟨e2, -, -⟩ := ComputeWindowLoop_ranks_no_columns _ _ _ _ _ _ _ _ _ hcol0 hneeds
        (Nat.succ_pos r2) h2
      rw [e1, e2]
      exact ⟨rfl, rfl⟩

/-- An instance of `rank_bounds_and_peers`: `rank() OVER (ORDER BY x)` on the
sorted values `5, 5, 7, 9`, the rows `0` and `1` of one peer group. -/
theorem rank_bounds_and_peers_witness :
    (1 ≤ 1 ∧ 1 ≤ 4 - 0) ∧ (0 ≤ 0 → 1 = 1 ∧ 1 = 1) :=
  rank_bounds_and_peers true
    (WindowOrderBy ExpressionType.WINDOW_RANK 0 OrderType.ASCENDING
        WindowBoundary.UNBOUNDED_PRECEDING WindowBoundary.CURRENT_ROW_RANGE 0 0 [])
    4
    (MaterializeWindowCollections
        (WindowOrderBy ExpressionType.WINDOW_RANK 0 OrderType.ASCENDING
        WindowBoundary.UNBOUNDED_PRECEDING WindowBoundary.CURRENT_ROW_RANGE 0 0 [])
        (IntStore [5, 5, 7, 9]) (IntStore [5, 5, 7, 9]))
    0 [Value.BIGINT 5] (IntStore [0, 0, 0, 0]) 0 1
    { bounds :=
          { partition_start := 0, partition_end := 4, peer_start := 0, peer_end := 2
            window_start := 0, window_end := 2, is_same_partition := true, is_peer := true
            row_prev := [Value.BIGINT 5] },
        ranks := { dense_rank := 1, rank_equal := 1, rank := 1 },
        output := IntStore [1, 0, 0, 0] }
    { bounds :=
          { partition_start := 0, partition_end := 4, peer_start := 0, peer_end := 2
            window_start := 0, window_end := 2, is_same_partition := true, is_peer := true
            row_prev := [Value.BIGINT 5] },
        ranks := { dense_rank := 1, rank_equal := 2, rank := 1 },
        output := IntStore [1, 1, 0, 0] }
    (by decide) (by decide) (by decide) (by decide) (by decide) rfl rfl

/-- C15: for every input (its row count is an `idx_t`, below `2^64`) and every
row `r`, the counters of the main loop after `r` satisfy
`dense_rank <= rank`. -/
theorem dense_rank_le_rank (assertions : Bool) (wexpr : BoundWindowExpression)
    (input_size : Nat) (cols : WindowCollections) (output_idx : Nat) (row_prev : List Value)
    (output : ChunkCollection) (r : Nat) (st : WindowLoopState)
    (hN : input_size < 18446744073709551616) (hr : r < input_size)
    (h : ComputeWindowLoop assertions wexpr input_size cols output_idx
      { bounds := InitialBounds row_prev, ranks := {}, output := output } (r + 1)
        = Except.ok st) :
    st.ranks.dense_rank ≤ st.ranks.rank := by
  cases hneeds : WindowNeedsRank wexpr with
  | false =>
    rw [ComputeWindowLoop_ranks_not_needed _ _ _ _ _ _ _ _ hneeds h]
  | true =>
    exact (ComputeWindowLoop_rank_eq _ _ _ _ _ _ _ _ _ hneeds (by omega) h).2.2.2

/-- An instance of `dense_rank_le_rank`: `rank() OVER (ORDER BY x)` on the
sorted values `5, 5, 7, 9` after row `2`, where `dense_rank = 2` and
`rank = 3`. -/
theorem dense_rank_le_rank_witness : 2 ≤ 3 :=
  dense_rank_le_rank true
    (WindowOrderBy ExpressionType.WINDOW_RANK 0 OrderType.ASCENDING
        WindowBoundary.UNBOUNDED_PRECEDING WindowBoundary.CURRENT_ROW_RANGE 0 0 [])
    4
    (MaterializeWindowCollections
        (WindowOrderBy ExpressionType.WINDOW_RANK 0 OrderType.ASCENDING
        WindowBoundary.UNBOUNDED_PRECEDING WindowBoundary.CURRENT_ROW_RANGE 0 0 [])
        (IntStore [5, 5, 7, 9]) (IntStore [5, 5, 7, 9]))
    0 [Value.BIGINT 5] (IntStore [0, 0, 0, 0]) 2
    { bounds :=
          { partition_start := 0, partition_end := 4, peer_start := 2, peer_end := 3
            window_start := 0, window_end := 3, is_same_partition := true, is_peer := false
            row_prev := [Value.BIGINT 7] },
        ranks := { dense_rank := 2, rank_equal := 1, rank := 3 },
        output := IntStore [1, 1, 3, 0] }
    (by decide) (by decide) rfl


/-! ## ROW_NUMBER, PERCENT_RANK and CUME_DIST (C16, C17, C18) -/

/-- An integer in `[0, 2^64)` is its own `idx_t`. -/
theorem toIdx_of_range (x : Int) (h0 : 0 ≤ x) (h1 : x < 18446744073709551616) :
    ((toIdx x : Nat) : Int) = x := by
  unfold toIdx
  omega

/-- C16, counterexample: `row_number() OVER (ORDER BY x ROWS BETWEEN 2 PRECEDING
AND 1 PRECEDING)` on `10, 20`.  The frame of row `0` is empty, so the row gets
SQL NULL and the values written for the partition of size `2` are
`[NULL, 2]`, not `1, 2`. -/
theorem row_number_counterexample :
    (Finalize true
        [WindowOrderBy ExpressionType.WINDOW_ROW_NUMBER 0 OrderType.ASCENDING
          WindowBoundary.EXPR_PRECEDING WindowBoundary.EXPR_PRECEDING 2 1 []]
        { chunks := IntStore [10, 20], window_results := ChunkCollection.empty }).map
      (fun g => g.window_results.rows)
      = Except.ok [[Value.NULL], [Value.BIGINT 2]] := by
  decide

/-- C16, amended: for every sorted input of fewer than `2^63` rows and every row
`r` whose frame is not empty, ROW_NUMBER writes `r - partition_start + 1`, and
`partition_start <= r < partition_end`, so that the value lies in
`1 .. partition_end - partition_start` and grows by one from row to row of a
partition. -/
theorem row_number_written (assertions : Bool) (wexpr : BoundWindowExpression)
    (input_size : Nat) (cols : WindowCollections) (output_idx : Nat) (row_prev : List Value)
    (output : ChunkCollection) (r : Nat) (st1 : WindowLoopState)
    (htype : wexpr.type = ExpressionType.WINDOW_ROW_NUMBER)
    (hsorted : StoreSorted wexpr cols.sort_collection)
    (hsize : cols.sort_collection.ColumnCount > 0 → cols.sort_collection.Count = input_size)
    (hN : input_size < 9223372036854775808) (hr : r < input_size)
    (h : ComputeWindowLoop assertions wexpr input_size cols output_idx
      { bounds := InitialBounds row_prev, ranks := {}, output := output } (r + 1)
        = Except.ok st1)
    (hne : st1.bounds.window_start < st1.bounds.window_end) :
    ∃ st, ComputeWindowLoop assertions wexpr input_size cols output_idx
        { bounds := InitialBounds row_prev, ranks := {}, output := output } r = Except.ok st ∧
      st1.output = st.output.SetValue output_idx r
        (Value.BIGINT ((r - st1.bounds.partition_start + 1 : Nat) : Int)) ∧
      st1.bounds.partition_start ≤ r ∧ r < st1.bounds.partition_end := by
  have hb := ComputeWindowLoop_bounds _ _ _ _ _ _ _ _ h
  obtain ⟨c1, c2, c3, c4, -⟩ := BoundariesAfter_sorted _ _ _ _ _ _ _ _ _ hsorted hsize hN hr hb
  obtain ⟨st, hst, hrow⟩ := ComputeWindowLoop_succ_eq_ok _ _ _ _ _ _ _ _ h
  obtain ⟨-, -, hout⟩ := ComputeWindowRow_eq_ok _ _ _ _ _ _ _ _ hrow
  rcases hout with ⟨hempty, -⟩ | ⟨-, res, hres, hout⟩
  · omega
  refine ⟨st, hst, ?_, by omega, c3⟩
  unfold ComputeWindowValue at hres
  simp only [htype, pure, Except.pure] at hres
  have hres := Except.ok.inj hres
  have hv : toInt64 (toIdx ((toIdx ((r : Int) - st1.bounds.partition_start) : Int) + 1))
      = ((r - st1.bounds.partition_start + 1 : Nat) : Int) := by
    unfold toInt64 toIdx
    omega
  rw [hout, ← hres, hv]
  rfl

/-- An instance of `row_number_written`: `row_number() OVER (ORDER BY x)` on the
sorted values `10, 10, 20, 30`, row `2`; on the input `30, 10, 20, 10` the
operator sorts the rows to `10, 10, 20, 30` and writes `[1, 2, 3, 4]`. -/
theorem row_number_written_witness :
    (∃ st, ComputeWindowLoop true
          (WindowOrderBy ExpressionType.WINDOW_ROW_NUMBER 0 OrderType.ASCENDING
        WindowBoundary.UNBOUNDED_PRECEDING WindowBoundary.CURRENT_ROW_RANGE 0 0 [])
          4
          (MaterializeWindowCollections
        (WindowOrderBy ExpressionType.WINDOW_ROW_NUMBER 0 OrderType.ASCENDING
        WindowBoundary.UNBOUNDED_PRECEDING WindowBoundary.CURRENT_ROW_RANGE 0 0 [])
        (IntStore [10, 10, 20, 30]) (IntStore [10, 10, 20, 30]))
          0 { bounds := InitialBounds [Value.BIGINT 10], ranks := {}
              output := IntStore [0, 0, 0, 0] } 2 = Except.ok st ∧
        IntStore [1, 2, 3, 0] = st.output.SetValue 0 2 (Value.BIGINT ((2 - 0 + 1 : Nat) : Int)) ∧
        0 ≤ 2 ∧ 2 < 4) ∧
      (Finalize true
          [WindowOrderBy ExpressionType.WINDOW_ROW_NUMBER 0 OrderType.ASCENDING
            WindowBoundary.UNBOUNDED_PRECEDING WindowBoundary.CURRENT_ROW_RANGE 0 0 []]
          { chunks := IntStore [30, 10, 20, 10], window_results := ChunkCollection.empty }).map
        (fun g => (g.chunks.rows, g.window_results.rows))
        = Except.ok
          ([[Value.BIGINT 10], [Value.BIGINT 10], [Value.BIGINT 20], [Value.BIGINT 30]],
            [[Value.BIGINT 1], [Value.BIGINT 2], [Value.BIGINT 3], [Value.BIGINT 4]]) :=
  ⟨row_number_written true
      (WindowOrderBy ExpressionType.WINDOW_ROW_NUMBER 0 OrderType.ASCENDING
        WindowBoundary.UNBOUNDED_PRECEDING WindowBoundary.CURRENT_ROW_RANGE 0 0 [])
      4
      (MaterializeWindowCollections
        (WindowOrderBy ExpressionType.WINDOW_ROW_NUMBER 0 OrderType.ASCENDING
        WindowBoundary.UNBOUNDED_PRECEDING WindowBoundary.CURRENT_ROW_RANGE 0 0 [])
        (IntStore [10, 10, 20, 30]) (IntStore [10, 10, 20, 30]))
      0 [Value.BIGINT 10] (IntStore [0, 0, 0, 0]) 2
      { bounds :=
          { partition_start := 0, partition_end := 4, peer_start := 2, peer_end := 3
            window_start := 0, window_end := 3, is_same_partition := true, is_peer := false
            row_prev := [Value.BIGINT 20] },
        ranks := { dense_rank := 1, rank_equal := 0, rank := 1 },
        output := IntStore [1, 2, 3, 0] }
      rfl (by decide) (by decide) (by decide) (by decide) rfl (by decide), by decide⟩

/-- C17: for every sorted input of fewer than `2^63` rows and every row `r`
with a non-empty frame, PERCENT_RANK writes the rational
`(rank - 1) / (partition_size - 1)` when the partition has more than one row
and `0` otherwise; the value lies in `[0, 1]`, and it is `0` for the first row
of a partition and for the row of a one-row partition. -/
theorem percent_rank_written (assertions : Bool) (wexpr : BoundWindowExpression)
    (input_size : Nat) (cols : WindowCollections) (output_idx : Nat) (row_prev : List Value)
    (output : ChunkCollection) (r : Nat) (st1 : WindowLoopState)
    (htype : wexpr.type = ExpressionType.WINDOW_PERCENT_RANK)
    (hsorted : StoreSorted wexpr cols.sort_collection)
    (hsize : cols.sort_collection.ColumnCount > 0 → cols.sort_collection.Count = input_size)
    (hN : input_size < 9223372036854775808) (hr : r < input_size)
    (h : ComputeWindowLoop assertions wexpr input_size cols output_idx
      { bounds := InitialBounds row_prev, ranks := {}, output := output } (r + 1)
        = Except.ok st1)
    (hne : st1.bounds.window_start < st1.bounds.window_end) :
    ∃ st q, ComputeWindowLoop assertions wexpr input_size cols output_idx
        { bounds := InitialBounds row_prev, ranks := {}, output := output } r = Except.ok st ∧
      st1.output = st.output.SetValue output_idx r (Value.DOUBLE q) ∧
      q = (if 1 < st1.bounds.partition_end - st1.bounds.partition_start then
          ((st1.ranks.rank : Rat) - 1) /
            ((st1.bounds.partition_end - st1.bounds.partition_start - 1 : Nat) : Rat)
        else 0) ∧
      0 ≤ q ∧ q ≤ 1 ∧
      (r = st1.bounds.partition_start ∨
        st1.bounds.partition_end - st1.bounds.partition_start = 1 → q = 0) := by
  have hneeds := WindowNeedsRank_of_type wexpr (Or.inl htype)
  have hb := ComputeWindowLoop_bounds _ _ _ _ _ _ _ _ h
  obtain ⟨c1, c2, c3, c4, -⟩ := BoundariesAfter_sorted _ _ _ _ _ _ _ _ _ hsorted hsize hN hr hb
  obtain ⟨i1, -, -, -⟩ := ComputeWindowLoop_rank_eq _ _ _ _ _ _ _ _ _ hneeds (by omega) h
  obtain ⟨st, hst, hrow⟩ := ComputeWindowLoop_succ_eq_ok _ _ _ _ _ _ _ _ h
  obtain ⟨-, -, hout⟩ := ComputeWindowRow_eq_ok _ _ _ _ _ _ _ _ hrow
  rcases hout with ⟨hempty, -⟩ | ⟨-, res, hres, hout⟩
  · omega
  unfold ComputeWindowValue at hres
  simp only [htype, pure, Except.pure] at hres
  have hres := Except.ok.inj hres
  have hd : toInt64 (toIdx ((toIdx ((toIdx (toInt64 st1.bounds.partition_end) : Int) -
      st1.bounds.partition_start) : Int) - 1))
      = ((st1.bounds.partition_end - st1.bounds.partition_start - 1 : Nat) : Int) := by
    rw [toInt64_of_range (st1.bounds.partition_end : Int) (by omega) (by omega),
      toIdx_of_range (st1.bounds.partition_end : Int) (by omega) (by omega),
      toIdx_of_range ((st1.bounds.partition_end : Int) - st1.bounds.partition_start)
        (by omega) (by omega),
      toIdx_of_range ((st1.bounds.partition_end : Int) - st1.bounds.partition_start - 1)
        (by omega) (by omega),
      toInt64_of_range _ (by omega) (by omega)]
    omega
  rw [hd] at hres
  generalize hdn : st1.bounds.partition_end - st1.bounds.partition_start - 1 = d at hres
  have hrank : (st1.ranks.rank : Rat) - 1 = ((st1.ranks.rank - 1 : Nat) : Rat) := by
    rw [Nat.cast_sub (by omega)]
    simp
  have hle : st1.ranks.rank - 1 ≤ d := by omega
  by_cases hd0 : 0 < d
  · have h1 : 1 < st1.bounds.partition_end - st1.bounds.partition_start := by omega
    have hdI : ((d : Nat) : Int) > 0 := by omega
    rw [if_pos hdI] at hres
    have hdR : (0 : Rat) < (d : Rat) := by exact_mod_cast hd0
    refine ⟨st, ((st1.ranks.rank : Rat) - 1) / (d : Rat), hst, ?_, ?_, ?_, ?_, ?_⟩
    · rw [hout, ← hres]
      simp
    · rw [if_pos h1]
    · rw [hrank]
      positivity
    · rw [hrank, div_le_one hdR]
      exact_mod_cast hle
    · intro hfirst
      have hr1 : st1.ranks.rank - 1 = 0 := by omega
      rw [hrank, hr1]
      simp
  · have h1 : ¬ 1 < st1.bounds.partition_end - st1.bounds.partition_start := by omega
    have hdI : ¬ ((d : Nat) : Int) > 0 := by omega
    rw [if_neg hdI] at hres
    refine ⟨st, 0, hst, ?_, ?_, le_refl _, zero_le_one, fun _ => rfl⟩
    · rw [hout, ← hres]
    · rw [if_neg h1]

/-- An instance of `percent_rank_written`: `percent_rank() OVER (ORDER BY x)` on
the sorted values `5, 5, 7, 9`, row `2`, which gets `(3 - 1) / (4 - 1)`; the
whole column is `[0, 0, 2/3, 1]`. -/
theorem percent_rank_written_witness :
    (∃ st q, ComputeWindowLoop true
          (WindowOrderBy ExpressionType.WINDOW_PERCENT_RANK 0 OrderType.ASCENDING
        WindowBoundary.UNBOUNDED_PRECEDING WindowBoundary.CURRENT_ROW_RANGE 0 0 [])
          4
          (MaterializeWindowCollections
        (WindowOrderBy ExpressionType.WINDOW_PERCENT_RANK 0 OrderType.ASCENDING
        WindowBoundary.UNBOUNDED_PRECEDING WindowBoundary.CURRENT_ROW_RANGE 0 0 [])
        (IntStore [5, 5, 7, 9]) (IntStore [5, 5, 7, 9]))
          0 { bounds := InitialBounds [Value.BIGINT 5], ranks := {}
              output := IntStore [0, 0, 0, 0] } 2 = Except.ok st ∧
        ({ types := 1
           rows := [[Value.DOUBLE 0], [Value.DOUBLE 0], [Value.DOUBLE (2 / 3)], [Value.BIGINT 0]] }
            : ChunkCollection) = st.output.SetValue 0 2 (Value.DOUBLE q) ∧
        q = (if 1 < 4 - 0 then (((3 : Nat) : Rat) - 1) / ((4 - 0 - 1 : Nat) : Rat) else 0) ∧
        0 ≤ q ∧ q ≤ 1 ∧ (2 = 0 ∨ 4 - 0 = 1 → q = 0)) ∧
      (Finalize true
          [WindowOrderBy ExpressionType.WINDOW_PERCENT_RANK 0 OrderType.ASCENDING
            WindowBoundary.UNBOUNDED_PRECEDING WindowBoundary.CURRENT_ROW_RANGE 0 0 []]
          { chunks := IntStore [5, 5, 7, 9], window_results := ChunkCollection.empty }).map
        (fun g => g.window_results.rows)
        = Except.ok
          [[Value.DOUBLE 0], [Value.DOUBLE 0], [Value.DOUBLE (2 / 3)], [Value.DOUBLE 1]] :=
  ⟨percent_rank_written true
      (WindowOrderBy ExpressionType.WINDOW_PERCENT_RANK 0 OrderType.ASCENDING
        WindowBoundary.UNBOUNDED_PRECEDING WindowBoundary.CURRENT_ROW_RANGE 0 0 [])
      4
      (MaterializeWindowCollections
        (WindowOrderBy ExpressionType.WINDOW_PERCENT_RANK 0 OrderType.ASCENDING
        WindowBoundary.UNBOUNDED_PRECEDING WindowBoundary.CURRENT_ROW_RANGE 0 0 [])
        (IntStore [5, 5, 7, 9]) (IntStore [5, 5, 7, 9]))
      0 [Value.BIGINT 5] (IntStore [0, 0, 0, 0]) 2
      { bounds :=
          { partition_start := 0, partition_end := 4, peer_start := 2, peer_end := 3
            window_start := 0, window_end := 3, is_same_partition := true, is_peer := false
            row_prev := [Value.BIGINT 7] },
        ranks := { dense_rank := 2, rank_equal := 1, rank := 3 },
        output :=
          { types := 1
            rows := [[Value.DOUBLE 0], [Value.DOUBLE 0], [Value.DOUBLE (2 / 3)],
              [Value.BIGINT 0]] } }
      rfl (by decide) (by decide) (by decide) (by decide) (by with_unfolding_all rfl) (by decide),
    by decide!⟩

/-- C18: for every sorted input of fewer than `2^63` rows, whatever the
direction of its order keys, and every row `r` with a non-empty frame,
CUME_DIST writes the rational
`(peer_end - partition_start) / (partition_end - partition_start)`, and the
value lies in `(0, 1]`. -/
theorem cume_dist_written (assertions : Bool) (wexpr : BoundWindowExpression)
    (input_size : Nat) (cols : WindowCollections) (output_idx : Nat) (row_prev : List Value)
    (output : ChunkCollection) (r : Nat) (st1 : WindowLoopState)
    (htype : wexpr.type = ExpressionType.WINDOW_CUME_DIST)
    (hsorted : StoreSorted wexpr cols.sort_collection)
    (hsize : cols.sort_collection.ColumnCount > 0 → cols.sort_collection.Count = input_size)
    (hN : input_size < 9223372036854775808) (hr : r < input_size)
    (h : ComputeWindowLoop assertions wexpr input_size cols output_idx
      { bounds := InitialBounds row_prev, ranks := {}, output := output } (r + 1)
        = Except.ok st1)
    (hne : st1.bounds.window_start < st1.bounds.window_end) :
    ∃ st q, ComputeWindowLoop assertions wexpr input_size cols output_idx
        { bounds := InitialBounds row_prev, ranks := {}, output := output } r = Except.ok st ∧
      st1.output = st.output.SetValue output_idx r (Value.DOUBLE q) ∧
      q = ((st1.bounds.peer_end - st1.bounds.partition_start : Nat) : Rat) /
          ((st1.bounds.partition_end - st1.bounds.partition_start : Nat) : Rat) ∧
      0 < q ∧ q ≤ 1 := by
  have hb := ComputeWindowLoop_bounds _ _ _ _ _ _ _ _ h
  obtain ⟨c1, c2, c3, c4, c5⟩ := BoundariesAfter_sorted _ _ _ _ _ _ _ _ _ hsorted hsize hN hr hb
  obtain ⟨c5, c6⟩ := c5 (Or.inr (Or.inr htype))
  obtain ⟨st, hst, hrow⟩ := ComputeWindowLoop_succ_eq_ok _ _ _ _ _ _ _ _ h
  obtain ⟨-, -, hout⟩ := ComputeWindowRow_eq_ok _ _ _ _ _ _ _ _ hrow
  rcases hout with ⟨hempty, -⟩ | ⟨-, res, hres, hout⟩
  · omega
  unfold ComputeWindowValue at hres
  simp only [htype, pure, Except.pure] at hres
  have hres := Except.ok.inj hres
  have hd : toInt64 (toIdx ((toIdx (toInt64 st1.bounds.partition_end) : Int) -
      st1.bounds.partition_start))
      = ((st1.bounds.partition_end - st1.bounds.partition_start : Nat) : Int) := by
    rw [toInt64_of_range (st1.bounds.partition_end : Int) (by omega) (by omega),
      toIdx_of_range (st1.bounds.partition_end : Int) (by omega) (by omega),
      toIdx_of_range ((st1.bounds.partition_end : Int) - st1.bounds.partition_start)
        (by omega) (by omega),
      toInt64_of_range _ (by omega) (by omega)]
    omega
  have hn : toIdx ((st1.bounds.peer_end : Int) - st1.bounds.partition_start)
      = st1.bounds.peer_end - st1.bounds.partition_start := by
    have := toIdx_of_range ((st1.bounds.peer_end : Int) - st1.bounds.partition_start)
      (by omega) (by omega)
    omega
  rw [hd, hn] at hres
  generalize hdn : st1.bounds.partition_end - st1.bounds.partition_start = d at hres
  generalize hnn : st1.bounds.peer_end - st1.bounds.partition_start = n at hres
  have hd0 : 0 < d := by omega
  have hn0 : 0 < n := by omega
  have hle : n ≤ d := by omega
  have hdI : ((d : Nat) : Int) > 0 := by omega
  rw [if_pos hdI] at hres
  have hdR : (0 : Rat) < (d : Rat) := by exact_mod_cast hd0
  have hnR : (0 : Rat) < (n : Rat) := by exact_mod_cast hn0
  refine ⟨st, (n : Rat) / (d : Rat), hst, ?_, rfl, div_pos hnR hdR, ?_⟩
  · rw [hout, ← hres]
    simp
  · rw [div_le_one hdR]
    exact_mod_cast hle

/-- An instance of `cume_dist_written`: `cume_dist() OVER (ORDER BY x)` on the
sorted values `1, 2, 2, 3`, row `1`, which gets `(3 - 0) / (4 - 0)`. -/
theorem cume_dist_written_witness :
    ∃ st q, ComputeWindowLoop true
        (WindowOrderBy ExpressionType.WINDOW_CUME_DIST 0 OrderType.ASCENDING
        WindowBoundary.UNBOUNDED_PRECEDING WindowBoundary.CURRENT_ROW_RANGE 0 0 [])
        4
        (MaterializeWindowCollections
        (WindowOrderBy ExpressionType.WINDOW_CUME_DIST 0 OrderType.ASCENDING
        WindowBoundary.UNBOUNDED_PRECEDING WindowBoundary.CURRENT_ROW_RANGE 0 0 [])
        (IntStore [1, 2, 2, 3]) (IntStore [1, 2, 2, 3]))
        0 { bounds := InitialBounds [Value.BIGINT 1], ranks := {}
            output := IntStore [0, 0, 0, 0] } 1 = Except.ok st ∧
      ({ types := 1
         rows := [[Value.DOUBLE (1 / 4)], [Value.DOUBLE (3 / 4)], [Value.BIGINT 0],
           [Value.BIGINT 0]] } : ChunkCollection) = st.output.SetValue 0 1 (Value.DOUBLE q) ∧
      q = ((3 - 0 : Nat) : Rat) / ((4 - 0 : Nat) : Rat) ∧ 0 < q ∧ q ≤ 1 :=
  cume_dist_written true
    (WindowOrderBy ExpressionType.WINDOW_CUME_DIST 0 OrderType.ASCENDING
        WindowBoundary.UNBOUNDED_PRECEDING WindowBoundary.CURRENT_ROW_RANGE 0 0 [])
    4
    (MaterializeWindowCollections
        (WindowOrderBy ExpressionType.WINDOW_CUME_DIST 0 OrderType.ASCENDING
        WindowBoundary.UNBOUNDED_PRECEDING WindowBoundary.CURRENT_ROW_RANGE 0 0 [])
        (IntStore [1, 2, 2, 3]) (IntStore [1, 2, 2, 3]))
    0 [Value.BIGINT 1] (IntStore [0, 0, 0, 0]) 1
    { bounds :=
        { partition_start := 0, partition_end := 4, peer_start := 1, peer_end := 3
          window_start := 0, window_end := 3, is_same_partition := true, is_peer := false
          row_prev := [Value.BIGINT 2] },
      ranks := { dense_rank := 2, rank_equal := 1, rank := 2 },
      output :=
        { types := 1
          rows := [[Value.DOUBLE (1 / 4)], [Value.DOUBLE (3 / 4)], [Value.BIGINT 0],
            [Value.BIGINT 0]] } }
    rfl (by decide) (by decide) (by decide) (by decide) (by with_unfolding_all rfl) (by decide)


/-! ## LEAD and LAG (C20) -/

theorem lead_idx_eq (r : Nat) (off : Int) (hr : r < 9223372036854775808)
    (h1 : -9223372036854775808 ≤ off) (h2 : off < 9223372036854775808) :
    toIdx ((r : Int) + (toIdx off : Nat))
      = if 0 ≤ (r : Int) + off then ((r : Int) + off).toNat
        else ((r : Int) + off + 18446744073709551616).toNat := by
  unfold toIdx
  by_cases h0 : 0 ≤ (r : Int) + off
  · rw [if_pos h0]
    omega
  · rw [if_neg h0]
    omega

theorem lag_idx_eq (r : Nat) (off : Int) (hr : r < 9223372036854775808)
    (h1 : -9223372036854775808 ≤ off) (h2 : off < 9223372036854775808) :
    toInt64 (toIdx ((toIdx (toInt64 r) : Int) - (toIdx off : Nat)))
      = if (r : Int) - off < 9223372036854775808 then (r : Int) - off
        else (r : Int) - off - 18446744073709551616 := by
  rw [toInt64_of_range (r : Int) (by omega) (by omega),
    toIdx_of_range (r : Int) (by omega) (by omega)]
  have e1 : ((toIdx off : Nat) : Int) = if 0 ≤ off then off else off + 18446744073709551616 := by
    unfold toIdx
    by_cases h0 : 0 ≤ off
    · rw [if_pos h0]
      omega
    · rw [if_neg h0]
      omega
  rw [e1]
  unfold toIdx toInt64
  by_cases h0 : 0 ≤ off
  · rw [if_pos h0, if_pos (by omega)]
    omega
  · rw [if_neg h0]
    by_cases h3 : (r : Int) - off < 9223372036854775808
    · rw [if_pos h3]
      omega
    · rw [if_neg h3]
      omega

theorem lead_core (payload : ChunkCollection) (r offN pe : Nat) (off : Int) (dv : Value)
    (hoff : offN = toIdx off) (hr : r < 9223372036854775808) (hpe : pe ≤ 9223372036854775808)
    (h1 : -9223372036854775808 ≤ off) (h2 : off < 9223372036854775808) :
    (if toIdx ((r : Int) + offN) < pe then payload.GetValue 0 (toIdx ((r : Int) + offN)) else dv)
      = if 0 ≤ (r : Int) + off ∧ (r : Int) + off < pe then
          payload.GetValue 0 ((r : Int) + off).toNat
        else dv := by
  rw [hoff, lead_idx_eq r off hr h1 h2]
  by_cases h0 : 0 ≤ (r : Int) + off
  · rw [if_pos h0]
    by_cases h3 : (r : Int) + off < pe
    · rw [if_pos (by omega), if_pos ⟨h0, h3⟩]
    · rw [if_neg (by omega), if_neg (fun hc => h3 hc.2)]
  · rw [if_neg h0, if_neg (by omega), if_neg (fun hc => h0 hc.1)]

theorem lag_core (payload : ChunkCollection) (r offN ps : Nat) (off : Int) (dv : Value)
    (hoff : offN = toIdx off) (hr : r < 9223372036854775808)
    (h1 : -9223372036854775808 ≤ off) (h2 : off < 9223372036854775808) :
    (if toInt64 (toIdx ((toIdx (toInt64 r) : Int) - offN)) ≥ 0 ∧
        toIdx (toInt64 (toIdx ((toIdx (toInt64 r) : Int) - offN))) ≥ ps then
        payload.GetValue 0 (toIdx (toInt64 (toIdx ((toIdx (toInt64 r) : Int) - offN))))
      else dv)
      = if (ps : Int) ≤ (r : Int) - off ∧ (r : Int) - off < 9223372036854775808 then
          payload.GetValue 0 ((r : Int) - off).toNat
        else dv := by
  rw [hoff, lag_idx_eq r off hr h1 h2]
  by_cases h3 : (r : Int) - off < 9223372036854775808
  · rw [if_pos h3]
    by_cases h0 : 0 ≤ (r : Int) - off
    · have e : toIdx ((r : Int) - off) = ((r : Int) - off).toNat := by
        have := toIdx_of_range ((r : Int) - off) h0 (by omega)
        omega
      rw [e]
      by_cases h4 : (ps : Int) ≤ (r : Int) - off
      · rw [if_pos ⟨h0, by omega⟩, if_pos ⟨h4, h3⟩]
      · rw [if_neg (fun hc => h4 (by have := hc.2; omega)), if_neg (fun hc => h4 hc.1)]
    · rw [if_neg (fun hc => h0 hc.1), if_neg (fun hc => h0 (by have := hc.1; omega))]
  · rw [if_neg h3, if_neg (fun hc => by have := hc.1; omega), if_neg (fun hc => h3 hc.2)]

theorem LeadLagOffset_range (wexpr : BoundWindowExpression) (offs : ChunkCollection) (r : Nat) :
    -9223372036854775808 ≤ LeadLagOffset wexpr offs r ∧
      LeadLagOffset wexpr offs r < 9223372036854775808 := by
  unfold LeadLagOffset
  cases wexpr.offset_expr with
  | none =>
    simp only
    omega
  | some e => exact GetValueInt64_range _

/-- The LEAD case of `ComputeLeadLag` without wrap-around: the payload at
`r + offset` when `0 <= r + offset < partition_end`, the default otherwise. -/
theorem ComputeLeadLag_lead (wexpr : BoundWindowExpression)
    (payload offs defs : ChunkCollection) (r : Nat) (b : WindowBoundariesState)
    (htype : wexpr.type = ExpressionType.WINDOW_LEAD)
    (hr : r < 9223372036854775808) (hpe : b.partition_end ≤ 9223372036854775808) :
    ComputeLeadLag wexpr payload offs defs r b
      = if 0 ≤ (r : Int) + LeadLagOffset wexpr offs r ∧
          (r : Int) + LeadLagOffset wexpr offs r < b.partition_end then
          payload.GetValue 0 ((r : Int) + LeadLagOffset wexpr offs r).toNat
        else LeadLagDefault wexpr defs r := by
  have hrange := LeadLagOffset_range wexpr offs r
  unfold ComputeLeadLag
  unfold LeadLagOffset LeadLagDefault at *
  revert hrange
  cases wexpr.offset_expr <;> cases wexpr.default_expr <;> intro hrange <;>
    simp only [htype, if_true] at hrange ⊢ <;>
    exact lead_core _ _ _ _ _ _ rfl hr hpe hrange.1 hrange.2

/-- The LAG case of `ComputeLeadLag` without wrap-around: the payload at
`r - offset` when `partition_start <= r - offset < 2^63`, the default
otherwise. -/
theorem ComputeLeadLag_lag (wexpr : BoundWindowExpression)
    (payload offs defs : ChunkCollection) (r : Nat) (b : WindowBoundariesState)
    (htype : wexpr.type ≠ ExpressionType.WINDOW_LEAD)
    (hr : r < 9223372036854775808) :
    ComputeLeadLag wexpr payload offs defs r b
      = if (b.partition_start : Int) ≤ (r : Int) - LeadLagOffset wexpr offs r ∧
          (r : Int) - LeadLagOffset wexpr offs r < 9223372036854775808 then
          payload.GetValue 0 ((r : Int) - LeadLagOffset wexpr offs r).toNat
        else LeadLagDefault wexpr defs r := by
  have hrange := LeadLagOffset_range wexpr offs r
  unfold ComputeLeadLag
  unfold LeadLagOffset LeadLagDefault at *
  revert hrange
  cases wexpr.offset_expr <;> cases wexpr.default_expr <;> intro hrange <;>
    simp only [htype, if_false] at hrange ⊢ <;>
    exact lag_core _ _ _ _ _ _ rfl hr hrange.1 hrange.2

/-- C20, counterexample: `lead(x, -1, 99) OVER (ORDER BY x)` on `10, 20`.  At row
`0` the sum `r + offset = -1` is below `partition_end = 2`, yet the row gets
the default `99`, which is no payload value: the index wraps around as an
unsigned integer and fails the comparison with `partition_end`. -/
theorem lead_negative_counterexample :
    (Finalize true [WindowLeadLag ExpressionType.WINDOW_LEAD 0 (-1) 99]
        { chunks := IntStore [10, 20], window_results := ChunkCollection.empty }).map
      (fun g => g.window_results.rows)
      = Except.ok [[Value.BIGINT 99], [Value.BIGINT 10]] ∧
    ((0 : Nat) : Int) + LeadLagOffset (WindowLeadLag ExpressionType.WINDOW_LEAD 0 (-1) 99)
      (MaterializeWindowCollections (WindowLeadLag ExpressionType.WINDOW_LEAD 0 (-1) 99)
        (IntStore [10, 20]) (IntStore [10, 20])).leadlag_offset_collection 0 < 2 := by
  decide

/-- The value the main loop writes for LEAD and LAG at a row `r` with a
non-empty frame, on an input of fewer than `2^63` rows, in terms of the signed
offset: the two tests of lines 458 and 465 without their wrap-around. -/
theorem ComputeWindowLoop_lead_lag (assertions : Bool) (wexpr : BoundWindowExpression)
    (input_size : Nat) (cols : WindowCollections) (output_idx : Nat) (row_prev : List Value)
    (output : ChunkCollection) (r : Nat) (st1 : WindowLoopState)
    (htype : wexpr.type = ExpressionType.WINDOW_LEAD ∨ wexpr.type = ExpressionType.WINDOW_LAG)
    (hsize : cols.sort_collection.ColumnCount > 0 → cols.sort_collection.Count = input_size)
    (hN : input_size < 9223372036854775808) (hr : r < input_size)
    (h : ComputeWindowLoop assertions wexpr input_size cols output_idx
      { bounds := InitialBounds row_prev, ranks := {}, output := output } (r + 1)
        = Except.ok st1)
    (hne : st1.bounds.window_start < st1.bounds.window_end) :
    ∃ st, ComputeWindowLoop assertions wexpr input_size cols output_idx
        { bounds := InitialBounds row_prev, ranks := {}, output := output } r = Except.ok st ∧
      st1.output = st.output.SetValue output_idx r
        (if wexpr.type = ExpressionType.WINDOW_LEAD then
          (if 0 ≤ (r : Int) + LeadLagOffset wexpr cols.leadlag_offset_collection r ∧
              (r : Int) + LeadLagOffset wexpr cols.leadlag_offset_collection r
                < st1.bounds.partition_end then
            cols.payload_collection.GetValue 0
              ((r : Int) + LeadLagOffset wexpr cols.leadlag_offset_collection r).toNat
          else LeadLagDefault wexpr cols.leadlag_default_collection r)
        else
          (if (st1.bounds.partition_start : Int)
                ≤ (r : Int) - LeadLagOffset wexpr cols.leadlag_offset_collection r ∧
              (r : Int) - LeadLagOffset wexpr cols.leadlag_offset_collection r
                < 9223372036854775808 then
            cols.payload_collection.GetValue 0
              ((r : Int) - LeadLagOffset wexpr cols.leadlag_offset_collection r).toNat
          else LeadLagDefault wexpr cols.leadlag_default_collection r)) := by
  have hb := ComputeWindowLoop_bounds _ _ _ _ _ _ _ _ h
  obtain ⟨-, -, -, c4⟩ := BoundariesAfter_partition_bounds _ _ _ _ _ _ _ _ _ hsize hN hr hb
  obtain ⟨st, hst, hrow⟩ := ComputeWindowLoop_succ_eq_ok _ _ _ _ _ _ _ _ h
  obtain ⟨-, -, hout⟩ := ComputeWindowRow_eq_ok _ _ _ _ _ _ _ _ hrow
  rcases hout with ⟨hempty, -⟩ | ⟨-, res, hres, hout⟩
  · omega
  refine ⟨st, hst, ?_⟩
  unfold ComputeWindowValue at hres
  rcases htype with ht | ht
  · simp only [ht, pure, Except.pure] at hres
    have hres := Except.ok.inj hres
    rw [if_pos ht, hout, ← hres,
      ComputeLeadLag_lead wexpr _ _ _ r st1.bounds ht (by omega) (by omega)]
  · have hnl : wexpr.type ≠ ExpressionType.WINDOW_LEAD := by
      rw [ht]
      decide
    simp only [ht, pure, Except.pure] at hres
    have hres := Except.ok.inj hres
    rw [if_neg hnl, hout, ← hres, ComputeLeadLag_lag wexpr _ _ _ r st1.bounds hnl (by omega)]

/-! ## NTILE (C19) -/

/-- The parameters of `SpecNtile`: the clamped parameter `q`, the bucket size
`sz` and the number `large` of buckets with one more row. -/
theorem SpecNtile_params (N p : Nat) (hN : 1 ≤ N) (hp : 1 ≤ p) :
    1 ≤ min p N ∧ min p N ≤ N ∧ min p N ≤ p ∧ 1 ≤ N / min p N ∧
      N - min p N * (N / min p N) < min p N ∧
      N = min p N * (N / min p N) + (N - min p N * (N / min p N)) := by
  have hq1 : 1 ≤ min p N := by omega
  have hq2 : min p N ≤ N := by omega
  have h1 : 1 ≤ N / min p N := Nat.div_pos hq2 hq1
  have h2 := Nat.div_add_mod N (min p N)
  have h3 := Nat.mod_lt N hq1
  generalize min p N * (N / min p N) = t at h2 ⊢
  generalize N % min p N = m at h2 h3
  refine ⟨hq1, hq2, by omega, h1, by omega, by omega⟩

/-- The rows of a bucket among the first `large` ones: bucket `k + 1` is the
interval of length `sz + 1` from `k * (sz + 1)`. -/
theorem ntile_small_iff (sz large a k v : Nat) (hk : k < large)
    (hv : v = if a < large * (sz + 1) then 1 + a / (sz + 1)
      else 1 + large + (a - large * (sz + 1)) / sz) :
    v = k + 1 ↔ k * (sz + 1) ≤ a ∧ a < k * (sz + 1) + (sz + 1) := by
  have hpos : 0 < sz + 1 := Nat.succ_pos sz
  have h1 : k ≤ a / (sz + 1) ↔ k * (sz + 1) ≤ a := Nat.le_div_iff_mul_le hpos
  have h2 : a / (sz + 1) < k + 1 ↔ a < (k + 1) * (sz + 1) := Nat.div_lt_iff_lt_mul hpos
  have h3 : (k + 1) * (sz + 1) = k * (sz + 1) + (sz + 1) := Nat.succ_mul k (sz + 1)
  have h4 : (k + 1) * (sz + 1) ≤ large * (sz + 1) := Nat.mul_le_mul_right (sz + 1) hk
  rw [h3] at h2 h4
  clear h3
  generalize (a - large * (sz + 1)) / sz = d2 at *
  generalize a / (sz + 1) = d1 at *
  generalize large * (sz + 1) = i at *
  generalize k * (sz + 1) = t at *
  by_cases hlt : a < i
  · rw [if_pos hlt] at hv
    omega
  · rw [if_neg hlt] at hv
    omega

/-- The rows of a bucket after the first `large` ones: bucket `large + 1 + m`
is the interval of length `sz` from `large * (sz + 1) + m * sz`. -/
theorem ntile_large_iff (sz large a m v : Nat) (hsz : 1 ≤ sz)
    (hv : v = if a < large * (sz + 1) then 1 + a / (sz + 1)
      else 1 + large + (a - large * (sz + 1)) / sz) :
    v = large + 1 + m ↔
      large * (sz + 1) + m * sz ≤ a ∧ a < large * (sz + 1) + m * sz + sz := by
  have hpos : 0 < sz + 1 := Nat.succ_pos sz
  have h0 : a / (sz + 1) < large ↔ a < large * (sz + 1) := Nat.div_lt_iff_lt_mul hpos
  have h1 : m ≤ (a - large * (sz + 1)) / sz ↔ m * sz ≤ a - large * (sz + 1) :=
    Nat.le_div_iff_mul_le hsz
  have h2 : (a - large * (sz + 1)) / sz < m + 1 ↔ a - large * (sz + 1) < (m + 1) * sz :=
    Nat.div_lt_iff_lt_mul hsz
  have h3 : (m + 1) * sz = m * sz + sz := Nat.succ_mul m sz
  rw [h3] at h2
  clear h3
  generalize (a - large * (sz + 1)) / sz = d2 at *
  generalize a / (sz + 1) = d1 at *
  generalize large * (sz + 1) = i at *
  generalize m * sz = t at *
  by_cases hlt : a < i
  · rw [if_pos hlt] at hv
    omega
  · rw [if_neg hlt] at hv
    omega

/-- The bucket lies in `1 .. q`. -/
theorem ntile_range (sz large q a v : Nat) (hsz : 1 ≤ sz) (hl : large < q)
    (ha : a < q * sz + large)
    (hv : v = if a < large * (sz + 1) then 1 + a / (sz + 1)
      else 1 + large + (a - large * (sz + 1)) / sz) :
    1 ≤ v ∧ v ≤ q := by
  have hpos : 0 < sz + 1 := Nat.succ_pos sz
  have h0 : a / (sz + 1) < large ↔ a < large * (sz + 1) := Nat.div_lt_iff_lt_mul hpos
  have h2 : (a - large * (sz + 1)) / sz < q - large ↔ a - large * (sz + 1) < (q - large) * sz :=
    Nat.div_lt_iff_lt_mul hsz
  have h3 : (q - large) * sz = q * sz - large * sz := Nat.sub_mul q large sz
  have h4 : large * (sz + 1) = large * sz + large := Nat.mul_succ large sz
  have h5 : large * sz ≤ q * sz := Nat.mul_le_mul_right sz (Nat.le_of_lt hl)
  rw [h3] at h2
  rw [h4] at h0 h2 hv
  clear h3 h4
  generalize (a - (large * sz + large)) / sz = d2 at *
  generalize a / (sz + 1) = d1 at *
  generalize large * sz = i at *
  generalize q * sz = t at *
  by_cases hlt : a < i + large
  · rw [if_pos hlt] at hv
    omega
  · rw [if_neg hlt] at hv
    omega

/-- The bucket does not decrease with the row. -/
theorem ntile_mono (sz large a1 a2 v1 v2 : Nat) (h12 : a1 ≤ a2)
    (hv1 : v1 = if a1 < large * (sz + 1) then 1 + a1 / (sz + 1)
      else 1 + large + (a1 - large * (sz + 1)) / sz)
    (hv2 : v2 = if a2 < large * (sz + 1) then 1 + a2 / (sz + 1)
      else 1 + large + (a2 - large * (sz + 1)) / sz) :
    v1 ≤ v2 := by
  have hpos : 0 < sz + 1 := Nat.succ_pos sz
  have h0 : a1 / (sz + 1) < large ↔ a1 < large * (sz + 1) := Nat.div_lt_iff_lt_mul hpos
  have h1 : a1 / (sz + 1) ≤ a2 / (sz + 1) := Nat.div_le_div_right h12
  have h2 : (a1 - large * (sz + 1)) / sz ≤ (a2 - large * (sz + 1)) / sz :=
    Nat.div_le_div_right (Nat.sub_le_sub_right h12 _)
  generalize (a1 - large * (sz + 1)) / sz = d1 at *
  generalize (a2 - large * (sz + 1)) / sz = d2 at *
  generalize a1 / (sz + 1) = e1 at *
  generalize a2 / (sz + 1) = e2 at *
  generalize large * (sz + 1) = i at *
  by_cases hlt1 : a1 < i <;> by_cases hlt2 : a2 < i
  · rw [if_pos hlt1] at hv1
    rw [if_pos hlt2] at hv2
    omega
  · rw [if_pos hlt1] at hv1
    rw [if_neg hlt2] at hv2
    omega
  · omega
  · rw [if_neg hlt1] at hv1
    rw [if_neg hlt2] at hv2
    omega

/-- The number of rows of `[s, s + n)` that lie in `[lo, hi)`. -/
theorem filter_range_interval (s n lo hi : Nat) :
    ((List.range' s n).filter (fun r => decide (lo ≤ r ∧ r < hi))).length
      = min (s + n) hi - max s lo := by
  induction n generalizing s with
  | zero =>
    simp only [List.range'_zero, List.filter_nil, List.length_nil]
    omega
  | succ n ih =>
    rw [List.range'_succ, List.filter_cons]
    by_cases hc : lo ≤ s ∧ s < hi
    · rw [if_pos (decide_eq_true hc), List.length_cons, ih]
      omega
    · rw [if_neg (by simpa using hc), ih]
      omega

theorem D_ASSERT_of_true (assertions cond : Bool) (h : cond = true) :
    D_ASSERT assertions cond = Except.ok () :=
  (D_ASSERT_eq_ok assertions cond).2 (fun _ => h)

theorem toInt64_natCast (n : Nat) (h : n < 9223372036854775808) : toInt64 (n : Int) = n :=
  toInt64_of_range _ (by omega) (by omega)

theorem toInt64_natCast_mul (x y : Nat) (h : x * y < 9223372036854775808) :
    toInt64 ((x : Int) * (y : Int)) = ((x * y : Nat) : Int) := by
  rw [← Nat.cast_mul]
  exact toInt64_natCast _ h

theorem toInt64_natCast_add (x y : Nat) (h : x + y < 9223372036854775808) :
    toInt64 ((x : Int) + (y : Int)) = ((x + y : Nat) : Int) := by
  rw [← Nat.cast_add]
  exact toInt64_natCast _ h

theorem toInt64_natCast_sub (x y : Nat) (hxy : y ≤ x) (h : x < 9223372036854775808) :
    toInt64 ((x : Int) - (y : Int)) = ((x - y : Nat) : Int) := by
  rw [← Nat.cast_sub hxy]
  exact toInt64_natCast _ (Nat.lt_of_le_of_lt (Nat.sub_le x y) h)

theorem toInt64_natCast_tdiv (x y : Nat) (h : x < 9223372036854775808) :
    toInt64 (Int.tdiv (x : Int) (y : Int)) = ((x / y : Nat) : Int) := by
  rw [← Int.ofNat_tdiv]
  exact toInt64_natCast _ (Nat.lt_of_le_of_lt (Nat.div_le_self x y) h)

theorem toInt64_natCast_succ (x : Nat) (h : x + 1 < 9223372036854775808) :
    toInt64 ((x : Int) + 1) = ((x + 1 : Nat) : Int) :=
  toInt64_natCast_add x 1 h

theorem toInt64_one_add_natCast (x : Nat) (h : 1 + x < 9223372036854775808) :
    toInt64 (1 + (x : Int)) = ((1 + x : Nat) : Int) :=
  toInt64_natCast_add 1 x h

/-- The products of the NTILE computation stay within the partition size. -/
theorem ntile_bounds (N q sz large : Nat) (hl : large < q) (hNeq : N = q * sz + large) :
    q * sz ≤ N ∧ large * (sz + 1) ≤ N ∧ (q - large) * sz ≤ N ∧
      large * (sz + 1) + (q - large) * sz = N := by
  have hls : large * sz ≤ q * sz := Nat.mul_le_mul_right sz (Nat.le_of_lt hl)
  have hi : large * (sz + 1) = large * sz + large := Nat.mul_succ large sz
  have hqls : (q - large) * sz = q * sz - large * sz := Nat.sub_mul q large sz
  rw [hi, hqls]
  generalize large * sz = x at *
  generalize q * sz = y at *
  omega

theorem ComputeNtile_eq (assertions : Bool) (payload : ChunkCollection) (r : Nat)
    (b : WindowBoundariesState) (p : Nat)
    (hcol : payload.ColumnCount = 1)
    (hps : b.partition_start ≤ r) (hr : r < b.partition_end)
    (hpe : b.partition_end < 9223372036854775807)
    (hp1 : 1 ≤ p)
    (hparam : (payload.GetValue 0 r).GetValueInt64 = p) :
    ComputeNtile assertions payload r b
      = Except.ok (Value.BIGINT
          (SpecNtile (b.partition_end - b.partition_start) p (r - b.partition_start) : Nat)) := by
  have hA1 := D_ASSERT_of_true assertions (decide (r ≥ b.partition_start)) (decide_eq_true hps)
  have e_total : toInt64 (toIdx ((b.partition_end : Int) - b.partition_start))
      = ((b.partition_end - b.partition_start : Nat) : Int) := by
    rw [toIdx_of_range _ (by omega) (by omega), toInt64_of_range _ (by omega) (by omega)]
    omega
  have e_a : toInt64 (toIdx ((r : Int) - b.partition_start))
      = ((r - b.partition_start : Nat) : Int) := by
    rw [toIdx_of_range _ (by omega) (by omega), toInt64_of_range _ (by omega) (by omega)]
    omega
  have hN1 : 1 ≤ b.partition_end - b.partition_start := by omega
  have hN2 : b.partition_end - b.partition_start < 9223372036854775807 := by omega
  have ha : r - b.partition_start < b.partition_end - b.partition_start := by omega
  unfold ComputeNtile
  simp only [hcol, hparam, ne_eq, not_true_eq_false, if_false, e_total, e_a, hA1, SpecNtile]
  generalize b.partition_end - b.partition_start = N at hN1 hN2 ha ⊢
  generalize r - b.partition_start = a at ha ⊢
  clear hA1 e_total e_a hparam hcol hps hr hpe
  obtain ⟨hq1, hq2, -, hsz1, hl, hNeq⟩ := SpecNtile_params N p hN1 hp1
  have e_q : (if (p : Int) > (N : Int) then (N : Int) else (p : Int)) = ((min p N : Nat) : Int) := by
    by_cases hc : (p : Int) > (N : Int)
    · rw [if_pos hc]
      omega
    · rw [if_neg hc]
      omega
  have hN3 : N < 9223372036854775808 := by omega
  have hqsz : min p N * (N / min p N) ≤ N := Nat.mul_div_le N _
  have hszN : N / min p N + 1 < 9223372036854775808 := by
    have := Nat.div_le_self N (min p N)
    omega
  simp only [e_q, toInt64_natCast_tdiv N _ hN3]
  clear e_q
  generalize min p N = q at *
  generalize N / q = sz at *
  simp only [toInt64_natCast_mul q sz (Nat.lt_of_le_of_lt hqsz hN3),
    toInt64_natCast_sub N (q * sz) hqsz hN3]
  generalize N - q * sz = large at *
  obtain ⟨-, hb2, hb3, hb4⟩ := ntile_bounds N q sz large hl hNeq
  have hq3 : q < 9223372036854775808 := Nat.lt_of_le_of_lt hq2 hN3
  have ha3 : a < 9223372036854775808 := Nat.lt_trans ha hN3
  have hA2 := D_ASSERT_of_true assertions (decide ((N : Int) = (N : Int))) (decide_eq_true rfl)
  have hq0 : ¬ ((q : Int) = 0) := by omega
  have hsz0 : ¬ ((sz : Int) = 0) := by omega
  have hsz10 : ¬ (((sz + 1 : Nat) : Int) = 0) := by omega
  simp only [toInt64_natCast_succ sz hszN,
    toInt64_natCast_mul large (sz + 1) (Nat.lt_of_le_of_lt hb2 hN3),
    toInt64_natCast_sub q large (Nat.le_of_lt hl) hq3,
    toInt64_natCast_mul (q - large) sz (Nat.lt_of_le_of_lt hb3 hN3),
    toInt64_natCast_add (large * (sz + 1)) ((q - large) * sz) (hb4 ▸ hN3), hb4, hA2,
    hq0, hsz0, hsz10, if_false]
  clear hA2 hq0 hsz0 hsz10
  rw [hNeq] at ha
  have hl1 : 1 + large ≤ q := by omega
  have hAT := D_ASSERT_of_true assertions (decide True) (decide_eq_true trivial)
  by_cases hlt : a < large * (sz + 1)
  · obtain ⟨hv1, hv2⟩ := ntile_range sz large q a (1 + a / (sz + 1)) hsz1 hl ha
      (by rw [if_pos hlt])
    have hltI : (a : Int) < ((large * (sz + 1) : Nat) : Int) := Nat.cast_lt.2 hlt
    have hvI : ((1 + a / (sz + 1) : Nat) : Int) ≥ 1 ∧ ((1 + a / (sz + 1) : Nat) : Int) ≤ (q : Int) :=
      ⟨Nat.cast_le.2 hv1, Nat.cast_le.2 hv2⟩
    have hA3 := D_ASSERT_of_true assertions _ (decide_eq_true hvI)
    simp only [hltI, hlt, if_true, toInt64_natCast_tdiv a (sz + 1) ha3,
      toInt64_one_add_natCast (a / (sz + 1)) (Nat.lt_of_le_of_lt hv2 hq3), pure, Except.pure,
      bind, Except.bind, hA3, hAT, Value.Numeric]
  · obtain ⟨hv1, hv2⟩ := ntile_range sz large q a (1 + large + (a - large * (sz + 1)) / sz)
      hsz1 hl ha (by rw [if_neg hlt])
    have hltI : ¬ (a : Int) < ((large * (sz + 1) : Nat) : Int) := fun hc => hlt (Nat.cast_lt.1 hc)
    have hvI : ((1 + large + (a - large * (sz + 1)) / sz : Nat) : Int) ≥ 1 ∧
        ((1 + large + (a - large * (sz + 1)) / sz : Nat) : Int) ≤ (q : Int) :=
      ⟨Nat.cast_le.2 hv1, Nat.cast_le.2 hv2⟩
    have hA3 := D_ASSERT_of_true assertions _ (decide_eq_true hvI)
    simp only [hltI, hlt, if_false,
      toInt64_one_add_natCast large (Nat.lt_of_le_of_lt hl1 hq3),
      toInt64_natCast_sub a (large * (sz + 1)) (Nat.le_of_not_lt hlt) ha3,
      toInt64_natCast_tdiv (a - large * (sz + 1)) sz
        (Nat.lt_of_le_of_lt (Nat.sub_le _ _) ha3),
      toInt64_natCast_add (1 + large) ((a - large * (sz + 1)) / sz) (Nat.lt_of_le_of_lt hv2 hq3),
      pure, Except.pure, bind, Except.bind, hA3, hAT, Value.Numeric]


/-- The number of rows of a partition in a bucket, from the closed form of the
bucket: `sz + 1` for the first `large` buckets, `sz` for the buckets up to `q`,
none beyond. -/
theorem ntile_count (f : Nat → Nat) (sz large q N ps j : Nat) (hsz : 1 ≤ sz) (hl : large < q)
    (hNeq : N = q * sz + large) (hj : 1 ≤ j)
    (hf : ∀ a, f a = if a < large * (sz + 1) then 1 + a / (sz + 1)
      else 1 + large + (a - large * (sz + 1)) / sz) :
    ((List.range' ps N).filter (fun r => decide (f (r - ps) = j))).length
      = if j ≤ large then sz + 1 else if j ≤ q then sz else 0 := by
  obtain ⟨-, hb2, -, hb4⟩ := ntile_bounds N q sz large hl hNeq
  by_cases hjl : j ≤ large
  · rw [if_pos hjl]
    obtain ⟨k, rfl⟩ : ∃ k, j = k + 1 := ⟨j - 1, by omega⟩
    have hcongr : (List.range' ps N).filter (fun r => decide (f (r - ps) = k + 1))
        = (List.range' ps N).filter
          (fun r => decide (ps + k * (sz + 1) ≤ r ∧ r < ps + k * (sz + 1) + (sz + 1))) := by
      apply List.filter_congr
      intro r hr
      rw [List.mem_range'_1] at hr
      have h1 := ntile_small_iff sz large (r - ps) k (f (r - ps)) (by omega) (hf _)
      apply decide_eq_decide.2
      rw [h1]
      generalize k * (sz + 1) = t
      omega
    rw [hcongr, filter_range_interval]
    have h4 : (k + 1) * (sz + 1) ≤ large * (sz + 1) := Nat.mul_le_mul_right _ hjl
    rw [Nat.succ_mul] at h4
    clear hcongr hf hb4 hNeq
    generalize k * (sz + 1) = t at *
    generalize large * (sz + 1) = i at *
    omega
  · rw [if_neg hjl]
    obtain ⟨m, rfl⟩ : ∃ m, j = large + 1 + m := ⟨j - large - 1, by omega⟩
    have hcongr : (List.range' ps N).filter (fun r => decide (f (r - ps) = large + 1 + m))
        = (List.range' ps N).filter
          (fun r => decide (ps + (large * (sz + 1) + m * sz) ≤ r ∧
            r < ps + (large * (sz + 1) + m * sz) + sz)) := by
      apply List.filter_congr
      intro r hr
      rw [List.mem_range'_1] at hr
      have h1 := ntile_large_iff sz large (r - ps) m (f (r - ps)) hsz (hf _)
      apply decide_eq_decide.2
      rw [h1]
      generalize large * (sz + 1) + m * sz = t
      omega
    rw [hcongr, filter_range_interval]
    clear hcongr hf hNeq
    by_cases hjq : large + 1 + m ≤ q
    · rw [if_pos hjq]
      have h5 : (m + 1) * sz ≤ (q - large) * sz := Nat.mul_le_mul_right _ (by omega)
      rw [Nat.succ_mul] at h5
      generalize m * sz = t at *
      generalize large * (sz + 1) = i at *
      generalize (q - large) * sz = u at *
      omega
    · rw [if_neg hjq]
      have h5 : (q - large) * sz ≤ m * sz := Nat.mul_le_mul_right _ (by omega)
      generalize m * sz = t at *
      generalize large * (sz + 1) = i at *
      generalize (q - large) * sz = u at *
      omega

/-- The NTILE bucket sizes in terms of the parameter: `ceil(N / p)` rows in the
buckets up to `N mod p`, `floor(N / p)` rows in the others. -/
theorem SpecNtile_count (N p ps j : Nat) (hN1 : 1 ≤ N) (hp1 : 1 ≤ p) (hj1 : 1 ≤ j)
    (hjp : j ≤ p) :
    ((List.range' ps N).filter (fun r => decide (SpecNtile N p (r - ps) = j))).length
      = if j ≤ N % p then (N + p - 1) / p else N / p := by
  obtain ⟨hq1, hq2, -, hsz1, hl, hNeq⟩ := SpecNtile_params N p hN1 hp1
  rw [ntile_count (fun a => SpecNtile N p a) (N / min p N) (N - min p N * (N / min p N))
    (min p N) N ps j hsz1 hl hNeq hj1 (fun a => rfl)]
  by_cases hpN : p ≤ N
  · rw [Nat.min_eq_left hpN, ← Nat.mod_def]
    have hm := Nat.mod_lt N hp1
    have hd := Nat.div_add_mod N p
    by_cases hjm : j ≤ N % p
    · rw [if_pos hjm, if_pos hjm]
      symm
      apply Nat.div_eq_of_lt_le
      · rw [Nat.succ_mul, Nat.mul_comm]
        generalize p * (N / p) = t at *
        omega
      · rw [Nat.succ_mul, Nat.succ_mul, Nat.mul_comm]
        generalize p * (N / p) = t at *
        omega
    · rw [if_neg hjm, if_neg hjm, if_pos hjp]
  · have hlt : N < p := Nat.lt_of_not_le hpN
    rw [Nat.min_eq_right (Nat.le_of_lt hlt), Nat.div_self hN1, Nat.mul_one, Nat.sub_self,
      Nat.mod_eq_of_lt hlt, Nat.div_eq_of_lt hlt, if_neg (by omega)]
    by_cases hjN : j ≤ N
    · rw [if_pos hjN, if_pos hjN]
      symm
      apply Nat.div_eq_of_lt_le
      · omega
      · omega
    · rw [if_neg hjN, if_neg hjN]

/-- C19: for every partition of `N >= 1` rows (fewer than `2^63 - 1`) and every
parameter `p >= 1` constant over the partition, NTILE returns for the rows in
order non-decreasing buckets in `1 .. p`; bucket `j` holds `ceil(N / p)` rows
for `j <= N mod p` and `floor(N / p)` rows for `N mod p < j <= p`; and the sizes
of two buckets differ by at most one. -/
theorem ntile_buckets (assertions : Bool) (payload : ChunkCollection)
    (b : WindowBoundariesState) (p : Nat)
    (hcol : payload.ColumnCount = 1)
    (hN : b.partition_start < b.partition_end)
    (hpe : b.partition_end < 9223372036854775807)
    (hp1 : 1 ≤ p)
    (hparam : ∀ r, b.partition_start ≤ r → r < b.partition_end →
      (payload.GetValue 0 r).GetValueInt64 = p) :
    (∀ r1 r2, b.partition_start ≤ r1 → r1 ≤ r2 → r2 < b.partition_end →
      ∃ v1 v2 : Nat, ComputeNtile assertions payload r1 b = Except.ok (Value.BIGINT v1) ∧
        ComputeNtile assertions payload r2 b = Except.ok (Value.BIGINT v2) ∧
        1 ≤ v1 ∧ v1 ≤ v2 ∧ v2 ≤ p) ∧
      (∀ j : Nat, 1 ≤ j → j ≤ p →
        (NtileBucketRows assertions payload b j).length
          = if j ≤ (b.partition_end - b.partition_start) % p then
              (b.partition_end - b.partition_start + p - 1) / p
            else (b.partition_end - b.partition_start) / p) ∧
      (∀ j1 j2 : Nat, 1 ≤ j1 → j1 ≤ p → 1 ≤ j2 → j2 ≤ p →
        (NtileBucketRows assertions payload b j1).length
          ≤ (NtileBucketRows assertions payload b j2).length + 1) := by
  have hN1 : 1 ≤ b.partition_end - b.partition_start := by omega
  have hcount : ∀ j : Nat, 1 ≤ j → j ≤ p →
      (NtileBucketRows assertions payload b j).length
        = if j ≤ (b.partition_end - b.partition_start) % p then
            (b.partition_end - b.partition_start + p - 1) / p
          else (b.partition_end - b.partition_start) / p := by
    intro j hj1 hjp
    rw [← SpecNtile_count (b.partition_end - b.partition_start) p b.partition_start j hN1 hp1
      hj1 hjp]
    unfold NtileBucketRows
    congr 1
    apply List.filter_congr
    intro r hr
    rw [List.mem_range'_1] at hr
    rw [ComputeNtile_eq assertions payload r b p hcol hr.1 (by omega) hpe hp1
      (hparam r hr.1 (by omega))]
    apply decide_eq_decide.2
    simp only [Except.ok.injEq, Value.BIGINT.injEq, Nat.cast_inj]
  refine ⟨?_, hcount, ?_⟩
  · intro r1 r2 h1 h12 h2
    obtain ⟨-, -, hq3, hsz1, hl, hNeq⟩ :=
      SpecNtile_params (b.partition_end - b.partition_start) p hN1 hp1
    refine ⟨SpecNtile (b.partition_end - b.partition_start) p (r1 - b.partition_start),
      SpecNtile (b.partition_end - b.partition_start) p (r2 - b.partition_start),
      ComputeNtile_eq assertions payload r1 b p hcol h1 (by omega) hpe hp1
        (hparam r1 h1 (by omega)),
      ComputeNtile_eq assertions payload r2 b p hcol (by omega) h2 hpe hp1
        (hparam r2 (by omega) h2), ?_, ?_, ?_⟩
    · exact (ntile_range _ _ _ (r1 - b.partition_start) _ hsz1 hl
        (by rw [← hNeq]; omega) rfl).1
    · exact ntile_mono _ _ (r1 - b.partition_start) (r2 - b.partition_start) _ _
        (by omega) rfl rfl
    · exact Nat.le_trans (ntile_range _ _ _ (r2 - b.partition_start) _ hsz1 hl
        (by rw [← hNeq]; omega) rfl).2 hq3
  · intro j1 j2 h1 h1p h2 h2p
    rw [hcount j1 h1 h1p, hcount j2 h2 h2p]
    have hceil : (b.partition_end - b.partition_start + p - 1) / p
        ≤ (b.partition_end - b.partition_start) / p + 1 := by
      rw [← Nat.add_div_right _ hp1]
      exact Nat.div_le_div_right (Nat.sub_le _ _)
    have hfloor : (b.partition_end - b.partition_start) / p
        ≤ (b.partition_end - b.partition_start + p - 1) / p :=
      Nat.div_le_div_right (by omega)
    generalize (b.partition_end - b.partition_start + p - 1) / p = c at *
    generalize (b.partition_end - b.partition_start) / p = f at *
    by_cases c1 : j1 ≤ (b.partition_end - b.partition_start) % p <;>
      by_cases c2 : j2 ≤ (b.partition_end - b.partition_start) % p
    · rw [if_pos c1, if_pos c2]
      omega
    · rw [if_pos c1, if_neg c2]
      omega
    · rw [if_neg c1, if_pos c2]
      omega
    · rw [if_neg c1, if_neg c2]
      omega

/-- An instance of `ntile_buckets`: `ntile(3)` over a partition of `7` rows, whose
first bucket holds `ceil(7 / 3) = 3` rows; the whole column is
`[1, 1, 1, 2, 2, 3, 3]`. -/
theorem ntile_buckets_witness :
    (NtileBucketRows true (ConstantStore 3 7)
        { partition_start := 0, partition_end := 7, peer_start := 0, peer_end := 0
          window_start := 0, window_end := 0, is_same_partition := true, is_peer := true
          row_prev := [] } ((1 : Nat) : Int)).length
      = (if 1 ≤ (7 - 0) % 3 then (7 - 0 + 3 - 1) / 3 else (7 - 0) / 3) ∧
    (Finalize true
        [WindowOrderBy ExpressionType.WINDOW_NTILE 0 OrderType.ASCENDING
          WindowBoundary.UNBOUNDED_PRECEDING WindowBoundary.CURRENT_ROW_RANGE 0 0 [Constant 3]]
        { chunks := IntStore [1, 2, 3, 4, 5, 6, 7], window_results := ChunkCollection.empty }).map
      (fun g => g.window_results.rows)
      = Except.ok [[Value.BIGINT 1], [Value.BIGINT 1], [Value.BIGINT 1], [Value.BIGINT 2],
          [Value.BIGINT 2], [Value.BIGINT 3], [Value.BIGINT 3]] :=
  ⟨(ntile_buckets true (ConstantStore 3 7)
      { partition_start := 0, partition_end := 7, peer_start := 0, peer_end := 0
        window_start := 0, window_end := 0, is_same_partition := true, is_peer := true
        row_prev := [] } 3 rfl (by decide) (by decide) (by decide)
      (fun r _ hr => by
        have hr7 : r < 7 := hr
        interval_cases r <;> rfl)).2.1 1 (by decide) (by decide), by decide⟩


/-! ## The boundary failure (C30) -/

/-- The start switch never ends with the boundary failure. -/
theorem ComputeWindowStart_ne_failed (assertions : Bool) (wexpr : BoundWindowExpression)
    (r : Nat) (bsc : ChunkCollection) (b : WindowBoundariesState) :
    ComputeWindowStart assertions wexpr r bsc b
      ≠ Except.error Error.FailedToComputeWindowBoundaries := by
  intro h
  unfold ComputeWindowStart at h
  split at h
  all_goals first
    | exact Except.noConfusion h
    | (rw [bind_eq_error] at h
       rcases h with h | ⟨_, -, h⟩
       · rcases D_ASSERT_cases assertions _ with h1 | h1 <;> rw [h1] at h <;>
           first
             | exact Except.noConfusion h
             | exact Error.noConfusion (Except.error.inj h)
       · exact Except.noConfusion h)
    | exact Error.noConfusion (Except.error.inj h)

/-- The end switch never ends with the boundary failure. -/
theorem ComputeWindowEnd_ne_failed (assertions : Bool) (wexpr : BoundWindowExpression)
    (r : Nat) (bec : ChunkCollection) (b : WindowBoundariesState) :
    ComputeWindowEnd assertions wexpr r bec b
      ≠ Except.error Error.FailedToComputeWindowBoundaries := by
  intro h
  unfold ComputeWindowEnd at h
  split at h
  all_goals first
    | exact Except.noConfusion h
    | (rw [bind_eq_error] at h
       rcases h with h | ⟨_, -, h⟩
       · rcases D_ASSERT_cases assertions _ with h1 | h1 <;> rw [h1] at h <;>
           first
             | exact Except.noConfusion h
             | exact Error.noConfusion (Except.error.inj h)
       · exact Except.noConfusion h)
    | exact Error.noConfusion (Except.error.inj h)

/-- A negative frame end is replaced by the partition end: read as an `idx_t`
it lies above every partition end below `2^63`. -/
theorem ClampWindow_negative_end (b : WindowBoundariesState)
    (hps : b.partition_start < 9223372036854775808)
    (hpe : b.partition_end < 9223372036854775808)
    (hwe : -9223372036854775808 ≤ b.window_end ∧ b.window_end < 0) :
    ∃ b1, ClampWindow b = Except.ok b1 ∧ b1.window_end = b.partition_end := by
  obtain ⟨b1, hb1⟩ := ClampWindow_ok b hps hpe ⟨hwe.1, by omega⟩
  obtain ⟨-, -, -, -, -, -, -, -, c9, -, -⟩ := ClampWindow_eq_ok _ _ hb1
  have hidx : toIdx b.window_end > b.partition_end := by
    unfold toIdx
    omega
  rw [if_pos hidx, toInt64_of_range _ (by omega) (by omega)] at c9
  exact ⟨b1, hb1, c9⟩

/-- The partition bounds after the partition bookkeeping of row `n` stay below
`2^63` on an input of fewer than `2^63` rows. -/
theorem UpdatePartitionAndPeer_bounds (assertions : Bool) (wexpr : BoundWindowExpression)
    (input : ChunkCollection) (input_size : Nat) (bsc bec : ChunkCollection)
    (row_prev : List Value) (n : Nat) (b0 b1 : WindowBoundariesState)
    (hsize : input.ColumnCount > 0 → input.Count = input_size)
    (hN : input_size < 9223372036854775808) (hn : n < input_size)
    (hb0 : BoundariesAfter assertions wexpr input input_size bsc bec (InitialBounds row_prev) n
      = Except.ok b0)
    (hb1 : UpdatePartitionAndPeer assertions wexpr input input_size n b0 = Except.ok b1) :
    b1.partition_start < 9223372036854775808 ∧ b1.partition_end < 9223372036854775808 := by
  by_cases hcol : input.ColumnCount > 0
  · obtain ⟨hpre, -, -⟩ := BoundariesAfter_columns _ _ _ _ _ _ _ hcol _ _ hb0
    obtain ⟨hinv, -⟩ := UpdatePartitionAndPeer_columns _ _ _ _ _ _ _ hcol hpre hb1
    have hcount := hsize hcol
    have := PartitionInv_bounds _ _ _ _ hinv (by omega) (by omega)
    omega
  · have hcol0 : input.ColumnCount = 0 := by omega
    obtain ⟨h1, -, -⟩ := BoundariesAfter_no_columns _ _ _ _ _ _ _ hcol0 _ _ hb0
    rw [UpdatePartitionAndPeer_no_columns _ _ _ _ _ _ hcol0] at hb1
    have hb1 := Except.ok.inj hb1
    subst hb1
    simp only [InitialBounds] at h1
    simp only [h1]
    omega

/-- C30: for every input of fewer than `2^63` rows, every frame specification
and every offset value, the calls of `UpdateWindowBoundaries` on the rows
`0, ..., n - 1` never end with "Failed to compute window boundaries"; when they
succeed, `0 <= partition_start <= window_start` and `0 <= window_end`; and the
clamp replaces every negative `window_end` by `partition_end`. -/
theorem never_failed_to_compute (assertions : Bool) (wexpr : BoundWindowExpression)
    (input : ChunkCollection) (input_size : Nat) (bsc bec : ChunkCollection)
    (row_prev : List Value) (n : Nat)
    (hsize : input.ColumnCount > 0 → input.Count = input_size)
    (hN : input_size < 9223372036854775808) (hn : n ≤ input_size) :
    BoundariesAfter assertions wexpr input input_size bsc bec (InitialBounds row_prev) n
        ≠ Except.error Error.FailedToComputeWindowBoundaries ∧
      (∀ b, 0 < n →
        BoundariesAfter assertions wexpr input input_size bsc bec (InitialBounds row_prev) n
          = Except.ok b →
        (0 : Int) ≤ b.partition_start ∧ (b.partition_start : Int) ≤ b.window_start ∧
          0 ≤ b.window_end) ∧
      (∀ b : WindowBoundariesState, b.partition_start < 9223372036854775808 →
        b.partition_end < 9223372036854775808 →
        -9223372036854775808 ≤ b.window_end → b.window_end < 0 →
        ∃ b1, ClampWindow b = Except.ok b1 ∧ b1.window_end = b.partition_end) := by
  refine ⟨?_, ?_, fun b h1 h2 h3 h4 => ClampWindow_negative_end b h1 h2 ⟨h3, h4⟩⟩
  · induction n with
    | zero => exact fun h => Except.noConfusion h
    | succ n ih =>
      intro h
      simp only [BoundariesAfter] at h
      rw [bind_eq_error] at h
      rcases h with h | ⟨b0, hb0, h⟩
      · exact ih (by omega) h
      · unfold UpdateWindowBoundaries at h
        obtain ⟨b1, hb1⟩ := UpdatePartitionAndPeer_ok assertions wexpr input input_size n b0
        rw [hb1, bind_eq_error] at h
        rcases h with h | ⟨b1', hb1', h⟩
        · exact Except.noConfusion h
        · have hb1' := Except.ok.inj hb1'
          subst hb1'
          rw [bind_eq_error] at h
          rcases h with h | ⟨ws, hws, h⟩
          · exact ComputeWindowStart_ne_failed _ _ _ _ _ h
          · rw [bind_eq_error] at h
            rcases h with h | ⟨we, hwe, h⟩
            · exact ComputeWindowEnd_ne_failed _ _ _ _ _ h
            · obtain ⟨hps, hpe⟩ := UpdatePartitionAndPeer_bounds assertions wexpr input
                input_size bsc bec row_prev n b0 b1 hsize hN (by omega) hb0 hb1
              obtain ⟨b2, hb2⟩ := ClampWindow_ok { b1 with window_start := ws, window_end := we }
                hps hpe (ComputeWindowEnd_range _ _ _ _ _ _ hwe)
              rw [hb2] at h
              exact Except.noConfusion h
  · intro b hn0 hb
    obtain ⟨m, rfl⟩ : ∃ m, n = m + 1 := ⟨n - 1, by omega⟩
    obtain ⟨b0, hb0, hstep⟩ := BoundariesAfter_succ_eq_ok _ _ _ _ _ _ _ _ _ hb
    obtain ⟨b1, ws, we, hb1, -, hwe, hclamp⟩ := UpdateWindowBoundaries_eq_ok _ _ _ _ _ _ _ _ _ hstep
    obtain ⟨hps, hpe⟩ := UpdatePartitionAndPeer_bounds assertions wexpr input
      input_size bsc bec row_prev m b0 b1 hsize hN (by omega) hb0 hb1
    obtain ⟨c1, c2, -⟩ := ClampWindow_frame _ _ hclamp hps hpe
      (ComputeWindowEnd_range _ _ _ _ _ _ hwe)
    obtain ⟨e1, -⟩ := ClampWindow_eq_ok _ _ hclamp
    rw [e1]
    exact ⟨Int.ofNat_nonneg _, c1, c2⟩

/-- An instance of `never_failed_to_compute`: the frame
`ROWS BETWEEN 3 PRECEDING AND 2 PRECEDING` on the rows `1, 2`, whose end at row
`0` is `-1` before clamping and the partition end `2` after it. -/
theorem never_failed_to_compute_witness :
    BoundariesAfter true
        (WindowOrderBy ExpressionType.WINDOW_AGGREGATE 0 OrderType.ASCENDING
          WindowBoundary.EXPR_PRECEDING WindowBoundary.EXPR_PRECEDING 3 2 [ColumnRef 0])
        (IntStore [1, 2]) 2 (ConstantStore 3 2) (ConstantStore 2 2)
        (InitialBounds [Value.BIGINT 1]) 1
      ≠ Except.error Error.FailedToComputeWindowBoundaries ∧
    (BoundariesAfter true
        (WindowOrderBy ExpressionType.WINDOW_AGGREGATE 0 OrderType.ASCENDING
          WindowBoundary.EXPR_PRECEDING WindowBoundary.EXPR_PRECEDING 3 2 [ColumnRef 0])
        (IntStore [1, 2]) 2 (ConstantStore 3 2) (ConstantStore 2 2)
        (InitialBounds [Value.BIGINT 1]) 1).map (fun b => (b.window_start, b.window_end))
      = Except.ok (0, 2) :=
  ⟨(never_failed_to_compute true
      (WindowOrderBy ExpressionType.WINDOW_AGGREGATE 0 OrderType.ASCENDING
        WindowBoundary.EXPR_PRECEDING WindowBoundary.EXPR_PRECEDING 3 2 [ColumnRef 0])
      (IntStore [1, 2]) 2 (ConstantStore 3 2) (ConstantStore 2 2) [Value.BIGINT 1] 1
      (by decide) (by decide) (by decide)).1, by decide⟩


/-! ## Partitions and peer groups (C21, C22) -/

theorem Value.ne_refl (a : Value) : Value.ne a a = false := by
  cases a <;> simp [Value.ne, Value.toRat?]

theorem Value.ne_symm (a b : Value) : Value.ne a b = Value.ne b a := by
  cases a <;> cases b <;> simp [Value.ne, Value.toRat?, eq_comm]

theorem Value.ne_trans (a b c : Value) (h1 : Value.ne a b = false) (h2 : Value.ne b c = false) :
    Value.ne a c = false := by
  cases a <;> cases b <;> cases c <;> simp_all [Value.ne, Value.toRat?]

theorem EqualsSubsetLoop_refl (a : List Value) (i n : Nat) : EqualsSubsetLoop a a i n = true := by
  induction n generalizing i with
  | zero => rfl
  | succ n ih => simp only [EqualsSubsetLoop, Value.ne_refl, Bool.false_eq_true, if_false, ih]

theorem EqualsSubsetLoop_symm (a b : List Value) (i n : Nat) :
    EqualsSubsetLoop a b i n = EqualsSubsetLoop b a i n := by
  induction n generalizing i with
  | zero => rfl
  | succ n ih => simp only [EqualsSubsetLoop, Value.ne_symm (at_ a i) (at_ b i), ih]

theorem EqualsSubsetLoop_trans (a b c : List Value) (i n : Nat)
    (h1 : EqualsSubsetLoop a b i n = true) (h2 : EqualsSubsetLoop b c i n = true) :
    EqualsSubsetLoop a c i n = true := by
  induction n generalizing i with
  | zero => rfl
  | succ n ih =>
    simp only [EqualsSubsetLoop] at h1 h2 ⊢
    by_cases hab : Value.ne (at_ a i) (at_ b i) = true
    · rw [if_pos hab] at h1
      exact Bool.noConfusion h1
    · by_cases hbc : Value.ne (at_ b i) (at_ c i) = true
      · rw [if_pos hbc] at h2
        exact Bool.noConfusion h2
      · rw [if_neg hab] at h1
        rw [if_neg hbc] at h2
        have hac := Value.ne_trans _ _ _ (Bool.eq_false_iff.2 hab) (Bool.eq_false_iff.2 hbc)
        rw [hac]
        simp only [Bool.false_eq_true, if_false]
        exact ih _ h1 h2

/-- Agreement on the columns `i, ..., i + n + m - 1` is agreement on the first
`n` and on the following `m` of them. -/
theorem EqualsSubsetLoop_add (a b : List Value) (i n m : Nat) :
    EqualsSubsetLoop a b i (n + m)
      = (EqualsSubsetLoop a b i n && EqualsSubsetLoop a b (i + n) m) := by
  induction n generalizing i with
  | zero => simp [EqualsSubsetLoop]
  | succ n ih =>
    rw [Nat.succ_add]
    simp only [EqualsSubsetLoop]
    by_cases h : Value.ne (at_ a i) (at_ b i) = true
    · simp only [h, if_true, Bool.false_and]
    · simp only [h, if_false, Bool.false_eq_true]
      rw [ih, Nat.add_assoc, Nat.add_comm 1 n]

/-- Rows that agree each with its predecessor all agree with each other. -/
theorem agree_of_chain (input : ChunkCollection) (lo n s r : Nat)
    (h : ∀ j, s < j → j ≤ r →
      EqualsSubsetLoop (input.GetRow (j - 1)) (input.GetRow j) lo n = true) :
    ∀ i j, s ≤ i → i ≤ r → s ≤ j → j ≤ r →
      EqualsSubsetLoop (input.GetRow i) (input.GetRow j) lo n = true := by
  have hup : ∀ d i, s ≤ i → i + d ≤ r →
      EqualsSubsetLoop (input.GetRow i) (input.GetRow (i + d)) lo n = true := by
    intro d
    induction d with
    | zero => exact fun i _ _ => EqualsSubsetLoop_refl _ _ _
    | succ d ih =>
      intro i hi hid
      have h1 := ih i hi (by omega)
      have h2 := h (i + (d + 1)) (by omega) hid
      have e : i + (d + 1) - 1 = i + d := by omega
      rw [e] at h2
      exact EqualsSubsetLoop_trans _ _ _ _ _ h1 h2
  intro i j hi hir hj hjr
  by_cases hij : i ≤ j
  · have := hup (j - i) i hi (by omega)
    have e : i + (j - i) = j := by omega
    rw [e] at this
    exact this
  · have := hup (i - j) j hj (by omega)
    have e : j + (i - j) = i := by omega
    rw [e, EqualsSubsetLoop_symm] at this
    exact this

/-- The start `t` of a run is the least `s <= r` from which the rows up to `r`
all agree, when the rows after `t` agree each with its predecessor and row `t`
does not. -/
theorem least_of_chain (input : ChunkCollection) (lo n t r : Nat) (htr : t ≤ r)
    (h : ∀ j, t < j → j ≤ r →
      EqualsSubsetLoop (input.GetRow (j - 1)) (input.GetRow j) lo n = true)
    (hbreak : t = 0 ∨ EqualsSubsetLoop (input.GetRow (t - 1)) (input.GetRow t) lo n = false) :
    ∀ s, s ≤ r →
      ((∀ i j, s ≤ i → i ≤ r → s ≤ j → j ≤ r →
        EqualsSubsetLoop (input.GetRow i) (input.GetRow j) lo n = true) ↔ t ≤ s) := by
  intro s hs
  constructor
  · intro hall
    by_contra hlt
    rcases hbreak with h0 | hb
    · omega
    · have := hall (t - 1) t (by omega) (by omega) (by omega) htr
      rw [hb] at this
      exact Bool.noConfusion this
  · intro hts i j hi hir hj hjr
    exact agree_of_chain input lo n t r h i j (by omega) hir (by omega) hjr

/-- The partition and peer-group starts after row `r` of a sort-key store with
columns: every later row up to `r` agrees with its predecessor on the
partition columns (on all sort-key columns for the peer start), and the start
row itself is row `0` or does not. -/
theorem BoundariesAfter_runs (assertions : Bool) (wexpr : BoundWindowExpression)
    (input : ChunkCollection) (input_size : Nat) (bsc bec : ChunkCollection)
    (init : WindowBoundariesState) (hcol : input.ColumnCount > 0) (r : Nat)
    (b : WindowBoundariesState)
    (h : BoundariesAfter assertions wexpr input input_size bsc bec init (r + 1) = Except.ok b) :
    b.partition_start ≤ b.peer_start ∧ b.peer_start ≤ r ∧
      (∀ j, b.partition_start < j → j ≤ r →
        EqualsSubsetLoop (input.GetRow (j - 1)) (input.GetRow j) 0 wexpr.partitions.length
          = true) ∧
      (b.partition_start = 0 ∨
        EqualsSubsetLoop (input.GetRow (b.partition_start - 1)) (input.GetRow b.partition_start)
          0 wexpr.partitions.length = false) ∧
      (∀ j, b.peer_start < j → j ≤ r →
        EqualsSubsetLoop (input.GetRow (j - 1)) (input.GetRow j) 0
          (wexpr.partitions.length + wexpr.orders.length) = true) ∧
      (b.peer_start = 0 ∨
        EqualsSubsetLoop (input.GetRow (b.peer_start - 1)) (input.GetRow b.peer_start) 0
          (wexpr.partitions.length + wexpr.orders.length) = false) := by
  induction r generalizing b with
  | zero =>
    obtain ⟨b0, -, hstep⟩ := BoundariesAfter_succ_eq_ok _ _ _ _ _ _ _ _ _ h
    obtain ⟨-, -, h3, -⟩ := UpdateWindowBoundaries_columns _ _ _ _ _ _ _ _ _ hcol hstep
    obtain ⟨e1, e2⟩ := h3 (Or.inr rfl)
    rw [e1, e2]
    exact ⟨le_refl _, le_refl _, fun j h1 h2 => by omega, Or.inl rfl,
      fun j h1 h2 => by omega, Or.inl rfl⟩
  | succ r ih =>
    obtain ⟨b0, hb0, hstep⟩ := BoundariesAfter_succ_eq_ok _ _ _ _ _ _ _ _ _ h
    obtain ⟨i1, i2, i3, i4, i5, i6⟩ := ih b0 hb0
    obtain ⟨hinv, -, -⟩ := BoundariesAfter_columns _ _ _ _ _ _ _ hcol _ _ hb0
    have hprev : b0.row_prev = input.GetRow r := by
      rcases hinv with h0 | hinv
      · omega
      · exact hinv.row_prev_eq
    obtain ⟨hsame, hpeer, h3, h4⟩ := UpdateWindowBoundaries_columns _ _ _ _ _ _ _ _ _ hcol hstep
    rw [hprev] at hsame hpeer
    have hadd := EqualsSubsetLoop_add (input.GetRow r) (input.GetRow (r + 1)) 0
      wexpr.partitions.length wexpr.orders.length
    rw [Nat.zero_add] at hadd
    have hsub : r + 1 - 1 = r := Nat.add_sub_cancel r 1
    cases hs : b.is_same_partition with
    | false =>
      obtain ⟨e1, e2⟩ := h3 (Or.inl hs)
      rw [hs] at hsame
      rw [e1, e2, hsub]
      refine ⟨le_refl _, le_refl _, fun j h1 h2 => by omega, Or.inr hsame.symm,
        fun j h1 h2 => by omega, Or.inr ?_⟩
      rw [hadd, ← hsame]
      rfl
    | true =>
      obtain ⟨e1, e2⟩ := h4 hs (Nat.succ_ne_zero r)
      rw [hs] at hsame hpeer
      rw [Bool.true_and] at hpeer
      have hPall : ∀ j, b0.partition_start < j → j ≤ r + 1 →
          EqualsSubsetLoop (input.GetRow (j - 1)) (input.GetRow j) 0 wexpr.partitions.length
            = true := by
        intro j h1 h2
        by_cases hj : j ≤ r
        · exact i3 j h1 hj
        · have e : j = r + 1 := by omega
          rw [e, hsub]
          exact hsame.symm
      cases hp : b.is_peer with
      | false =>
        rw [hp] at e2 hpeer
        simp only [Bool.false_eq_true, if_false] at e2
        rw [e1, e2, hsub]
        refine ⟨by omega, le_refl _, hPall, i4, fun j h1 h2 => by omega, Or.inr ?_⟩
        rw [hadd, ← hsame, ← hpeer]
        rfl
      | true =>
        rw [hp] at e2 hpeer
        simp only [if_true] at e2
        rw [e1, e2]
        refine ⟨i1, by omega, hPall, i4, ?_, i6⟩
        intro j h1 h2
        by_cases hj : j ≤ r
        · exact i5 j h1 hj
        · have e : j = r + 1 := by omega
          rw [e, hsub, hadd, ← hsame, ← hpeer]
          rfl

/-- C22: for every sort-key store with at least one column and every row `r`,
after the rows `0, ..., r` have been processed in order `partition_start` is
the least `s <= r` such that the rows `s, ..., r` all agree on the first `P`
sort-key columns, and `peer_start` is the least `s <= r` such that they all
agree on all `P + O` sort-key columns; after row `0` both are `0`. -/
theorem partition_and_peer_start (assertions : Bool) (wexpr : BoundWindowExpression)
    (input : ChunkCollection) (input_size : Nat) (bsc bec : ChunkCollection)
    (init : WindowBoundariesState) (r : Nat) (b : WindowBoundariesState)
    (hcol : input.ColumnCount > 0)
    (h : BoundariesAfter assertions wexpr input input_size bsc bec init (r + 1) = Except.ok b) :
    (b.partition_start ≤ r ∧
      ∀ s, s ≤ r →
        ((∀ i j, s ≤ i → i ≤ r → s ≤ j → j ≤ r →
          EqualsSubsetLoop (input.GetRow i) (input.GetRow j) 0 wexpr.partitions.length = true)
          ↔ b.partition_start ≤ s)) ∧
      (b.peer_start ≤ r ∧
        ∀ s, s ≤ r →
          ((∀ i j, s ≤ i → i ≤ r → s ≤ j → j ≤ r →
            EqualsSubsetLoop (input.GetRow i) (input.GetRow j) 0
              (wexpr.partitions.length + wexpr.orders.length) = true)
            ↔ b.peer_start ≤ s)) ∧
      (r = 0 → b.partition_start = 0 ∧ b.peer_start = 0) := by
  obtain ⟨i1, i2, i3, i4, i5, i6⟩ := BoundariesAfter_runs _ _ _ _ _ _ _ hcol _ _ h
  exact ⟨⟨by omega, least_of_chain input 0 _ _ r (by omega) i3 i4⟩,
    ⟨i2, least_of_chain input 0 _ _ r i2 i5 i6⟩, fun h0 => by omega⟩

/-- An instance of `partition_and_peer_start`: `PARTITION BY`-free
`ORDER BY x` on the sorted values `5, 5, 7, 9` after row `2`, where
`partition_start = 0` and `peer_start = 2`. -/
theorem partition_and_peer_start_witness :
    (0 ≤ 2 ∧
      ∀ s, s ≤ 2 →
        ((∀ i j, s ≤ i → i ≤ 2 → s ≤ j → j ≤ 2 →
          EqualsSubsetLoop ((IntStore [5, 5, 7, 9]).GetRow i) ((IntStore [5, 5, 7, 9]).GetRow j)
            0 0 = true) ↔ 0 ≤ s)) ∧
      (2 ≤ 2 ∧
        ∀ s, s ≤ 2 →
          ((∀ i j, s ≤ i → i ≤ 2 → s ≤ j → j ≤ 2 →
            EqualsSubsetLoop ((IntStore [5, 5, 7, 9]).GetRow i)
              ((IntStore [5, 5, 7, 9]).GetRow j) 0 (0 + 1) = true) ↔ 2 ≤ s)) ∧
      (2 = 0 → 0 = 0 ∧ 2 = 0) :=
  partition_and_peer_start true
    (WindowOrderBy ExpressionType.WINDOW_RANK 0 OrderType.ASCENDING
      WindowBoundary.UNBOUNDED_PRECEDING WindowBoundary.CURRENT_ROW_RANGE 0 0 [])
    (IntStore [5, 5, 7, 9]) 4 ChunkCollection.empty ChunkCollection.empty
    (InitialBounds [Value.BIGINT 5]) 2
    { partition_start := 0, partition_end := 4, peer_start := 2, peer_end := 3
      window_start := 0, window_end := 3, is_same_partition := true, is_peer := false
      row_prev := [Value.BIGINT 7] }
    (by decide) (by decide)


theorem Value.ne_of_gt (a b : Value) (h : Value.gt a b = true) : Value.ne a b = true := by
  cases a <;> cases b <;> simp_all [Value.gt, Value.ne, Value.toRat?] <;>
    exact (ne_of_lt h).symm

theorem Value.ne_of_not_gt (a b : Value) (h1 : Value.gt a b = false)
    (h2 : Value.gt b a = false) : Value.ne a b = false := by
  cases a <;> cases b <;> simp_all [Value.gt, Value.ne, Value.toRat?] <;>
    exact le_antisymm h1 h2

/-- Of two rows in ascending order on the columns `i, ..., i + P - 1`, the
later one is accepted by the binary search for the earlier one exactly when the
two agree on these columns. -/
theorem LessThanEquals_eq_EqualsSubsetLoop (keys : List (OrderType × OrderByNullType))
    (a b : List Value) (P i : Nat)
    (hab : RowLessEq
      (List.replicate P (OrderType.ASCENDING, OrderByNullType.NULLS_FIRST) ++ keys) i a b = true) :
    LessThanEquals b a i P = EqualsSubsetLoop b a i P := by
  induction P generalizing i with
  | zero => rfl
  | succ P ih =>
    simp only [List.replicate_succ, List.cons_append, RowLessEq,
      ValueBefore_ascending_nulls_first] at hab
    simp only [LessThanEquals, EqualsSubsetLoop]
    cases hba : Value.gt (at_ b i) (at_ a i) with
    | true =>
      rw [Value.ne_of_gt _ _ hba]
      rfl
    | false =>
      rw [hba] at hab
      cases hab1 : Value.gt (at_ a i) (at_ b i) with
      | true =>
        rw [hab1] at hab
        simp at hab
      | false =>
        rw [hab1] at hab
        simp only [Bool.false_eq_true, if_false] at hab ⊢
        rw [Value.ne_of_not_gt _ _ hba hab1]
        simp only [Bool.false_eq_true, if_false]
        exact ih (i + 1) hab

theorem PartitionSorted_iff (wexpr : BoundWindowExpression) (c : ChunkCollection) :
    PartitionSorted wexpr.partitions.length c ↔ StoreSorted { wexpr with orders := [] } c := by
  unfold PartitionSorted StoreSorted
  rw [SortKeys_eq]
  simp only [List.map_nil, List.append_nil]

/-- The rows below the result of the binary search are accepted when the
accepted rows are closed downwards. -/
theorem BinarySearchRightmostLoop_lower (input : ChunkCollection) (row : List Value)
    (comp_cols R l0 : Nat) (fuel l r : Nat) (hlr : l ≤ r) (hrR : r ≤ R)
    (hR : R < 9223372036854775808)
    (hdown : ∀ i j, l0 ≤ i → i ≤ j → j < R →
      LessThanEquals (input.GetRow j) row 0 comp_cols = true →
      LessThanEquals (input.GetRow i) row 0 comp_cols = true)
    (hinv : ∀ j, l0 ≤ j → j < l → LessThanEquals (input.GetRow j) row 0 comp_cols = true) :
    ∀ j, l0 ≤ j → j < BinarySearchRightmostLoop input row comp_cols fuel l r →
      LessThanEquals (input.GetRow j) row 0 comp_cols = true := by
  induction fuel generalizing l r with
  | zero =>
    intro j hj hjl
    simp only [BinarySearchRightmostLoop] at hjl
    exact hinv j hj hjl
  | succ fuel ih =>
    unfold BinarySearchRightmostLoop
    by_cases h : l < r
    · simp only [h, if_true]
      split
      · rename_i hm
        refine ih ((l + r) % 18446744073709551616 / 2 + 1) r (by omega) hrR ?_
        intro j hj hjm
        exact hdown j _ hj (by omega) (by omega) hm
      · exact ih l ((l + r) % 18446744073709551616 / 2) (by omega) (by omega) hinv
    · simp only [h, if_false]
      exact hinv

/-- In a store sorted on its partition columns, a row `j >= r` is accepted by
the binary search for row `r` exactly when it agrees with row `r` on these
columns. -/
theorem sorted_accept_eq (wexpr : BoundWindowExpression) (c : ChunkCollection)
    (hs : StoreSorted wexpr c) (r j : Nat) (hrj : r ≤ j) (hj : j < c.Count) :
    LessThanEquals (c.GetRow j) (c.GetRow r) 0 wexpr.partitions.length
      = EqualsSubsetLoop (c.GetRow j) (c.GetRow r) 0 wexpr.partitions.length := by
  rcases Nat.eq_or_lt_of_le hrj with rfl | hlt
  · rw [LessThanEquals_refl, EqualsSubsetLoop_refl]
  · have h1 := StoreSorted_getRow wexpr c hs r j hlt hj
    rw [SortKeys_eq] at h1
    exact LessThanEquals_eq_EqualsSubsetLoop _ _ _ _ 0 h1

/-- The partition end found for a partition starting at row `r` of a store
sorted on its partition columns: one past the last row of `[r, count)` that
agrees with row `r` on these columns. -/
theorem partition_end_spec (wexpr : BoundWindowExpression) (c : ChunkCollection)
    (hs : StoreSorted wexpr c) (hcount : c.Count < 9223372036854775808) (r : Nat)
    (hr : r < c.Count) :
    r < (BinarySearchRightmost c (c.GetRow r) r c.Count wexpr.partitions.length + 1)
        % 18446744073709551616 ∧
      (BinarySearchRightmost c (c.GetRow r) r c.Count wexpr.partitions.length + 1)
        % 18446744073709551616 ≤ c.Count ∧
      (∀ j, r ≤ j →
        j < (BinarySearchRightmost c (c.GetRow r) r c.Count wexpr.partitions.length + 1)
          % 18446744073709551616 →
        EqualsSubsetLoop (c.GetRow j) (c.GetRow r) 0 wexpr.partitions.length = true) ∧
      (∀ j, (BinarySearchRightmost c (c.GetRow r) r c.Count wexpr.partitions.length + 1)
          % 18446744073709551616 ≤ j → j < c.Count →
        EqualsSubsetLoop (c.GetRow j) (c.GetRow r) 0 wexpr.partitions.length = false) ∧
      (wexpr.partitions.length = 0 →
        (BinarySearchRightmost c (c.GetRow r) r c.Count wexpr.partitions.length + 1)
          % 18446744073709551616 = c.Count) := by
  by_cases hn : wexpr.partitions.length = 0
  · have e : (BinarySearchRightmost c (c.GetRow r) r c.Count wexpr.partitions.length + 1)
        % 18446744073709551616 = c.Count := by
      unfold BinarySearchRightmost
      simp only [hn, if_true, toIdx]
      omega
    rw [e, hn]
    exact ⟨hr, le_refl _, fun j _ _ => rfl, fun j h1 h2 => by omega, fun _ => rfl⟩
  · have h1 := BinarySearchRightmostLoop_gt c (c.GetRow r) wexpr.partitions.length
      (c.Count - r) r c.Count (le_refl _) hr hcount (LessThanEquals_refl _ _ _)
    have h2 := (BinarySearchRightmostLoop_bounds c (c.GetRow r) wexpr.partitions.length
      (c.Count - r) r c.Count (by omega) hcount).2
    have hdown : ∀ i j, r ≤ i → i ≤ j → j < c.Count →
        LessThanEquals (c.GetRow j) (c.GetRow r) 0 wexpr.partitions.length = true →
        LessThanEquals (c.GetRow i) (c.GetRow r) 0 wexpr.partitions.length = true :=
      fun i j hi hij hj hacc => partition_accept_downward wexpr c hs r i j hi hij hj hacc
    have h3 := BinarySearchRightmostLoop_upper c (c.GetRow r) wexpr.partitions.length c.Count
      (c.Count - r) r c.Count (le_refl _) (by omega) (le_refl _) hcount hdown
      (fun j hj hj2 => by omega)
    have h4 := BinarySearchRightmostLoop_lower c (c.GetRow r) wexpr.partitions.length c.Count r
      (c.Count - r) r c.Count (by omega) (le_refl _) hcount hdown (fun j hj hj2 => by omega)
    have e : (BinarySearchRightmost c (c.GetRow r) r c.Count wexpr.partitions.length + 1)
        % 18446744073709551616
        = BinarySearchRightmostLoop c (c.GetRow r) wexpr.partitions.length (c.Count - r) r
          c.Count := by
      unfold BinarySearchRightmost
      simp only [hn, if_false, toIdx]
      omega
    rw [e]
    refine ⟨h1, h2, ?_, ?_, fun h0 => absurd h0 hn⟩
    · intro j hrj hj
      rw [← sorted_accept_eq wexpr c hs r j hrj (by omega)]
      exact h4 j hrj hj
    · intro j hj hjc
      rw [← sorted_accept_eq wexpr c hs r j (by omega) hjc]
      exact h3 j hj hjc

/-- What a successful call of `UpdateWindowBoundaries` on a sort-key store with
columns does to the partition end: searched anew at the first row of a
partition, kept otherwise. -/
theorem UpdateWindowBoundaries_partition_end (assertions : Bool) (wexpr : BoundWindowExpression)
    (input : ChunkCollection) (input_size r : Nat) (bsc bec : ChunkCollection)
    (b b2 : WindowBoundariesState) (hcol : input.ColumnCount > 0)
    (h : UpdateWindowBoundaries assertions wexpr input input_size r bsc bec b = Except.ok b2) :
    ((b2.is_same_partition = false ∨ r = 0) →
        b2.partition_end =
          (BinarySearchRightmost input (input.GetRow r) r input.Count wexpr.partitions.length + 1)
            % 18446744073709551616) ∧
      (b2.is_same_partition = true → r ≠ 0 → b2.partition_end = b.partition_end) := by
  obtain ⟨b1, hb1, -, e2, -, -, -, e6, -⟩ :=
    UpdateWindowBoundaries_partition _ _ _ _ _ _ _ _ _ h
  rw [UpdatePartitionAndPeer_of_columns _ _ _ _ _ _ hcol] at hb1
  have hb1 := Except.ok.inj hb1
  generalize hb0 : ({ b with
      is_same_partition :=
        EqualsSubsetLoop b.row_prev (input.GetRow r) 0 wexpr.partitions.length
      is_peer :=
        EqualsSubsetLoop b.row_prev (input.GetRow r) 0 wexpr.partitions.length &&
          EqualsSubsetLoop b.row_prev (input.GetRow r) wexpr.partitions.length
            wexpr.orders.length
      row_prev := input.GetRow r } : WindowBoundariesState) = b0 at hb1
  have g2 : b0.partition_end = b.partition_end := by rw [← hb0]
  obtain ⟨-, p2, -, -, p5, -, -⟩ := UpdatePeerEnd_fields wexpr input r (input.GetRow r)
    (UpdatePartition wexpr input r (input.GetRow r) b0)
  obtain ⟨-, -, q3, -⟩ := UpdatePartition_fields wexpr input r (input.GetRow r) b0
  rw [hb1] at p2 p5
  have hsame : b2.is_same_partition = b0.is_same_partition := by rw [e6, p5, q3]
  constructor
  · intro hnew
    rw [hsame] at hnew
    obtain ⟨-, -, n3⟩ := UpdatePartition_new wexpr input r (input.GetRow r) b0 hnew
    rw [e2, p2, n3]
  · intro hs hr0
    rw [hsame] at hs
    obtain ⟨-, n2, -⟩ := UpdatePartition_same wexpr input r (input.GetRow r) b0 hs hr0
    rw [e2, p2, n2, g2]

/-- C21: for every store of fewer than `2^63` rows sorted ascending on its first
`P` sort-key columns and every row `r` at which a new partition starts,
`partition_start = r` and `partition_end` is one past the last row of
`[r, count)` whose first `P` sort-key components equal those of row `r`: the
rows of `[r, partition_end)` agree with row `r` on them, no row of
`[partition_end, count)` does, and `r < partition_end <= count`; when `P = 0`,
`partition_end = count`. -/
theorem partition_end_new (assertions : Bool) (wexpr : BoundWindowExpression)
    (input : ChunkCollection) (input_size r : Nat) (bsc bec : ChunkCollection)
    (b b2 : WindowBoundariesState)
    (hsorted : PartitionSorted wexpr.partitions.length input)
    (hcol : input.ColumnCount > 0) (hcount : input.Count < 9223372036854775808)
    (hr : r < input.Count)
    (h : UpdateWindowBoundaries assertions wexpr input input_size r bsc bec b = Except.ok b2)
    (hnew : b2.is_same_partition = false ∨ r = 0) :
    b2.partition_start = r ∧ r < b2.partition_end ∧ b2.partition_end ≤ input.Count ∧
      (∀ j, r ≤ j → j < b2.partition_end →
        EqualsSubsetLoop (input.GetRow j) (input.GetRow r) 0 wexpr.partitions.length = true) ∧
      (∀ j, b2.partition_end ≤ j → j < input.Count →
        EqualsSubsetLoop (input.GetRow j) (input.GetRow r) 0 wexpr.partitions.length = false) ∧
      (wexpr.partitions.length = 0 → b2.partition_end = input.Count) := by
  obtain ⟨-, -, h3, -⟩ := UpdateWindowBoundaries_columns _ _ _ _ _ _ _ _ _ hcol h
  obtain ⟨hpe, -⟩ := UpdateWindowBoundaries_partition_end _ _ _ _ _ _ _ _ _ hcol h
  have hs0 := (PartitionSorted_iff wexpr input).1 hsorted
  have hspec := partition_end_spec { wexpr with orders := [] } input hs0 hcount r hr
  rw [hpe hnew]
  exact ⟨(h3 hnew).1, hspec⟩

/-- An instance of `partition_end_new`: `PARTITION BY x` on the sorted values
`5, 5, 7, 9` at row `2`, the first row of the partition `[2, 3)`. -/
theorem partition_end_new_witness :
    2 = 2 ∧ 2 < 3 ∧ 3 ≤ (IntStore [5, 5, 7, 9]).Count ∧
      (∀ j, 2 ≤ j → j < 3 →
        EqualsSubsetLoop ((IntStore [5, 5, 7, 9]).GetRow j) ((IntStore [5, 5, 7, 9]).GetRow 2)
          0 1 = true) ∧
      (∀ j, 3 ≤ j → j < (IntStore [5, 5, 7, 9]).Count →
        EqualsSubsetLoop ((IntStore [5, 5, 7, 9]).GetRow j) ((IntStore [5, 5, 7, 9]).GetRow 2)
          0 1 = false) ∧
      (1 = 0 → 3 = (IntStore [5, 5, 7, 9]).Count) :=
  partition_end_new true (WindowPartitionBy ExpressionType.WINDOW_ROW_NUMBER 0)
    (IntStore [5, 5, 7, 9]) 4 2 ChunkCollection.empty ChunkCollection.empty
    { partition_start := 0, partition_end := 2, peer_start := 0, peer_end := 2
      window_start := 0, window_end := 2, is_same_partition := true, is_peer := true
      row_prev := [Value.BIGINT 5] }
    { partition_start := 2, partition_end := 3, peer_start := 2, peer_end := 3
      window_start := 2, window_end := 3, is_same_partition := false, is_peer := false
      row_prev := [Value.BIGINT 7] }
    (by decide) (by decide) (by decide) (by decide) (by decide) (Or.inl rfl)


/-! ## The frame of an aggregate (C23) -/

/-- The binary search ends above every run of accepted rows that starts at its
left end. -/
theorem BinarySearchRightmostLoop_gt_run (input : ChunkCollection) (row : List Value)
    (comp_cols : Nat) (x : Nat) (fuel l r : Nat) (hfuel : r - l ≤ fuel) (hlr : l ≤ r)
    (hr : r < 9223372036854775808) (hx : x < r)
    (hacc : ∀ j, l ≤ j → j ≤ x → LessThanEquals (input.GetRow j) row 0 comp_cols = true) :
    x < BinarySearchRightmostLoop input row comp_cols fuel l r := by
  induction fuel generalizing l r with
  | zero =>
    simp only [BinarySearchRightmostLoop]
    omega
  | succ fuel ih =>
    unfold BinarySearchRightmostLoop
    by_cases h : l < r
    · simp only [h, if_true]
      split
      · exact ih ((l + r) % 18446744073709551616 / 2 + 1) r (by omega) (by omega) hr hx
          (fun j hj hjx => hacc j (by omega) hjx)
      · rename_i hm
        have hmx : x < (l + r) % 18446744073709551616 / 2 := by
          by_contra hcon
          exact hm (hacc _ (by omega) (by omega))
        exact ih l ((l + r) % 18446744073709551616 / 2) (by omega) (by omega) (by omega) hmx hacc
    · simp only [h, if_false]
      omega

/-- Every row lies in the partition the boundary state has for it, whether the
sort-key store is sorted or not: `partition_start <= peer_start <= r <
partition_end <= count`. -/
theorem BoundariesAfter_row_in_partition (assertions : Bool) (wexpr : BoundWindowExpression)
    (input : ChunkCollection) (input_size : Nat) (bsc bec : ChunkCollection)
    (row_prev : List Value) (r : Nat) (b : WindowBoundariesState)
    (hsize : input.ColumnCount > 0 → input.Count = input_size)
    (hN : input_size < 9223372036854775808) (hr : r < input_size)
    (h : BoundariesAfter assertions wexpr input input_size bsc bec (InitialBounds row_prev)
      (r + 1) = Except.ok b) :
    b.partition_start ≤ b.peer_start ∧ b.peer_start ≤ r ∧ r < b.partition_end ∧
      b.partition_end ≤ input_size := by
  obtain ⟨h1, h2, -, h4⟩ := BoundariesAfter_partition_bounds _ _ _ _ _ _ _ _ _ hsize hN hr h
  refine ⟨h1, h2, ?_, h4⟩
  by_cases hcol : input.ColumnCount > 0
  · obtain ⟨hinv, -, -⟩ := BoundariesAfter_columns _ _ _ _ _ _ _ hcol _ _ h
    rcases hinv with h0 | hinv
    · omega
    simp only [Nat.add_sub_cancel] at hinv
    have hcount := hsize hcol
    obtain ⟨-, -, i3, -, -, -⟩ := BoundariesAfter_runs _ _ _ _ _ _ _ hcol _ _ h
    have hagree := agree_of_chain input 0 wexpr.partitions.length b.partition_start r i3
    have hacc : ∀ j, b.partition_start ≤ j → j ≤ r →
        LessThanEquals (input.GetRow j) (input.GetRow b.partition_start) 0
          wexpr.partitions.length = true := fun j hj hjr =>
      LessThanEquals_of_EqualsSubsetLoop _ _ _ _ _
        (hagree b.partition_start j (le_refl _) (by omega) hj hjr) (LessThanEquals_refl _ _ _)
    rw [hinv.partition_end_eq]
    unfold BinarySearchRightmost
    by_cases hn : wexpr.partitions.length = 0
    · simp only [hn, if_true, toIdx]
      omega
    · simp only [hn, if_false, toIdx]
      have g1 := BinarySearchRightmostLoop_gt_run input (input.GetRow b.partition_start)
        wexpr.partitions.length r (input.Count - b.partition_start) b.partition_start input.Count
        (le_refl _) (by omega) (by omega) (by omega) hacc
      have g2 := (BinarySearchRightmostLoop_bounds input (input.GetRow b.partition_start)
        wexpr.partitions.length (input.Count - b.partition_start) b.partition_start input.Count
        (by omega) (by omega)).2
      omega
  · have hcol0 : input.ColumnCount = 0 := by omega
    obtain ⟨-, -, h3⟩ := BoundariesAfter_no_columns _ _ _ _ _ _ _ hcol0 _ _ h
    have := (h3 (Nat.succ_pos r)).1
    omega

theorem toIdx_toInt64 (x : Int) : toIdx (toInt64 x) = toIdx x := by
  unfold toIdx toInt64
  omega

/-- The start `k PRECEDING` with an offset `k >= 0` before clamping. -/
theorem ComputeWindowStart_preceding (assertions : Bool) (wexpr : BoundWindowExpression)
    (r : Nat) (bsc : ChunkCollection) (b : WindowBoundariesState) (ws : Int) (k : Nat)
    (hws : ComputeWindowStart assertions wexpr r bsc b = Except.ok ws)
    (hstart : wexpr.start = WindowBoundary.EXPR_PRECEDING)
    (hk : BoundaryOffset bsc wexpr.start_expr r = k)
    (hr : r < 9223372036854775808) : ws = (r : Int) - k := by
  have hkr := BoundaryOffset_range bsc wexpr.start_expr r
  rw [hk] at hkr
  unfold ComputeWindowStart at hws
  simp only [hstart] at hws
  rw [bind_eq_ok] at hws
  obtain ⟨-, -, hws⟩ := hws
  have hws := Except.ok.inj hws
  rw [hk, toInt64_of_range (r : Int) (by omega) (by omega),
    toInt64_of_range _ (by omega) (by omega)] at hws
  exact hws.symm

/-- The end `m FOLLOWING` with an offset `m >= 0` before clamping: as an
`idx_t` it is `r + m + 1`. -/
theorem ComputeWindowEnd_following (assertions : Bool) (wexpr : BoundWindowExpression)
    (r : Nat) (bec : ChunkCollection) (b : WindowBoundariesState) (we : Int) (m : Nat)
    (hwe : ComputeWindowEnd assertions wexpr r bec b = Except.ok we)
    (hend : wexpr.end_ = WindowBoundary.EXPR_FOLLOWING)
    (hm : BoundaryOffset bec wexpr.end_expr r = m)
    (hr : r < 9223372036854775808) :
    toIdx we = r + m + 1 ∧ (r + m + 1 < 9223372036854775808 → we = (r : Int) + m + 1) := by
  have hmr := BoundaryOffset_range bec wexpr.end_expr r
  rw [hm] at hmr
  unfold ComputeWindowEnd at hwe
  simp only [hend] at hwe
  rw [bind_eq_ok] at hwe
  obtain ⟨-, -, hwe⟩ := hwe
  have hwe := Except.ok.inj hwe
  have e1 : ((toIdx (m : Int) : Nat) : Int) = m := toIdx_of_range _ (by omega) (by omega)
  have e2 : ((toIdx ((r : Int) + m) : Nat) : Int) = (r : Int) + m :=
    toIdx_of_range _ (by omega) (by omega)
  have e3 : ((toIdx ((r : Int) + m + 1) : Nat) : Int) = (r : Int) + m + 1 :=
    toIdx_of_range _ (by omega) (by omega)
  rw [hm, e1, e2] at hwe
  constructor
  · rw [← hwe, toIdx_toInt64, e3]
    clear hwe e1 e2
    omega
  · intro hlt
    rw [← hwe, e3]
    exact toInt64_of_range _ (by omega) (by omega)

/-- The frame `ROWS BETWEEN k PRECEDING AND m FOLLOWING` with offsets
`k, m >= 0` after clamping: `[max(partition_start, r - k),
min(partition_end, r + m + 1))`. -/
theorem UpdateWindowBoundaries_rows_frame (assertions : Bool) (wexpr : BoundWindowExpression)
    (input : ChunkCollection) (input_size r : Nat) (bsc bec : ChunkCollection)
    (b0 b : WindowBoundariesState) (k m : Nat)
    (h : UpdateWindowBoundaries assertions wexpr input input_size r bsc bec b0 = Except.ok b)
    (hstart : wexpr.start = WindowBoundary.EXPR_PRECEDING)
    (hend : wexpr.end_ = WindowBoundary.EXPR_FOLLOWING)
    (hk : BoundaryOffset bsc wexpr.start_expr r = k)
    (hm : BoundaryOffset bec wexpr.end_expr r = m)
    (hr : r < 9223372036854775808)
    (hps : b.partition_start < 9223372036854775808)
    (hpe : b.partition_end < 9223372036854775808) :
    b.window_start = ((max b.partition_start (r - k) : Nat) : Int) ∧
      b.window_end = ((min b.partition_end (r + m + 1) : Nat) : Int) := by
  obtain ⟨b1, ws, we, -, hws, hwe, hclamp⟩ := UpdateWindowBoundaries_eq_ok _ _ _ _ _ _ _ _ _ h
  have ews := ComputeWindowStart_preceding _ _ _ _ _ _ _ hws hstart hk hr
  obtain ⟨ewe1, ewe2⟩ := ComputeWindowEnd_following _ _ _ _ _ _ _ hwe hend hm hr
  have eps : toInt64 (b.partition_start : Int) = b.partition_start :=
    toInt64_of_range _ (by omega) (by omega)
  have epe : toInt64 (b.partition_end : Int) = b.partition_end :=
    toInt64_of_range _ (by omega) (by omega)
  obtain ⟨c1, c2, -, -, -, -, -, c8, c9, -, -⟩ := ClampWindow_eq_ok _ _ hclamp
  simp only [] at c1 c2 c8 c9
  rw [← c1, eps, ews] at c8
  rw [← c2, epe, ewe1] at c9
  clear h hws hwe hclamp c1 c2 eps epe ewe1 ews hk hm
  constructor
  · by_cases hc : (r : Int) - k < b.partition_start
    · rw [if_pos hc] at c8
      rw [c8]
      clear c8 c9 ewe2
      omega
    · rw [if_neg hc] at c8
      rw [c8]
      clear c8 c9 ewe2
      omega
  · by_cases hc : r + m + 1 > b.partition_end
    · rw [if_pos hc] at c9
      rw [c9]
      clear c8 c9 ewe2
      omega
    · rw [if_neg hc] at c9
      rw [c9, ewe2 (by omega)]
      clear c8 c9 ewe2
      omega

/-- C23: for an AGGREGATE window with the frame
`ROWS BETWEEN k PRECEDING AND m FOLLOWING` (offsets `k, m >= 0`, read at index
`0` when scalar) on an input of fewer than `2^63` rows, the value written at
every row `r` is the aggregate folded over the payload rows
`[max(partition_start, r - k), min(partition_end, r + m + 1))`, a range that
holds row `r`. -/
theorem aggregate_rows_frame (assertions : Bool) (wexpr : BoundWindowExpression)
    (input_size : Nat) (cols : WindowCollections) (output_idx : Nat) (row_prev : List Value)
    (output : ChunkCollection) (r : Nat) (st1 : WindowLoopState) (aggregate : AggregateFunction)
    (k m : Nat)
    (htype : wexpr.type = ExpressionType.WINDOW_AGGREGATE)
    (hagg : wexpr.aggregate = some aggregate)
    (hstart : wexpr.start = WindowBoundary.EXPR_PRECEDING)
    (hend : wexpr.end_ = WindowBoundary.EXPR_FOLLOWING)
    (hk : BoundaryOffset cols.boundary_start_collection wexpr.start_expr r = k)
    (hm : BoundaryOffset cols.boundary_end_collection wexpr.end_expr r = m)
    (hsize : cols.sort_collection.ColumnCount > 0 → cols.sort_collection.Count = input_size)
    (hN : input_size < 9223372036854775808) (hr : r < input_size)
    (h : ComputeWindowLoop assertions wexpr input_size cols output_idx
      { bounds := InitialBounds row_prev, ranks := {}, output := output } (r + 1)
        = Except.ok st1) :
    ∃ st, ComputeWindowLoop assertions wexpr input_size cols output_idx
        { bounds := InitialBounds row_prev, ranks := {}, output := output } r = Except.ok st ∧
      st1.output = st.output.SetValue output_idx r
        (aggregate.fold
          ((cols.payload_collection.rows.drop (max st1.bounds.partition_start (r - k))).take
            (min st1.bounds.partition_end (r + m + 1)
              - max st1.bounds.partition_start (r - k)))) ∧
      max st1.bounds.partition_start (r - k) ≤ r ∧
      r < min st1.bounds.partition_end (r + m + 1) := by
  have hb := ComputeWindowLoop_bounds _ _ _ _ _ _ _ _ h
  obtain ⟨c1, c2, c3, c4⟩ := BoundariesAfter_row_in_partition _ _ _ _ _ _ _ _ _ hsize hN hr hb
  obtain ⟨st, hst, hrow⟩ := ComputeWindowLoop_succ_eq_ok _ _ _ _ _ _ _ _ h
  obtain ⟨hupd, -, hout⟩ := ComputeWindowRow_eq_ok _ _ _ _ _ _ _ _ hrow
  obtain ⟨f1, f2⟩ := UpdateWindowBoundaries_rows_frame _ _ _ _ _ _ _ _ _ k m hupd hstart hend
    hk hm (by omega) (by omega) (by omega)
  have hlo : max st1.bounds.partition_start (r - k) ≤ r := by omega
  have hhi : r < min st1.bounds.partition_end (r + m + 1) := by omega
  rcases hout with ⟨hempty, -⟩ | ⟨-, res, hres, hout⟩
  · rw [f1, f2] at hempty
    omega
  refine ⟨st, hst, ?_, hlo, hhi⟩
  unfold ComputeWindowValue at hres
  simp only [htype, hagg, pure, Except.pure] at hres
  have hres := Except.ok.inj hres
  have e1 : toIdx st1.bounds.window_start = max st1.bounds.partition_start (r - k) := by
    have := toIdx_of_range st1.bounds.window_start (by omega) (by omega)
    omega
  have e2 : toIdx st1.bounds.window_end = min st1.bounds.partition_end (r + m + 1) := by
    have := toIdx_of_range st1.bounds.window_end (by omega) (by omega)
    omega
  rw [hout, ← hres, e1, e2]
  rfl

/-- An instance of `aggregate_rows_frame`:
`sum(x) OVER (ORDER BY x ROWS BETWEEN 1 PRECEDING AND 1 FOLLOWING)` on
`1, 2, 3, 4, 5` at row `2`, the sum `2 + 3 + 4 = 9` over the rows `[1, 4)`; the
whole column is `[3, 6, 9, 12, 9]`. -/
theorem aggregate_rows_frame_witness :
    (∃ st, ComputeWindowLoop true
          (WindowOrderBy ExpressionType.WINDOW_AGGREGATE 0 OrderType.ASCENDING
        WindowBoundary.EXPR_PRECEDING WindowBoundary.EXPR_FOLLOWING 1 1 [ColumnRef 0])
          5
          (MaterializeWindowCollections
        (WindowOrderBy ExpressionType.WINDOW_AGGREGATE 0 OrderType.ASCENDING
        WindowBoundary.EXPR_PRECEDING WindowBoundary.EXPR_FOLLOWING 1 1 [ColumnRef 0])
        (IntStore [1, 2, 3, 4, 5]) (IntStore [1, 2, 3, 4, 5]))
          0 { bounds := InitialBounds [Value.BIGINT 1], ranks := {}
              output := IntStore [0, 0, 0, 0, 0] } 2 = Except.ok st ∧
        IntStore [3, 6, 9, 0, 0] = st.output.SetValue 0 2
          (SumAggregate.fold
            (((IntStore [1, 2, 3, 4, 5]).rows.drop (max 0 (2 - 1))).take
              (min 5 (2 + 1 + 1) - max 0 (2 - 1)))) ∧
        max 0 (2 - 1) ≤ 2 ∧ 2 < min 5 (2 + 1 + 1)) ∧
      (Finalize true
          [WindowOrderBy ExpressionType.WINDOW_AGGREGATE 0 OrderType.ASCENDING
            WindowBoundary.EXPR_PRECEDING WindowBoundary.EXPR_FOLLOWING 1 1 [ColumnRef 0]]
          { chunks := IntStore [1, 2, 3, 4, 5], window_results := ChunkCollection.empty }).map
        (fun g => g.window_results.rows)
        = Except.ok [[Value.BIGINT 3], [Value.BIGINT 6], [Value.BIGINT 9], [Value.BIGINT 12],
            [Value.BIGINT 9]] :=
  ⟨aggregate_rows_frame true
      (WindowOrderBy ExpressionType.WINDOW_AGGREGATE 0 OrderType.ASCENDING
        WindowBoundary.EXPR_PRECEDING WindowBoundary.EXPR_FOLLOWING 1 1 [ColumnRef 0])
      5
      (MaterializeWindowCollections
        (WindowOrderBy ExpressionType.WINDOW_AGGREGATE 0 OrderType.ASCENDING
        WindowBoundary.EXPR_PRECEDING WindowBoundary.EXPR_FOLLOWING 1 1 [ColumnRef 0])
        (IntStore [1, 2, 3, 4, 5]) (IntStore [1, 2, 3, 4, 5]))
      0 [Value.BIGINT 1] (IntStore [0, 0, 0, 0, 0]) 2
      { bounds :=
          { partition_start := 0, partition_end := 5, peer_start := 2, peer_end := 0
            window_start := 1, window_end := 4, is_same_partition := true, is_peer := false
            row_prev := [Value.BIGINT 3] },
        ranks := { dense_rank := 1, rank_equal := 0, rank := 1 },
        output := IntStore [3, 6, 9, 0, 0] }
      SumAggregate 1 1 rfl rfl rfl rfl (by decide) (by decide) (by decide) (by decide)
      (by decide) rfl, by decide⟩


/-! ## The three stores under sorting (C24, C29) -/

theorem KeyStore_rows (wexpr : BoundWindowExpression) (input : ChunkCollection) :
    (KeyStore wexpr input).rows = input.rows.map (KeyRow wexpr) := by
  unfold KeyStore ChunkCollection.Append
  split
  · rename_i h
    have h0 : input.rows.map (KeyRow wexpr) = [] := List.isEmpty_iff.1 h
    exact h0.symm
  · rfl

theorem KeyStore_Count (wexpr : BoundWindowExpression) (input : ChunkCollection) :
    (KeyStore wexpr input).Count = input.Count := by
  unfold ChunkCollection.Count
  rw [KeyStore_rows, List.length_map]

theorem KeyStore_ColumnCount (wexpr : BoundWindowExpression) (input : ChunkCollection)
    (h : 0 < input.Count) :
    (KeyStore wexpr input).ColumnCount = wexpr.partitions.length + wexpr.orders.length := by
  have hne : input.rows ≠ [] := by
    intro h0
    unfold ChunkCollection.Count at h
    rw [h0] at h
    exact Nat.lt_irrefl _ h
  unfold KeyStore ChunkCollection.Append ChunkCollection.empty ChunkCollection.ColumnCount
  simp [hne]

theorem KeyStore_GetRow (wexpr : BoundWindowExpression) (input : ChunkCollection) (j : Nat)
    (hj : j < input.Count) :
    (KeyStore wexpr input).GetRow j = KeyRow wexpr (input.GetRow j) := by
  unfold ChunkCollection.Count at hj
  unfold ChunkCollection.GetRow
  rw [KeyStore_rows]
  simp [List.getD, hj]

/-- The sorting permutation is a permutation of the row indices. -/
theorem WindowSortIndices_perm (wexpr : BoundWindowExpression) (input : ChunkCollection) :
    List.Perm (WindowSortIndices wexpr input) (List.range input.Count) := by
  unfold WindowSortIndices SortIndices
  rw [KeyStore_Count]
  exact List.perm_insertionSort _ _

theorem Reorder_GetRow (c : ChunkCollection) (perm : List Nat) (i : Nat) (hi : i < perm.length) :
    (c.Reorder perm).GetRow i = c.GetRow (perm.getD i 0) := by
  unfold ChunkCollection.Reorder ChunkCollection.GetRow
  simp [List.getD, hi]

theorem Reorder_Count (c : ChunkCollection) (perm : List Nat) :
    (c.Reorder perm).Count = perm.length := by
  unfold ChunkCollection.Reorder ChunkCollection.Count
  simp

theorem Reorder_ColumnCount (c : ChunkCollection) (perm : List Nat) :
    (c.Reorder perm).ColumnCount = c.ColumnCount := rfl

/-- With a key, `SortCollectionForWindow` succeeds and reorders the three
stores by `WindowSortIndices`. -/
theorem SortCollectionForWindow_eq_ok (assertions : Bool) (wexpr : BoundWindowExpression)
    (input output : ChunkCollection) (hkeys : HasKeys wexpr = true) :
    SortCollectionForWindow assertions wexpr input output ChunkCollection.empty
      = Except.ok
        { input := input.Reorder (WindowSortIndices wexpr input)
          output := output.Reorder (WindowSortIndices wexpr input)
          sort_collection := (KeyStore wexpr input).Reorder (WindowSortIndices wexpr input) } := by
  unfold HasKeys at hkeys
  simp only [decide_eq_true_eq] at hkeys
  have h1 : D_ASSERT assertions
      (decide ((wexpr.partitions ++ wexpr.orders.map (fun o => o.expression)).length > 0))
      = Except.ok () := by
    apply D_ASSERT_of_true
    simp only [List.length_append, List.length_map, decide_eq_true_eq]
    exact hkeys
  have h2 : D_ASSERT assertions (decide (input.Count = (KeyStore wexpr input).Count))
      = Except.ok () := by
    apply D_ASSERT_of_true
    rw [KeyStore_Count]
    exact decide_eq_true rfl
  unfold SortCollectionForWindow
  simp only [h1, bind, Except.bind]
  unfold KeyStore at h2
  simp only [h2]
  rfl

theorem WindowSortIndices_getD (wexpr : BoundWindowExpression) (input : ChunkCollection)
    (i : Nat) (hi : i < input.Count) :
    (WindowSortIndices wexpr input).getD i 0 < input.Count := by
  have hperm := WindowSortIndices_perm wexpr input
  have hlen : (WindowSortIndices wexpr input).length = input.Count := by
    rw [hperm.length_eq, List.length_range]
  have hmem : (WindowSortIndices wexpr input).getD i 0 ∈ WindowSortIndices wexpr input := by
    rw [List.getD_eq_getElem _ _ (by omega)]
    exact List.getElem_mem _
  have := (hperm.mem_iff).1 hmem
  exact List.mem_range.1 this

/-- C24: for every window expression with at least one key,
`SortCollectionForWindow` succeeds and reorders the input store, the result
store and the sort-key store by one permutation `perm` of the row indices: row
`i` of the three stores is the input row, the result row and the key row of
the pre-sort row `perm[i]`. -/
theorem sort_same_permutation (assertions : Bool) (wexpr : BoundWindowExpression)
    (input output : ChunkCollection) (hkeys : HasKeys wexpr = true) :
    ∃ perm s,
      SortCollectionForWindow assertions wexpr input output ChunkCollection.empty
        = Except.ok s ∧
      List.Perm perm (List.range input.Count) ∧
      s.input = input.Reorder perm ∧ s.output = output.Reorder perm ∧
      s.sort_collection = (KeyStore wexpr input).Reorder perm ∧
      ∀ i, i < input.Count →
        perm.getD i 0 < input.Count ∧
          s.input.GetRow i = input.GetRow (perm.getD i 0) ∧
          s.output.GetRow i = output.GetRow (perm.getD i 0) ∧
          s.sort_collection.GetRow i = KeyRow wexpr (input.GetRow (perm.getD i 0)) := by
  have hperm := WindowSortIndices_perm wexpr input
  have hlen : (WindowSortIndices wexpr input).length = input.Count := by
    rw [hperm.length_eq, List.length_range]
  refine ⟨WindowSortIndices wexpr input, _,
    SortCollectionForWindow_eq_ok assertions wexpr input output hkeys, hperm, rfl, rfl, rfl, ?_⟩
  intro i hi
  have hj := WindowSortIndices_getD wexpr input i hi
  refine ⟨hj, Reorder_GetRow _ _ _ (by omega), Reorder_GetRow _ _ _ (by omega), ?_⟩
  simp only []
  rw [Reorder_GetRow _ _ _ (by omega), KeyStore_GetRow _ _ _ hj]

/-- An instance of `sort_same_permutation`: `ORDER BY x` on the input `2, 1`
with the result rows `10, 20`, which become the input `1, 2` and the result
`20, 10`. -/
theorem sort_same_permutation_witness :
    (∃ perm s,
      SortCollectionForWindow true
          (WindowOrderBy ExpressionType.WINDOW_ROW_NUMBER 0 OrderType.ASCENDING
            WindowBoundary.UNBOUNDED_PRECEDING WindowBoundary.CURRENT_ROW_RANGE 0 0 [])
          (IntStore [2, 1]) (IntStore [10, 20]) ChunkCollection.empty
        = Except.ok s ∧
      List.Perm perm (List.range (IntStore [2, 1]).Count) ∧
      s.input = (IntStore [2, 1]).Reorder perm ∧ s.output = (IntStore [10, 20]).Reorder perm ∧
      s.sort_collection
        = (KeyStore
            (WindowOrderBy ExpressionType.WINDOW_ROW_NUMBER 0 OrderType.ASCENDING
              WindowBoundary.UNBOUNDED_PRECEDING WindowBoundary.CURRENT_ROW_RANGE 0 0 [])
            (IntStore [2, 1])).Reorder perm ∧
      ∀ i, i < (IntStore [2, 1]).Count →
        perm.getD i 0 < (IntStore [2, 1]).Count ∧
          s.input.GetRow i = (IntStore [2, 1]).GetRow (perm.getD i 0) ∧
          s.output.GetRow i = (IntStore [10, 20]).GetRow (perm.getD i 0) ∧
          s.sort_collection.GetRow i
            = KeyRow
              (WindowOrderBy ExpressionType.WINDOW_ROW_NUMBER 0 OrderType.ASCENDING
                WindowBoundary.UNBOUNDED_PRECEDING WindowBoundary.CURRENT_ROW_RANGE 0 0 [])
              ((IntStore [2, 1]).GetRow (perm.getD i 0))) ∧
    (SortCollectionForWindow true
        (WindowOrderBy ExpressionType.WINDOW_ROW_NUMBER 0 OrderType.ASCENDING
          WindowBoundary.UNBOUNDED_PRECEDING WindowBoundary.CURRENT_ROW_RANGE 0 0 [])
        (IntStore [2, 1]) (IntStore [10, 20]) ChunkCollection.empty).map
      (fun s => (s.input, s.output, s.sort_collection))
      = Except.ok (IntStore [1, 2], IntStore [20, 10], IntStore [1, 2]) :=
  ⟨sort_same_permutation true
      (WindowOrderBy ExpressionType.WINDOW_ROW_NUMBER 0 OrderType.ASCENDING
        WindowBoundary.UNBOUNDED_PRECEDING WindowBoundary.CURRENT_ROW_RANGE 0 0 [])
      (IntStore [2, 1]) (IntStore [10, 20]) rfl, by decide⟩

theorem at_map_of_getElem? (l : List Expression) (row : List Value) (c : Nat) (e : Expression)
    (h : l[c]? = some e) : at_ (l.map (fun e => e.eval row)) c = e.eval row := by
  unfold at_
  rw [List.getD_eq_getElem?_getD, List.getElem?_map, h]
  rfl

theorem SortOrders_length (wexpr : BoundWindowExpression) :
    (SortOrders wexpr).length = wexpr.partitions.length + wexpr.orders.length ∧
      (SortNullOrders wexpr).length = wexpr.partitions.length + wexpr.orders.length := by
  unfold SortOrders SortNullOrders
  simp only [List.length_append, List.length_map, and_self]

theorem SortOrders_partition (wexpr : BoundWindowExpression) (c : Nat)
    (hc : c < wexpr.partitions.length) :
    (SortOrders wexpr)[c]? = some OrderType.ASCENDING ∧
      (SortNullOrders wexpr)[c]? = some OrderByNullType.NULLS_FIRST := by
  unfold SortOrders SortNullOrders
  rw [List.getElem?_append_left (by rw [List.length_map]; exact hc),
    List.getElem?_append_left (by rw [List.length_map]; exact hc), List.getElem?_map,
    List.getElem?_map, List.getElem?_eq_getElem hc]
  exact ⟨rfl, rfl⟩

theorem SortOrders_order (wexpr : BoundWindowExpression) (c : Nat) (o : BoundOrderByNode)
    (ho : wexpr.orders[c]? = some o) :
    (SortOrders wexpr)[wexpr.partitions.length + c]? = some o.type ∧
      (SortNullOrders wexpr)[wexpr.partitions.length + c]? = some o.null_order := by
  unfold SortOrders SortNullOrders
  rw [List.getElem?_append_right (by rw [List.length_map]; omega),
    List.getElem?_append_right (by rw [List.length_map]; omega), List.length_map,
    List.length_map, Nat.add_sub_cancel_left, List.getElem?_map, List.getElem?_map, ho]
  exact ⟨rfl, rfl⟩

/-- C29: for a window expression with `P` partition keys and `O` order keys
(`P + O > 0`) on a non-empty input, the sort-key store `SortCollectionForWindow`
builds has `P + O` columns and as many rows as the input; row `i` holds the
partition-key values of an input row in the columns `0 .. P - 1` and its
order-key values in the columns `P .. P + O - 1`; and the sort is requested
with ASCENDING / NULLS FIRST for every partition key and with every order
key's declared direction and null placement. -/
theorem sort_key_store (assertions : Bool) (wexpr : BoundWindowExpression)
    (input output : ChunkCollection) (hkeys : HasKeys wexpr = true) (hcount : 0 < input.Count) :
    ∃ s,
      SortCollectionForWindow assertions wexpr input output ChunkCollection.empty
        = Except.ok s ∧
      s.sort_collection.ColumnCount = wexpr.partitions.length + wexpr.orders.length ∧
      s.sort_collection.Count = input.Count ∧
      (∀ i, i < input.Count → ∃ j, j < input.Count ∧
        s.input.GetRow i = input.GetRow j ∧
        (∀ c e, wexpr.partitions[c]? = some e →
          s.sort_collection.GetValue c i = e.eval (input.GetRow j)) ∧
        (∀ c o, wexpr.orders[c]? = some o →
          s.sort_collection.GetValue (wexpr.partitions.length + c) i
            = o.expression.eval (input.GetRow j))) ∧
      s.sort_collection = (KeyStore wexpr input).Reorder
        (SortIndices (KeyStore wexpr input) (SortOrders wexpr) (SortNullOrders wexpr)) ∧
      (SortOrders wexpr).length = wexpr.partitions.length + wexpr.orders.length ∧
      (SortNullOrders wexpr).length = wexpr.partitions.length + wexpr.orders.length ∧
      (∀ c, c < wexpr.partitions.length →
        (SortOrders wexpr)[c]? = some OrderType.ASCENDING ∧
          (SortNullOrders wexpr)[c]? = some OrderByNullType.NULLS_FIRST) ∧
      (∀ c o, wexpr.orders[c]? = some o →
        (SortOrders wexpr)[wexpr.partitions.length + c]? = some o.type ∧
          (SortNullOrders wexpr)[wexpr.partitions.length + c]? = some o.null_order) := by
  have hperm := WindowSortIndices_perm wexpr input
  have hlen : (WindowSortIndices wexpr input).length = input.Count := by
    rw [hperm.length_eq, List.length_range]
  refine ⟨_, SortCollectionForWindow_eq_ok assertions wexpr input output hkeys, ?_, ?_, ?_, rfl,
    (SortOrders_length wexpr).1, (SortOrders_length wexpr).2, SortOrders_partition wexpr,
    SortOrders_order wexpr⟩
  · simp only []
    rw [Reorder_ColumnCount, KeyStore_ColumnCount _ _ hcount]
  · simp only []
    rw [Reorder_Count, hlen]
  · intro i hi
    have hj := WindowSortIndices_getD wexpr input i hi
    refine ⟨_, hj, Reorder_GetRow _ _ _ (by omega), ?_, ?_⟩
    · intro c e he
      simp only [ChunkCollection.GetValue]
      rw [Reorder_GetRow _ _ _ (by omega), KeyStore_GetRow _ _ _ hj]
      exact at_map_of_getElem? _ _ _ _
        (by rw [List.getElem?_append_left (List.getElem?_eq_some.1 he).1]; exact he)
    · intro c o ho
      simp only [ChunkCollection.GetValue]
      rw [Reorder_GetRow _ _ _ (by omega), KeyStore_GetRow _ _ _ hj]
      refine at_map_of_getElem? _ _ _ o.expression ?_
      rw [List.getElem?_append_right (Nat.le_add_right _ _), Nat.add_sub_cancel_left,
        List.getElem?_map, ho]
      rfl

/-- An instance of `sort_key_store`: `PARTITION BY c0 ORDER BY c1 DESC` on the
rows `(1, 5)`, `(1, 7)`, whose sort-key store after sorting holds `(1, 7)`,
`(1, 5)`. -/
theorem sort_key_store_witness :
    (∃ s,
      SortCollectionForWindow true (WindowPartitionOrderBy ExpressionType.WINDOW_ROW_NUMBER 0 1 OrderType.DESCENDING)
          { types := 2, rows := [[Value.BIGINT 1, Value.BIGINT 5], [Value.BIGINT 1, Value.BIGINT 7]] }
          ChunkCollection.empty ChunkCollection.empty = Except.ok s ∧
      s.sort_collection.ColumnCount = 1 + 1 ∧ s.sort_collection.Count = 2) ∧
    (SortCollectionForWindow true (WindowPartitionOrderBy ExpressionType.WINDOW_ROW_NUMBER 0 1 OrderType.DESCENDING)
        { types := 2, rows := [[Value.BIGINT 1, Value.BIGINT 5], [Value.BIGINT 1, Value.BIGINT 7]] }
        ChunkCollection.empty ChunkCollection.empty).map (fun s => s.sort_collection)
      = Except.ok
        { types := 2
          rows := [[Value.BIGINT 1, Value.BIGINT 7], [Value.BIGINT 1, Value.BIGINT 5]] } :=
  ⟨(sort_key_store true (WindowPartitionOrderBy ExpressionType.WINDOW_ROW_NUMBER 0 1 OrderType.DESCENDING)
      { types := 2, rows := [[Value.BIGINT 1, Value.BIGINT 5], [Value.BIGINT 1, Value.BIGINT 7]] }
      ChunkCollection.empty rfl (by decide)).imp (fun _ h => ⟨h.1, h.2.1, h.2.2.1⟩),
    by decide⟩


/-! ## The result store (C25, C26) -/

theorem SetValue_types (c : ChunkCollection) (k r : Nat) (v : Value) :
    (c.SetValue k r v).types = c.types := rfl

theorem SetValue_Count (c : ChunkCollection) (k r : Nat) (v : Value) :
    (c.SetValue k r v).Count = c.Count := by
  unfold ChunkCollection.SetValue ChunkCollection.Count
  simp only [List.length_set]

theorem SetValue_GetRow_ne (c : ChunkCollection) (k r : Nat) (v : Value) (i : Nat)
    (h : i ≠ r) : (c.SetValue k r v).GetRow i = c.GetRow i := by
  unfold ChunkCollection.SetValue ChunkCollection.GetRow
  simp only [List.getD_eq_getElem?_getD]
  rw [List.getElem?_set_ne (Ne.symm h)]

theorem SetValue_GetRow_self (c : ChunkCollection) (k r : Nat) (v : Value) (hr : r < c.Count) :
    (c.SetValue k r v).GetRow r = (c.GetRow r).set k v := by
  unfold ChunkCollection.Count at hr
  unfold ChunkCollection.SetValue ChunkCollection.GetRow
  simp only [List.getD_eq_getElem?_getD]
  rw [List.getElem?_set_self hr]
  rfl

theorem SetValue_of_ge (c : ChunkCollection) (k r : Nat) (v : Value) (hr : c.Count ≤ r) :
    c.SetValue k r v = c := by
  unfold ChunkCollection.Count at hr
  unfold ChunkCollection.SetValue
  rw [List.set_eq_of_length_le hr]

theorem SetValue_GetRow_length (c : ChunkCollection) (k r : Nat) (v : Value) (i : Nat) :
    ((c.SetValue k r v).GetRow i).length = (c.GetRow i).length := by
  by_cases hr : r < c.Count
  · by_cases hi : i = r
    · rw [hi, SetValue_GetRow_self _ _ _ _ hr, List.length_set]
    · rw [SetValue_GetRow_ne _ _ _ _ _ hi]
  · rw [SetValue_of_ge _ _ _ _ (by omega)]

theorem at_set_ne (row : List Value) (k c : Nat) (v : Value) (h : c ≠ k) :
    at_ (row.set k v) c = at_ row c := by
  unfold at_
  simp only [List.getD_eq_getElem?_getD]
  rw [List.getElem?_set_ne (Ne.symm h)]

theorem at_set_self (row : List Value) (k : Nat) (v : Value) (h : k < row.length) :
    at_ (row.set k v) k = v := by
  unfold at_
  simp only [List.getD_eq_getElem?_getD]
  rw [List.getElem?_set_self h]
  rfl

theorem SetValue_GetValue_ne (c : ChunkCollection) (k r : Nat) (v : Value) (c1 i : Nat)
    (h : c1 ≠ k) : (c.SetValue k r v).GetValue c1 i = c.GetValue c1 i := by
  unfold ChunkCollection.GetValue
  by_cases hr : r < c.Count
  · by_cases hi : i = r
    · rw [hi, SetValue_GetRow_self _ _ _ _ hr, at_set_ne _ _ _ _ h]
    · rw [SetValue_GetRow_ne _ _ _ _ _ hi]
  · rw [SetValue_of_ge _ _ _ _ (by omega)]

/-- One round of the main loop writes one cell: the result store afterwards is
the store before with `SetValue(output_idx, r, v)` applied. -/
theorem ComputeWindowRow_output (assertions : Bool) (wexpr : BoundWindowExpression)
    (input_size : Nat) (cols : WindowCollections) (output_idx r : Nat)
    (st st1 : WindowLoopState)
    (h : ComputeWindowRow assertions wexpr input_size cols output_idx r st = Except.ok st1) :
    ∃ v, st1.output = st.output.SetValue output_idx r v := by
  obtain ⟨-, -, hout⟩ := ComputeWindowRow_eq_ok _ _ _ _ _ _ _ _ h
  rcases hout with ⟨-, hout⟩ | ⟨-, res, -, hout⟩
  · exact ⟨_, hout⟩
  · exact ⟨_, hout⟩

/-- What the first `n` rounds of the main loop leave of the result store: its
shape, every column but `output_idx`, and every row from `n` on. -/
theorem ComputeWindowLoop_output (assertions : Bool) (wexpr : BoundWindowExpression)
    (input_size : Nat) (cols : WindowCollections) (output_idx : Nat) (init : WindowLoopState)
    (n : Nat) (st : WindowLoopState)
    (h : ComputeWindowLoop assertions wexpr input_size cols output_idx init n = Except.ok st) :
    st.output.types = init.output.types ∧ st.output.Count = init.output.Count ∧
      (∀ c i, c ≠ output_idx → st.output.GetValue c i = init.output.GetValue c i) ∧
      (∀ i, n ≤ i → st.output.GetRow i = init.output.GetRow i) ∧
      (∀ i, (st.output.GetRow i).length = (init.output.GetRow i).length) := by
  induction n generalizing st with
  | zero =>
    simp only [ComputeWindowLoop, pure, Except.pure] at h
    have h := Except.ok.inj h
    subst h
    exact ⟨rfl, rfl, fun _ _ _ => rfl, fun _ _ => rfl, fun _ => rfl⟩
  | succ n ih =>
    obtain ⟨st0, hst0, hrow⟩ := ComputeWindowLoop_succ_eq_ok _ _ _ _ _ _ _ _ h
    obtain ⟨i1, i2, i3, i4, i5⟩ := ih st0 hst0
    obtain ⟨v, hv⟩ := ComputeWindowRow_output _ _ _ _ _ _ _ _ hrow
    rw [hv]
    refine ⟨by rw [SetValue_types, i1], by rw [SetValue_Count, i2], ?_, ?_, ?_⟩
    · intro c i hc
      rw [SetValue_GetValue_ne _ _ _ _ _ _ hc, i3 c i hc]
    · intro i hi
      rw [SetValue_GetRow_ne _ _ _ _ _ (by omega), i4 i (by omega)]
    · intro i
      rw [SetValue_GetRow_length, i5]

/-- The loop succeeds on every prefix of the rows it succeeds on. -/
theorem ComputeWindowLoop_prefix (assertions : Bool) (wexpr : BoundWindowExpression)
    (input_size : Nat) (cols : WindowCollections) (output_idx : Nat) (init : WindowLoopState)
    (n : Nat) (st : WindowLoopState)
    (h : ComputeWindowLoop assertions wexpr input_size cols output_idx init n = Except.ok st)
    (m : Nat) (hm : m ≤ n) :
    ∃ st0, ComputeWindowLoop assertions wexpr input_size cols output_idx init m
      = Except.ok st0 := by
  induction n generalizing st with
  | zero =>
    have e : m = 0 := by omega
    rw [e]
    exact ⟨st, h⟩
  | succ n ih =>
    by_cases hmn : m = n + 1
    · rw [hmn]
      exact ⟨st, h⟩
    · obtain ⟨st0, hst0, -⟩ := ComputeWindowLoop_succ_eq_ok _ _ _ _ _ _ _ _ h
      exact ih st0 hst0 (by omega)

/-- `ComputeWindowExpression` is its main loop run over all rows of the sorted
stores, whose input store and final result store it leaves behind. -/
theorem ComputeWindowExpression_eq (assertions : Bool) (wexpr : BoundWindowExpression)
    (input output : ChunkCollection) (output_idx : Nat) :
    ComputeWindowExpression assertions wexpr input output output_idx
      = (WindowLoopRun assertions wexpr input output output_idx
          (SortedStores wexpr input output).input.Count >>= fun st =>
        pure { input := (SortedStores wexpr input output).input, output := st.output }) := by
  cases hk : HasKeys wexpr with
  | true =>
    have hs := SortCollectionForWindow_eq_ok assertions wexpr input output hk
    unfold ComputeWindowExpression WindowLoopRun SortedStores
    unfold HasKeys at hk
    simp only [hk, HasKeys, if_true, hs, bind, Except.bind]
  | false =>
    unfold ComputeWindowExpression WindowLoopRun SortedStores
    unfold HasKeys at hk
    simp only [hk, HasKeys, Bool.false_eq_true, if_false, bind, Except.bind, pure, Except.pure]

theorem ComputeWindowExpression_run (assertions : Bool) (wexpr : BoundWindowExpression)
    (input output : ChunkCollection) (output_idx : Nat) (s : WindowStores)
    (h : ComputeWindowExpression assertions wexpr input output output_idx = Except.ok s) :
    ∃ st, WindowLoopRun assertions wexpr input output output_idx
        (SortedStores wexpr input output).input.Count = Except.ok st ∧
      s.input = (SortedStores wexpr input output).input ∧ s.output = st.output := by
  rw [ComputeWindowExpression_eq, bind_eq_ok] at h
  obtain ⟨st, hst, h⟩ := h
  simp only [pure, Except.pure] at h
  have h := Except.ok.inj h
  rw [← h]
  exact ⟨st, hst, rfl, rfl⟩

theorem Reorder_range (c : ChunkCollection) : c.Reorder (List.range c.Count) = c := by
  unfold ChunkCollection.Reorder ChunkCollection.Count
  have : (List.range c.rows.length).map c.GetRow = c.rows := by
    apply List.ext_getElem
    · simp
    · intro i h1 h2
      simp [ChunkCollection.GetRow, List.getD_eq_getElem?_getD, h2]
  rw [this]

/-- The sorted stores are the input and the result store reordered by one
permutation of the row indices, the identity when the window has no key. -/
theorem SortedStores_perm (wexpr : BoundWindowExpression) (input output : ChunkCollection)
    (hcount : output.Count = input.Count) :
    ∃ perm, List.Perm perm (List.range input.Count) ∧
      (HasKeys wexpr = false → perm = List.range input.Count) ∧
      (SortedStores wexpr input output).input = input.Reorder perm ∧
      (SortedStores wexpr input output).output = output.Reorder perm := by
  cases hk : HasKeys wexpr with
  | true =>
    refine ⟨WindowSortIndices wexpr input, WindowSortIndices_perm wexpr input,
      fun h => Bool.noConfusion h, ?_, ?_⟩ <;>
    · unfold SortedStores
      rw [hk, if_pos rfl]
  | false =>
    refine ⟨List.range input.Count, List.Perm.refl _, fun _ => rfl, ?_, ?_⟩
    · unfold SortedStores
      rw [hk, Reorder_range]
      rfl
    · unfold SortedStores
      rw [hk, ← hcount, Reorder_range]
      rfl

theorem SortedStores_no_keys (wexpr : BoundWindowExpression) (input output : ChunkCollection)
    (hk : HasKeys wexpr = false) :
    SortedStores wexpr input output
      = { input := input, output := output, sort_collection := ChunkCollection.empty } := by
  unfold SortedStores
  rw [hk]
  rfl

/-- C25: for a window expression with no partition key and no order key,
`ComputeWindowExpression` leaves the input store as it is and every row of the
result store in its place (all columns but `output_idx` are unchanged), and for
every row `r` the boundary state after `r` is `partition_start = 0`,
`peer_start = 0`, `partition_end = peer_end = count`. -/
theorem no_keys_one_partition (assertions : Bool) (wexpr : BoundWindowExpression)
    (input output : ChunkCollection) (output_idx : Nat) (s : WindowStores)
    (hk : HasKeys wexpr = false)
    (h : ComputeWindowExpression assertions wexpr input output output_idx = Except.ok s) :
    s.input = input ∧ s.output.Count = output.Count ∧
      (∀ c i, c ≠ output_idx → s.output.GetValue c i = output.GetValue c i) ∧
      (∀ r, r < input.Count →
        ∃ st, WindowLoopRun assertions wexpr input output output_idx (r + 1) = Except.ok st ∧
          st.bounds.partition_start = 0 ∧ st.bounds.peer_start = 0 ∧
          st.bounds.partition_end = input.Count ∧ st.bounds.peer_end = input.Count) := by
  obtain ⟨st, hst, e1, e2⟩ := ComputeWindowExpression_run _ _ _ _ _ _ h
  have hs := SortedStores_no_keys wexpr input output hk
  unfold WindowLoopRun at hst ⊢
  rw [hs] at hst e1 ⊢
  rw [hk] at hst ⊢
  simp only [Bool.false_eq_true, if_false] at hst e1 ⊢
  obtain ⟨-, o2, o3, -, -⟩ := ComputeWindowLoop_output _ _ _ _ _ _ _ _ hst
  refine ⟨e1, by rw [e2, o2], fun c i hc => by rw [e2, o3 c i hc], ?_⟩
  intro r hr
  obtain ⟨st0, hst0⟩ := ComputeWindowLoop_prefix _ _ _ _ _ _ _ _ hst (r + 1) (by omega)
  have hb := ComputeWindowLoop_bounds _ _ _ _ _ _ _ _ hst0
  obtain ⟨b1, b2, b3⟩ :=
    BoundariesAfter_no_columns _ _ ChunkCollection.empty _ _ _ _ rfl _ _ hb
  obtain ⟨b3, b4⟩ := b3 (Nat.succ_pos r)
  exact ⟨st0, hst0, b1, b2, b3, b4⟩

/-- An instance of `no_keys_one_partition`: `sum(x) OVER ()` on the rows `2, 1`,
which stay in this order and both get `3`. -/
theorem no_keys_one_partition_witness :
    (IntStore [2, 1] = IntStore [2, 1] ∧ (IntStore [3, 3]).Count = (IntStore [0, 0]).Count ∧
      (∀ c i, c ≠ 0 → (IntStore [3, 3]).GetValue c i = (IntStore [0, 0]).GetValue c i) ∧
      (∀ r, r < (IntStore [2, 1]).Count →
        ∃ st, WindowLoopRun true (WindowOver ExpressionType.WINDOW_AGGREGATE [ColumnRef 0])
            (IntStore [2, 1]) (IntStore [0, 0]) 0 (r + 1) = Except.ok st ∧
          st.bounds.partition_start = 0 ∧ st.bounds.peer_start = 0 ∧
          st.bounds.partition_end = (IntStore [2, 1]).Count ∧
          st.bounds.peer_end = (IntStore [2, 1]).Count)) :=
  no_keys_one_partition true (WindowOver ExpressionType.WINDOW_AGGREGATE [ColumnRef 0])
    (IntStore [2, 1]) (IntStore [0, 0]) 0
    { input := IntStore [2, 1], output := IntStore [3, 3] } rfl rfl

theorem InitialResults_eq (n : Nat) (big_data : ChunkCollection) (h : 0 < big_data.Count) :
    InitialResults n big_data
      = { types := n, rows := big_data.rows.map (fun _ => List.replicate n Value.NULL) } := by
  have hne : big_data.rows ≠ [] := by
    intro h0
    unfold ChunkCollection.Count at h
    rw [h0] at h
    exact Nat.lt_irrefl _ h
  unfold InitialResults ChunkCollection.Append ChunkCollection.empty
  simp [hne]

theorem range_map_getD_eq_zipWith (a b : List (List Value)) (h : a.length = b.length) :
    (List.range a.length).map (fun i => a.getD i [] ++ b.getD i []) = List.zipWith (· ++ ·) a b := by
  apply List.ext_getElem
  · simp [h]
  · intro n h1 h2
    simp only [List.length_map, List.length_range] at h1
    have hb : n < b.length := by omega
    simp [List.getD_eq_getElem?_getD, List.getElem?_eq_getElem h1, List.getElem?_eq_getElem hb]

theorem GetChunkForRow_Count (c : ChunkCollection) (p : Nat) :
    (c.GetChunkForRow p).Count
      = min STANDARD_VECTOR_SIZE (c.Count - p / STANDARD_VECTOR_SIZE * STANDARD_VECTOR_SIZE) := by
  unfold ChunkCollection.GetChunkForRow ChunkCollection.Count
  simp only [List.length_take, List.length_drop]

theorem GetChunkInternal_done (assertions : Bool) (gstate : WindowGlobalState)
    (chunk : ChunkCollection) (state : PhysicalWindowOperatorState)
    (h : gstate.chunks.Count ≤ state.position) :
    GetChunkInternal assertions gstate chunk state = Except.ok (chunk, state) := by
  unfold GetChunkInternal
  by_cases h0 : gstate.chunks.Count = 0
  · simp only [h0, if_true]
    rfl
  · have h1 : state.position ≥ gstate.chunks.Count := h
    simp only [h0, if_false, h1, if_true]
    rfl

theorem GetChunkInternal_chunk (assertions : Bool) (gstate : WindowGlobalState)
    (chunk : ChunkCollection) (state : PhysicalWindowOperatorState)
    (hcount : gstate.window_results.Count = gstate.chunks.Count)
    (hsize : gstate.chunks.Count + STANDARD_VECTOR_SIZE ≤ 18446744073709551616)
    (h : state.position < gstate.chunks.Count) :
    GetChunkInternal assertions gstate chunk state
      = Except.ok
          ({ types := gstate.chunks.ColumnCount + gstate.window_results.ColumnCount
             rows := List.zipWith (· ++ ·) (gstate.chunks.GetChunkForRow state.position).rows
               (gstate.window_results.GetChunkForRow state.position).rows },
           { position := state.position + STANDARD_VECTOR_SIZE }) := by
  have hlen : (gstate.chunks.GetChunkForRow state.position).Count
      = (gstate.window_results.GetChunkForRow state.position).Count := by
    rw [GetChunkForRow_Count, GetChunkForRow_Count, hcount]
  have hA : D_ASSERT assertions
      (decide ((gstate.chunks.GetChunkForRow state.position).Count
        = (gstate.window_results.GetChunkForRow state.position).Count)) = Except.ok () :=
    D_ASSERT_of_true _ _ (decide_eq_true hlen)
  have h0 : ¬ gstate.chunks.Count = 0 := by omega
  have h1 : ¬ state.position ≥ gstate.chunks.Count := by omega
  have hmod : (state.position + STANDARD_VECTOR_SIZE) % 18446744073709551616
      = state.position + STANDARD_VECTOR_SIZE := Nat.mod_eq_of_lt (by omega)
  have hrows := range_map_getD_eq_zipWith (gstate.chunks.GetChunkForRow state.position).rows
    (gstate.window_results.GetChunkForRow state.position).rows hlen
  unfold GetChunkInternal
  simp only [h0, h1, if_false, hA, bind, Except.bind, pure, Except.pure, hmod]
  unfold ChunkCollection.GetRow ChunkCollection.Count at *
  rw [hrows]
  rfl

theorem GetChunkForRow_zipWith (a b : ChunkCollection) (p : Nat)
    (hp : STANDARD_VECTOR_SIZE ∣ p) :
    List.zipWith (· ++ ·) (a.GetChunkForRow p).rows (b.GetChunkForRow p).rows
      = ((List.zipWith (· ++ ·) a.rows b.rows).drop p).take STANDARD_VECTOR_SIZE := by
  have e : p / STANDARD_VECTOR_SIZE * STANDARD_VECTOR_SIZE = p := Nat.div_mul_cancel hp
  unfold ChunkCollection.GetChunkForRow
  simp only [e, List.take_zipWith, List.drop_zipWith]

theorem GetChunks_join (assertions : Bool) (gstate : WindowGlobalState)
    (hcount : gstate.window_results.Count = gstate.chunks.Count)
    (hsize : gstate.chunks.Count + STANDARD_VECTOR_SIZE ≤ 18446744073709551616) :
    ∀ (n p : Nat), STANDARD_VECTOR_SIZE ∣ p →
      ∃ out state, GetChunks assertions gstate n { position := p } = Except.ok (out, state) ∧
        out.length = n ∧
        out.flatten = ((List.zipWith (· ++ ·) gstate.chunks.rows gstate.window_results.rows).drop
          p).take (n * STANDARD_VECTOR_SIZE) := by
  intro n
  induction n with
  | zero =>
    intro p _
    refine ⟨[], { position := p }, rfl, rfl, ?_⟩
    simp
  | succ n ih =>
    intro p hp
    by_cases h : p < gstate.chunks.Count
    · obtain ⟨out, state, hrun, hl, hout⟩ := ih (p + STANDARD_VECTOR_SIZE)
        (Nat.dvd_add hp (Nat.dvd_refl _))
      have hcall := GetChunkInternal_chunk assertions gstate ChunkCollection.empty
        { position := p } hcount hsize h
      refine ⟨List.zipWith (· ++ ·) (gstate.chunks.GetChunkForRow p).rows
        (gstate.window_results.GetChunkForRow p).rows :: out, state, ?_,
        by rw [List.length_cons, hl], ?_⟩
      · unfold GetChunks
        simp only [hcall, hrun, bind, Except.bind, pure, Except.pure]
      · rw [List.flatten_cons, hout, GetChunkForRow_zipWith _ _ _ hp,
          Nat.succ_mul, Nat.add_comm (n * STANDARD_VECTOR_SIZE), List.take_add, List.drop_drop]
    · obtain ⟨out, state, hrun, hl, hout⟩ := ih p hp
      have hcall := GetChunkInternal_done assertions gstate ChunkCollection.empty
        { position := p } (by show gstate.chunks.Count ≤ p; omega)
      have hdrop : (List.zipWith (· ++ ·) gstate.chunks.rows gstate.window_results.rows).drop p
          = [] := by
        apply List.drop_eq_nil_of_le
        rw [List.length_zipWith]
        unfold ChunkCollection.Count at h
        omega
      refine ⟨[] :: out, state, ?_, by rw [List.length_cons, hl], ?_⟩
      · unfold GetChunks
        simp only [hcall, hrun, bind, Except.bind, pure, Except.pure]
        rfl
      · rw [List.flatten_cons, hout, hdrop, List.take_nil, List.take_nil]
        rfl

/-- C27: on an input store and a window-result store of equal row count
(below `2^64 - STANDARD_VECTOR_SIZE`), a call of `GetChunkInternal` with
`position < count` returns the rows of the chunk that holds row `position`,
each row being the row of the input chunk followed by the row of the
window-result chunk, and advances the position by `STANDARD_VECTOR_SIZE`; a
call with `position >= count`, which covers the empty input, returns the chunk
it was handed and keeps the position; and `n` calls from position 0 return
the first `n * STANDARD_VECTOR_SIZE` rows of the two stores side by side in
store order, hence every row once as soon as `count <= n * STANDARD_VECTOR_SIZE`. -/
theorem get_chunk_serves_rows (assertions : Bool) (gstate : WindowGlobalState)
    (hcount : gstate.window_results.Count = gstate.chunks.Count)
    (hsize : gstate.chunks.Count + STANDARD_VECTOR_SIZE ≤ 18446744073709551616) :
    (∀ chunk state, state.position < gstate.chunks.Count →
      GetChunkInternal assertions gstate chunk state
        = Except.ok
            ({ types := gstate.chunks.ColumnCount + gstate.window_results.ColumnCount
               rows := List.zipWith (· ++ ·) (gstate.chunks.GetChunkForRow state.position).rows
                 (gstate.window_results.GetChunkForRow state.position).rows },
             { position := state.position + STANDARD_VECTOR_SIZE })) ∧
    (∀ chunk state, gstate.chunks.Count ≤ state.position →
      GetChunkInternal assertions gstate chunk state = Except.ok (chunk, state)) ∧
    (∀ n, ∃ out state,
      GetChunks assertions gstate n { position := 0 } = Except.ok (out, state) ∧
      out.length = n ∧
      out.flatten = (List.zipWith (· ++ ·) gstate.chunks.rows gstate.window_results.rows).take
        (n * STANDARD_VECTOR_SIZE) ∧
      (gstate.chunks.Count ≤ n * STANDARD_VECTOR_SIZE →
        out.flatten = List.zipWith (· ++ ·) gstate.chunks.rows gstate.window_results.rows)) := by
  refine ⟨fun chunk state h => GetChunkInternal_chunk _ _ _ _ hcount hsize h,
    fun chunk state h => GetChunkInternal_done _ _ _ _ h, fun n => ?_⟩
  obtain ⟨out, state, hrun, hl, hout⟩ := GetChunks_join assertions gstate hcount hsize n 0
    (Nat.dvd_zero _)
  rw [List.drop_zero] at hout
  refine ⟨out, state, hrun, hl, hout, fun hn => ?_⟩
  rw [hout]
  apply List.take_of_length_le
  rw [List.length_zipWith]
  unfold ChunkCollection.Count at hn hcount
  omega

/-- An instance of `get_chunk_serves_rows`: the input rows `2, 1` with the
window results `1, 2` are served by the first call as the rows `(2, 1)`,
`(1, 2)`, and the second call returns no rows. -/
theorem get_chunk_serves_rows_witness :
    (∃ out state,
      GetChunks true { chunks := IntStore [2, 1], window_results := IntStore [1, 2] } 2
          { position := 0 } = Except.ok (out, state) ∧
      out.length = 2 ∧
      out.flatten = List.zipWith (· ++ ·) (IntStore [2, 1]).rows (IntStore [1, 2]).rows) ∧
    GetChunks true { chunks := IntStore [2, 1], window_results := IntStore [1, 2] } 2
        { position := 0 }
      = Except.ok ([[[Value.BIGINT 2, Value.BIGINT 1], [Value.BIGINT 1, Value.BIGINT 2]], []],
          { position := 1024 }) :=
  ⟨((get_chunk_serves_rows true { chunks := IntStore [2, 1], window_results := IntStore [1, 2] }
      rfl (by decide)).2.2 2).imp
      (fun _ h => h.imp (fun _ h => ⟨h.1, h.2.1, h.2.2.2 (by decide)⟩)),
    by decide⟩


/-! ## Collecting the input (C28) -/

theorem Append_rows (c chunk : ChunkCollection) : (c.Append chunk).rows = c.rows ++ chunk.rows := by
  unfold ChunkCollection.Append
  split
  · rename_i h
    rw [List.isEmpty_iff.1 h, List.append_nil]
  · rfl

theorem SunkRows_nil (w : Nat) : SunkRows [] w = [] := rfl

theorem SunkRows_cons (e : Nat × ChunkCollection) (events : List (Nat × ChunkCollection))
    (w : Nat) :
    SunkRows (e :: events) w = if e.1 = w then e.2.rows ++ SunkRows events w
      else SunkRows events w := by
  unfold SunkRows
  by_cases h : e.1 = w
  · simp [h]
  · simp [h]

theorem SinkAt_gstate (s : SinkPhase) (w : Nat) (input : ChunkCollection) :
    (s.SinkAt w input).gstate = s.gstate := by
  unfold SinkPhase.SinkAt
  split <;> rfl

theorem SinkAt_lstates (s : SinkPhase) (w : Nat) (input : ChunkCollection) (v : Nat) :
    (s.SinkAt w input).lstates[v]?
      = if w = v then s.lstates[v]?.map (fun l => { chunks := l.chunks.Append input })
        else s.lstates[v]? := by
  unfold SinkPhase.SinkAt
  split
  · rename_i h
    by_cases hwv : w = v
    · subst hwv
      simp [h]
    · simp [hwv]
  · rename_i l h
    by_cases hwv : w = v
    · subst hwv
      have hlt : w < s.lstates.length := by
        by_contra hc
        rw [List.getElem?_eq_none (by omega)] at h
        exact Option.noConfusion h
      simp [h, List.getElem?_set_self hlt, Sink]
    · simp [hwv, List.getElem?_set_ne hwv]

theorem SinkAll_gstate (events : List (Nat × ChunkCollection)) :
    ∀ s : SinkPhase, (s.SinkAll events).gstate = s.gstate := by
  induction events with
  | nil => intro s; rfl
  | cons e es ih =>
    intro s
    show ((s.SinkAt e.1 e.2).SinkAll es).gstate = s.gstate
    rw [ih, SinkAt_gstate]

theorem SinkAll_lstates (events : List (Nat × ChunkCollection)) (v : Nat) :
    ∀ s : SinkPhase, ((s.SinkAll events).lstates[v]?).map (fun l => l.chunks.rows)
      = (s.lstates[v]?).map (fun l => l.chunks.rows ++ SunkRows events v) := by
  induction events with
  | nil =>
    intro s
    show (s.lstates[v]?).map _ = _
    simp [SunkRows_nil]
  | cons e es ih =>
    intro s
    show (((s.SinkAt e.1 e.2).SinkAll es).lstates[v]?).map _ = _
    rw [ih, SinkAt_lstates, SunkRows_cons]
    by_cases h : e.1 = v
    · simp only [h, if_true, Option.map_map]
      congr 1
      funext l
      simp only [Function.comp, Append_rows, List.append_assoc]
    · simp only [h, if_false]

theorem CombineAll_run (order : List Nat) :
    ∀ s : SinkPhase, (s.CombineAll order).lstates = s.lstates ∧
      (s.CombineAll order).gstate.window_results = s.gstate.window_results ∧
      (s.CombineAll order).gstate.chunks.rows
        = s.gstate.chunks.rows
          ++ (order.map (fun w => ((s.lstates[w]?).map (fun l => l.chunks.rows)).getD [])).flatten := by
  induction order with
  | nil =>
    intro s
    refine ⟨rfl, rfl, ?_⟩
    show s.gstate.chunks.rows = _
    simp
  | cons w ws ih =>
    intro s
    have hstep : (s.CombineAt w).lstates = s.lstates ∧
        (s.CombineAt w).gstate.window_results = s.gstate.window_results ∧
        (s.CombineAt w).gstate.chunks.rows
          = s.gstate.chunks.rows ++ ((s.lstates[w]?).map (fun l => l.chunks.rows)).getD [] := by
      unfold SinkPhase.CombineAt
      split
      · rename_i h
        simp [h]
      · rename_i l h
        refine ⟨rfl, rfl, ?_⟩
        simp only [h, Option.map_some', Option.getD_some, Combine, ChunkCollection.Merge,
          Append_rows]
    obtain ⟨i1, i2, i3⟩ := ih (s.CombineAt w)
    show ((s.CombineAt w).CombineAll ws).lstates = s.lstates ∧
      ((s.CombineAt w).CombineAll ws).gstate.window_results = s.gstate.window_results ∧
      ((s.CombineAt w).CombineAll ws).gstate.chunks.rows = _
    rw [i1, i2, i3, hstep.1, hstep.2.1, hstep.2.2]
    refine ⟨rfl, rfl, ?_⟩
    simp only [List.map_cons, List.flatten_cons, List.append_assoc]

theorem flatten_insert_perm {α : Type} (f : Nat → List α) (x : List α) (w0 : Nat) :
    ∀ W, w0 < W →
      List.Perm ((List.range W).map (fun w => if w0 = w then x ++ f w else f w)).flatten
        (x ++ ((List.range W).map f).flatten) := by
  intro W
  induction W with
  | zero => intro h; exact absurd h (Nat.not_lt_zero _)
  | succ W ih =>
    intro h
    rw [List.range_succ, List.map_append, List.map_append, List.flatten_append,
      List.flatten_append]
    simp only [List.map_cons, List.map_nil, List.flatten_cons, List.flatten_nil, List.append_nil]
    by_cases hw : w0 = W
    · subst hw
      have hsame : (List.range w0).map (fun w => if w0 = w then x ++ f w else f w)
          = (List.range w0).map f := by
        apply List.map_congr_left
        intro a ha
        have : a < w0 := List.mem_range.1 ha
        have hne : ¬ w0 = a := by omega
        simp only [hne, if_false]
      rw [hsame]
      simp only [if_true]
      rw [← List.append_assoc, ← List.append_assoc]
      exact List.Perm.append_right _ List.perm_append_comm
    · have hlt : w0 < W := by omega
      simp only [hw, if_false]
      rw [← List.append_assoc]
      exact List.Perm.append_right _ (ih hlt)

theorem SunkRows_perm (W : Nat) (events : List (Nat × ChunkCollection)) :
    (∀ e ∈ events, e.1 < W) →
      List.Perm ((List.range W).map (SunkRows events)).flatten
        (events.map (fun e => e.2.rows)).flatten := by
  induction events with
  | nil =>
    intro _
    have h : ∀ l : List Nat, (l.map (SunkRows [])).flatten = [] := by
      intro l
      induction l with
      | nil => rfl
      | cons a l ih => rw [List.map_cons, List.flatten_cons, ih, SunkRows_nil]; rfl
    rw [h]
    exact List.Perm.refl _
  | cons e es ih =>
    intro h
    have h1 : e.1 < W := h e (List.mem_cons_self _ _)
    have h2 := ih (fun e1 he1 => h e1 (List.mem_cons_of_mem _ he1))
    have e1 : (List.range W).map (SunkRows (e :: es))
        = (List.range W).map (fun w => if e.1 = w then e.2.rows ++ SunkRows es w
            else SunkRows es w) := by
      apply List.map_congr_left
      intro a _
      exact SunkRows_cons e es a
    rw [e1, List.map_cons, List.flatten_cons]
    exact (flatten_insert_perm (SunkRows es) e.2.rows e.1 W h1).trans
      (List.Perm.append_left _ h2)

/-- C28: `Sink` leaves the global state as it is and appends the rows of the
batch to the local store it is given, the local stores of the other workers
staying as they are; `Combine` keeps the window-result store and puts the rows
of the local store behind the rows of the global input store; so after a
sequence of `Sink` calls by `workers` workers starting with empty local stores
and one `Combine` per worker in any order, the global input store holds its
old rows followed by the rows each worker sank, worker by worker in the order
of the `Combine` calls, which is a permutation of all sunk rows, and its count
has grown by the sum of the batch sizes. -/
theorem sink_combine_rows (gstate : WindowGlobalState) (workers : Nat)
    (events : List (Nat × ChunkCollection)) (order : List Nat)
    (hworkers : ∀ e ∈ events, e.1 < workers)
    (horder : List.Perm order (List.range workers)) :
    (∀ g l input, (Sink g l input).1 = g ∧
      (Sink g l input).2.chunks.rows = l.chunks.rows ++ input.rows) ∧
    (∀ (s : SinkPhase) w input, (s.SinkAt w input).gstate = s.gstate ∧
      ∀ v, v ≠ w → (s.SinkAt w input).lstates[v]? = s.lstates[v]?) ∧
    (∀ g l, (Combine g l).window_results = g.window_results ∧
      (Combine g l).chunks.rows = g.chunks.rows ++ l.chunks.rows) ∧
    ((SinkPhase.init gstate workers).SinkAll events).gstate = gstate ∧
    (((SinkPhase.init gstate workers).SinkAll events).CombineAll order).gstate.window_results
      = gstate.window_results ∧
    (((SinkPhase.init gstate workers).SinkAll events).CombineAll order).gstate.chunks.rows
      = gstate.chunks.rows ++ (order.map (SunkRows events)).flatten ∧
    List.Perm
      (((SinkPhase.init gstate workers).SinkAll events).CombineAll order).gstate.chunks.rows
      (gstate.chunks.rows ++ (events.map (fun e => e.2.rows)).flatten) ∧
    (((SinkPhase.init gstate workers).SinkAll events).CombineAll order).gstate.chunks.Count
      = gstate.chunks.Count + (events.map (fun e => e.2.Count)).sum := by
  have hg : ((SinkPhase.init gstate workers).SinkAll events).gstate = gstate :=
    SinkAll_gstate events (SinkPhase.init gstate workers)
  obtain ⟨-, c2, c3⟩ := CombineAll_run order ((SinkPhase.init gstate workers).SinkAll events)
  rw [hg] at c2 c3
  have hmap : order.map (fun w =>
        (((((SinkPhase.init gstate workers).SinkAll events).lstates[w]?).map
          (fun l => l.chunks.rows)).getD []))
      = order.map (SunkRows events) := by
    apply List.map_congr_left
    intro w hw
    have hlt : w < workers := List.mem_range.1 (horder.mem_iff.1 hw)
    have hinit : (SinkPhase.init gstate workers).lstates[w]?
        = some { chunks := ChunkCollection.empty } := by
      unfold SinkPhase.init
      simp [List.getElem?_replicate, hlt]
    rw [SinkAll_lstates, hinit]
    rfl
  rw [hmap] at c3
  have hperm : List.Perm
      (gstate.chunks.rows ++ (order.map (SunkRows events)).flatten)
      (gstate.chunks.rows ++ (events.map (fun e => e.2.rows)).flatten) :=
    List.Perm.append_left _
      (((horder.map (SunkRows events)).flatten).trans (SunkRows_perm workers events hworkers))
  refine ⟨fun g l input => ⟨rfl, Append_rows _ _⟩, fun s w input => ⟨SinkAt_gstate s w input, ?_⟩,
    fun g l => ⟨rfl, Append_rows _ _⟩, hg, c2, c3, ?_, ?_⟩
  · intro v hv
    rw [SinkAt_lstates]
    have hne : ¬ w = v := fun h => hv h.symm
    simp only [hne, if_false]
  · rw [c3]
    exact hperm
  · unfold ChunkCollection.Count
    rw [c3, hperm.length_eq, List.length_append, List.length_flatten, List.map_map]
    rfl

/-- An instance of `sink_combine_rows`: two workers, worker 1 sinking the
batch `7`, worker 0 the batch `8, 9` and worker 1 the batch `5`; with
`Combine` called by worker 1 first the global input store holds
`7, 5, 8, 9`. -/
theorem sink_combine_rows_witness :
    List.Perm
      (((SinkPhase.init { chunks := ChunkCollection.empty, window_results := ChunkCollection.empty }
        2).SinkAll [(1, IntStore [7]), (0, IntStore [8, 9]), (1, IntStore [5])]).CombineAll
          [1, 0]).gstate.chunks.rows
      (ChunkCollection.empty.rows
        ++ ([(1, IntStore [7]), (0, IntStore [8, 9]), (1, IntStore [5])].map
          (fun e => e.2.rows)).flatten) ∧
    (((SinkPhase.init { chunks := ChunkCollection.empty, window_results := ChunkCollection.empty }
        2).SinkAll [(1, IntStore [7]), (0, IntStore [8, 9]), (1, IntStore [5])]).CombineAll
          [1, 0]).gstate.chunks = IntStore [7, 5, 8, 9] :=
  ⟨(sink_combine_rows
      { chunks := ChunkCollection.empty, window_results := ChunkCollection.empty } 2
      [(1, IntStore [7]), (0, IntStore [8, 9]), (1, IntStore [5])] [1, 0]
      (by decide) (by decide)).2.2.2.2.2.2.1, by decide⟩


/-! ## The NTILE computation (C31) -/

/-- C31: for a partition of `N >= 1` rows (`partition_end < 2^63 - 1`), a row
`r` of it and a parameter `p >= 1`, the divisors of the NTILE computation are
not zero (`p' = min(p, N) >= 1`, `n_size = N / p' >= 1`), the identity
`n_large * (n_size + 1) + (p' - n_large) * n_size = N` of the first assertion
holds with `n_large = N - p' * n_size`, and the computation returns a bucket
`v` with `1 <= v <= p'` whether assertions are checked or not, so that neither
assertion fails and no division by zero occurs. -/
theorem ntile_safe (payload : ChunkCollection) (r : Nat)
    (b : WindowBoundariesState) (p : Nat)
    (hcol : payload.ColumnCount = 1)
    (hps : b.partition_start ≤ r) (hr : r < b.partition_end)
    (hpe : b.partition_end < 9223372036854775807)
    (hp1 : 1 ≤ p)
    (hparam : (payload.GetValue 0 r).GetValueInt64 = p) :
    1 ≤ min p (b.partition_end - b.partition_start) ∧
      1 ≤ (b.partition_end - b.partition_start) / min p (b.partition_end - b.partition_start) ∧
      ((b.partition_end - b.partition_start)
          - min p (b.partition_end - b.partition_start)
            * ((b.partition_end - b.partition_start)
              / min p (b.partition_end - b.partition_start)))
          * ((b.partition_end - b.partition_start)
            / min p (b.partition_end - b.partition_start) + 1)
        + (min p (b.partition_end - b.partition_start)
            - ((b.partition_end - b.partition_start)
              - min p (b.partition_end - b.partition_start)
                * ((b.partition_end - b.partition_start)
                  / min p (b.partition_end - b.partition_start))))
          * ((b.partition_end - b.partition_start)
            / min p (b.partition_end - b.partition_start))
        = b.partition_end - b.partition_start ∧
      ∃ v : Nat,
        (∀ assertions, ComputeNtile assertions payload r b = Except.ok (Value.BIGINT v)) ∧
        v = SpecNtile (b.partition_end - b.partition_start) p (r - b.partition_start) ∧
        1 ≤ v ∧ v ≤ min p (b.partition_end - b.partition_start) := by
  have hN : 1 ≤ b.partition_end - b.partition_start := by omega
  obtain ⟨q1, -, -, q4, q5, q6⟩ := SpecNtile_params (b.partition_end - b.partition_start) p hN hp1
  obtain ⟨-, -, -, hid⟩ := ntile_bounds _ _ _ _ q5 q6
  refine ⟨q1, q4, hid, _, fun assertions =>
    ComputeNtile_eq assertions payload r b p hcol hps hr hpe hp1 hparam, rfl, ?_⟩
  have ha : r - b.partition_start
      < min p (b.partition_end - b.partition_start)
          * ((b.partition_end - b.partition_start)
            / min p (b.partition_end - b.partition_start))
        + ((b.partition_end - b.partition_start)
          - min p (b.partition_end - b.partition_start)
            * ((b.partition_end - b.partition_start)
              / min p (b.partition_end - b.partition_start))) := by
    rw [← q6]
    omega
  exact ntile_range _ _ _ _ _ q4 q5 ha rfl

/-- An instance of `ntile_safe`: `ntile(3)` at row `4` of a partition of seven
rows, where `p' = 3`, `n_size = 2`, `n_large = 1` and the bucket is `2`. -/
theorem ntile_safe_witness :
    ∃ v : Nat,
      (∀ assertions, ComputeNtile assertions (IntStore [3, 3, 3, 3, 3, 3, 3]) 4
        { partition_start := 0, partition_end := 7 } = Except.ok (Value.BIGINT v)) ∧
      v = 2 :=
  (ntile_safe (IntStore [3, 3, 3, 3, 3, 3, 3]) 4 { partition_start := 0, partition_end := 7 } 3
    rfl (by decide) (by decide) (by decide) (by decide) (by decide)).2.2.2.imp
    (fun _ h => ⟨h.1, h.2.1.trans (by decide)⟩)


/-! ## The rows LEAD and LAG read (C32) -/

/-- C32, the code at the failing inputs.  `lead(x, -1, 99) OVER (PARTITION BY g
ORDER BY x)` on the rows `(1, 10)`, `(2, 20)`: row `1` is the partition
`[1, 2)` of its own, yet it gets `10`, the payload of row `0` in the other
partition, since `lead_idx = 0` passes the only test `lead_idx < partition_end`.
`lag(x, -1, 99) OVER (ORDER BY x)` on `10, 20`: at row `1` the index
`lag_idx = 2` passes the only test `lag_idx >= partition_start` and the payload
is read at row `2`, outside the store of two rows, where the model reads
NULL instead of the default `99`. -/
theorem lead_lag_outside_partition :
    ((Finalize true
        [{ WindowLeadLag ExpressionType.WINDOW_LEAD 1 (-1) 99 with partitions := [ColumnRef 0] }]
        { chunks := { types := 2, rows := [[Value.BIGINT 1, Value.BIGINT 10],
            [Value.BIGINT 2, Value.BIGINT 20]] },
          window_results := ChunkCollection.empty }).map (fun g => g.window_results.rows)
      = Except.ok [[Value.BIGINT 99], [Value.BIGINT 10]] ∧
    (WindowLoopRun true
        { WindowLeadLag ExpressionType.WINDOW_LEAD 1 (-1) 99 with partitions := [ColumnRef 0] }
        { types := 2, rows := [[Value.BIGINT 1, Value.BIGINT 10],
            [Value.BIGINT 2, Value.BIGINT 20]] }
        (InitialResults 1 { types := 2, rows := [[Value.BIGINT 1, Value.BIGINT 10],
            [Value.BIGINT 2, Value.BIGINT 20]] }) 0 2).map
      (fun st => (st.bounds.partition_start, st.bounds.partition_end)) = Except.ok (1, 2)) ∧
    ((Finalize true [WindowLeadLag ExpressionType.WINDOW_LAG 0 (-1) 99]
        { chunks := IntStore [10, 20], window_results := ChunkCollection.empty }).map
      (fun g => g.window_results.rows)
      = Except.ok [[Value.BIGINT 20], [Value.NULL]] ∧
    (WindowLoopRun true (WindowLeadLag ExpressionType.WINDOW_LAG 0 (-1) 99)
        (IntStore [10, 20]) (InitialResults 1 (IntStore [10, 20])) 0 2).map
      (fun st => (st.bounds.partition_start, st.bounds.partition_end)) = Except.ok (0, 2)) := by
  decide


/-! ## Frames that hold the current row (C33) -/

theorem ClampWindow_inside (b b2 : WindowBoundariesState) (X Y r : Nat)
    (h : ClampWindow b = Except.ok b2)
    (hps : b.partition_start ≤ r) (hpe : b.partition_end < 9223372036854775808)
    (hws : b.window_start = X) (hX : X ≤ r)
    (hwe : b.window_end = Y) (hY1 : r < Y) (hY2 : Y ≤ b.partition_end) :
    b2.window_start ≤ r ∧ (r : Int) < b2.window_end := by
  obtain ⟨-, -, -, -, -, -, -, c8, c9, -, -⟩ := ClampWindow_eq_ok _ _ h
  clear h
  have e1 : toInt64 b.partition_start = b.partition_start :=
    toInt64_natCast _ (by omega)
  have e3 : toIdx (Y : Int) = Y := by
    have := toIdx_of_range (Y : Int) (by omega) (by omega)
    exact_mod_cast this
  rw [e1, hws] at c8
  rw [hwe, e3] at c9
  have hn : ¬ Y > b.partition_end := by omega
  rw [if_neg hn] at c9
  rw [c8, c9]
  clear c8 c9 e1 e3 hws hwe
  constructor
  · by_cases hc : (X : Int) < (b.partition_start : Int)
    · rw [if_pos hc]
      omega
    · rw [if_neg hc]
      omega
  · omega

theorem UpdateWindowBoundaries_current_row (assertions : Bool) (wexpr : BoundWindowExpression)
    (input : ChunkCollection) (input_size r : Nat) (bsc bec : ChunkCollection)
    (b b2 : WindowBoundariesState)
    (h : UpdateWindowBoundaries assertions wexpr input input_size r bsc bec b = Except.ok b2)
    (hstart : wexpr.start = WindowBoundary.UNBOUNDED_PRECEDING ∨
      wexpr.start = WindowBoundary.CURRENT_ROW_ROWS ∨
      wexpr.start = WindowBoundary.CURRENT_ROW_RANGE)
    (hend : wexpr.end_ = WindowBoundary.CURRENT_ROW_ROWS ∨
      wexpr.end_ = WindowBoundary.CURRENT_ROW_RANGE ∨
      wexpr.end_ = WindowBoundary.UNBOUNDED_FOLLOWING)
    (h1 : b2.partition_start ≤ b2.peer_start) (h2 : b2.peer_start ≤ r)
    (h3 : r < b2.partition_end) (h4 : b2.partition_end < 9223372036854775808)
    (h5 : wexpr.end_ = WindowBoundary.CURRENT_ROW_RANGE →
      r < b2.peer_end ∧ b2.peer_end ≤ b2.partition_end) :
    b2.window_start ≤ r ∧ (r : Int) < b2.window_end := by
  obtain ⟨b1, ws, we, -, hws, hwe, hclamp⟩ := UpdateWindowBoundaries_eq_ok _ _ _ _ _ _ _ _ _ h
  obtain ⟨c1, c2, c3, c4, -, -, -, -, -, -, -⟩ := ClampWindow_eq_ok _ _ hclamp
  simp only [] at c1 c2 c3 c4
  rw [c1, c3] at h1
  rw [c3] at h2
  rw [c2] at h3 h4
  rw [c4, c2] at h5
  have hX : ∃ X : Nat, ws = X ∧ b1.partition_start ≤ X ∧ X ≤ r := by
    unfold ComputeWindowStart at hws
    rcases hstart with hs | hs | hs <;> rw [hs] at hws <;>
      simp only [pure, Except.pure] at hws <;> have hws := Except.ok.inj hws
    · exact ⟨b1.partition_start, by rw [← hws]; exact toInt64_natCast _ (by omega),
        Nat.le_refl _, by omega⟩
    · exact ⟨r, by rw [← hws]; exact toInt64_natCast _ (by omega), by omega, Nat.le_refl _⟩
    · exact ⟨b1.peer_start, by rw [← hws]; exact toInt64_natCast _ (by omega), h1, h2⟩
  have hY : ∃ Y : Nat, we = Y ∧ r < Y ∧ Y ≤ b1.partition_end := by
    unfold ComputeWindowEnd at hwe
    rcases hend with he | he | he
    · rw [he] at hwe
      simp only [pure, Except.pure] at hwe
      have hwe := Except.ok.inj hwe
      have e : ((toIdx ((r : Int) + 1) : Nat) : Int) = (r : Int) + 1 :=
        toIdx_of_range _ (by omega) (by omega)
      refine ⟨r + 1, ?_, by omega, by omega⟩
      rw [← hwe, e]
      exact toInt64_natCast_succ r (by omega)
    · have h5 := h5 he
      rw [he] at hwe
      simp only [pure, Except.pure] at hwe
      have hwe := Except.ok.inj hwe
      exact ⟨b1.peer_end, by rw [← hwe]; exact toInt64_natCast _ (by omega), h5.1, h5.2⟩
    · rw [he] at hwe
      simp only [pure, Except.pure] at hwe
      have hwe := Except.ok.inj hwe
      exact ⟨b1.partition_end, by rw [← hwe]; exact toInt64_natCast _ (by omega), h3,
        Nat.le_refl _⟩
  obtain ⟨X, eX, hX1, hX2⟩ := hX
  obtain ⟨Y, eY, hY1, hY2⟩ := hY
  exact ClampWindow_inside _ _ X Y r hclamp (by show b1.partition_start ≤ r; omega)
    (by show b1.partition_end < _; exact h4) eX hX2 eY hY1 hY2

theorem BoundariesAfter_peer_end (assertions : Bool) (wexpr : BoundWindowExpression)
    (input : ChunkCollection) (input_size : Nat) (bsc bec : ChunkCollection)
    (row_prev : List Value) (r : Nat) (b : WindowBoundariesState)
    (hsize : input.ColumnCount > 0 → input.Count = input_size)
    (hN : input_size < 9223372036854775808) (hr : r < input_size)
    (h : BoundariesAfter assertions wexpr input input_size bsc bec (InitialBounds row_prev)
      (r + 1) = Except.ok b)
    (hend : wexpr.end_ = WindowBoundary.CURRENT_ROW_RANGE) :
    r < b.peer_end ∧ b.peer_end ≤ b.partition_end := by
  obtain ⟨-, -, h3, h4⟩ := BoundariesAfter_row_in_partition _ _ _ _ _ _ _ _ _ hsize hN hr h
  by_cases hcol : input.ColumnCount > 0
  · obtain ⟨-, -, hp⟩ := BoundariesAfter_columns _ _ _ _ _ _ _ hcol _ _ h
    have hp := hp (Or.inl hend) (Nat.succ_pos r)
    rw [Nat.add_sub_cancel r 1] at hp
    rw [hp]
    exact BinarySearchRightmost_succ_bounds input (input.GetRow r) r b.partition_end _ h3
      (by omega) (LessThanEquals_refl _ _ _)
  · have hcol0 : input.ColumnCount = 0 := by omega
    obtain ⟨-, -, hp⟩ := BoundariesAfter_no_columns _ _ _ _ _ _ _ hcol0 _ _ h
    obtain ⟨p1, p2⟩ := hp (Nat.succ_pos r)
    rw [p1, p2]
    exact ⟨hr, Nat.le_refl _⟩

/-- C33: for every input of fewer than `2^63` rows, sorted or not, and every
row `r`, if the start bound is UNBOUNDED PRECEDING or CURRENT ROW (ROWS or
RANGE) and the end bound is CURRENT ROW (ROWS or RANGE) or UNBOUNDED
FOLLOWING, then `UpdateWindowBoundaries` succeeds on the rows `0, ..., r` and
leaves `window_start <= r < window_end`; a run of the main loop over these
rows writes at row `r` the value computed for its kind, not the NULL of the
empty-frame test. -/
theorem frame_holds_current_row (assertions : Bool) (wexpr : BoundWindowExpression)
    (input_size : Nat) (cols : WindowCollections) (output_idx : Nat) (row_prev : List Value)
    (output : ChunkCollection) (r : Nat)
    (hstart : wexpr.start = WindowBoundary.UNBOUNDED_PRECEDING ∨
      wexpr.start = WindowBoundary.CURRENT_ROW_ROWS ∨
      wexpr.start = WindowBoundary.CURRENT_ROW_RANGE)
    (hend : wexpr.end_ = WindowBoundary.CURRENT_ROW_ROWS ∨
      wexpr.end_ = WindowBoundary.CURRENT_ROW_RANGE ∨
      wexpr.end_ = WindowBoundary.UNBOUNDED_FOLLOWING)
    (hsize : cols.sort_collection.ColumnCount > 0 → cols.sort_collection.Count = input_size)
    (hN : input_size < 9223372036854775808) (hr : r < input_size) :
    (∃ b, BoundariesAfter assertions wexpr cols.sort_collection input_size
        cols.boundary_start_collection cols.boundary_end_collection (InitialBounds row_prev)
        (r + 1) = Except.ok b ∧
      b.window_start ≤ r ∧ (r : Int) < b.window_end) ∧
    (∀ st1, ComputeWindowLoop assertions wexpr input_size cols output_idx
        { bounds := InitialBounds row_prev, ranks := {}, output := output } (r + 1)
          = Except.ok st1 →
      st1.bounds.window_start ≤ r ∧ (r : Int) < st1.bounds.window_end ∧
      ∃ st res, ComputeWindowLoop assertions wexpr input_size cols output_idx
          { bounds := InitialBounds row_prev, ranks := {}, output := output } r
            = Except.ok st ∧
        ComputeWindowValue assertions wexpr cols.payload_collection
          cols.leadlag_offset_collection cols.leadlag_default_collection r st1.bounds
          st1.ranks = Except.ok res ∧
        st1.output = st.output.SetValue output_idx r res) := by
  have hvs : ValidStart wexpr cols.boundary_start_collection = true := by
    unfold ValidStart
    rcases hstart with hs | hs | hs <;> rw [hs]
  have hve : ValidEnd wexpr cols.boundary_end_collection = true := by
    unfold ValidEnd
    rcases hend with he | he | he <;> rw [he]
  have key : ∀ b, BoundariesAfter assertions wexpr cols.sort_collection input_size
      cols.boundary_start_collection cols.boundary_end_collection (InitialBounds row_prev)
      (r + 1) = Except.ok b → b.window_start ≤ r ∧ (r : Int) < b.window_end := by
    intro b hb
    obtain ⟨h1, h2, h3, h4⟩ :=
      BoundariesAfter_row_in_partition _ _ _ _ _ _ _ _ _ hsize hN hr hb
    obtain ⟨b0, -, hstep⟩ := BoundariesAfter_succ_eq_ok _ _ _ _ _ _ _ _ _ hb
    exact UpdateWindowBoundaries_current_row _ _ _ _ _ _ _ _ _ hstep hstart hend h1 h2 h3
      (by omega) (fun he => BoundariesAfter_peer_end _ _ _ _ _ _ _ _ _ hsize hN hr hb he)
  constructor
  · obtain ⟨b, hb⟩ := BoundariesAfter_ok assertions wexpr cols.sort_collection input_size
      cols.boundary_start_collection cols.boundary_end_collection row_prev hvs hve hsize hN
      (r + 1) (by omega)
    exact ⟨b, hb, key b hb⟩
  · intro st1 h
    have hb := ComputeWindowLoop_bounds _ _ _ _ _ _ _ _ h
    obtain ⟨k1, k2⟩ := key _ hb
    obtain ⟨st, hst, hrow⟩ := ComputeWindowLoop_succ_eq_ok _ _ _ _ _ _ _ _ h
    obtain ⟨-, -, hcase⟩ := ComputeWindowRow_eq_ok _ _ _ _ _ _ _ _ hrow
    refine ⟨k1, k2, ?_⟩
    rcases hcase with ⟨hge, -⟩ | ⟨-, res, hres, hout⟩
    · exfalso
      omega
    · exact ⟨st, res, hst, hres, hout⟩

/-- An instance of `frame_holds_current_row`: `sum(x) OVER (ORDER BY x)` with
the default frame on `1, 2, 2`, where the frame of row `1` is `[0, 3)`. -/
theorem frame_holds_current_row_witness :
    ∃ b, BoundariesAfter true
        (WindowOrderBy ExpressionType.WINDOW_AGGREGATE 0 OrderType.ASCENDING
          WindowBoundary.UNBOUNDED_PRECEDING WindowBoundary.CURRENT_ROW_RANGE 0 0 [ColumnRef 0])
        (IntStore [1, 2, 2]) 3 ChunkCollection.empty ChunkCollection.empty
        (InitialBounds [Value.BIGINT 1]) (1 + 1) = Except.ok b ∧
      b.window_start ≤ (1 : Nat) ∧ ((1 : Nat) : Int) < b.window_end :=
  (frame_holds_current_row true
    (WindowOrderBy ExpressionType.WINDOW_AGGREGATE 0 OrderType.ASCENDING
      WindowBoundary.UNBOUNDED_PRECEDING WindowBoundary.CURRENT_ROW_RANGE 0 0 [ColumnRef 0])
    3 { sort_collection := IntStore [1, 2, 2], payload_collection := IntStore [1, 2, 2],
        leadlag_offset_collection := ChunkCollection.empty,
        leadlag_default_collection := ChunkCollection.empty,
        boundary_start_collection := ChunkCollection.empty,
        boundary_end_collection := ChunkCollection.empty }
    0 [Value.BIGINT 1] (IntStore [0, 0, 0]) 1
    (Or.inl rfl) (Or.inr (Or.inl rfl)) (fun _ => rfl) (by decide) (by decide)).1


/-! ## The binary search (C34) -/

theorem midpoint_bounds (l r : Nat) (hlr : l < r) (hr : r < 9223372036854775808) :
    l ≤ ((l + r) % 18446744073709551616) / 2 ∧ ((l + r) % 18446744073709551616) / 2 < r := by
  have e : (l + r) % 18446744073709551616 = l + r := Nat.mod_eq_of_lt (by omega)
  rw [e]
  omega

theorem BinarySearchRightmostTrace_fst (input : ChunkCollection) (row : List Value)
    (comp_cols : Nat) :
    ∀ fuel l r, (BinarySearchRightmostTrace input row comp_cols fuel l r).1
      = BinarySearchRightmostLoop input row comp_cols fuel l r := by
  intro fuel
  induction fuel with
  | zero => intro l r; rfl
  | succ fuel ih =>
    intro l r
    unfold BinarySearchRightmostTrace BinarySearchRightmostLoop
    by_cases hlr : l < r
    · simp only [hlr, if_true]
      split
      · exact ih _ _
      · exact ih _ _
    · simp only [hlr, if_false]

theorem BinarySearchRightmostTrace_fuel (input : ChunkCollection) (row : List Value)
    (comp_cols : Nat) :
    ∀ fuel1 fuel2 l r, r - l ≤ fuel1 → r - l ≤ fuel2 → r < 9223372036854775808 →
      BinarySearchRightmostTrace input row comp_cols fuel1 l r
        = BinarySearchRightmostTrace input row comp_cols fuel2 l r := by
  intro fuel1
  induction fuel1 with
  | zero =>
    intro fuel2 l r h1 _ _
    have hlr : ¬ l < r := by omega
    cases fuel2 with
    | zero => rfl
    | succ f =>
      unfold BinarySearchRightmostTrace
      simp only [hlr, if_false]
  | succ fuel1 ih =>
    intro fuel2 l r h1 h2 hr
    by_cases hlr : l < r
    · obtain ⟨m1, m2⟩ := midpoint_bounds l r hlr hr
      cases fuel2 with
      | zero => omega
      | succ f =>
        unfold BinarySearchRightmostTrace
        simp only [hlr, if_true]
        split
        · rw [ih f _ _ (by omega) (by omega) hr]
        · rw [ih f _ _ (by omega) (by omega) (by omega)]
    · cases fuel2 with
      | zero =>
        unfold BinarySearchRightmostTrace
        simp only [hlr, if_false]
      | succ f =>
        unfold BinarySearchRightmostTrace
        simp only [hlr, if_false]

theorem BinarySearchRightmostTrace_probes (input : ChunkCollection) (row : List Value)
    (comp_cols : Nat) :
    ∀ fuel l r, r < 9223372036854775808 →
      ∀ m ∈ (BinarySearchRightmostTrace input row comp_cols fuel l r).2, l ≤ m ∧ m < r := by
  intro fuel
  induction fuel with
  | zero =>
    intro l r _ m hm
    simp [BinarySearchRightmostTrace] at hm
  | succ fuel ih =>
    intro l r hr m hm
    unfold BinarySearchRightmostTrace at hm
    by_cases hlr : l < r
    · obtain ⟨m1, m2⟩ := midpoint_bounds l r hlr hr
      simp only [hlr, if_true] at hm
      by_cases hc : LessThanEquals
          (input.GetRow (((l + r) % 18446744073709551616) / 2)) row 0 comp_cols = true
      · simp only [hc, if_true, Functor.map, Prod.map, id] at hm
        rcases List.mem_cons.1 hm with hm | hm
        · omega
        · have := ih _ _ hr m hm
          omega
      · simp only [hc, Functor.map, Prod.map, id] at hm
        rcases List.mem_cons.1 hm with hm | hm
        · omega
        · have := ih _ _ (by omega) m hm
          omega
    · simp [hlr] at hm

theorem BinarySearchRightmostLoop_congr (input input2 : ChunkCollection) (row : List Value)
    (comp_cols : Nat) :
    ∀ fuel l r, r < 9223372036854775808 →
      (∀ i, l ≤ i → i < r → input2.GetRow i = input.GetRow i) →
      BinarySearchRightmostLoop input2 row comp_cols fuel l r
        = BinarySearchRightmostLoop input row comp_cols fuel l r := by
  intro fuel
  induction fuel with
  | zero => intro l r _ _; rfl
  | succ fuel ih =>
    intro l r hr hagree
    unfold BinarySearchRightmostLoop
    by_cases hlr : l < r
    · obtain ⟨m1, m2⟩ := midpoint_bounds l r hlr hr
      simp only [hlr, if_true, hagree _ m1 m2]
      split
      · exact ih _ _ hr (fun i hi1 hi2 => hagree i (by omega) hi2)
      · exact ih _ _ (by omega) (fun i hi1 hi2 => hagree i hi1 (by omega))
    · simp only [hlr, if_false]

/-- C34: for every store of fewer than `2^53` rows (where the midpoint taken
through `double` is exact), sorted or not, and every
`l < r <= count`, the loop of `BinarySearchRightmost` ends by its own
condition (fuel beyond `r - l` changes neither the result nor the probes),
probes only rows of `[l, r)` and depends on no other row of the store, and with
`row` the row of the store at index `l` it returns an index `j` with
`l <= j <= r - 1`; for `comp_cols = 0` the search returns `r - 1` for every
store and row, and the loop is not entered. -/
theorem binary_search_rightmost_range (input : ChunkCollection) (row : List Value)
    (l r comp_cols : Nat) (hlr : l < r) (hr : r ≤ input.Count)
    (hcount : input.Count < 9007199254740992) :
    (∀ fuel, r - l ≤ fuel →
      BinarySearchRightmostTrace input row comp_cols fuel l r
        = BinarySearchRightmostTrace input row comp_cols (r - l) l r) ∧
    (BinarySearchRightmostTrace input row comp_cols (r - l) l r).1
      = BinarySearchRightmostLoop input row comp_cols (r - l) l r ∧
    (∀ m ∈ (BinarySearchRightmostTrace input row comp_cols (r - l) l r).2, l ≤ m ∧ m < r) ∧
    (∀ input2 : ChunkCollection, (∀ i, l ≤ i → i < r → input2.GetRow i = input.GetRow i) →
      BinarySearchRightmost input2 row l r comp_cols
        = BinarySearchRightmost input row l r comp_cols) ∧
    (l ≤ BinarySearchRightmost input (input.GetRow l) l r comp_cols ∧
      BinarySearchRightmost input (input.GetRow l) l r comp_cols ≤ r - 1) ∧
    (∀ (input2 : ChunkCollection) (row2 : List Value),
      BinarySearchRightmost input2 row2 l r 0 = r - 1) := by
  have hr63 : r < 9223372036854775808 := by omega
  refine ⟨fun fuel hf => BinarySearchRightmostTrace_fuel _ _ _ _ _ _ _ hf (Nat.le_refl _) hr63,
    BinarySearchRightmostTrace_fst _ _ _ _ _ _,
    BinarySearchRightmostTrace_probes _ _ _ _ _ _ hr63, ?_, ?_, ?_⟩
  · intro input2 hagree
    unfold BinarySearchRightmost
    rw [BinarySearchRightmostLoop_congr input input2 row comp_cols _ _ _ hr63 hagree]
  · obtain ⟨b1, b2⟩ := BinarySearchRightmost_succ_bounds input (input.GetRow l) l r comp_cols
      hlr hr63 (LessThanEquals_refl _ _ _)
    have hlt : BinarySearchRightmost input (input.GetRow l) l r comp_cols
        < 18446744073709551616 := by
      unfold BinarySearchRightmost
      split <;> exact Int.toNat_lt (Int.emod_nonneg _ (by decide)) |>.2
        (Int.emod_lt_of_pos _ (by decide))
    by_cases hmax : BinarySearchRightmost input (input.GetRow l) l r comp_cols + 1
        = 18446744073709551616
    · rw [hmax] at b1
      simp at b1
    · rw [Nat.mod_eq_of_lt (by omega)] at b1 b2
      omega
  · intro input2 row2
    unfold BinarySearchRightmost
    simp only [if_true]
    have e := toIdx_of_range ((r : Int) - 1) (by omega) (by omega)
    omega

/-- An instance of `binary_search_rightmost_range`: the unsorted rows
`2, 9, 1, 2` searched for row `0` in `[0, 4)` with one column: the probes are
the rows `2, 3` and the result is `3`. -/
theorem binary_search_rightmost_range_witness :
    (∀ m ∈ (BinarySearchRightmostTrace (IntStore [2, 9, 1, 2]) ((IntStore [2, 9, 1, 2]).GetRow 0)
        1 (4 - 0) 0 4).2, 0 ≤ m ∧ m < 4) ∧
    BinarySearchRightmostTrace (IntStore [2, 9, 1, 2]) ((IntStore [2, 9, 1, 2]).GetRow 0)
        1 (4 - 0) 0 4 = (4, [2, 3]) ∧
    BinarySearchRightmost (IntStore [2, 9, 1, 2]) ((IntStore [2, 9, 1, 2]).GetRow 0) 0 4 1 = 3 :=
  ⟨(binary_search_rightmost_range (IntStore [2, 9, 1, 2]) ((IntStore [2, 9, 1, 2]).GetRow 0)
      0 4 1 (by decide) (by decide) (by decide)).2.2.1, by decide, by decide⟩


/-! ## `next_needle` (C37) -/

theorem occurrence_fits (h n : List Char) (q : Nat) (hn : 0 < n.length)
    (hocc : (h.drop q).take n.length = n) : q + n.length ≤ h.length := by
  have hl := congrArg List.length hocc
  rw [List.length_take, List.length_drop] at hl
  omega

theorem toIdx_natCast_sub (a b : Nat) (hb : b ≤ a) (ha : a < 18446744073709551616) :
    toIdx ((a : Int) - b) = a - b := by
  have e := toIdx_of_range ((a : Int) - b) (by omega) (by omega)
  omega

theorem memcmp_eq_of_fits (h n : List Char) (p : Nat) (hfit : p + n.length ≤ h.length) :
    memcmp_eq h p n n.length = some (decide ((h.drop p).take n.length = n)) := by
  unfold memcmp_eq
  rw [if_pos hfit, List.take_length]

theorem next_needle_loop_spec (h n : List Char) (hn : 0 < n.length)
    (hH : h.length < 18446744073709551616) :
    ∀ fuel p, p ≤ h.length → h.length - p < fuel →
      (∀ q, q < p → (h.drop q).take n.length ≠ n) →
      ∃ r, next_needle_loop h h.length n n.length fuel p = some r ∧
        ((r + n.length ≤ h.length ∧ (h.drop r).take n.length = n ∧
            ∀ q, q < r → (h.drop q).take n.length ≠ n) ∨
          (r = h.length ∧ ∀ q, (h.drop q).take n.length ≠ n)) := by
  intro fuel
  induction fuel with
  | zero => intro p _ hf _; exact absurd hf (Nat.not_lt_zero _)
  | succ fuel ih =>
    intro p hp hf hbefore
    unfold next_needle_loop
    rw [toIdx_natCast_sub _ _ hp hH]
    by_cases hroom : h.length - p ≥ n.length
    · rw [if_pos hroom, memcmp_eq_of_fits h n p (by omega)]
      by_cases hocc : (h.drop p).take n.length = n
      · simp only [hocc, decide_True]
        exact ⟨p, rfl, Or.inl ⟨by omega, hocc, hbefore⟩⟩
      · simp only [hocc, decide_False]
        rw [Nat.mod_eq_of_lt (by omega)]
        apply ih (p + 1) (by omega) (by omega)
        intro q hq
        by_cases hqp : q = p
        · rw [hqp]
          exact hocc
        · exact hbefore q (by omega)
    · rw [if_neg hroom]
      refine ⟨h.length, rfl, Or.inr ⟨rfl, ?_⟩⟩
      intro q hocc
      by_cases hq : q < p
      · exact hbefore q hq hocc
      · have := occurrence_fits h n q hn hocc
        omega

theorem next_needle_spec (h n : List Char) (hH : h.length < 18446744073709551616) :
    ∃ r, next_needle h h.length n n.length = some r ∧
      ((0 < n.length ∧ r + n.length ≤ h.length ∧ (h.drop r).take n.length = n ∧
          ∀ q, q < r → (h.drop q).take n.length ≠ n) ∨
        (r = h.length ∧
          (n.length = 0 ∨ ∀ q, (h.drop q).take n.length ≠ n))) := by
  unfold next_needle
  by_cases hn : 0 < n.length
  · rw [if_pos hn]
    obtain ⟨r, hr, hcase⟩ := next_needle_loop_spec h n hn hH (h.length + 1) 0 (Nat.zero_le _)
      (by omega) (fun q hq => absurd hq (Nat.not_lt_zero _))
    refine ⟨r, hr, ?_⟩
    rcases hcase with ⟨c1, c2, c3⟩ | ⟨c1, c2⟩
    · exact Or.inl ⟨hn, c1, c2, c3⟩
    · exact Or.inr ⟨c1, Or.inr c2⟩
  · rw [if_neg hn]
    exact ⟨h.length, rfl, Or.inr ⟨rfl, Or.inl (by omega)⟩⟩

/-- C37: for every haystack of `H < 2^64` bytes and needle of `K` bytes,
`next_needle` returns a position without reading the haystack at or beyond
index `H`: the least `p` with `p + K <= H` at which the haystack equals the
needle on `[p, p + K)` when `K > 0` and the needle occurs, and `H` when
`K = 0`, when `K > H`, or when the needle does not occur. -/
theorem next_needle_least (h n : List Char) (hH : h.length < 18446744073709551616) :
    ∃ r, next_needle h h.length n n.length = some r ∧
      ((0 < n.length ∧ r + n.length ≤ h.length ∧ (h.drop r).take n.length = n ∧
          ∀ q, q < r → (h.drop q).take n.length ≠ n) ∨
        (r = h.length ∧
          (n.length = 0 ∨ ∀ q, (h.drop q).take n.length ≠ n))) ∧
      (n.length = 0 → r = h.length) ∧
      (h.length < n.length → r = h.length) ∧
      ((∀ q, q + n.length ≤ h.length → (h.drop q).take n.length ≠ n) → r = h.length) := by
  obtain ⟨r, hr, hcase⟩ := next_needle_spec h n hH
  refine ⟨r, hr, hcase, ?_, ?_, ?_⟩
  · intro h0
    rcases hcase with ⟨c0, -⟩ | ⟨c1, -⟩
    · omega
    · exact c1
  · intro hlt
    rcases hcase with ⟨-, c1, -⟩ | ⟨c1, -⟩
    · omega
    · exact c1
  · intro hno
    rcases hcase with ⟨-, c1, c2, -⟩ | ⟨c1, -⟩
    · exact absurd c2 (hno r c1)
    · exact c1

/-- An instance of `next_needle_least`: the needle `ab` in `cabab` is found at
position `1`, and the needle `abc` is not found in `ab`. -/
theorem next_needle_least_witness :
    (∃ r, next_needle ['c', 'a', 'b', 'a', 'b'] 5 ['a', 'b'] 2 = some r ∧ r = 1) ∧
    next_needle ['a', 'b'] 2 ['a', 'b', 'c'] 3 = some 2 :=
  ⟨(next_needle_least ['c', 'a', 'b', 'a', 'b'] ['a', 'b'] (by decide)).imp
      (fun _ h => ⟨h.1, (Option.some.inj (h.1.symm.trans (by decide)))⟩), by decide⟩


/-! ## `replace_scalar_function` (C35, C36) -/

theorem SplitPieces_ne_nil (n : List Char) :
    ∀ (h : List Char) (s : Nat) (piece : List Char), SplitPieces n h s piece ≠ [] := by
  intro h
  induction h with
  | nil => intro s piece; simp [SplitPieces]
  | cons c cs ih =>
    intro s piece
    cases s with
    | succ s => simp only [SplitPieces]; exact ih _ _
    | zero =>
      simp only [SplitPieces]
      split
      · exact List.cons_ne_nil _ _
      · exact ih _ _

theorem JoinWith_cons (t p : List Char) (rest : List (List Char)) (hrest : rest ≠ []) :
    JoinWith t (p :: rest) = p ++ t ++ JoinWith t rest := by
  cases rest with
  | nil => exact absurd rfl hrest
  | cons q rest => rfl

theorem SplitPieces_skip (n : List Char) :
    ∀ (s : Nat) (h piece : List Char), s ≤ h.length →
      SplitPieces n h s piece = SplitPieces n (h.drop s) 0 piece := by
  intro s
  induction s with
  | zero => intro h piece _; rfl
  | succ s ih =>
    intro h piece hs
    cases h with
    | nil => simp at hs
    | cons c cs =>
      simp only [SplitPieces, List.drop_succ_cons]
      exact ih cs piece (by simpa using hs)

theorem SplitPieces_before (n : List Char) :
    ∀ (p : Nat) (h piece : List Char), p ≤ h.length →
      (∀ q, q < p → (h.drop q).take n.length ≠ n) →
      SplitPieces n h 0 piece = SplitPieces n (h.drop p) 0 (piece ++ h.take p) := by
  intro p
  induction p with
  | zero => intro h piece _ _; simp
  | succ p ih =>
    intro h piece hp hno
    cases h with
    | nil => simp at hp
    | cons c cs =>
      have h0 : ¬ (c :: cs).take n.length = n := hno 0 (Nat.succ_pos _)
      simp only [SplitPieces, h0, if_false, List.drop_succ_cons, List.take_succ_cons]
      rw [ih cs (piece ++ [c]) (by simpa using hp)
        (fun q hq => hno (q + 1) (by omega)), List.append_assoc]
      rfl

theorem SplitPieces_occurrence (n : List Char) (hn : 0 < n.length) (h piece : List Char)
    (hocc : h.take n.length = n) :
    SplitPieces n h 0 piece = piece :: SplitPieces n (h.drop n.length) 0 [] := by
  have hlen : n.length ≤ h.length := by
    have hl := congrArg List.length hocc
    rw [List.length_take] at hl
    omega
  cases h with
  | nil => rw [List.length_nil] at hlen; omega
  | cons c cs =>
    simp only [SplitPieces, hocc, if_true]
    rw [SplitPieces_skip n (n.length - 1) cs [] (by simp at hlen; omega)]
    have e : n.length = (n.length - 1) + 1 := by omega
    conv => rhs; rw [e, List.drop_succ_cons]

theorem SplitPieces_none (n h piece : List Char)
    (hno : ∀ q, (h.drop q).take n.length ≠ n) :
    SplitPieces n h 0 piece = [piece ++ h] := by
  rw [SplitPieces_before n h.length h piece (Nat.le_refl _) (fun q _ => hno q),
    List.drop_length, List.take_length]
  rfl

theorem replace_loop_eq (n t : List Char) (hn : 0 < n.length) :
    ∀ (fuel : Nat) (h result : List Char), h.length < fuel →
      h.length < 18446744073709551616 →
      replace_loop n n.length t t.length fuel h h.length result
        = some (result ++ JoinWith t (SplitPieces n h 0 [])) := by
  intro fuel
  induction fuel with
  | zero => intro h result hf _; exact absurd hf (Nat.not_lt_zero _)
  | succ fuel ih =>
    intro h result hf hH
    obtain ⟨r, hr, hcase⟩ := next_needle_spec h n hH
    unfold replace_loop
    rw [hr]
    rcases hcase with ⟨-, c1, c2, c3⟩ | ⟨c1, c2⟩
    · have hrl : ¬ r > h.length := by omega
      have hsz : toIdx ((h.length : Int) - r) = h.length - r :=
        toIdx_natCast_sub _ _ (by omega) hH
      have hsz2 : toIdx (((h.length - r : Nat) : Int) - n.length) = h.length - r - n.length :=
        toIdx_natCast_sub _ _ (by omega) (by omega)
      have hne : ¬ h.length - r = 0 := by omega
      have hlen2 : ((h.drop r).drop n.length).length = h.length - r - n.length := by
        rw [List.length_drop, List.length_drop]
      simp only [hrl, if_false, hsz, hne, hsz2, List.take_length]
      rw [← hlen2, ih _ _ (by rw [hlen2]; omega) (by rw [hlen2]; omega),
        SplitPieces_before n r h [] (by omega) c3, List.nil_append,
        SplitPieces_occurrence n hn (h.drop r) (h.take r) c2,
        JoinWith_cons _ _ _ (SplitPieces_ne_nil _ _ _ _)]
      simp only [List.append_assoc]
    · have hno : ∀ q, (h.drop q).take n.length ≠ n := by
        rcases c2 with c2 | c2
        · omega
        · exact c2
      have hrl : ¬ r > h.length := by omega
      have hsz : toIdx ((h.length : Int) - r) = 0 := by
        rw [toIdx_natCast_sub _ _ (by omega) hH]
        omega
      simp only [hrl, if_false, hsz, if_true]
      rw [SplitPieces_none n h [] hno, c1, List.take_length]
      rfl

theorem replace_empty_needle (h t : List Char) (hH : h.length < 18446744073709551616) :
    replace_scalar_function h [] t = some h := by
  have hsz : toIdx ((h.length : Int) - h.length) = 0 := by
    rw [toIdx_natCast_sub _ _ (Nat.le_refl _) hH]
    omega
  unfold replace_scalar_function replace_loop next_needle
  simp only [List.length_nil, Nat.lt_irrefl, if_false, gt_iff_lt, hsz, if_true,
    List.take_length, List.nil_append]

theorem SplitPieces_lengths (n : List Char) (hn : 0 < n.length) :
    ∀ (h : List Char) (s : Nat) (piece : List Char), s ≤ h.length →
      ((SplitPieces n h s piece).map List.length).sum
          + ((SplitPieces n h s piece).length - 1) * n.length + s
        = piece.length + h.length := by
  intro h
  induction h with
  | nil =>
    intro s piece hs
    have : s = 0 := by simpa using hs
    subst this
    simp [SplitPieces]
  | cons c cs ih =>
    intro s piece hs
    cases s with
    | succ s =>
      simp only [SplitPieces, List.length_cons]
      have := ih s piece (by simpa using hs)
      omega
    | zero =>
      simp only [SplitPieces]
      by_cases hocc : (c :: cs).take n.length = n
      · have hlen : n.length - 1 ≤ cs.length := by
          have hl := congrArg List.length hocc
          rw [List.length_take, List.length_cons] at hl
          omega
        have := ih (n.length - 1) [] hlen
        have hne := SplitPieces_ne_nil n cs (n.length - 1) []
        have hpos : 1 ≤ (SplitPieces n cs (n.length - 1) []).length := by
          cases hs2 : SplitPieces n cs (n.length - 1) [] with
          | nil => exact absurd hs2 hne
          | cons a l => simp
        simp only [hocc, if_true, List.map_cons, List.sum_cons, List.length_cons,
          Nat.add_sub_cancel, List.length_nil] at this ⊢
        obtain ⟨m, hm⟩ : ∃ m, (SplitPieces n cs (n.length - 1) []).length = m + 1 :=
          ⟨_, (Nat.sub_add_cancel hpos).symm⟩
        rw [hm] at this ⊢
        rw [Nat.add_sub_cancel] at this
        rw [Nat.succ_mul]
        generalize m * n.length = X at this ⊢
        omega
      · simp only [hocc, if_false]
        have := ih 0 (piece ++ [c]) (Nat.zero_le _)
        simp only [List.length_append, List.length_cons, List.length_nil] at this ⊢
        omega

theorem JoinWith_length (t : List Char) :
    ∀ pieces : List (List Char),
      (JoinWith t pieces).length = (pieces.map List.length).sum + (pieces.length - 1) * t.length := by
  intro pieces
  induction pieces with
  | nil => simp [JoinWith]
  | cons p rest ih =>
    cases rest with
    | nil => simp [JoinWith]
    | cons q rest =>
      rw [JoinWith_cons t p (q :: rest) (List.cons_ne_nil _ _)]
      simp only [List.length_append, ih, List.map_cons, List.sum_cons, List.length_cons,
        Nat.add_sub_cancel]
      rw [Nat.succ_mul]
      omega

theorem JoinWith_self (n : List Char) (hn : 0 < n.length) :
    ∀ (h : List Char) (s : Nat) (piece : List Char), s ≤ h.length →
      JoinWith n (SplitPieces n h s piece) = piece ++ h.drop s := by
  intro h
  induction h with
  | nil => intro s piece _; simp [SplitPieces, JoinWith]
  | cons c cs ih =>
    intro s piece hs
    cases s with
    | succ s =>
      simp only [SplitPieces, List.drop_succ_cons]
      exact ih s piece (by simpa using hs)
    | zero =>
      simp only [SplitPieces, List.drop_zero]
      by_cases hocc : (c :: cs).take n.length = n
      · have hlen : n.length - 1 ≤ cs.length := by
          have hl := congrArg List.length hocc
          rw [List.length_take, List.length_cons] at hl
          omega
        simp only [hocc, if_true]
        rw [JoinWith_cons _ _ _ (SplitPieces_ne_nil _ _ _ _), ih _ _ hlen, List.nil_append]
        have e : cs.drop (n.length - 1) = (c :: cs).drop n.length := by
          have e1 : n.length = (n.length - 1) + 1 := by omega
          conv => rhs; rw [e1, List.drop_succ_cons]
        have hsplit := List.take_append_drop n.length (c :: cs)
        rw [hocc] at hsplit
        rw [e, List.append_assoc, hsplit]
      · simp only [hocc, if_false]
        rw [ih 0 (piece ++ [c]) (Nat.zero_le _), List.drop_zero, List.append_assoc]
        rfl

theorem infix_iff_occurrence (h n : List Char) :
    (∃ q, (h.drop q).take n.length = n) ↔ n <:+: h := by
  constructor
  · rintro ⟨q, hq⟩
    refine ⟨h.take q, (h.drop q).drop n.length, ?_⟩
    have hsplit := List.take_append_drop n.length (h.drop q)
    rw [hq] at hsplit
    rw [List.append_assoc, hsplit, List.take_append_drop]
  · rintro ⟨s, u, hsu⟩
    refine ⟨s.length, ?_⟩
    rw [← hsu, List.append_assoc, List.drop_left, List.take_left]

theorem replace_scalar_function_eq (h n t : List Char) (hn : 0 < n.length)
    (hH : h.length < 18446744073709551616) :
    replace_scalar_function h n t = some (JoinWith t (SplitPieces n h 0 [])) := by
  unfold replace_scalar_function
  rw [replace_loop_eq n t hn (h.length + 1) h [] (Nat.lt_succ_self _) hH, List.nil_append]

/-- C35: for every haystack `h` of fewer than `2^64` bytes, every non-empty
needle `n` and every replacement `t`, the loop of `replace_scalar_function`
ends within `|h| + 1` rounds, more fuel giving the same result, and returns the
pieces of `h` split at its leftmost-first non-overlapping occurrences of `n`,
joined with `t`; the length of the result is `|h| + k * (|t| - |n|)` with `k`
the number of those occurrences, one less than the number of pieces. -/
theorem replace_split_join (h n t : List Char) (hn : n ≠ [])
    (hH : h.length < 18446744073709551616) :
    (∀ fuel, h.length < fuel →
      replace_loop n n.length t t.length fuel h h.length []
        = some (JoinWith t (SplitPieces n h 0 []))) ∧
    replace_scalar_function h n t = some (JoinWith t (SplitPieces n h 0 [])) ∧
    ((JoinWith t (SplitPieces n h 0 [])).length : Int)
      = (h.length : Int)
        + (((SplitPieces n h 0 []).length - 1 : Nat) : Int) * ((t.length : Int) - n.length) := by
  have hpos : 0 < n.length := List.length_pos.2 hn
  refine ⟨fun fuel hf => ?_, replace_scalar_function_eq h n t hpos hH, ?_⟩
  · rw [replace_loop_eq n t hpos fuel h [] hf hH, List.nil_append]
  · have e1 := JoinWith_length t (SplitPieces n h 0 [])
    have e2 := SplitPieces_lengths n hpos h 0 [] (Nat.zero_le _)
    rw [List.length_nil, Nat.add_zero, Nat.zero_add] at e2
    have e1i : ((JoinWith t (SplitPieces n h 0 [])).length : Int)
        = (((SplitPieces n h 0 []).map List.length).sum : Nat)
          + (((SplitPieces n h 0 []).length - 1 : Nat) : Int) * (t.length : Int) := by
      exact_mod_cast e1
    have e2i : ((((SplitPieces n h 0 []).map List.length).sum : Nat) : Int)
        + (((SplitPieces n h 0 []).length - 1 : Nat) : Int) * (n.length : Int)
        = (h.length : Int) := by
      exact_mod_cast e2
    rw [mul_sub]
    linarith

/-- An instance of `replace_split_join`: replacing `ab` by `xyz` in `abcab`
gives `xyzcxyz`, of length `5 + 2 * (3 - 2)`. -/
theorem replace_split_join_witness :
    replace_scalar_function ['a', 'b', 'c', 'a', 'b'] ['a', 'b'] ['x', 'y', 'z']
      = some (JoinWith ['x', 'y', 'z'] (SplitPieces ['a', 'b'] ['a', 'b', 'c', 'a', 'b'] 0 [])) ∧
    JoinWith ['x', 'y', 'z'] (SplitPieces ['a', 'b'] ['a', 'b', 'c', 'a', 'b'] 0 [])
      = ['x', 'y', 'z', 'c', 'x', 'y', 'z'] ∧
    SplitPieces ['a', 'b'] ['a', 'b', 'c', 'a', 'b'] 0 [] = [[], ['c'], []] :=
  ⟨(replace_split_join ['a', 'b', 'c', 'a', 'b'] ['a', 'b'] ['x', 'y', 'z']
      (by decide) (by decide)).2.1, by decide, by decide⟩

/-- C36: for every haystack `h` of fewer than `2^64` bytes, needle `n` and
replacement `t`, `replace_scalar_function` returns `h` when `n` is empty and
when `n` does not occur in `h`, replacing `n` by `n` returns `h`, and the
empty haystack gives the empty result. -/
theorem replace_identities (h n t : List Char) (hH : h.length < 18446744073709551616) :
    (n = [] → replace_scalar_function h n t = some h) ∧
    (¬ n <:+: h → replace_scalar_function h n t = some h) ∧
    replace_scalar_function h n n = some h ∧
    replace_scalar_function [] n t = some [] := by
  have hempty : ∀ h2 : List Char, h2.length < 18446744073709551616 →
      ∀ t2, n = [] → replace_scalar_function h2 n t2 = some h2 := by
    intro h2 hh2 t2 hn
    rw [hn]
    exact replace_empty_needle h2 t2 hh2
  refine ⟨hempty h hH t, ?_, ?_, ?_⟩
  · intro hno
    by_cases hn : n = []
    · exact hempty h hH t hn
    · have hpos : 0 < n.length := List.length_pos.2 hn
      have hno2 : ∀ q, (h.drop q).take n.length ≠ n :=
        fun q hq => hno ((infix_iff_occurrence h n).1 ⟨q, hq⟩)
      rw [replace_scalar_function_eq h n t hpos hH, SplitPieces_none n h [] hno2]
      rfl
  · by_cases hn : n = []
    · exact hempty h hH n hn
    · have hpos : 0 < n.length := List.length_pos.2 hn
      rw [replace_scalar_function_eq h n n hpos hH, JoinWith_self n hpos h 0 [] (Nat.zero_le _)]
      rfl
  · by_cases hn : n = []
    · exact hempty [] (by decide) t hn
    · have hpos : 0 < n.length := List.length_pos.2 hn
      rw [replace_scalar_function_eq [] n t hpos (by decide)]
      rfl

/-- An instance of `replace_identities`: in `abc` the needle `bd` does not
occur, and replacing `b` by `b` changes nothing. -/
theorem replace_identities_witness :
    replace_scalar_function ['a', 'b', 'c'] ['b', 'd'] ['x'] = some ['a', 'b', 'c'] ∧
    replace_scalar_function ['a', 'b', 'c'] ['b'] ['b'] = some ['a', 'b', 'c'] :=
  ⟨(replace_identities ['a', 'b', 'c'] ['b', 'd'] ['x'] (by decide)).2.1
      (by decide),
    (replace_identities ['a', 'b', 'c'] ['b'] ['b'] (by decide)).2.2.1⟩


/-! ## `bytes_to_human_readable_string` (C38) -/

theorem idx_sub_thousands (x : Nat) :
    toIdx ((x : Int) - ((x / 1000 * 1000 % 18446744073709551616 : Nat) : Int)) = x % 1000 := by
  unfold toIdx
  omega

theorem bytes_to_human_readable_string_eq (b : Nat) :
    bytes_to_human_readable_string b
      = if b / 1000 / 1000 / 1000 / 1000 > 0 then
          to_string (b / 1000 / 1000 / 1000 / 1000) ++ "." ++
            to_string (b / 1000 / 1000 / 1000 % 1000 / 100) ++ "TB"
        else if b / 1000 / 1000 / 1000 % 1000 > 0 then
          to_string (b / 1000 / 1000 / 1000 % 1000) ++ "." ++
            to_string (b / 1000 / 1000 % 1000 / 100) ++ "GB"
        else if b / 1000 / 1000 % 1000 > 0 then
          to_string (b / 1000 / 1000 % 1000) ++ "." ++
            to_string (b / 1000 % 1000 / 100) ++ "MB"
        else if b / 1000 % 1000 > 0 then to_string (b / 1000 % 1000) ++ "KB"
        else to_string b ++ " bytes" := by
  unfold bytes_to_human_readable_string
  simp only [idx_sub_thousands]

/-- C38: for every byte count `b < 2^64`, `bytes_to_human_readable_string`
returns `"<b> bytes"` when `b < 1000`, `"<q>KB"` with `q = b / 10^3` in
`1..999` when `10^3 <= b < 10^6`, and `"<q>.<d>MB"`, `"<q>.<d>GB"`,
`"<q>.<d>TB"` with `q = b / unit` and the truncated tenths digit
`d = 10 * b / unit mod 10` when `b` is in `[10^6, 10^9)`, `[10^9, 10^12)` or
at least `10^12`, `q` being in `1..999` for MB and GB. -/
theorem bytes_to_human_readable_string_units (b : Nat) (hb : b < 18446744073709551616) :
    (b < 1000 → bytes_to_human_readable_string b = to_string b ++ " bytes") ∧
    (1000 ≤ b → b < 1000000 →
      bytes_to_human_readable_string b = to_string (b / 1000) ++ "KB" ∧
        1 ≤ b / 1000 ∧ b / 1000 ≤ 999) ∧
    (1000000 ≤ b → b < 1000000000 →
      bytes_to_human_readable_string b
        = to_string (b / 1000000) ++ "." ++ to_string (10 * b / 1000000 % 10) ++ "MB" ∧
        1 ≤ b / 1000000 ∧ b / 1000000 ≤ 999) ∧
    (1000000000 ≤ b → b < 1000000000000 →
      bytes_to_human_readable_string b
        = to_string (b / 1000000000) ++ "." ++ to_string (10 * b / 1000000000 % 10) ++ "GB" ∧
        1 ≤ b / 1000000000 ∧ b / 1000000000 ≤ 999) ∧
    (1000000000000 ≤ b →
      bytes_to_human_readable_string b
        = to_string (b / 1000000000000) ++ "." ++ to_string (10 * b / 1000000000000 % 10)
          ++ "TB" ∧
        1 ≤ b / 1000000000000) := by
  rw [bytes_to_human_readable_string_eq b]
  refine ⟨fun h1 => ?_, fun h1 h2 => ⟨?_, by omega, by omega⟩,
    fun h1 h2 => ⟨?_, by omega, by omega⟩, fun h1 h2 => ⟨?_, by omega, by omega⟩,
    fun h1 => ⟨?_, by omega⟩⟩
  · have c1 : ¬ b / 1000 / 1000 / 1000 / 1000 > 0 := by omega
    have c2 : ¬ b / 1000 / 1000 / 1000 % 1000 > 0 := by omega
    have c3 : ¬ b / 1000 / 1000 % 1000 > 0 := by omega
    have c4 : ¬ b / 1000 % 1000 > 0 := by omega
    rw [if_neg c1, if_neg c2, if_neg c3, if_neg c4]
  · have c1 : ¬ b / 1000 / 1000 / 1000 / 1000 > 0 := by omega
    have c2 : ¬ b / 1000 / 1000 / 1000 % 1000 > 0 := by omega
    have c3 : ¬ b / 1000 / 1000 % 1000 > 0 := by omega
    have c4 : b / 1000 % 1000 > 0 := by omega
    have e : b / 1000 % 1000 = b / 1000 := by omega
    rw [if_neg c1, if_neg c2, if_neg c3, if_pos c4, e]
  · have c1 : ¬ b / 1000 / 1000 / 1000 / 1000 > 0 := by omega
    have c2 : ¬ b / 1000 / 1000 / 1000 % 1000 > 0 := by omega
    have c3 : b / 1000 / 1000 % 1000 > 0 := by omega
    have e1 : b / 1000 / 1000 % 1000 = b / 1000000 := by omega
    have e2 : b / 1000 % 1000 / 100 = 10 * b / 1000000 % 10 := by omega
    rw [if_neg c1, if_neg c2, if_pos c3, e1, e2]
  · have c1 : ¬ b / 1000 / 1000 / 1000 / 1000 > 0 := by omega
    have c2 : b / 1000 / 1000 / 1000 % 1000 > 0 := by omega
    have e1 : b / 1000 / 1000 / 1000 % 1000 = b / 1000000000 := by omega
    have e2 : b / 1000 / 1000 % 1000 / 100 = 10 * b / 1000000000 % 10 := by omega
    rw [if_neg c1, if_pos c2, e1, e2]
  · have c1 : b / 1000 / 1000 / 1000 / 1000 > 0 := by omega
    have e1 : b / 1000 / 1000 / 1000 / 1000 = b / 1000000000000 := by omega
    have e2 : b / 1000 / 1000 / 1000 % 1000 / 100 = 10 * b / 1000000000000 % 10 := by omega
    rw [if_pos c1, e1, e2]

/-- An instance of `bytes_to_human_readable_string_units`: `1 950 000` bytes
are `"1.9MB"`. -/
theorem bytes_to_human_readable_string_units_witness :
    bytes_to_human_readable_string 1950000
      = to_string (1950000 / 1000000) ++ "." ++ to_string (10 * 1950000 / 1000000 % 10) ++ "MB" ∧
    bytes_to_human_readable_string 1950000 = "1.9MB" :=
  ⟨((bytes_to_human_readable_string_units 1950000 (by decide)).2.2.1
      (by decide) (by decide)).1, by decide⟩


/-! ## `TransformSelectNode` (C39) -/

theorem set_limit_select_distinct (v : LimitDescription) (q : QueryNode) :
    (q.set_limit v).select_distinct = q.select_distinct ∧ (q.set_limit v).left = q.left ∧
      (q.set_limit v).right = q.right := by
  cases q <;> exact ⟨rfl, rfl, rfl⟩

theorem set_select_distinct_eq (v : Bool) (q : QueryNode) :
    (q.set_select_distinct v).select_distinct = v := by
  cases q <;> rfl

theorem TransformSelectNode_setop (op : SetOperation) (all distinctClause targetList : Bool)
    (limitCount limitOffset : Option Int) (l r : SelectStmt) (nl nr : QueryNode)
    (hop : op = SetOperation.SETOP_UNION ∨ op = SetOperation.SETOP_EXCEPT ∨
      op = SetOperation.SETOP_INTERSECT)
    (hl : TransformSelectNode l = Except.ok nl) (hr : TransformSelectNode r = Except.ok nr) :
    ∃ setop_type limit,
      TransformSelectNode
          (SelectStmt.mk op all distinctClause targetList limitCount limitOffset (some l) (some r))
        = Except.ok (QueryNode.SetOperationNode
            (if op = SetOperation.SETOP_UNION then !all else true) setop_type
            (if (if op = SetOperation.SETOP_UNION then !all else true) = true then
              nl.set_select_distinct false else nl)
            (if (if op = SetOperation.SETOP_UNION then !all else true) = true then
              nr.set_select_distinct false else nr)
            limit) := by
  rcases hop with h | h | h <;> subst h <;>
    simp only [TransformSelectNode, hl, hr, bind, Except.bind, pure, Except.pure,
      QueryNode.set_limit, if_true, reduceCtorEq, if_false] <;>
    exact ⟨_, _, rfl⟩

/-- C39: for every set-operation statement whose children transform, the node
`TransformSelectNode` returns has `select_distinct` false exactly for
`UNION ALL` and true for `UNION`, `EXCEPT` and `INTERSECT` (with or without
`ALL`); when it is true the `select_distinct` flags of both children are false
after the transform, and for `UNION ALL` the children are the nodes their own
transform returned. -/
theorem setop_select_distinct (op : SetOperation) (all distinctClause targetList : Bool)
    (limitCount limitOffset : Option Int) (l r : SelectStmt) (nl nr : QueryNode)
    (hop : op = SetOperation.SETOP_UNION ∨ op = SetOperation.SETOP_EXCEPT ∨
      op = SetOperation.SETOP_INTERSECT)
    (hl : TransformSelectNode l = Except.ok nl) (hr : TransformSelectNode r = Except.ok nr) :
    ∃ node,
      TransformSelectNode
          (SelectStmt.mk op all distinctClause targetList limitCount limitOffset (some l) (some r))
        = Except.ok node ∧
      (node.select_distinct = false ↔ (op = SetOperation.SETOP_UNION ∧ all = true)) ∧
      (node.select_distinct = true →
        node.left = some (nl.set_select_distinct false) ∧
        node.right = some (nr.set_select_distinct false) ∧
        (nl.set_select_distinct false).select_distinct = false ∧
        (nr.set_select_distinct false).select_distinct = false) ∧
      (op = SetOperation.SETOP_UNION ∧ all = true →
        node.left = some nl ∧ node.right = some nr) := by
  obtain ⟨setop_type, limit, hrun⟩ := TransformSelectNode_setop op all distinctClause targetList
    limitCount limitOffset l r nl nr hop hl hr
  refine ⟨_, hrun, ?_, ?_, ?_⟩
  · show (if op = SetOperation.SETOP_UNION then !all else true) = false ↔ _
    by_cases h : op = SetOperation.SETOP_UNION
    · cases all <;> simp [h]
    · simp [h]
  · intro hd
    have hd2 : (if op = SetOperation.SETOP_UNION then !all else true) = true := hd
    refine ⟨?_, ?_, set_select_distinct_eq _ _, set_select_distinct_eq _ _⟩
    · simp only [QueryNode.left]
      rw [if_pos hd2]
    · simp only [QueryNode.right]
      rw [if_pos hd2]
  · rintro ⟨h1, h2⟩
    subst h1 h2
    exact ⟨rfl, rfl⟩

/-- An instance of `setop_select_distinct`: `SELECT DISTINCT ... UNION SELECT
DISTINCT ...` gives a distinct union node over two children that are not
distinct any more, while with `UNION ALL` the children stay distinct. -/
theorem setop_select_distinct_witness :
    (∃ node,
      TransformSelectNode
          (SelectStmt.mk SetOperation.SETOP_UNION false false false none none
            (some (SelectStmt.mk SetOperation.SETOP_NONE false true true none none none none))
            (some (SelectStmt.mk SetOperation.SETOP_NONE false true true none none none none)))
        = Except.ok node ∧
      (node.select_distinct = false ↔
        (SetOperation.SETOP_UNION = SetOperation.SETOP_UNION ∧ false = true))) ∧
    TransformSelectNode
        (SelectStmt.mk SetOperation.SETOP_UNION false false false none none
          (some (SelectStmt.mk SetOperation.SETOP_NONE false true true none none none none))
          (some (SelectStmt.mk SetOperation.SETOP_NONE false true true none none none none)))
      = Except.ok (QueryNode.SetOperationNode true SetOperationType.UNION
          (QueryNode.SelectNode false {}) (QueryNode.SelectNode false {}) {}) ∧
    TransformSelectNode
        (SelectStmt.mk SetOperation.SETOP_UNION true false false none none
          (some (SelectStmt.mk SetOperation.SETOP_NONE false true true none none none none))
          (some (SelectStmt.mk SetOperation.SETOP_NONE false true true none none none none)))
      = Except.ok (QueryNode.SetOperationNode false SetOperationType.UNION
          (QueryNode.SelectNode true {}) (QueryNode.SelectNode true {}) {}) :=
  ⟨(setop_select_distinct SetOperation.SETOP_UNION false false false none none
      (SelectStmt.mk SetOperation.SETOP_NONE false true true none none none none)
      (SelectStmt.mk SetOperation.SETOP_NONE false true true none none none none)
      (QueryNode.SelectNode true {}) (QueryNode.SelectNode true {})
      (Or.inl rfl) rfl rfl).imp (fun _ h => ⟨h.1, h.2.1⟩),
    rfl, rfl⟩


/-! ## `tokenizeLine` (C40) -/

theorem LineTokens_space (c : Char) (cs : List Char) (hc : isspace c = true) :
    LineTokens (c :: cs) = LineTokens cs := by
  unfold LineTokens
  simp only [LineTokensFrom, hc, if_true]

theorem LineTokens_nil : LineTokens [] = [] := rfl

/-- Scanning a token: with `p` true on token bytes only and every other byte
of the line white space, the bytes of `z` on which `p` holds join the token in
progress, which ends at the first other byte. -/
theorem LineTokensFrom_scan (p : Char → Bool)
    (hp : ∀ c, p c = true → isspace c = false) :
    ∀ (z cur : List Char), (∀ c ∈ z, p c = false → isspace c = true) →
      LineTokensFrom z cur
        = if cur ++ z.takeWhile p = [] then LineTokens (z.drop (z.takeWhile p).length)
          else (cur ++ z.takeWhile p) :: LineTokens (z.drop ((z.takeWhile p).length + 1)) := by
  intro z
  induction z with
  | nil =>
    intro cur _
    simp only [LineTokensFrom, List.takeWhile_nil, List.append_nil, List.drop_nil,
      LineTokens_nil]
  | cons c cs ih =>
    intro cur hz
    have hcs : ∀ d ∈ cs, p d = false → isspace d = true :=
      fun d hd => hz d (List.mem_cons_of_mem _ hd)
    by_cases hpc : p c = true
    · have hsp : isspace c = false := hp c hpc
      have hne : ¬ (cur ++ [c]) ++ cs.takeWhile p = [] := by simp
      have hne2 : ¬ cur ++ c :: cs.takeWhile p = [] := by simp
      rw [List.takeWhile_cons_of_pos hpc, if_neg hne2]
      simp only [LineTokensFrom, hsp, List.length_cons, List.drop_succ_cons]
      rw [ih (cur ++ [c]) hcs, if_neg hne, List.append_assoc]
      rfl
    · have hpc2 : p c = false := by
        cases hx : p c
        · rfl
        · exact absurd hx hpc
      have hsp : isspace c = true := hz c (List.mem_cons_self _ _) hpc2
      rw [List.takeWhile_cons_of_neg hpc]
      simp only [LineTokensFrom, hsp, if_true, List.append_nil,
        List.length_nil, List.drop_zero, Nat.zero_add, List.drop_succ_cons]
      by_cases hcur : cur = []
      · simp only [hcur, if_true]
        rw [LineTokens_space c cs hsp]
        rfl
      · simp only [hcur, if_false]
        rfl

theorem drop_takeWhile_rest (p : Char → Bool) :
    ∀ z : List Char, z.drop (z.takeWhile p).length = []
      ∨ ∃ s rest, z.drop (z.takeWhile p).length = s :: rest ∧ p s = false := by
  intro z
  induction z with
  | nil => exact Or.inl rfl
  | cons c cs ih =>
    by_cases hpc : p c = true
    · rw [List.takeWhile_cons_of_pos hpc]
      simp only [List.length_cons, List.drop_succ_cons]
      exact ih
    · have hpc2 : p c = false := by
        cases hx : p c
        · rfl
        · exact absurd hx hpc
      rw [List.takeWhile_cons_of_neg hpc]
      exact Or.inr ⟨c, cs, rfl, hpc2⟩

theorem takeWhile_length_le (p : Char → Bool) (z : List Char) :
    (z.takeWhile p).length ≤ z.length := by
  induction z with
  | nil => exact Nat.le_refl _
  | cons c cs ih =>
    simp only [List.takeWhile_cons]
    split
    · simp only [List.length_cons]
      omega
    · simp only [List.length_nil, List.length_cons]
      omega

theorem take_length_takeWhile (p : Char → Bool) (z : List Char) :
    z.take (z.takeWhile p).length = z.takeWhile p := by
  induction z with
  | nil => rfl
  | cons c cs ih =>
    simp only [List.takeWhile_cons]
    split
    · simp only [List.length_cons, List.take_succ_cons, ih]
    · rfl

theorem takeWhile_cons_pos (p : Char → Bool) (c : Char) (cs : List Char) (h : p c = true) :
    (c :: cs).takeWhile p = c :: cs.takeWhile p := List.takeWhile_cons_of_pos h

theorem takeWhile_cons_neg (p : Char → Bool) (c : Char) (cs : List Char) (h : p c = false) :
    (c :: cs).takeWhile p = [] := by
  apply List.takeWhile_cons_of_neg
  rw [h]
  exact Bool.false_ne_true

theorem findToken_eq (z : List Char) :
    findToken z = ((z.takeWhile isspace).length,
      ((z.drop (z.takeWhile isspace).length).takeWhile (fun c => c != NUL && !isspace c)).length) := by
  unfold findToken
  simp only [Nat.add_sub_cancel_left]

/-- What `findToken` finds on a line without NUL bytes, in terms of the tokens
of the line: no token at all, or the first token followed by the tokens of
the rest of the line, from the byte after the token or from the next one. -/
theorem findToken_tokens (z : List Char) (hnul : ∀ c ∈ z, c ≠ NUL) :
    (findToken z).1 + (findToken z).2 ≤ z.length ∧
    ((findToken z).2 = 0 → LineTokens z = [] ∧ z.length ≤ (findToken z).1) ∧
    (0 < (findToken z).2 →
      LineTokens z = (z.drop (findToken z).1).take (findToken z).2
        :: LineTokens (z.drop ((findToken z).1 + (findToken z).2)) ∧
      ((z.drop (findToken z).1).take (findToken z).2).length = (findToken z).2 ∧
      LineTokens (z.drop ((findToken z).1 + (findToken z).2 + 1))
        = LineTokens (z.drop ((findToken z).1 + (findToken z).2))) := by
  induction z with
  | nil =>
    refine ⟨Nat.le_refl _, fun _ => ⟨rfl, Nat.le_refl _⟩, fun h => ?_⟩
    exact absurd h (by decide)
  | cons c cs ih =>
    have hcs : ∀ d ∈ cs, d ≠ NUL := fun d hd => hnul d (List.mem_cons_of_mem _ hd)
    by_cases hsp : isspace c = true
    · have e : findToken (c :: cs) = ((findToken cs).1 + 1, (findToken cs).2) := by
        rw [findToken_eq (c :: cs), findToken_eq cs, takeWhile_cons_pos isspace c cs hsp]
        rfl
      have e1 : (findToken (c :: cs)).1 = (findToken cs).1 + 1 := by rw [e]
      have e2 : (findToken (c :: cs)).2 = (findToken cs).2 := by rw [e]
      obtain ⟨i1, i2, i3⟩ := ih hcs
      rw [e1, e2, LineTokens_space c cs hsp]
      refine ⟨by simp only [List.length_cons]; omega, fun h0 => ?_, fun hpos => ?_⟩
      · obtain ⟨a, b⟩ := i2 h0
        exact ⟨a, by simp only [List.length_cons]; omega⟩
      · obtain ⟨a, b, d⟩ := i3 hpos
        have s1 : (findToken cs).1 + 1 + (findToken cs).2 = ((findToken cs).1 + (findToken cs).2) + 1 := by
          omega
        rw [s1]
        simp only [List.drop_succ_cons]
        exact ⟨a, b, d⟩
    · have hsp2 : isspace c = false := by
        cases hx : isspace c
        · rfl
        · exact absurd hx hsp
      have hcne : (c != NUL) = true := by
        have := hnul c (List.mem_cons_self _ _)
        simp [this]
      have hp : ∀ d, (d != NUL && !isspace d) = true → isspace d = false := by
        intro d hd
        simp only [Bool.and_eq_true, Bool.not_eq_true'] at hd
        exact hd.2
      have hz : ∀ d ∈ c :: cs, (d != NUL && !isspace d) = false → isspace d = true := by
        intro d hd hf
        have hdn : (d != NUL) = true := by
          have := hnul d hd
          simp [this]
        rw [hdn, Bool.true_and] at hf
        simpa using hf
      have e : findToken (c :: cs)
          = (0, ((c :: cs).takeWhile (fun d => d != NUL && !isspace d)).length) := by
        rw [findToken_eq (c :: cs), takeWhile_cons_neg isspace c cs hsp2]
        rfl
      have e1 : (findToken (c :: cs)).1 = 0 := by rw [e]
      have e2 : (findToken (c :: cs)).2
          = ((c :: cs).takeWhile (fun d => d != NUL && !isspace d)).length := by rw [e]
      have htok : (c != NUL && !isspace c) = true := by
        rw [hcne, hsp2]
        rfl
      have hpos : 0 < ((c :: cs).takeWhile (fun d => d != NUL && !isspace d)).length := by
        rw [takeWhile_cons_pos (fun d => d != NUL && !isspace d) c cs htok, List.length_cons]
        omega
      have hscan := LineTokensFrom_scan (fun d => d != NUL && !isspace d) hp (c :: cs) [] hz
      have hne : ¬ [] ++ (c :: cs).takeWhile (fun d => d != NUL && !isspace d) = [] := by
        intro h0
        rw [List.nil_append] at h0
        rw [h0] at hpos
        exact absurd hpos (by decide)
      rw [if_neg hne, List.nil_append] at hscan
      rw [e1, e2]
      refine ⟨by rw [Nat.zero_add]; exact takeWhile_length_le _ _, fun h0 => by omega,
        fun _ => ?_⟩
      rw [Nat.zero_add, List.drop_zero, take_length_takeWhile]
      have hrest : LineTokens ((c :: cs).drop
            (((c :: cs).takeWhile (fun d => d != NUL && !isspace d)).length + 1))
          = LineTokens ((c :: cs).drop
            ((c :: cs).takeWhile (fun d => d != NUL && !isspace d)).length) := by
        rcases drop_takeWhile_rest (fun d => d != NUL && !isspace d) (c :: cs) with h0 | ⟨s, rest, h1, h2⟩
        · rw [h0]
          have : (c :: cs).drop
              (((c :: cs).takeWhile (fun d => d != NUL && !isspace d)).length + 1) = [] := by
            rw [← List.drop_drop, h0]
            rfl
          rw [this]
        · have hsmem : s ∈ c :: cs := by
            have : s ∈ (c :: cs).drop
                ((c :: cs).takeWhile (fun d => d != NUL && !isspace d)).length := by
              rw [h1]
              exact List.mem_cons_self _ _
            exact List.mem_of_mem_drop this
          have hss : isspace s = true := hz s hsmem h2
          rw [← List.drop_drop, h1, List.drop_succ_cons, List.drop_zero,
            LineTokens_space s rest hss]
      refine ⟨?_, rfl, hrest⟩
      unfold LineTokens at hscan ⊢
      rw [hscan]
      unfold LineTokens at hrest
      rw [hrest]

theorem getD_set_self (az : List (List Char)) (i : Nat) (v : List Char) (hi : i < az.length) :
    (az.set i v).getD i [] = v := by
  rw [List.getD_eq_getElem?_getD, List.getElem?_set_self hi]
  rfl

theorem getD_set_ne (az : List (List Char)) (i x : Nat) (v : List Char) (hx : i ≠ x) :
    (az.set i v).getD x [] = az.getD x [] := by
  rw [List.getD_eq_getElem?_getD, List.getD_eq_getElem?_getD, List.getElem?_set_ne hx]

theorem tokenizeLoop_done (zLine : List Char) (len i j : Nat) (az : List (List Char))
    (fuel : Nat) (h : ¬ (j < len ∧ i < 4)) :
    tokenizeLoop zLine len fuel i j az = az := by
  cases fuel with
  | zero => rfl
  | succ fuel =>
    unfold tokenizeLoop
    rw [if_neg h]

theorem tokenizeLoop_step (zLine : List Char) (len i j : Nat) (az : List (List Char))
    (fuel : Nat) (h : j < len ∧ i < 4) :
    tokenizeLoop zLine len (fuel + 1) i j az
      = tokenizeLoop zLine len fuel (i + 1)
          (j + (findToken (zLine.drop j)).1
            + ((if (findToken (zLine.drop j)).2 ≥ 200 then 200 - 1
                else (findToken (zLine.drop j)).2) + 1))
          (az.set i ((zLine.drop (j + (findToken (zLine.drop j)).1)).take
            (if (findToken (zLine.drop j)).2 ≥ 200 then 200 - 1
              else (findToken (zLine.drop j)).2))) := by
  conv => lhs; unfold tokenizeLoop
  rw [if_pos h]

theorem tokenizeLoop_fuel (zLine : List Char) (len : Nat) :
    ∀ (fuel1 fuel2 i j : Nat) (az : List (List Char)), 4 - i ≤ fuel1 → 4 - i ≤ fuel2 →
      tokenizeLoop zLine len fuel1 i j az = tokenizeLoop zLine len fuel2 i j az := by
  intro fuel1
  induction fuel1 with
  | zero =>
    intro fuel2 i j az h1 _
    rw [tokenizeLoop_done zLine len i j az 0 (by omega),
      tokenizeLoop_done zLine len i j az fuel2 (by omega)]
  | succ fuel1 ih =>
    intro fuel2 i j az h1 h2
    by_cases h : j < len ∧ i < 4
    · cases fuel2 with
      | zero => omega
      | succ fuel2 =>
        rw [tokenizeLoop_step _ _ _ _ _ _ h, tokenizeLoop_step _ _ _ _ _ _ h]
        exact ih _ _ _ _ (by omega) (by omega)
    · rw [tokenizeLoop_done _ _ _ _ _ _ h, tokenizeLoop_done _ _ _ _ _ _ h]

theorem tokenizeLoop_tokens (zLine : List Char) (hnul : ∀ c ∈ zLine, c ≠ NUL) :
    ∀ (fuel i j : Nat) (az : List (List Char)), fuel + i = 4 → az.length = 4 →
      (∀ x, i ≤ x → az.getD x [] = []) →
      (tokenizeLoop zLine zLine.length fuel i j az).length = 4 ∧
      (∀ x, x < i → (tokenizeLoop zLine zLine.length fuel i j az).getD x [] = az.getD x []) ∧
      (∀ x, i ≤ x → x < 4 →
        (∀ y, y < x - i → ((LineTokens (zLine.drop j)).getD y []).length ≤ 200) →
        (tokenizeLoop zLine zLine.length fuel i j az).getD x []
          = ((LineTokens (zLine.drop j)).getD (x - i) []).take 199) := by
  intro fuel
  induction fuel with
  | zero =>
    intro i j az hfi hlen _
    refine ⟨hlen, fun _ _ => rfl, fun x h1 h2 _ => ?_⟩
    omega
  | succ fuel ih =>
    intro i j az hfi hlen hempty
    by_cases h : j < zLine.length ∧ i < 4
    · obtain ⟨hj, hi⟩ := h
      have hz : ∀ c ∈ zLine.drop j, c ≠ NUL := fun c hc => hnul c (List.mem_of_mem_drop hc)
      obtain ⟨f1, f2, f3⟩ := findToken_tokens (zLine.drop j) hz
      rw [tokenizeLoop_step _ _ _ _ _ _ ⟨hj, hi⟩]
      generalize hk : (findToken (zLine.drop j)).1 = k at f1 f2 f3 ⊢
      generalize htl : (findToken (zLine.drop j)).2 = tl at f1 f2 f3 ⊢
      have hzl : (zLine.drop j).length = zLine.length - j := List.length_drop _ _
      have hdd : ∀ m, (zLine.drop j).drop m = zLine.drop (j + m) := fun m => List.drop_drop _ _ _
      obtain ⟨i1, i2, i3⟩ := ih (i + 1)
        (j + k + ((if tl ≥ 200 then 200 - 1 else tl) + 1))
        (az.set i ((zLine.drop (j + k)).take (if tl ≥ 200 then 200 - 1 else tl)))
        (by omega) (by rw [List.length_set]; exact hlen)
        (fun x hx => by rw [getD_set_ne _ _ _ _ (by omega)]; exact hempty x (by omega))
      refine ⟨i1, fun x hx => ?_, fun x hx1 hx2 hy => ?_⟩
      · rw [i2 x (by omega), getD_set_ne _ _ _ _ (by omega)]
      · by_cases hxi : x = i
        · subst hxi
          rw [i2 x (by omega), getD_set_self _ _ _ (by omega), Nat.sub_self]
          by_cases htl0 : tl = 0
          · rw [(f2 htl0).1, htl0]
            rfl
          · obtain ⟨g1, -, -⟩ := f3 (by omega)
            rw [g1, List.getD_cons_zero, List.take_take, hdd]
            congr 1
            split <;> omega
        · by_cases htl0 : tl = 0
          · obtain ⟨g1, g2⟩ := f2 htl0
            have hnil : zLine.drop (j + k + ((if tl ≥ 200 then 200 - 1 else tl) + 1)) = [] :=
              List.drop_eq_nil_of_le (by omega)
            rw [i3 x (by omega) hx2 (by rw [hnil]; intro y _; exact Nat.zero_le _), hnil, g1]
            rfl
          · obtain ⟨g1, g2, g3⟩ := f3 (by omega)
            have h0 := hy 0 (by omega)
            rw [g1, List.getD_cons_zero, g2] at h0
            have hrest : LineTokens (zLine.drop (j + k + ((if tl ≥ 200 then 200 - 1 else tl) + 1)))
                = LineTokens ((zLine.drop j).drop (k + tl)) := by
              by_cases h200 : tl ≥ 200
              · have e200 : tl = 200 := by omega
                rw [if_pos h200, hdd]
                congr 2
                omega
              · rw [if_neg h200, ← g3, hdd]
                congr 2
                omega
            have hx : x - i = (x - (i + 1)) + 1 := by omega
            rw [i3 x (by omega) hx2 ?_, hrest, g1, hx, List.getD_cons_succ]
            intro y hy2
            have := hy (y + 1) (by omega)
            rw [g1, List.getD_cons_succ] at this
            rw [hrest]
            exact this
    · rw [tokenizeLoop_done _ _ _ _ _ _ h]
      refine ⟨hlen, fun _ _ => rfl, fun x hx1 hx2 _ => ?_⟩
      have hnil : zLine.drop j = [] := List.drop_eq_nil_of_le (by omega)
      rw [hempty x hx1, hnil]
      rfl

theorem findToken_blank (z : List Char) (hz : ∀ c ∈ z, c = NUL ∨ isspace c = true) :
    (findToken z).2 = 0 := by
  rw [findToken_eq]
  show ((z.drop (z.takeWhile isspace).length).takeWhile
    (fun c => c != NUL && !isspace c)).length = 0
  rcases drop_takeWhile_rest isspace z with h0 | ⟨s, rest, h1, h2⟩
  · rw [h0]
    rfl
  · have hs : s ∈ z := by
      have : s ∈ z.drop (z.takeWhile isspace).length := by
        rw [h1]
        exact List.mem_cons_self _ _
      exact List.mem_of_mem_drop this
    have hsn : s = NUL := by
      rcases hz s hs with h | h
      · exact h
      · rw [h2] at h
        exact absurd h (by decide)
    rw [h1, takeWhile_cons_neg _ s rest (by rw [hsn]; rfl)]
    rfl

theorem tokenizeLoop_blank (zLine : List Char) (len : Nat)
    (hz : ∀ c ∈ zLine, c = NUL ∨ isspace c = true) :
    ∀ (fuel i j : Nat),
      tokenizeLoop zLine len fuel i j (List.replicate 4 []) = List.replicate 4 [] := by
  intro fuel
  induction fuel with
  | zero => intro i j; rfl
  | succ fuel ih =>
    intro i j
    by_cases h : j < len ∧ i < 4
    · have hb := findToken_blank (zLine.drop j) (fun c hc => hz c (List.mem_of_mem_drop hc))
      rw [tokenizeLoop_step _ _ _ _ _ _ h, hb]
      have hset : (List.replicate 4 ([] : List Char)).set i
          ((zLine.drop (j + (findToken (zLine.drop j)).1)).take (if 0 ≥ 200 then 200 - 1 else 0))
          = List.replicate 4 [] := by
        have h4 : i = 0 ∨ i = 1 ∨ i = 2 ∨ i = 3 := by omega
        rcases h4 with h4 | h4 | h4 | h4 <;> subst h4 <;> rfl
      rw [hset]
      exact ih _ _
    · exact tokenizeLoop_done _ _ _ _ _ _ h

set_option maxRecDepth 100000 in
/-- C40, counterexample: on the line `loop i 0 10` the fourth token `10` is
stored in `azToken[3]`, which is not empty; and on a line of a token of 201
bytes followed by the token `y`, `azToken[1]` holds the rest `x` of the long
token and not the second token of the line. -/
theorem tokenize_four_counterexample :
    (tokenizeLine
        { zLine := ['l', 'o', 'o', 'p', ' ', 'i', ' ', '0', ' ', '1', '0'], len := 11
          nLine := 1, startLine := 0, azToken := [] }).azToken
      = [['l', 'o', 'o', 'p'], ['i'], ['0'], ['1', '0']] ∧
    (tokenizeLine
        { zLine := List.replicate 201 'x' ++ [' ', 'y'], len := 203
          nLine := 1, startLine := 0, azToken := [] }).azToken
      = [List.replicate 199 'x', ['x'], ['y'], []] ∧
    LineTokens (List.replicate 201 'x' ++ [' ', 'y']) = [List.replicate 201 'x', ['y']] := by
  decide

/-- C40, amended: for every script line without NUL bytes, `tokenizeLine` ends
within four rounds and stores at most four tokens, in `azToken[0]` to
`azToken[3]`; the token stored at index `x` is token `x` of the line (the
empty string when the line has fewer tokens) cut to at most 199 bytes,
whenever the tokens before it have at most 200 bytes each; on a blank line,
whose bytes are white space or NUL, all four stored tokens are empty. -/
theorem tokenize_tokens (p : Script) (hlen : p.len = p.zLine.length)
    (hnul : ∀ c ∈ p.zLine, c ≠ NUL) :
    (tokenizeLine p).azToken.length = 4 ∧ (tokenizeLine p).startLine = p.nLine ∧
    (∀ fuel, 4 ≤ fuel →
      tokenizeLoop p.zLine p.len fuel 0 0 (List.replicate 4 []) = (tokenizeLine p).azToken) ∧
    (∀ x, x < 4 →
      (∀ y, y < x → ((LineTokens p.zLine).getD y []).length ≤ 200) →
      (tokenizeLine p).azToken.getD x [] = ((LineTokens p.zLine).getD x []).take 199) ∧
    (∀ z : List Char, (∀ c ∈ z, c = NUL ∨ isspace c = true) →
      (tokenizeLine { p with zLine := z, len := z.length }).azToken = List.replicate 4 []) := by
  obtain ⟨t1, -, t3⟩ := tokenizeLoop_tokens p.zLine hnul 4 0 0 (List.replicate 4 []) rfl rfl
    (fun x _ => by
      rw [List.getD_eq_getElem?_getD]
      by_cases hx : x < 4
      · rw [List.getElem?_eq_getElem (by simpa using hx), List.getElem_replicate]
        rfl
      · rw [List.getElem?_eq_none (by simpa using hx)]
        rfl)
  have haz : (tokenizeLine p).azToken
      = tokenizeLoop p.zLine p.zLine.length 4 0 0 (List.replicate 4 []) := by
    unfold tokenizeLine
    rw [hlen]
  refine ⟨by rw [haz]; exact t1, rfl, fun fuel hf => ?_, fun x hx hy => ?_, fun z hz => ?_⟩
  · rw [haz, hlen]
    exact tokenizeLoop_fuel _ _ _ _ _ _ _ (by omega) (by omega)
  · rw [haz]
    exact t3 x (Nat.zero_le _) hx hy
  · exact tokenizeLoop_blank z z.length hz 4 0 0

/-- An instance of `tokenize_tokens`: the line `query I nosort`, whose three
tokens are stored in order, the fourth buffer staying empty. -/
theorem tokenize_tokens_witness :
    (tokenizeLine
        { zLine := ['q', 'u', 'e', 'r', 'y', ' ', 'I', ' ', 'n', 'o', 's', 'o', 'r', 't']
          len := 14, nLine := 7, startLine := 0, azToken := [] }).azToken.length = 4 ∧
    (tokenizeLine
        { zLine := ['q', 'u', 'e', 'r', 'y', ' ', 'I', ' ', 'n', 'o', 's', 'o', 'r', 't']
          len := 14, nLine := 7, startLine := 0, azToken := [] }).azToken
      = [['q', 'u', 'e', 'r', 'y'], ['I'], ['n', 'o', 's', 'o', 'r', 't'], []] :=
  ⟨(tokenize_tokens
      { zLine := ['q', 'u', 'e', 'r', 'y', ' ', 'I', ' ', 'n', 'o', 's', 'o', 'r', 't']
        len := 14, nLine := 7, startLine := 0, azToken := [] } rfl (by decide)).1, by decide⟩


/-! ## LEAD and LAG inside the partition (C20) -/

/-- C20, amended: for every input of fewer than `2^63` rows and every row `r`
with a non-empty frame, with `offset` the signed 64-bit offset (`1` without
offset expression; read at index `0` when scalar, at `r` otherwise), LEAD
writes `payload[r + offset]` if `partition_start <= r + offset < partition_end`
and the default (SQL NULL without default expression) if
`r + offset >= partition_end` or `r + offset < 0`; LAG writes
`payload[r - offset]` if `partition_start <= r - offset < partition_end` and
the default if `r - offset < partition_start` or `r - offset >= 2^63`.  As
`partition_start <= r < partition_end`, this settles every offset `>= 0`.  An
index that falls outside the partition without meeting one of these
conditions is left open. -/
theorem lead_lag_written (assertions : Bool) (wexpr : BoundWindowExpression)
    (input_size : Nat) (cols : WindowCollections) (output_idx : Nat) (row_prev : List Value)
    (output : ChunkCollection) (r : Nat) (st1 : WindowLoopState)
    (htype : wexpr.type = ExpressionType.WINDOW_LEAD ∨ wexpr.type = ExpressionType.WINDOW_LAG)
    (hsize : cols.sort_collection.ColumnCount > 0 → cols.sort_collection.Count = input_size)
    (hN : input_size < 9223372036854775808) (hr : r < input_size)
    (h : ComputeWindowLoop assertions wexpr input_size cols output_idx
      { bounds := InitialBounds row_prev, ranks := {}, output := output } (r + 1)
        = Except.ok st1)
    (hne : st1.bounds.window_start < st1.bounds.window_end) :
    ∃ st v, ComputeWindowLoop assertions wexpr input_size cols output_idx
        { bounds := InitialBounds row_prev, ranks := {}, output := output } r = Except.ok st ∧
      st1.output = st.output.SetValue output_idx r v ∧
      (st1.bounds.partition_start ≤ r ∧ r < st1.bounds.partition_end) ∧
      (wexpr.type = ExpressionType.WINDOW_LEAD →
        ((st1.bounds.partition_start : Int)
              ≤ (r : Int) + LeadLagOffset wexpr cols.leadlag_offset_collection r →
            (r : Int) + LeadLagOffset wexpr cols.leadlag_offset_collection r
              < st1.bounds.partition_end →
          v = cols.payload_collection.GetValue 0
            ((r : Int) + LeadLagOffset wexpr cols.leadlag_offset_collection r).toNat) ∧
        ((st1.bounds.partition_end : Int)
              ≤ (r : Int) + LeadLagOffset wexpr cols.leadlag_offset_collection r ∨
            (r : Int) + LeadLagOffset wexpr cols.leadlag_offset_collection r < 0 →
          v = LeadLagDefault wexpr cols.leadlag_default_collection r)) ∧
      (wexpr.type = ExpressionType.WINDOW_LAG →
        ((st1.bounds.partition_start : Int)
              ≤ (r : Int) - LeadLagOffset wexpr cols.leadlag_offset_collection r →
            (r : Int) - LeadLagOffset wexpr cols.leadlag_offset_collection r
              < st1.bounds.partition_end →
          v = cols.payload_collection.GetValue 0
            ((r : Int) - LeadLagOffset wexpr cols.leadlag_offset_collection r).toNat) ∧
        ((r : Int) - LeadLagOffset wexpr cols.leadlag_offset_collection r
              < st1.bounds.partition_start ∨
            9223372036854775808
              ≤ (r : Int) - LeadLagOffset wexpr cols.leadlag_offset_collection r →
          v = LeadLagDefault wexpr cols.leadlag_default_collection r)) := by
  obtain ⟨st, hst, hout⟩ := ComputeWindowLoop_lead_lag assertions wexpr input_size cols
    output_idx row_prev output r st1 htype hsize hN hr h hne
  have hb := ComputeWindowLoop_bounds _ _ _ _ _ _ _ _ h
  obtain ⟨b1, b2, b3, b4⟩ := BoundariesAfter_row_in_partition _ _ _ _ _ _ _ _ _ hsize hN hr hb
  simp only [] at hb b1 b2 b3 b4
  refine ⟨st, _, hst, hout, ⟨by omega, b3⟩, ?_, ?_⟩
  · intro ht
    rw [if_pos ht]
    generalize LeadLagOffset wexpr cols.leadlag_offset_collection r = off
    constructor
    · intro h1 h2
      rw [if_pos ⟨by omega, h2⟩]
    · intro h1
      rw [if_neg (by omega)]
  · intro ht
    have hnl : ¬ wexpr.type = ExpressionType.WINDOW_LEAD := by
      rw [ht]
      decide
    rw [if_neg hnl]
    generalize LeadLagOffset wexpr cols.leadlag_offset_collection r = off
    constructor
    · intro h1 h2
      rw [if_pos ⟨h1, by omega⟩]
    · intro h1
      rw [if_neg (by omega)]

/-- An instance of `lead_lag_written`: `lead(x, 2, -1) OVER (ORDER BY x)` on the
sorted values `10, 20, 30, 40`, row `0`, which gets `payload[2] = 30`; the
whole column is `[30, 40, -1, -1]`. -/
theorem lead_lag_written_witness :
    (∃ st v, ComputeWindowLoop true (WindowLeadLag ExpressionType.WINDOW_LEAD 0 2 (-1)) 4
          (MaterializeWindowCollections (WindowLeadLag ExpressionType.WINDOW_LEAD 0 2 (-1))
            (IntStore [10, 20, 30, 40]) (IntStore [10, 20, 30, 40]))
          0 { bounds := InitialBounds [Value.BIGINT 10], ranks := {}
              output := IntStore [0, 0, 0, 0] } 0 = Except.ok st ∧
        IntStore [30, 0, 0, 0] = st.output.SetValue 0 0 v ∧
        v = Value.BIGINT 30) ∧
      (Finalize true [WindowLeadLag ExpressionType.WINDOW_LEAD 0 2 (-1)]
          { chunks := IntStore [10, 20, 30, 40], window_results := ChunkCollection.empty }).map
        (fun g => g.window_results.rows)
        = Except.ok [[Value.BIGINT 30], [Value.BIGINT 40], [Value.BIGINT (-1)],
            [Value.BIGINT (-1)]] := by
  obtain ⟨st, v, h1, h2, -, h4, -⟩ :=
    lead_lag_written true (WindowLeadLag ExpressionType.WINDOW_LEAD 0 2 (-1)) 4
      (MaterializeWindowCollections (WindowLeadLag ExpressionType.WINDOW_LEAD 0 2 (-1))
        (IntStore [10, 20, 30, 40]) (IntStore [10, 20, 30, 40]))
      0 [Value.BIGINT 10] (IntStore [0, 0, 0, 0]) 0
      { bounds :=
          { partition_start := 0, partition_end := 4, peer_start := 0, peer_end := 1
            window_start := 0, window_end := 1, is_same_partition := true, is_peer := true
            row_prev := [Value.BIGINT 10] },
        ranks := { dense_rank := 1, rank_equal := 0, rank := 1 },
        output := IntStore [30, 0, 0, 0] }
      (Or.inl rfl) (by decide) (by decide) (by decide) (by rfl) (by decide)
  have hv : v = Value.BIGINT 30 := ((h4 rfl).1 (by decide) (by decide)).trans (by decide)
  exact ⟨⟨st, v, h1, h2, hv⟩, by decide⟩


/-! ## The rows after `Finalize` (C8) -/

theorem Reorder_rows_perm (c : ChunkCollection) (perm : List Nat)
    (h : List.Perm perm (List.range c.Count)) : List.Perm (c.Reorder perm).rows c.rows := by
  have e : (c.Reorder (List.range c.Count)).rows = c.rows := by rw [Reorder_range]
  have hmap : List.Perm (perm.map c.GetRow) ((List.range c.Count).map c.GetRow) := h.map _
  exact hmap.trans (List.Perm.of_eq e)

theorem SortedStores_input_perm (wexpr : BoundWindowExpression) (input output : ChunkCollection) :
    ∃ perm, List.Perm perm (List.range input.Count) ∧
      (SortedStores wexpr input output).input = input.Reorder perm := by
  by_cases hk : HasKeys wexpr = true
  · refine ⟨WindowSortIndices wexpr input, WindowSortIndices_perm wexpr input, ?_⟩
    unfold SortedStores
    rw [hk]
    rfl
  · have hk2 : HasKeys wexpr = false := by
      cases hx : HasKeys wexpr
      · rfl
      · exact absurd hx hk
    refine ⟨List.range input.Count, List.Perm.refl _, ?_⟩
    rw [SortedStores_no_keys wexpr input output hk2, Reorder_range]

/-- The input store `ComputeWindowExpression` leaves holds the rows it was
given, in some order. -/
theorem ComputeWindowExpression_input_perm (assertions : Bool) (wexpr : BoundWindowExpression)
    (input output : ChunkCollection) (output_idx : Nat) (s : WindowStores)
    (h : ComputeWindowExpression assertions wexpr input output output_idx = Except.ok s) :
    List.Perm s.input.rows input.rows ∧ s.input.ColumnCount = input.ColumnCount ∧
      s.input.Count = input.Count := by
  obtain ⟨st, -, e1, -⟩ := ComputeWindowExpression_run _ _ _ _ _ _ h
  obtain ⟨perm, hperm, p1⟩ := SortedStores_input_perm wexpr input output
  rw [e1, p1]
  refine ⟨Reorder_rows_perm input perm hperm, rfl, ?_⟩
  rw [Reorder_Count, hperm.length_eq, List.length_range]

/-- A window expression evaluated on an input store and a result store of
equal row count reorders both by one permutation of the row indices and
changes the result store in its own column only. -/
theorem ComputeWindowExpression_stores (assertions : Bool) (wexpr : BoundWindowExpression)
    (input output : ChunkCollection) (k : Nat) (s : WindowStores)
    (hcount : output.Count = input.Count)
    (h : ComputeWindowExpression assertions wexpr input output k = Except.ok s) :
    ∃ perm, List.Perm perm (List.range input.Count) ∧
      s.input = input.Reorder perm ∧
      s.output.ColumnCount = output.ColumnCount ∧ s.output.Count = output.Count ∧
      (∀ c i, c ≠ k → s.output.GetValue c i = (output.Reorder perm).GetValue c i) := by
  obtain ⟨st, hst, e1, e2⟩ := ComputeWindowExpression_run _ _ _ _ _ _ h
  obtain ⟨perm, hperm, -, p1, p2⟩ := SortedStores_perm wexpr input output hcount
  unfold WindowLoopRun at hst
  obtain ⟨o1, o2, o3, -, -⟩ := ComputeWindowLoop_output _ _ _ _ _ _ _ _ hst
  simp only [] at o1 o2 o3
  rw [p2] at o1 o2 o3
  have hlen : perm.length = input.Count := by
    rw [hperm.length_eq, List.length_range]
  refine ⟨perm, hperm, by rw [e1, p1], ?_, ?_, fun c i hc => by rw [e2, o3 c i hc]⟩
  · rw [e2]
    exact o1
  · rw [e2, o2, Reorder_Count, hlen, hcount]

/-- The loop of `Finalize` keeps the rows of the input store, in some order,
and the shape of the result store. -/
theorem FinalizeLoop_stores (assertions : Bool) (select_list : List BoundWindowExpression) :
    ∀ (idx : Nat) (stores stores1 : WindowStores),
      FinalizeLoop assertions select_list idx stores = Except.ok stores1 →
      List.Perm stores1.input.rows stores.input.rows ∧
        stores1.input.ColumnCount = stores.input.ColumnCount ∧
        (stores.output.Count = stores.input.Count →
          stores1.output.Count = stores.output.Count ∧
            stores1.output.ColumnCount = stores.output.ColumnCount) := by
  induction select_list with
  | nil =>
    intro idx stores stores1 h
    simp only [FinalizeLoop, pure, Except.pure] at h
    have h := Except.ok.inj h
    rw [← h]
    exact ⟨List.Perm.refl _, rfl, fun _ => ⟨rfl, rfl⟩⟩
  | cons w rest ih =>
    intro idx stores stores1 h
    simp only [FinalizeLoop] at h
    rw [bind_eq_ok] at h
    obtain ⟨s, hs, h⟩ := h
    obtain ⟨i1, i2, i3⟩ := ih _ _ _ h
    obtain ⟨q1, q2, q3⟩ := ComputeWindowExpression_input_perm _ _ _ _ _ _ hs
    refine ⟨i1.trans q1, i2.trans q2, fun hcount => ?_⟩
    obtain ⟨perm, -, -, r1, r2, -⟩ := ComputeWindowExpression_stores _ _ _ _ _ _ hcount hs
    obtain ⟨j1, j2⟩ := i3 (by rw [r2, q3, hcount])
    exact ⟨j1.trans r2, j2.trans r1⟩

/-- C8 (amended): for every select list of window expressions, after `Finalize`
the input store holds the rows it was given, none lost or added, in the sort
order of `(partition_keys, order_keys)` of the last window expression, in
evaluation order, whose key list is non-empty; started with an empty result
store, the result store has one row for every input row; and every window
expression with keys sorts the shared stores anew: it reorders the input store
and the result store by one permutation of the row indices, after which the
input store is in the sort order of its own keys. -/
theorem finalize_order (assertions : Bool) (select_list : List BoundWindowExpression)
    (gstate g1 : WindowGlobalState) (pre : List BoundWindowExpression)
    (w : BoundWindowExpression) (post : List BoundWindowExpression)
    (h : Finalize assertions select_list gstate = Except.ok g1)
    (hsel : select_list = pre ++ w :: post) (hw : HasKeys w = true)
    (hpost : ∀ w' ∈ post, HasKeys w' = false) :
    InputSortedFor w g1.chunks ∧
    List.Perm g1.chunks.rows gstate.chunks.rows ∧
    g1.chunks.ColumnCount = gstate.chunks.ColumnCount ∧
    (gstate.window_results = ChunkCollection.empty →
      g1.window_results.Count = g1.chunks.Count ∧
        g1.window_results.Count = gstate.chunks.Count) ∧
    (∀ (wk : BoundWindowExpression) (input output : ChunkCollection) (k : Nat)
        (s : WindowStores), HasKeys wk = true → output.Count = input.Count →
      ComputeWindowExpression assertions wk input output k = Except.ok s →
      ∃ perm, List.Perm perm (List.range input.Count) ∧
        s.input = input.Reorder perm ∧ InputSortedFor wk s.input ∧
        s.output.Count = output.Count ∧
        (∀ c i, c ≠ k → s.output.GetValue c i = (output.Reorder perm).GetValue c i)) := by
  have hstep : ∀ (wk : BoundWindowExpression) (input output : ChunkCollection) (k : Nat)
      (s : WindowStores), HasKeys wk = true → output.Count = input.Count →
      ComputeWindowExpression assertions wk input output k = Except.ok s →
      ∃ perm, List.Perm perm (List.range input.Count) ∧
        s.input = input.Reorder perm ∧ InputSortedFor wk s.input ∧
        s.output.Count = output.Count ∧
        (∀ c i, c ≠ k → s.output.GetValue c i = (output.Reorder perm).GetValue c i) := by
    intro wk input output k s hk hcount hs
    obtain ⟨perm, hperm, r0, -, r2, r3⟩ := ComputeWindowExpression_stores _ _ _ _ _ _ hcount hs
    exact ⟨perm, hperm, r0, (ComputeWindowExpression_input _ _ _ _ _ _ hs).1 hk, r2, r3⟩
  unfold Finalize at h
  by_cases hcount : gstate.chunks.Count = 0
  · simp only [hcount, if_true, pure, Except.pure] at h
    have h := Except.ok.inj h
    rw [← h]
    have hrows : gstate.chunks.rows = [] := List.length_eq_zero.mp hcount
    refine ⟨?_, List.Perm.refl _, rfl, fun hres => ?_, hstep⟩
    · unfold InputSortedFor
      rw [hrows]
      exact List.Pairwise.nil
    · rw [hres, hcount]
      exact ⟨rfl, rfl⟩
  · simp only [hcount, if_false] at h
    rw [bind_eq_ok] at h
    obtain ⟨-, -, h⟩ := h
    rw [bind_eq_ok] at h
    obtain ⟨stores, hstores, h⟩ := h
    simp only [pure, Except.pure] at h
    have h := Except.ok.inj h
    rw [← h]
    obtain ⟨f1, f2, f3⟩ := FinalizeLoop_stores _ _ _ _ _ hstores
    simp only [] at f1 f2 f3
    refine ⟨?_, f1, f2, fun hres => ?_, hstep⟩
    · rw [hsel] at hstores
      exact FinalizeLoop_sorted _ _ _ _ _ _ _ hstores hw hpost
    · have hinit : (gstate.window_results.Append
          { types := select_list.length
            rows := gstate.chunks.rows.map
              (fun _ => List.replicate select_list.length Value.NULL) }).Count
          = gstate.chunks.Count := by
        rw [hres]
        have hR := InitialResults_eq select_list.length gstate.chunks (by omega)
        unfold InitialResults at hR
        rw [hR]
        unfold ChunkCollection.Count
        simp only [List.length_map]
      obtain ⟨g1c, -⟩ := f3 hinit
      rw [hinit] at g1c
      refine ⟨?_, g1c⟩
      show stores.output.Count = stores.input.Count
      rw [g1c]
      unfold ChunkCollection.Count
      exact f1.length_eq.symm

/-- An instance of `finalize_order`: the select list `row_number() OVER (ORDER
BY a)`, `row_number() OVER (ORDER BY b)` on the rows `(1, 2), (2, 1)`, whose
last keyed expression orders by the second column; the input store ends as
`(2, 1), (1, 2)`, with the results `(2, 1), (1, 2)` next to it. -/
theorem finalize_order_witness :
    (InputSortedFor
        (WindowOrderBy ExpressionType.WINDOW_ROW_NUMBER 1 OrderType.ASCENDING
          WindowBoundary.UNBOUNDED_PRECEDING WindowBoundary.CURRENT_ROW_ROWS 0 0 [])
        { types := 2, rows := [[Value.BIGINT 2, Value.BIGINT 1], [Value.BIGINT 1, Value.BIGINT 2]] } ∧
      List.Perm [[Value.BIGINT 2, Value.BIGINT 1], [Value.BIGINT 1, Value.BIGINT 2]]
        [[Value.BIGINT 1, Value.BIGINT 2], [Value.BIGINT 2, Value.BIGINT 1]]) ∧
    Finalize false
        [WindowOrderBy ExpressionType.WINDOW_ROW_NUMBER 0 OrderType.ASCENDING
           WindowBoundary.UNBOUNDED_PRECEDING WindowBoundary.CURRENT_ROW_ROWS 0 0 [],
         WindowOrderBy ExpressionType.WINDOW_ROW_NUMBER 1 OrderType.ASCENDING
           WindowBoundary.UNBOUNDED_PRECEDING WindowBoundary.CURRENT_ROW_ROWS 0 0 []]
        { chunks := { types := 2, rows := [[Value.BIGINT 1, Value.BIGINT 2],
                                           [Value.BIGINT 2, Value.BIGINT 1]] }
          window_results := ChunkCollection.empty }
      = Except.ok
        { chunks := { types := 2, rows := [[Value.BIGINT 2, Value.BIGINT 1],
                                           [Value.BIGINT 1, Value.BIGINT 2]] }
          window_results := { types := 2, rows := [[Value.BIGINT 2, Value.BIGINT 1],
                                                   [Value.BIGINT 1, Value.BIGINT 2]] } } := by
  have hrun := finalize_order false
    [WindowOrderBy ExpressionType.WINDOW_ROW_NUMBER 0 OrderType.ASCENDING
       WindowBoundary.UNBOUNDED_PRECEDING WindowBoundary.CURRENT_ROW_ROWS 0 0 [],
     WindowOrderBy ExpressionType.WINDOW_ROW_NUMBER 1 OrderType.ASCENDING
       WindowBoundary.UNBOUNDED_PRECEDING WindowBoundary.CURRENT_ROW_ROWS 0 0 []]
    { chunks := { types := 2, rows := [[Value.BIGINT 1, Value.BIGINT 2],
                                       [Value.BIGINT 2, Value.BIGINT 1]] }
      window_results := ChunkCollection.empty }
    { chunks := { types := 2, rows := [[Value.BIGINT 2, Value.BIGINT 1],
                                       [Value.BIGINT 1, Value.BIGINT 2]] }
      window_results := { types := 2, rows := [[Value.BIGINT 2, Value.BIGINT 1],
                                               [Value.BIGINT 1, Value.BIGINT 2]] } }
    [WindowOrderBy ExpressionType.WINDOW_ROW_NUMBER 0 OrderType.ASCENDING
       WindowBoundary.UNBOUNDED_PRECEDING WindowBoundary.CURRENT_ROW_ROWS 0 0 []]
    (WindowOrderBy ExpressionType.WINDOW_ROW_NUMBER 1 OrderType.ASCENDING
       WindowBoundary.UNBOUNDED_PRECEDING WindowBoundary.CURRENT_ROW_ROWS 0 0 [])
    [] (by rfl) rfl rfl (fun _ hmem => absurd hmem (List.not_mem_nil _))
  exact ⟨⟨hrun.1, hrun.2.1⟩, by rfl⟩

end DuckDB
